import Mathlib

/-! # SIMPLView / DREAM3D reconstruction core

A shallow embedding of three filters of the repository,

* `SegmentGrains::form_grains` (region growing over the voxel grid),
* `FillBadData::execute` (defect classification and majority-vote healing),
* `MergeTwins::merge_twins` / `MergeTwins::renumber_grains`,

and of `ModifiedLambertProjectionArray::EraseTuples`.

Conventions of the embedding.

* A C++ array is a total map from the index to the value (`Int → Int` for the
  per-voxel arrays, `Nat → Grain` for `m_Grains`); its length is kept next to it
  (`totalpoints`, `numGrains`).  The theorems state the index ranges.
* `int`, `size_t` and `int64_t` values are unbounded integers; wrap-around is not
  modelled.  Where a theorem on phase 2 of `FillBadData::execute` depends on what
  the boundary guard lets through, it states the range of the number types
  (`FillBadData.Small`).
* `float` values of orientations are rational numbers; their rounding is not
  modelled.  The orientation library (`getMisoQuat`) and `acosf` are parameters.
  The voxel coordinates that phase 2 of `FillBadData::execute` keeps in `float`
  variables are modelled with their rounding: `FillBadData.floatOf` is the
  conversion of an integer to single precision.
* A `while` loop whose trip count is not a program constant takes a fuel
  argument and returns `none` when the fuel runs out.
-/

namespace SIMPLView

/-- Orientation quaternion as the filters store it: a `float[5]`. -/
structure Quat where
  q0 : ℚ
  q1 : ℚ
  q2 : ℚ
  q3 : ℚ
  q4 : ℚ
deriving DecidableEq

/-- Modelled from the spec: the `Grain` class (Grain.h) is not among the sources;
the fields are the ones the filters read and write.  A pointer to a
`std::vector<int>` is an `Option (List Int)`, `NULL` being `none`.  The field
values are those of a freshly constructed grain. -/
structure Grain where
  voxellist : Option (List Int) := none
  neighborlist : Option (List Int) := none
  active : Int := 0
  phase : Int := 0
  numvoxels : Int := 0
  numneighbors : Int := 0
  twinnewnumber : Int := -1
  gottwinmerged : Bool := false
  avg_quat : Quat := ⟨0, 0, 0, 0, 0⟩
  euler1 : ℚ := 0
  euler2 : ℚ := 0
  euler3 : ℚ := 0
deriving DecidableEq

/-- The orientation library used by the filters: `getMisoQuat` of the
orientation-ops object selected by the crystal structure, returning the
misorientation angle `w` and the axis `(n1, n2, n3)`; and `acosf`, `M_PI` of the
C math library. -/
structure OrientationOps where
  getMisoQuat : Int → Quat → Quat → ℚ × ℚ × ℚ × ℚ
  acosf : ℚ → ℚ
  M_PI : ℚ

/-- The `DataContainer` fields the filters use. -/
structure DataContainer where
  xpoints : Int
  ypoints : Int
  zpoints : Int
  totalpoints : Int
  grain_indicies : Int → Int
  phases : Int → Int
  quats : Int → ℚ
  crystruct : Int → Int
  m_Grains : Nat → Grain
  numGrains : Nat

/-! ## Neighbour addressing (shared by `form_grains` and `FillBadData::execute`) -/

/-- The table `neighpoints[6]` for a grid of `xp * yp * zp` voxels. -/
def neighpoints (xp yp : Int) (i : Nat) : Int :=
  match i with
  | 0 => -(xp * yp)
  | 1 => -xp
  | 2 => -1
  | 3 => 1
  | 4 => xp
  | _ => xp * yp

/-- The boundary guard: the value of `good` after the six `if` statements, for
direction `i` at a voxel with coordinates `col`, `row`, `plane`. -/
def good (xp yp zp : Int) (i : Nat) (col row plane : Int) : Bool :=
  !((i == 0 && plane == 0) || (i == 5 && plane == zp - 1) ||
    (i == 1 && row == 0) || (i == 4 && row == yp - 1) ||
    (i == 2 && col == 0) || (i == 3 && col == xp - 1))

/-- Column of a linear index: `index % xpoints` (C++ truncating remainder). -/
def colOf (xp : Int) (p : Int) : Int := Int.tmod p xp

/-- Row of a linear index: `(index / xpoints) % ypoints`. -/
def rowOf (xp yp : Int) (p : Int) : Int := Int.tmod (Int.tdiv p xp) yp

/-- Plane of a linear index: `index / (xpoints * ypoints)`. -/
def planeOf (xp yp : Int) (p : Int) : Int := Int.tdiv p (xp * yp)

/-- The directions `0 .. 5` in the order of the `for` loops. -/
def directions : List Nat := [0, 1, 2, 3, 4, 5]

/-! ## `SegmentGrains::form_grains` -/

namespace SegmentGrains

/-- The constant `initialVoxelsListSize`. -/
def initialVoxelsListSize : Nat := 1000

/-- The call `v.resize(n, val)` of `std::vector`. -/
def resize (v : List Int) (n : Nat) (val : Int) : List Int :=
  v.take n ++ List.replicate (n - v.length) val

/-- A value returned by `genrand_res53()` and converted to `float`: a number of the
unit interval. -/
structure UnitValue where
  val : ℚ
  nonneg : 0 ≤ val
  le_one : val ≤ 1

/-- The conversion `int(x)` of a non-integral value: truncation toward zero. -/
def truncToInt (x : ℚ) : Int := Int.tdiv x.num x.den

/-- The inner `while (seed == -1 && counter < totalpoints)` loop; `k` is the number
of iterations left (`totalpoints - counter`).  The result is `seed`. -/
def findSeed (dc : DataContainer) : Nat → Int → Int
  | 0, _ => -1
  | k + 1, randpoint =>
    let randpoint := if randpoint > dc.totalpoints - 1 then randpoint - dc.totalpoints else randpoint
    if dc.grain_indicies randpoint = -1 ∧ dc.phases randpoint > 0 then randpoint
    else findSeed dc k (randpoint + 1)

/-- The state the growth loop of one grain changes. -/
structure GrowState where
  grain_indicies : Int → Int
  voxelslist : List Int
  size : Nat

/-- The body of `if (w < m_misorientationtolerance)`: the neighbour joins grain
`graincount` and is appended to the work list, which is enlarged when full. -/
def joinGrain (graincount : Nat) (neighbor : Int) (s : GrowState) : GrowState :=
  let vl := s.voxelslist.set s.size neighbor
  let size := s.size + 1
  { grain_indicies := Function.update s.grain_indicies neighbor graincount
    voxelslist := if size ≥ vl.length then resize vl (size + initialVoxelsListSize) (-1) else vl
    size := size }

/-- The body of `for (int i = 0; i < 6; i++)` for the dequeued voxel `currentpoint`. -/
def visit (ops : OrientationOps) (tol : ℚ) (dc : DataContainer) (graincount : Nat)
    (currentpoint : Int) (s : GrowState) (i : Nat) : GrowState :=
  let col := colOf dc.xpoints currentpoint
  let row := rowOf dc.xpoints dc.ypoints currentpoint
  let plane := planeOf dc.xpoints dc.ypoints currentpoint
  let phase1 := dc.crystruct (dc.phases currentpoint)
  let q1 : Quat := ⟨1, dc.quats (currentpoint * 5 + 1), dc.quats (currentpoint * 5 + 2),
    dc.quats (currentpoint * 5 + 3), dc.quats (currentpoint * 5 + 4)⟩
  let neighbor := currentpoint + neighpoints dc.xpoints dc.ypoints i
  if good dc.xpoints dc.ypoints dc.zpoints i col row plane = true
      ∧ s.grain_indicies neighbor = -1 ∧ dc.phases neighbor > 0 then
    let q2 : Quat := ⟨1, dc.quats (neighbor * 5 + 1), dc.quats (neighbor * 5 + 2),
      dc.quats (neighbor * 5 + 3), dc.quats (neighbor * 5 + 4)⟩
    let phase2 := dc.crystruct (dc.phases neighbor)
    let w : ℚ := if phase1 = phase2 then (ops.getMisoQuat phase1 q1 q2).1 else 10000
    if w < tol then joinGrain graincount neighbor s else s
  else s

/-- The loop `for (size_t j = 0; j < size; ++j)`: the breadth-first growth of one
grain.  `size` grows while the loop runs, so the loop takes fuel. -/
def grow (ops : OrientationOps) (tol : ℚ) (dc : DataContainer) (graincount : Nat) :
    Nat → GrowState → Nat → Option GrowState
  | 0, _, _ => none
  | fuel + 1, s, j =>
    if j < s.size then
      let currentpoint := s.voxelslist.getD j 0
      grow ops tol dc graincount fuel
        (directions.foldl (visit ops tol dc graincount currentpoint) s) (j + 1)
    else some s

/-- The statement `voxelslist.erase(std::remove(begin, end, -1), end)`. -/
def eraseMinusOne (v : List Int) : List Int := v.filter (fun x => x != -1)

/-- The part of `m_Grains` handling after a grain is grown: store the voxel list,
set `active` and `phase`, and enlarge the vector by 100 new grains when
`graincount + 1` reaches its size. -/
def storeGrain (dc : DataContainer) (graincount : Nat) (seed : Int) (voxelslist : List Int)
    (gi : Int → Int) : DataContainer :=
  let g := dc.m_Grains graincount
  let grains := Function.update dc.m_Grains graincount
    { g with voxellist := some voxelslist, active := 1, phase := dc.phases seed }
  if graincount + 1 ≥ dc.numGrains then
    { dc with
      grain_indicies := gi
      m_Grains := fun k => if dc.numGrains ≤ k ∧ k < dc.numGrains + 100 then {} else grains k
      numGrains := dc.numGrains + 100 }
  else
    { dc with grain_indicies := gi, m_Grains := grains }

/-- The outer loop `while (noseeds == 0)` of `form_grains`.  `rg` is the stream of
values `genrand_res53()` returns and `draws` the number of values drawn so far.
The result is the data container together with the final `graincount`. -/
def formLoop (ops : OrientationOps) (tol : ℚ) (rg : Nat → UnitValue) :
    Nat → DataContainer → Nat → Nat → Option (DataContainer × Nat)
  | 0, _, _, _ => none
  | fuel + 1, dc, graincount, draws =>
    let totalPMinus1 := dc.totalpoints - 1
    let randpoint := truncToInt ((rg draws).val * (totalPMinus1 : ℚ))
    let seed := findSeed dc dc.totalpoints.toNat randpoint
    if seed = -1 then some (dc, graincount)
    else if seed ≥ 0 then
      let s0 : GrowState :=
        { grain_indicies := Function.update dc.grain_indicies seed graincount
          voxelslist := (List.replicate initialVoxelsListSize (-1)).set 0 seed
          size := 1 }
      match grow ops tol dc graincount (fuel + 1) s0 0 with
      | none => none
      | some s =>
        formLoop ops tol rg fuel
          (storeGrain dc graincount seed (eraseMinusOne s.voxelslist) s.grain_indicies)
          (graincount + 1) (draws + 1)
    else formLoop ops tol rg fuel dc graincount (draws + 1)

/-- The function `SegmentGrains::form_grains`, run with `fuel` for its loops. -/
def form_grains (ops : OrientationOps) (tol : ℚ) (rg : Nat → UnitValue) (fuel : Nat)
    (dc : DataContainer) : Option DataContainer :=
  (formLoop ops tol rg fuel dc 1 0).map Prod.fst

/-- The voxels of the grid that are unassigned (`grain_indicies == -1`) and in
phase (`phases > 0`): the voxels the seed search accepts. -/
def unassigned (total : Int) (phases gi : Int → Int) : Finset Int :=
  (Finset.Ico 0 total).filter (fun v => gi v = -1 ∧ phases v > 0)

/-- Loop invariant of the growth of grain `c` from the assignment `gi0`: the
vector `voxelslist` is the list `used` of collected voxels (its first `size`
entries) followed by at least one `-1`; `used` has no repetition, holds only
voxels that were unassigned and in phase in `gi0`, and the voxels that changed
are those of `used`, which now hold `c`; the first entry is the seed. -/
def GrowInv (total : Int) (phases gi0 : Int → Int) (c : Nat) (seed : Int) (s : GrowState) :
    Prop :=
  ∃ (used : List Int) (k : Nat),
    s.voxelslist = used ++ List.replicate (k + 1) (-1) ∧ used.length = s.size ∧ used.Nodup ∧
    used.head? = some seed ∧
    (∀ v ∈ used, v ∈ unassigned total phases gi0) ∧
    (∀ v, s.grain_indicies v = if v ∈ used then (c : Int) else gi0 v)

/-- Invariant of the outer loop of `form_grains` at its head, `dc0` being the
data container on entry and `c` the value of `graincount`. -/
structure FormInv (dc0 dc : DataContainer) (c : Nat) : Prop where
  xp : dc.xpoints = dc0.xpoints
  yp : dc.ypoints = dc0.ypoints
  zp : dc.zpoints = dc0.zpoints
  total : dc.totalpoints = dc0.totalpoints
  phases : dc.phases = dc0.phases
  cpos : 1 ≤ c
  ids : ∀ v, 0 ≤ v → v < dc.totalpoints →
    dc.grain_indicies v = -1 ∨ (1 ≤ dc.grain_indicies v ∧ dc.grain_indicies v < c)
  outPhase : ∀ v, ¬ dc.phases v > 0 → dc.grain_indicies v = dc0.grain_indicies v
  grains : 2 ≤ dc0.numGrains → c < dc.numGrains ∧
    ∀ g : Nat, 1 ≤ g → g < c → ∃ l, (dc.m_Grains g).voxellist = some l ∧ l.Nodup ∧
      ∀ v, v ∈ l ↔ (0 ≤ v ∧ v < dc.totalpoints ∧ dc.grain_indicies v = g)

end SegmentGrains

/-! ## `FillBadData::execute` -/

namespace FillBadData

/-- The data `FillBadData::execute` works on: the dimensions of the volume, the
number of tuples of the cell attribute matrix, the `FeatureIds` array, the tuples
of the other arrays of the cell attribute matrix (one value per voxel) and the
filter parameter `MinAllowedDefectSize`. -/
structure VolumeData where
  dims0 : Int
  dims1 : Int
  dims2 : Int
  totalPoints : Int
  m_FeatureIds : Int → Int
  cellData : Int → Int
  m_MinAllowedDefectSize : Int

/-- A counted loop `for (i = 0; i < n; i++)` whose body is `body`. -/
def forRange {σ : Type} (n : Nat) (body : σ → Int → σ) (s : σ) : σ :=
  (List.range n).foldl (fun s k => body s (k : Int)) s

/-- The conversion of an `int` to `size_t` (64 bit). -/
def toSizeT (x : Int) : Int := x % 2 ^ 64

/-- The loop that computes `numfeatures`.  Its body reads `m_FeatureIds[point]`,
where `point` is a local variable that is never assigned, so `featurename` is the
same value in every iteration; it is compared and stored as a `size_t`. -/
def numfeaturesLoop (featurename : Int) : Nat → Int → Int
  | 0, numfeatures => numfeatures
  | k + 1, numfeatures =>
    numfeaturesLoop featurename k
      (if toSizeT featurename > numfeatures then toSizeT featurename else numfeatures)

/-- The state of the flood fill of one component. -/
structure FloodState where
  m_AlreadyChecked : Int → Bool
  currentvlist : List Int

/-- The body of `for (DimType j = 0; j < 6; j++)` in the flood fill, for the voxel
`index` taken from the work list. -/
def floodVisit (d : VolumeData) (fid : Int → Int) (index : Int) (s : FloodState) (j : Nat) :
    FloodState :=
  let column := colOf d.dims0 index
  let row := rowOf d.dims0 d.dims1 index
  let plane := planeOf d.dims0 d.dims1 index
  let neighbor := index + neighpoints d.dims0 d.dims1 j
  if good d.dims0 d.dims1 d.dims2 j column row plane = true ∧ fid neighbor = 0
      ∧ s.m_AlreadyChecked neighbor = false then
    { currentvlist := s.currentvlist ++ [neighbor]
      m_AlreadyChecked := Function.update s.m_AlreadyChecked neighbor true }
  else s

/-- The loop `while (count < currentvlist.size())`; the result holds the final
value of `count`. -/
def flood (d : VolumeData) (fid : Int → Int) : Nat → FloodState → Nat → Option (FloodState × Nat)
  | 0, _, _ => none
  | fuel + 1, s, count =>
    if count < s.currentvlist.length then
      let index := s.currentvlist.getD count 0
      flood d fid fuel (directions.foldl (floodVisit d fid index) s) (count + 1)
    else some (s, count)

/-- The loops `for (k = 0; k < currentvlist.size(); k++) m_FeatureIds[currentvlist[k]] = val`. -/
def setAll (fid : Int → Int) (l : List Int) (val : Int) : Int → Int :=
  l.foldl (fun f v => Function.update f v val) fid

/-- The two `if` statements that classify a collected component by the size of
its work list. -/
def classify (minSize : Int) (fid : Int → Int) (currentvlist : List Int) : Int → Int :=
  let fid1 := if (currentvlist.length : Int) ≥ minSize then setAll fid currentvlist 0 else fid
  if (currentvlist.length : Int) < minSize then setAll fid1 currentvlist (-1) else fid1

/-- The state of phase 1. -/
structure Phase1State where
  m_FeatureIds : Int → Int
  m_AlreadyChecked : Int → Bool
  count : Nat

/-- The loop `for (int64_t i = 0; i < totalPoints; i++)` of phase 1; `k` is the
number of iterations left. -/
def phase1Loop (d : VolumeData) (fuel : Nat) : Nat → Int → Phase1State → Option Phase1State
  | 0, _, s => some s
  | k + 1, i, s =>
    if s.m_AlreadyChecked i = false ∧ s.m_FeatureIds i = 0 then
      match flood d s.m_FeatureIds fuel ⟨s.m_AlreadyChecked, [i]⟩ 0 with
      | none => none
      | some (f, count) =>
        phase1Loop d fuel k (i + 1)
          { m_FeatureIds := classify d.m_MinAllowedDefectSize s.m_FeatureIds f.currentvlist
            m_AlreadyChecked := f.m_AlreadyChecked
            count := count }
    else phase1Loop d fuel k (i + 1) s

/-- Phase 1 of `execute`: the initialisation of `m_AlreadyChecked` followed by the
classification loop.  `count` is 1 on entry. -/
def phase1 (d : VolumeData) (fuel : Nat) : Option Phase1State :=
  phase1Loop d fuel d.totalPoints.toNat 0
    { m_FeatureIds := d.m_FeatureIds
      m_AlreadyChecked := fun i =>
        if 0 ≤ i ∧ i < d.totalPoints then decide (d.m_FeatureIds i ≠ 0) else false
      count := 1 }

/-- The state of the tally of one voxel: the tally vector `n`, the locals `current`
and `most`, and the array `m_Neighbors`. -/
structure TallyState where
  n : Int → Int
  current : Int
  most : Int
  m_Neighbors : Int → Int

/-- The number of halvings after which `n` is below `2 ^ 24`, the exponent of the
unit in the last place of `n` as a `float` (for `n` below `2 ^ 88`). -/
def floatShift : Nat → Nat → Nat
  | 0, _ => 0
  | k + 1, n => if n < 2 ^ 24 then 0 else floatShift k (n / 2) + 1

/-- The conversion `static_cast<float>(n)` of a 64-bit integer, given as the integer
the resulting single-precision value equals: `n` itself while `|n| ≤ 2 ^ 24`, and
otherwise `n` rounded to 24 significant bits, to the nearest value with ties to the
even one. -/
def floatOf (n : Int) : Int :=
  if n.natAbs ≤ 2 ^ 24 then n
  else
    let e := floatShift 64 n.natAbs
    let q := n.natAbs / 2 ^ e
    let r := n.natAbs % 2 ^ e
    let up := decide (2 * r > 2 ^ e) || (decide (2 * r = 2 ^ e) && decide (q % 2 = 1))
    n.sign * (((if up then q + 1 else q) * 2 ^ e : Nat) : Int)

/-- The boundary guard of phase 2.  There the coordinates `x`, `y`, `z` are `float`s,
so each comparison with `dims[k] - 1` converts that integer to `float`. -/
def goodFloat (xp yp zp : Int) (i : Nat) (x y z : Int) : Bool :=
  !((i == 0 && z == 0) || (i == 5 && z == floatOf (zp - 1)) ||
    (i == 1 && y == 0) || (i == 4 && y == floatOf (yp - 1)) ||
    (i == 2 && x == 0) || (i == 3 && x == floatOf (xp - 1)))

/-- The body of the first `for (int j = 0; j < 6; j++)` loop of phase 2 for voxel `i`.
The coordinates are those of `x = static_cast<float>(i % dims[0])`, `y` and `z`. -/
def tallyVisit (d : VolumeData) (fid : Int → Int) (i : Int) (s : TallyState) (j : Nat) :
    TallyState :=
  let x := floatOf (colOf d.dims0 i)
  let y := floatOf (rowOf d.dims0 d.dims1 i)
  let z := floatOf (planeOf d.dims0 d.dims1 i)
  let neighpoint := i + neighpoints d.dims0 d.dims1 j
  if goodFloat d.dims0 d.dims1 d.dims2 j x y z = true then
    let feature := fid neighpoint
    if feature > 0 then
      let n := Function.update s.n feature (s.n feature + 1)
      let current := n feature
      if current > s.most then
        { n := n, current := current, most := current
          m_Neighbors := Function.update s.m_Neighbors i neighpoint }
      else { s with n := n, current := current }
    else s
  else s

/-- The body of the second loop (`for (int l = 0; l < 6; l++)`), which clears the
tallies of the neighbours of voxel `i`. -/
def resetVisit (d : VolumeData) (fid : Int → Int) (i : Int) (n : Int → Int) (l : Nat) :
    Int → Int :=
  let x := floatOf (colOf d.dims0 i)
  let y := floatOf (rowOf d.dims0 d.dims1 i)
  let z := floatOf (planeOf d.dims0 d.dims1 i)
  let neighpoint := i + neighpoints d.dims0 d.dims1 l
  if goodFloat d.dims0 d.dims1 d.dims2 l x y z = true then
    let feature := fid neighpoint
    if feature > 0 then Function.update n feature 0 else n
  else n

/-- The state of one pass of phase 2 that the tally loop changes. -/
structure PassState where
  n : Int → Int
  m_Neighbors : Int → Int
  count : Nat

/-- The body of `for (int i = 0; i < totalPoints; i++)` of phase 2. -/
def tallyVoxel (d : VolumeData) (fid : Int → Int) (s : PassState) (i : Int) : PassState :=
  if fid i < 0 then
    let t := directions.foldl (tallyVisit d fid i)
      { n := s.n, current := 0, most := 0, m_Neighbors := s.m_Neighbors }
    { n := directions.foldl (resetVisit d fid i) t.n
      m_Neighbors := t.m_Neighbors
      count := s.count + 1 }
  else s

/-- The body of the commit loop `for (size_t j = 0; j < totalPoints; j++)`:
`CopyTuple(neighbor, j)` on every array of the cell attribute matrix, `FeatureIds`
included. -/
def commitVoxel (m_Neighbors : Int → Int) (s : (Int → Int) × (Int → Int)) (j : Int) :
    (Int → Int) × (Int → Int) :=
  let featurename := s.1 j
  let neighbor := m_Neighbors j
  if featurename < 0 ∧ neighbor ≠ -1 ∧ s.1 neighbor > 0 then
    (Function.update s.1 j (s.1 neighbor), Function.update s.2 j (s.2 neighbor))
  else s

/-- The state of phase 2. -/
structure HealState where
  m_FeatureIds : Int → Int
  cellData : Int → Int
  n : Int → Int
  m_Neighbors : Int → Int
  count : Nat

/-- One iteration of `while (count != 0)`: the tally pass over all voxels, then
the commit pass. -/
def healPass (d : VolumeData) (s : HealState) : HealState :=
  let t := forRange d.totalPoints.toNat (tallyVoxel d s.m_FeatureIds)
    { n := s.n, m_Neighbors := s.m_Neighbors, count := 0 }
  let c := forRange d.totalPoints.toNat (commitVoxel t.m_Neighbors) (s.m_FeatureIds, s.cellData)
  { m_FeatureIds := c.1, cellData := c.2, n := t.n, m_Neighbors := t.m_Neighbors
    count := t.count }

/-- The loop `while (count != 0)` of phase 2. -/
def healLoop (d : VolumeData) : Nat → HealState → Option HealState
  | 0, _ => none
  | fuel + 1, s => if s.count ≠ 0 then healLoop d fuel (healPass d s) else some s

/-- The result of `execute`: the error condition and the arrays. -/
structure Result where
  errorCondition : Int
  m_FeatureIds : Int → Int
  cellData : Int → Int

/-- The function `FillBadData::execute` (with a data container present).  `point`
is the value the unassigned local `point` happens to hold. -/
def execute (point : Nat) (fuel : Nat) (d : VolumeData) : Option Result :=
  let numfeatures := numfeaturesLoop (d.m_FeatureIds point) d.totalPoints.toNat 0
  if numfeatures = 0 then
    some { errorCondition := -90001, m_FeatureIds := d.m_FeatureIds, cellData := d.cellData }
  else
    match phase1 d fuel with
    | none => none
    | some p =>
      match healLoop d fuel
        { m_FeatureIds := p.m_FeatureIds, cellData := d.cellData, n := fun _ => 0
          m_Neighbors := fun _ => -1, count := p.count } with
      | none => none
      | some h =>
        some { errorCondition := 0, m_FeatureIds := h.m_FeatureIds, cellData := h.cellData }

/-! Notions used to state the properties of `execute`. -/

/-- The grid is well formed: positive dimensions whose product is `totalPoints`. -/
structure WF (d : VolumeData) : Prop where
  hx : 1 ≤ d.dims0
  hy : 1 ≤ d.dims1
  hz : 1 ≤ d.dims2
  htot : d.totalPoints = d.dims0 * d.dims1 * d.dims2

/-- The grid is within the range of the number types of phase 2.  No dimension
exceeds `2 ^ 24 + 1`, so that the coordinates of every voxel and the values
`dims[k] - 1` are at most `2 ^ 24` and convert to `float` exactly; and the number of
voxels is below `2 ^ 31`, so that the loop variable `int i` and the `int` offsets
`neighpoints` hold every voxel index. -/
structure Small (d : VolumeData) : Prop where
  sx : d.dims0 ≤ 2 ^ 24 + 1
  sy : d.dims1 ≤ 2 ^ 24 + 1
  sz : d.dims2 ≤ 2 ^ 24 + 1
  st : d.totalPoints ≤ 2 ^ 31 - 1

/-- At the voxel `i` the guard of phase 2 on the `float` coordinates agrees with the
guard on the integer coordinates in every direction. -/
def GuardExact (d : VolumeData) (i : Int) : Prop :=
  ∀ j, goodFloat d.dims0 d.dims1 d.dims2 j (floatOf (colOf d.dims0 i))
      (floatOf (rowOf d.dims0 d.dims1 i)) (floatOf (planeOf d.dims0 d.dims1 i))
    = good d.dims0 d.dims1 d.dims2 j (colOf d.dims0 i) (rowOf d.dims0 d.dims1 i)
      (planeOf d.dims0 d.dims1 i)

/-- The voxel index `v` lies in the grid. -/
def InGrid (d : VolumeData) (v : Int) : Prop := 0 ≤ v ∧ v < d.totalPoints

/-- The voxel `u` is the face neighbour of `v` in a direction the boundary guard
accepts. -/
def Adj (d : VolumeData) (v u : Int) : Prop :=
  ∃ j ∈ directions,
    good d.dims0 d.dims1 d.dims2 j (colOf d.dims0 v) (rowOf d.dims0 d.dims1 v)
      (planeOf d.dims0 d.dims1 v) = true ∧ u = v + neighpoints d.dims0 d.dims1 j

/-- Number of the directions of `l` that the boundary guard accepts at `v` and
that lead to a voxel holding the feature id `g`. -/
def occIn (d : VolumeData) (fid : Int → Int) (v : Int) (l : List Nat) (g : Int) : Nat :=
  (l.filter (fun j =>
    good d.dims0 d.dims1 d.dims2 j (colOf d.dims0 v) (rowOf d.dims0 d.dims1 v)
      (planeOf d.dims0 d.dims1 v) && decide (fid (v + neighpoints d.dims0 d.dims1 j) = g))).length

/-- Number of in-bounds face neighbours of `v` that hold the feature id `g`. -/
def occurrences (d : VolumeData) (fid : Int → Int) (v : Int) (g : Int) : Nat :=
  occIn d fid v directions g

/-- The voxel `v` has an in-bounds face neighbour with a positive feature id. -/
def HasPositive (d : VolumeData) (fid : Int → Int) (v : Int) : Prop :=
  ∃ u, Adj d v u ∧ fid u > 0

/-- The voxel `r` is an in-bounds face neighbour of `v` with a positive feature
id, and no positive feature id occurs more often among the in-bounds face
neighbours of `v` than the one of `r`. -/
def Majority (d : VolumeData) (fid : Int → Int) (v r : Int) : Prop :=
  Adj d v r ∧ fid r > 0 ∧
    ∀ g, g > 0 → occurrences d fid v g ≤ occurrences d fid v (fid r)

/-- Invariant of the tally loop of voxel `i` after the directions `l`, started with
cleared tallies and the neighbour array `nb0`. -/
structure TallyInv (d : VolumeData) (fid : Int → Int) (i : Int) (nb0 : Int → Int)
    (l : List Nat) (t : TallyState) : Prop where
  pos : ∀ g, g > 0 → t.n g = occIn d fid i l g
  nonpos : ∀ g, ¬ g > 0 → t.n g = 0
  most0 : 0 ≤ t.most
  bound : ∀ g, g > 0 → (occIn d fid i l g : Int) ≤ t.most
  none : t.most = 0 → t.m_Neighbors i = nb0 i ∧
    ∀ j ∈ l, ¬ (good d.dims0 d.dims1 d.dims2 j (colOf d.dims0 i) (rowOf d.dims0 d.dims1 i)
      (planeOf d.dims0 d.dims1 i) = true ∧ fid (i + neighpoints d.dims0 d.dims1 j) > 0)
  some : t.most > 0 → ∃ j ∈ l,
    good d.dims0 d.dims1 d.dims2 j (colOf d.dims0 i) (rowOf d.dims0 d.dims1 i)
      (planeOf d.dims0 d.dims1 i) = true ∧ fid (i + neighpoints d.dims0 d.dims1 j) > 0 ∧
    t.m_Neighbors i = i + neighpoints d.dims0 d.dims1 j ∧
    t.most ≤ occIn d fid i l (fid (i + neighpoints d.dims0 d.dims1 j))
  frame : ∀ v, v ≠ i → t.m_Neighbors v = nb0 v

/-- The voxels of the grid that hold a negative feature id. -/
def negatives (d : VolumeData) (fid : Int → Int) : Finset Int :=
  (Finset.Ico 0 d.totalPoints).filter (fun v => fid v < 0)

/-- Invariant of the flood fill started at `seed` from the marks `chk0`: the work
list is the seed followed by the voxels pushed so far (`rest`), which are distinct
voxels of the grid holding 0 that were unmarked at the start and are marked now;
nothing else got marked. -/
def FloodCore (d : VolumeData) (fid : Int → Int) (chk0 : Int → Bool) (seed : Int)
    (f : FloodState) : Prop :=
  ∃ rest, f.currentvlist = seed :: rest ∧ rest.Nodup ∧
    (∀ v ∈ rest, InGrid d v ∧ fid v = 0 ∧ chk0 v = false ∧ f.m_AlreadyChecked v = true) ∧
    (∀ v, f.m_AlreadyChecked v = true → chk0 v = true ∨ v ∈ rest) ∧
    (∀ v, chk0 v = true → f.m_AlreadyChecked v = true)

/-- The first `count` entries of the work list have been processed: each of their
neighbours holding 0 is marked. -/
def Processed (d : VolumeData) (fid : Int → Int) (f : FloodState) (count : Nat) : Prop :=
  ∀ v ∈ f.currentvlist.take count, ∀ u, Adj d v u → fid u = 0 → f.m_AlreadyChecked u = true

/-- Invariant of the classification loop of phase 1, `fid0` being `FeatureIds` on
entry. -/
structure P1Inv (d : VolumeData) (fid0 : Int → Int) (s : Phase1State) : Prop where
  keep : ∀ v, fid0 v ≠ 0 → s.m_FeatureIds v = fid0 v
  zero : ∀ v, fid0 v = 0 → s.m_FeatureIds v = 0 ∨ s.m_FeatureIds v = -1
  closed : ∀ v, InGrid d v → fid0 v = 0 → s.m_FeatureIds v = -1 →
    ∀ u, Adj d v u → s.m_FeatureIds u ≠ 0
  marked : ∀ u, InGrid d u → s.m_AlreadyChecked u = true → s.m_FeatureIds u = 0 →
    ∀ w, Adj d u w → s.m_FeatureIds w = 0 → s.m_AlreadyChecked w = true
  nonzero : ∀ v, InGrid d v → fid0 v ≠ 0 → s.m_AlreadyChecked v = true
  count : s.count ≠ 0

/-- Invariant of the loop of phase 2: the tallies are cleared, no negative voxel of
the grid has a face neighbour holding 0, and some voxel of the grid is positive. -/
structure HealInv (d : VolumeData) (s : HealState) : Prop where
  cleared : ∀ g, s.n g = 0
  closed : ∀ v, InGrid d v → s.m_FeatureIds v < 0 → ∀ u, Adj d v u → s.m_FeatureIds u ≠ 0
  positive : ∃ v, InGrid d v ∧ s.m_FeatureIds v > 0

end FillBadData

/-! ## `MergeTwins` -/

namespace MergeTwins

/-- The state the loops of `merge_twins` change: the grains, the work list
`twinlist`, and the locals `n1`, `n2`, `n3`, which keep the axis of the last call
of `getMisoQuat`. -/
structure MergeState where
  m_Grains : Nat → Grain
  twinlist : List Nat
  n1 : ℚ
  n2 : ℚ
  n3 : ℚ

/-- The misorientation computed for the pair (`firstgrain`, `neigh`): the quaternions
are the average quaternions divided by their element 0 (element 0 of `q1`, `q2` is
not assigned; the library reads elements 1 to 4), and `getMisoQuat` is called only
when both crystal structures agree and are positive.  The result is `w` and the
axis; without a call `w` is `10000` and the axis is the stale one. -/
def misorientation (ops : OrientationOps) (crystruct : Int → Int) (g1 g2 : Grain)
    (stale : ℚ × ℚ × ℚ) : ℚ × ℚ × ℚ × ℚ :=
  let q1 : Quat := ⟨0, g1.avg_quat.q1 / g1.avg_quat.q0, g1.avg_quat.q2 / g1.avg_quat.q0,
    g1.avg_quat.q3 / g1.avg_quat.q0, g1.avg_quat.q4 / g1.avg_quat.q0⟩
  let phase1 := crystruct g1.phase
  let q2 : Quat := ⟨0, g2.avg_quat.q1 / g2.avg_quat.q0, g2.avg_quat.q2 / g2.avg_quat.q0,
    g2.avg_quat.q3 / g2.avg_quat.q0, g2.avg_quat.q4 / g2.avg_quat.q0⟩
  let phase2 := crystruct g2.phase
  if phase1 = phase2 ∧ phase1 > 0 then ops.getMisoQuat phase1 q1 q2
  else (10000, stale)

/-- The test `axisdiff111 < axistol && angdiff60 < angtol` on a misorientation, with
`angtol = 2.0f` and `axistol = 2.0f * M_PI / 180.0f`. -/
def twinCriterion (ops : OrientationOps) (m : ℚ × ℚ × ℚ × ℚ) : Bool :=
  let angtol : ℚ := 2
  let axistol : ℚ := 2 * ops.M_PI / 180
  let w := m.1
  let n1 := m.2.1
  let n2 := m.2.2.1
  let n3 := m.2.2.2
  let axisdiff111 := ops.acosf (abs n1 * 0.57735 + abs n2 * 0.57735 + abs n3 * 0.57735)
  let angdiff60 := abs (w - 60)
  decide (axisdiff111 < axistol ∧ angdiff60 < angtol)

/-- The body of `for (int l = 0; l < size; l++)`: the neighbour `nlist->at(l)` of
`firstgrain` is examined while the cluster of grain `i` is collected. -/
def examine (ops : OrientationOps) (crystruct : Int → Int) (i firstgrain : Nat)
    (s : MergeState) (entry : Int) : MergeState :=
  let neigh := entry.toNat
  if neigh ≠ i ∧ (s.m_Grains neigh).twinnewnumber = -1 ∧ (s.m_Grains neigh).phase > 0 then
    let m := misorientation ops crystruct (s.m_Grains firstgrain) (s.m_Grains neigh)
      (s.n1, s.n2, s.n3)
    if twinCriterion ops m = true then
      { m_Grains := Function.update s.m_Grains neigh
          { s.m_Grains neigh with gottwinmerged := true, twinnewnumber := i }
        twinlist := s.twinlist ++ [neigh]
        n1 := m.2.1, n2 := m.2.2.1, n3 := m.2.2.2 }
    else { s with n1 := m.2.1, n2 := m.2.2.1, n3 := m.2.2.2 }
  else s

/-- The loop `for (size_t j = 0; j < twinlist.size(); j++)`.  The result is `none`
when the fuel runs out or when the `neighborlist` pointer of a grain taken from the
work list is `NULL`. -/
def collect (ops : OrientationOps) (crystruct : Int → Int) (i : Nat) :
    Nat → MergeState → Nat → Option MergeState
  | 0, _, _ => none
  | fuel + 1, s, j =>
    if j < s.twinlist.length then
      let firstgrain := s.twinlist.getD j 0
      match (s.m_Grains firstgrain).neighborlist with
      | none => none
      | some nlist =>
        collect ops crystruct i fuel (nlist.foldl (examine ops crystruct i firstgrain) s) (j + 1)
    else some s

/-- The loop `for (size_t i = 1; i < numgrains; i++)` of `merge_twins`; `k` is the
number of iterations left. -/
def mergeLoop (ops : OrientationOps) (crystruct : Int → Int) (fuel : Nat) :
    Nat → Nat → MergeState → Option MergeState
  | 0, _, s => some s
  | k + 1, i, s =>
    if (s.m_Grains i).twinnewnumber = -1 ∧ (s.m_Grains i).phase > 0 then
      match collect ops crystruct i fuel { s with twinlist := s.twinlist ++ [i] } 0 with
      | none => none
      | some s' => mergeLoop ops crystruct fuel k (i + 1) { s' with twinlist := [] }
    else mergeLoop ops crystruct fuel k (i + 1) { s with twinlist := [] }

/-- The body of the voxel loop of `merge_twins`.  The grain name indexes `m_Grains`;
a negative grain name lies outside the vector, and the model reads entry 0 there. -/
def rewriteVoxel (grains : Nat → Grain) (gi : Int → Int) (k : Int) : Int → Int :=
  let grainname := gi k
  if (grains grainname.toNat).gottwinmerged = true then
    Function.update gi k (grains grainname.toNat).twinnewnumber
  else gi

/-- The loop `for (int k = 0; k < xpoints * ypoints * zpoints; k++)` of `merge_twins`. -/
def rewriteVoxels (grains : Nat → Grain) (n : Nat) (gi : Int → Int) : Int → Int :=
  FillBadData.forRange n (rewriteVoxel grains) gi

/-- The function `MergeTwins::merge_twins`.  `n1`, `n2`, `n3` are the values the
unassigned locals hold on entry. -/
def merge_twins (ops : OrientationOps) (n1 n2 n3 : ℚ) (fuel : Nat) (dc : DataContainer) :
    Option DataContainer :=
  match mergeLoop ops dc.crystruct fuel (dc.numGrains - 1) 1
      { m_Grains := dc.m_Grains, twinlist := [], n1 := n1, n2 := n2, n3 := n3 } with
  | none => none
  | some s =>
    some { dc with
      m_Grains := s.m_Grains
      grain_indicies := rewriteVoxels s.m_Grains (dc.xpoints * dc.ypoints * dc.zpoints).toNat
        dc.grain_indicies }

/-- The state of the first loop of `renumber_grains`. -/
structure RenumberState where
  m_Grains : Nat → Grain
  newnames : Nat → Int
  graincount : Nat

/-- The body of `for (size_t i = 1; i < numgrains; i++)` of `renumber_grains`.  The
vectors behind the two `neighborlist` pointers are swapped; for `graincount == i`
both pointers name the same vector. -/
def renumberGrain (s : RenumberState) (i : Nat) : RenumberState :=
  if (s.m_Grains i).gottwinmerged ≠ true then
    let gi := s.m_Grains i
    let nlist := gi.neighborlist
    let gc := s.m_Grains s.graincount
    let target : List Int :=
      match gc.neighborlist with
      | none => List.replicate gi.numneighbors.toNat 0
      | some l => l
    let grains1 := Function.update s.m_Grains s.graincount
      { gc with numvoxels := gi.numvoxels, numneighbors := gi.numneighbors
                neighborlist := some target }
    let grains2 :=
      match nlist with
      | none => grains1
      | some l =>
        if s.graincount = i then grains1
        else
          Function.update
            (Function.update grains1 s.graincount
              { grains1 s.graincount with neighborlist := some l })
            i { grains1 i with neighborlist := some target }
    let grains3 := Function.update grains2 s.graincount
      { grains2 s.graincount with euler1 := gi.euler1, euler2 := gi.euler2, euler3 := gi.euler3 }
    { m_Grains := grains3
      newnames := Function.update s.newnames i s.graincount
      graincount := s.graincount + 1 }
  else s

/-- The first loop of `renumber_grains` over the grains `1 .. numgrains - 1`. -/
def renumberLoop (numgrains : Nat) (grains : Nat → Grain) : RenumberState :=
  (List.range' 1 (numgrains - 1)).foldl renumberGrain
    { m_Grains := grains, newnames := fun _ => 0, graincount := 1 }

/-- The body of the voxel loop of `renumber_grains`. -/
def renameVoxel (newnames : Nat → Int) (gi : Int → Int) (j : Int) : Int → Int :=
  let grainname := gi j
  if grainname ≥ 1 then Function.update gi j (newnames grainname.toNat) else gi

/-- The function `MergeTwins::renumber_grains`. -/
def renumber_grains (dc : DataContainer) : DataContainer :=
  let s := renumberLoop dc.numGrains dc.m_Grains
  { dc with
    m_Grains := s.m_Grains
    grain_indicies :=
      FillBadData.forRange dc.totalpoints.toNat (renameVoxel s.newnames) dc.grain_indicies }

/-- The function `MergeTwins::execute`: `merge_twins`, `characterize_twins` (whose
loop body is empty) and `renumber_grains`. -/
def execute (ops : OrientationOps) (n1 n2 n3 : ℚ) (fuel : Nat) (dc : DataContainer) :
    Option DataContainer :=
  (merge_twins ops n1 n2 n3 fuel dc).map renumber_grains

/-! Notions used to state the properties of `merge_twins`. -/

/-- The grain `g'` differs from `g` at most in the two merge fields. -/
def SameData (g g' : Grain) : Prop :=
  g' = { g with gottwinmerged := g'.gottwinmerged, twinnewnumber := g'.twinnewnumber }

/-- The twin criterion of the pair of grains (`firstgrain`, `neigh`). -/
def isTwin (ops : OrientationOps) (crystruct : Int → Int) (g1 g2 : Grain) : Bool :=
  twinCriterion ops (misorientation ops crystruct g1 g2 (0, 0, 0))

/-- Grain `b` is named by an entry of the neighbour list of grain `a`. -/
def Nbr (G : Nat → Grain) (a b : Nat) : Prop :=
  ∃ nl, (G a).neighborlist = some nl ∧ ∃ e ∈ nl, e.toNat = b

/-- Boolean form of `Nbr`. -/
def hasNeighbor (G : Nat → Grain) (a b : Nat) : Bool :=
  match (G a).neighborlist with
  | none => false
  | some nl => nl.any (fun e => e.toNat == b)

/-- Grains `a` and `b` satisfy the twin criterion, `a` taken as `firstgrain`. -/
def Twin (ops : OrientationOps) (crystruct : Int → Int) (G : Nat → Grain) (a b : Nat) : Prop :=
  isTwin ops crystruct (G a) (G b) = true

/-- The grain table is well formed: every grain of positive phase has a neighbour
list and the entries of the lists are indices of the table. -/
structure GrainsOk (G : Nat → Grain) (numgrains : Nat) : Prop where
  lists : ∀ g, g < numgrains → (G g).phase > 0 → (G g).neighborlist ≠ none
  range : ∀ g, g < numgrains → ∀ nl, (G g).neighborlist = some nl →
    ∀ e ∈ nl, 0 ≤ e ∧ e.toNat < numgrains

/-- Invariant of the collection of the cluster of grain `i`, started from the
grains `Gh`: the work list is `i` followed by the grains merged so far (`rest`);
these are distinct grains of the table other than `i`, unmerged and of positive
phase in `Gh`, now marked as merged into `i`, each reached from a grain of the work
list through a neighbour entry passing the twin criterion; no other grain changed. -/
def CollectInv (ops : OrientationOps) (crystruct : Int → Int) (numgrains : Nat)
    (Gh : Nat → Grain) (i : Nat) (s : MergeState) : Prop :=
  ∃ rest, s.twinlist = i :: rest ∧ rest.Nodup ∧
    (∀ g, SameData (Gh g) (s.m_Grains g)) ∧
    (∀ g ∈ rest, g < numgrains ∧ g ≠ i ∧ (Gh g).twinnewnumber = -1 ∧ (Gh g).phase > 0 ∧
      (s.m_Grains g).twinnewnumber = i ∧ (s.m_Grains g).gottwinmerged = true ∧
      ∃ f, (f = i ∨ f ∈ rest) ∧ f ≠ g ∧ Nbr Gh f g ∧ Twin ops crystruct Gh f g) ∧
    (∀ g, g ∉ rest → s.m_Grains g = Gh g)

/-- The first `j` grains of the work list have been processed: every entry of their
neighbour lists that names a grain other than `i`, of positive phase, passing the
twin criterion, names a grain that is merged by now. -/
def Collected (ops : OrientationOps) (crystruct : Int → Int) (Gh : Nat → Grain) (i : Nat)
    (s : MergeState) (j : Nat) : Prop :=
  ∀ f ∈ s.twinlist.take j, ∀ b, Nbr Gh f b → b ≠ i → (Gh b).phase > 0 →
    Twin ops crystruct Gh f b → (s.m_Grains b).twinnewnumber ≠ -1

/-- Invariant of the outer loop of `merge_twins` at the head of iteration `k`, for a
table `G0` that was unmerged on entry: only the merge fields differ from `G0`, the
work list is empty, a grain is flagged as merged exactly when its `twinnewnumber`
is set, and the `twinnewnumber` of a merged grain is a grain `i < k` that is itself
unmerged and all of whose eligible twin neighbours are merged. -/
structure OuterInv (ops : OrientationOps) (crystruct : Int → Int) (numgrains : Nat)
    (G0 : Nat → Grain) (k : Nat) (s : MergeState) : Prop where
  same : ∀ g, SameData (G0 g) (s.m_Grains g)
  tl : s.twinlist = []
  flag : ∀ g, g < numgrains →
    ((s.m_Grains g).gottwinmerged = true ↔ (s.m_Grains g).twinnewnumber ≠ -1)
  rep : ∀ g, g < numgrains → (s.m_Grains g).twinnewnumber ≠ -1 →
    ∃ i : Nat, 1 ≤ i ∧ i < k ∧ i < numgrains ∧ (s.m_Grains g).twinnewnumber = i ∧
      (s.m_Grains i).twinnewnumber = -1 ∧
      ∀ b, Nbr G0 i b → b ≠ i → (G0 b).phase > 0 → Twin ops crystruct G0 i b →
        (s.m_Grains b).twinnewnumber ≠ -1

/-- The grains `1 .. numgrains - 1` that are not marked as merged, in increasing
order: the surviving features. -/
def survivors (G : Nat → Grain) (numgrains : Nat) : List Nat :=
  (List.range' 1 (numgrains - 1)).filter (fun i => decide ((G i).gottwinmerged ≠ true))

end MergeTwins

/-! ## Coordinates of the face neighbours -/

/-- The coordinates one step away from `(c, r, b)` in direction `i`; the directions
are `-z, -y, -x, +x, +y, +z` in the order of `neighpoints`. -/
def stepCoords (i : Nat) (c r b : Int) : Int × Int × Int :=
  match i with
  | 0 => (c, r, b - 1)
  | 1 => (c, r - 1, b)
  | 2 => (c - 1, r, b)
  | 3 => (c + 1, r, b)
  | 4 => (c, r + 1, b)
  | _ => (c, r, b + 1)

/-- The triple `(c, r, b)` names a voxel of the grid `nx * ny * nz`. -/
def inBox (nx ny nz : Int) (t : Int × Int × Int) : Prop :=
  0 ≤ t.1 ∧ t.1 < nx ∧ 0 ≤ t.2.1 ∧ t.2.1 < ny ∧ 0 ≤ t.2.2 ∧ t.2.2 < nz

/-! ## `SegmentGrains`: the grouping test and the trace of the growth -/

namespace SegmentGrains

/-- The function `SegmentGrains::execute`: it calls `form_grains` and then sets
`m_ErrorCondition = 0`.  The result is the data container and the error condition. -/
def execute (ops : OrientationOps) (tol : ℚ) (rg : Nat → UnitValue) (fuel : Nat)
    (dc : DataContainer) : Option (DataContainer × Int) :=
  (form_grains ops tol rg fuel dc).map (fun dc' => (dc', 0))

/-- The orientation `form_grains` reads for voxel `p`: element 0 is set to 1 and
elements 1 to 4 are `quats[p * 5 + 1 .. p * 5 + 4]`. -/
def quatAt (dc : DataContainer) (p : Int) : Quat :=
  ⟨1, dc.quats (p * 5 + 1), dc.quats (p * 5 + 2), dc.quats (p * 5 + 3), dc.quats (p * 5 + 4)⟩

/-- The crystal structure `crystruct[phases[p]]` of voxel `p`. -/
def classAt (dc : DataContainer) (p : Int) : Int := dc.crystruct (dc.phases p)

/-- The value of `w` that `form_grains` compares with the tolerance when voxel `nb`
is examined from voxel `ref`: the angle `getMisoQuat` returns when the crystal
structures agree, and the initial value `10000` otherwise. -/
def misoW (ops : OrientationOps) (dc : DataContainer) (ref nb : Int) : ℚ :=
  if classAt dc ref = classAt dc nb then
    (ops.getMisoQuat (classAt dc ref) (quatAt dc ref) (quatAt dc nb)).1
  else 10000

/-- The grouping predicate in the words of the specification:
`class1 == class2 && angle < tolerance`. -/
def specAccepts (ops : OrientationOps) (tol : ℚ) (dc : DataContainer) (ref nb : Int) : Prop :=
  classAt dc ref = classAt dc nb ∧
    (ops.getMisoQuat (classAt dc ref) (quatAt dc ref) (quatAt dc nb)).1 < tol

/-- The state in which `form_grains` starts the growth of grain `graincount` from
`seed`. -/
def seedState (dc : DataContainer) (graincount : Nat) (seed : Int) : GrowState :=
  { grain_indicies := Function.update dc.grain_indicies seed graincount
    voxelslist := (List.replicate initialVoxelsListSize (-1)).set 0 seed
    size := 1 }

/-- The seeds the outer loop of `form_grains` finds, in the order in which it finds
them: the loop of `formLoop` with the seeds recorded. -/
def formSeeds (ops : OrientationOps) (tol : ℚ) (rg : Nat → UnitValue) :
    Nat → DataContainer → Nat → Nat → Option (List Int)
  | 0, _, _, _ => none
  | fuel + 1, dc, graincount, draws =>
    let totalPMinus1 := dc.totalpoints - 1
    let randpoint := truncToInt ((rg draws).val * (totalPMinus1 : ℚ))
    let seed := findSeed dc dc.totalpoints.toNat randpoint
    if seed = -1 then some []
    else if seed ≥ 0 then
      match grow ops tol dc graincount (fuel + 1) (seedState dc graincount seed) 0 with
      | none => none
      | some s =>
        (formSeeds ops tol rg fuel
          (storeGrain dc graincount seed (eraseMinusOne s.voxelslist) s.grain_indicies)
          (graincount + 1) (draws + 1)).map (fun l => seed :: l)
    else formSeeds ops tol rg fuel dc graincount (draws + 1)

/-- Invariant of the growth of one grain while the voxel at position `j` of the work
list is processed and the directions `done` have been tried for it: every entry of
the work list after the first was reached from an earlier entry through a
direction the boundary guard accepts, passing the test `w < tol` against that
earlier entry; and no direction tried so far leads to a voxel that is still
unassigned, in phase and passes the test. -/
def GrowLink (ops : OrientationOps) (tol : ℚ) (dc : DataContainer) (s : GrowState) (j : Nat)
    (done : List Nat) : Prop :=
  ∃ (used : List Int) (k : Nat),
    s.voxelslist = used ++ List.replicate (k + 1) (-1) ∧ used.length = s.size ∧
    (∀ m, 0 < m → m < used.length → ∃ m', m' < m ∧ ∃ i ∈ directions,
      good dc.xpoints dc.ypoints dc.zpoints i (colOf dc.xpoints (used.getD m' 0))
        (rowOf dc.xpoints dc.ypoints (used.getD m' 0))
        (planeOf dc.xpoints dc.ypoints (used.getD m' 0)) = true ∧
      used.getD m 0 = used.getD m' 0 + neighpoints dc.xpoints dc.ypoints i ∧
      misoW ops dc (used.getD m' 0) (used.getD m 0) < tol) ∧
    (∀ m i, (m < j ∧ i ∈ directions) ∨ (m = j ∧ i ∈ done) →
      good dc.xpoints dc.ypoints dc.zpoints i (colOf dc.xpoints (used.getD m 0))
        (rowOf dc.xpoints dc.ypoints (used.getD m 0))
        (planeOf dc.xpoints dc.ypoints (used.getD m 0)) = true →
      s.grain_indicies (used.getD m 0 + neighpoints dc.xpoints dc.ypoints i) = -1 →
      dc.phases (used.getD m 0 + neighpoints dc.xpoints dc.ypoints i) > 0 →
      ¬ misoW ops dc (used.getD m 0) (used.getD m 0 + neighpoints dc.xpoints dc.ypoints i) < tol)

end SegmentGrains

/-! ## `FillBadData`: regions of zero voxels -/

namespace FillBadData

/-- The set `C` holds voxels of the grid with feature id 0 and is closed under face
adjacency among the voxels with feature id 0. -/
def ZeroClosed (d : VolumeData) (fid : Int → Int) (C : Finset Int) : Prop :=
  ∀ a ∈ C, InGrid d a ∧ fid a = 0 ∧ ∀ b, Adj d a b → fid b = 0 → b ∈ C

/-- Any two voxels of `C` are joined by a path of face-adjacent voxels of `C`. -/
def ZeroConnected (d : VolumeData) (C : Finset Int) : Prop :=
  ∀ a ∈ C, ∀ b ∈ C, Relation.ReflTransGen (fun x y => Adj d x y ∧ y ∈ C) a b

/-- The set `C` is a 6-connected component of the voxels with feature id 0. -/
def ZeroComponent (d : VolumeData) (fid : Int → Int) (C : Finset Int) : Prop :=
  C.Nonempty ∧ ZeroClosed d fid C ∧ ZeroConnected d C

/-- The state in which phase 2 starts after phase 1 ended in `p`. -/
def healStart (d : VolumeData) (p : Phase1State) : HealState :=
  { m_FeatureIds := p.m_FeatureIds, cellData := d.cellData, n := fun _ => 0
    m_Neighbors := fun _ => -1, count := p.count }

end FillBadData

/-! ## Example data -/

namespace Examples

/-- An orientation library whose misorientation angle is the absolute difference of
the first quaternion components, with the unit axis `(0.57735, 0.57735, 0.57735)`,
the `<111>` direction.  Its `acosf` stands for the arc cosine at the arguments that
occur: it is 0 on `0.99 .. 1` (the arc cosine of `0.99999` is below the axis
tolerance of `merge_twins`) and 1 elsewhere; above 1 the arc cosine is not a number
and every comparison with it fails, as a comparison with the value 1 does. -/
def ops : OrientationOps where
  getMisoQuat := fun _ a b => (abs (a.q1 - b.q1), 0.57735, 0.57735, 0.57735)
  acosf := fun x => if 0.99 ≤ x ∧ x ≤ 1 then 0 else 1
  M_PI := 3

/-- A generator that always returns one half. -/
def rg : Nat → SegmentGrains.UnitValue :=
  fun _ => ⟨1 / 2, by norm_num, by norm_num⟩

/-- A `2 x 2 x 1` grid, all voxels unassigned; voxel 3 has phase 0, voxels 0 and 1
share an orientation and voxel 2 has another one. -/
def grid : DataContainer where
  xpoints := 2
  ypoints := 2
  zpoints := 1
  totalpoints := 4
  grain_indicies := fun _ => -1
  phases := fun p => if p = 3 then 0 else 1
  quats := fun k => if k < 10 then 0 else 50
  crystruct := fun _ => 1
  m_Grains := fun _ => {}
  numGrains := 2

/-- A line of three voxels with feature ids `a`, `b`, `c` and the minimum allowed
defect size `m`. -/
def line (a b c m : Int) : FillBadData.VolumeData where
  dims0 := 3
  dims1 := 1
  dims2 := 1
  totalPoints := 3
  m_FeatureIds := fun i => if i = 0 then a else if i = 1 then b else if i = 2 then c else 0
  cellData := fun i => i
  m_MinAllowedDefectSize := m

/-- A `3 x 3 x 1` slab whose centre voxel 4 holds `-1`; its neighbours 1 and 5 hold
feature 7, neighbour 3 holds 5 and neighbour 7 holds 9; the corners hold 2. -/
def slab : FillBadData.VolumeData where
  dims0 := 3
  dims1 := 3
  dims2 := 1
  totalPoints := 9
  m_FeatureIds := fun i =>
    if i = 4 then -1 else if i = 1 then 7 else if i = 5 then 7 else if i = 3 then 5
    else if i = 7 then 9 else 2
  cellData := fun i => i
  m_MinAllowedDefectSize := 1

/-- The state in which phase 2 starts on `slab`. -/
def slabState : FillBadData.HealState where
  m_FeatureIds := slab.m_FeatureIds
  cellData := slab.cellData
  n := fun _ => 0
  m_Neighbors := fun _ => -1
  count := 1

/-- A grain of phase 1 whose normalised quaternion has first component `q`, with
the neighbour list `nl` and `nv` voxels. -/
def grain (q : ℚ) (nl : List Int) (nv : Int) : Grain :=
  { phase := 1, avg_quat := ⟨1, q, 0, 0, 0⟩, neighborlist := some nl
    numneighbors := nl.length, numvoxels := nv }

/-- A row of three voxels with the grain numbers `a`, `b`, `c`, and the grain table
`g0, g1, g2, g3`. -/
def container (a b c : Int) (g1 g2 g3 : Grain) : DataContainer where
  xpoints := 3
  ypoints := 1
  zpoints := 1
  totalpoints := 3
  grain_indicies := fun v => if v = 0 then a else if v = 1 then b else if v = 2 then c else 0
  phases := fun _ => 1
  quats := fun _ => 0
  crystruct := fun _ => 1
  m_Grains := fun k => if k = 1 then g1 else if k = 2 then g2 else if k = 3 then g3 else {}
  numGrains := 4

/-- The row of grains 1, 2, 3: grains 1 and 2 are twins of each other
(misorientation 60), grain 3 is no twin of grain 2; the neighbour lists are those of
the row. -/
def twinPair : DataContainer :=
  container 1 2 3 (grain 0 [2] 1) (grain 60 [1, 3] 1) (grain 200 [2] 1)

/-- The row of grains 2, 1, 3: grain 1 is a twin of both grain 2 and grain 3, but
grain 3 is missing from the neighbour list of grain 1. -/
def lopsided : DataContainer :=
  container 2 1 3 (grain 0 [2] 1) (grain 60 [1] 1) (grain (-60) [1] 1)

/-- The three voxel entries of a container. -/
def voxels (dc : DataContainer) : List Int :=
  [dc.grain_indicies 0, dc.grain_indicies 1, dc.grain_indicies 2]

end Examples

/-! ## More example data -/

namespace Examples

/-- The grid of `grid` with no voxel in phase; voxel 1 already holds grain 7. -/
def voidGrid : DataContainer :=
  { grid with phases := fun _ => 0, grain_indicies := fun v => if v = 1 then 7 else -1 }

/-- Two voxels of different phases whose crystal structures differ. -/
def mixed : DataContainer where
  xpoints := 2
  ypoints := 1
  zpoints := 1
  totalpoints := 2
  grain_indicies := fun _ => -1
  phases := fun p => if p = 0 then 1 else 2
  quats := fun _ => 0
  crystruct := fun p => p
  m_Grains := fun _ => {}
  numGrains := 3

/-- A row of four voxels whose orientations are 0, 4, 8, 12: neighbours differ by 4,
voxel 3 differs from voxel 1 by 8. -/
def ramp : DataContainer where
  xpoints := 4
  ypoints := 1
  zpoints := 1
  totalpoints := 4
  grain_indicies := fun _ => -1
  phases := fun _ => 1
  quats := fun k => if k = 1 then 0 else if k = 6 then 4 else if k = 11 then 8
    else if k = 16 then 12 else 0
  crystruct := fun _ => 1
  m_Grains := fun _ => {}
  numGrains := 3

/-- The result of `execute` on the line `[0, 7, 5]` with minimum defect size 2. -/
def healedLine : FillBadData.Result :=
  (FillBadData.execute 2 5 (line 0 7 5 2)).getD ⟨0, fun _ => 0, fun _ => 0⟩

/-- A `3 x 3 x 3` volume whose centre voxel 13 holds 0 and whose other voxels hold
feature 3, with the minimum allowed defect size `m`. -/
def cube (m : Int) : FillBadData.VolumeData where
  dims0 := 3
  dims1 := 3
  dims2 := 3
  totalPoints := 27
  m_FeatureIds := fun i => if i = 13 then 0 else 3
  cellData := fun i => i
  m_MinAllowedDefectSize := m

end Examples

/-! ## `FillBadData`: the vote of one voxel and the passes of phase 2 -/

namespace FillBadData

/-- No positive feature id found among the in-bounds face neighbours of `v` occurs
there more often than `g`: `g` holds the highest tally. -/
@[reducible] def IsTop (d : VolumeData) (fid : Int → Int) (v g : Int) : Prop :=
  ∀ j ∈ directions,
    good d.dims0 d.dims1 d.dims2 j (colOf d.dims0 v) (rowOf d.dims0 d.dims1 v)
      (planeOf d.dims0 d.dims1 v) = true →
    fid (v + neighpoints d.dims0 d.dims1 j) > 0 →
    occurrences d fid v (fid (v + neighpoints d.dims0 d.dims1 j)) ≤ occurrences d fid v g

/-- The tie-break in the words of the specification: `r` is the in-bounds positive
face neighbour of `v` with the lowest direction index among the neighbours whose
feature holds the highest tally. -/
@[reducible] def LowestTied (d : VolumeData) (fid : Int → Int) (v r : Int) : Prop :=
  ∃ j ∈ directions,
    good d.dims0 d.dims1 d.dims2 j (colOf d.dims0 v) (rowOf d.dims0 d.dims1 v)
      (planeOf d.dims0 d.dims1 v) = true ∧
    r = v + neighpoints d.dims0 d.dims1 j ∧ fid r > 0 ∧ IsTop d fid v (fid r) ∧
    ∀ j2 ∈ directions, j2 < j →
      ¬ (good d.dims0 d.dims1 d.dims2 j2 (colOf d.dims0 v) (rowOf d.dims0 d.dims1 v)
          (planeOf d.dims0 d.dims1 v) = true ∧
        fid (v + neighpoints d.dims0 d.dims1 j2) > 0 ∧
        IsTop d fid v (fid (v + neighpoints d.dims0 d.dims1 j2)))

/-- The voxel `r` is the neighbour of `v` in the direction `j` at which a running
tally first reaches the highest final tally: `r` is in bounds and positive, its
feature holds the highest tally, the tally of its feature over the directions
`0 .. j` is already the final one, and over the directions `0 .. j - 1` every tally
is still below it. -/
def FirstToTop (d : VolumeData) (fid : Int → Int) (v r : Int) : Prop :=
  ∃ j, j < 6 ∧
    good d.dims0 d.dims1 d.dims2 j (colOf d.dims0 v) (rowOf d.dims0 d.dims1 v)
      (planeOf d.dims0 d.dims1 v) = true ∧
    r = v + neighpoints d.dims0 d.dims1 j ∧ fid r > 0 ∧
    (∀ g, g > 0 → occurrences d fid v g ≤ occurrences d fid v (fid r)) ∧
    occIn d fid v (List.range (j + 1)) (fid r) = occurrences d fid v (fid r) ∧
    ∀ g, g > 0 → occIn d fid v (List.range j) g < occurrences d fid v (fid r)

/-- Invariant of the tally loop of voxel `i` after the directions `l`: when `most`
is positive, `l` splits at a direction `j` whose neighbour is the recorded one; the
tally of its feature over the directions up to `j` is `most`, and before `j` every
tally was below `most`. -/
def FirstInv (d : VolumeData) (fid : Int → Int) (i : Int) (l : List Nat) (t : TallyState) :
    Prop :=
  t.most > 0 → ∃ a j b, l = a ++ j :: b ∧
    good d.dims0 d.dims1 d.dims2 j (colOf d.dims0 i) (rowOf d.dims0 d.dims1 i)
      (planeOf d.dims0 d.dims1 i) = true ∧
    fid (i + neighpoints d.dims0 d.dims1 j) > 0 ∧
    t.m_Neighbors i = i + neighpoints d.dims0 d.dims1 j ∧
    (occIn d fid i (a ++ [j]) (fid (i + neighpoints d.dims0 d.dims1 j)) : Int) = t.most ∧
    ∀ g, g > 0 → (occIn d fid i a g : Int) < t.most

/-- The condition in which every pass of phase 2 starts: the tallies are cleared and
no negative voxel of the grid has a recorded neighbour. -/
def PassInv (d : VolumeData) (s : HealState) : Prop :=
  (∀ g, s.n g = 0) ∧ ∀ v, InGrid d v → s.m_FeatureIds v < 0 → s.m_Neighbors v = -1

/-- The marks in `m_AlreadyChecked` with which the classification loop of phase 1
starts. -/
def initialMarks (d : VolumeData) : Int → Bool :=
  fun i => if 0 ≤ i ∧ i < d.totalPoints then decide (d.m_FeatureIds i ≠ 0) else false

end FillBadData

/-! ## `SegmentGrains`: grains of one voxel -/

namespace SegmentGrains

/-- No two voxels of the grid share a grain number `≥ 1`: every grain is a single
voxel. -/
def Singletons (dc : DataContainer) : Prop :=
  ∀ u v, 0 ≤ u → u < dc.totalpoints → 0 ≤ v → v < dc.totalpoints →
    1 ≤ dc.grain_indicies u → dc.grain_indicies u = dc.grain_indicies v → u = v

end SegmentGrains

/-! ## `MergeTwins`: the criterion of the specification and the data the renumbering moves -/

namespace MergeTwins

/-- The twin criterion in the words of the specification, for a misorientation
`(w, n1, n2, n3)`, with the target angle 60, the target axis
`(0.57735, 0.57735, 0.57735)` and the tolerances of `merge_twins`: the angle is
within the tolerance of the target angle, and the angle between the axis and the
target axis, computed from the absolute value of their dot product, is within the
axis tolerance. -/
def specCriterion (ops : OrientationOps) (m : ℚ × ℚ × ℚ × ℚ) : Bool :=
  decide (abs (m.1 - 60) < 2 ∧
    ops.acosf (abs (m.2.1 * 0.57735 + m.2.2.1 * 0.57735 + m.2.2.2 * 0.57735))
      < 2 * ops.M_PI / 180)

/-- The fields `renumber_grains` copies to the new slot of a surviving grain:
`numvoxels`, `numneighbors` and the three Euler angles. -/
def copiedData (g : Grain) : Int × Int × ℚ × ℚ × ℚ :=
  (g.numvoxels, g.numneighbors, g.euler1, g.euler2, g.euler3)

/-- The state in which the first loop of `renumber_grains` starts. -/
def renumberStart (grains : Nat → Grain) : RenumberState :=
  { m_Grains := grains, newnames := fun _ => 0, graincount := 1 }

/-- The neighbour `neigh` was accepted as a twin while the cluster of grain `i` was
collected: it was appended to the work list and marked as merged into `i`. -/
def Accepted (i : Nat) (s s' : MergeState) (neigh : Nat) : Prop :=
  s'.twinlist = s.twinlist ++ [neigh] ∧ (s'.m_Grains neigh).gottwinmerged = true ∧
    (s'.m_Grains neigh).twinnewnumber = i

end MergeTwins

/-! ## Example data for the vote, the twin criterion and the renumbering -/

namespace Examples

/-- A `3 x 3 x 1` slab whose centre voxel 4 holds `-1`; its neighbours in the
directions 1 and 4 (voxels 1 and 7) hold feature 7, those in the directions 2 and 3
(voxels 3 and 5) hold feature 5; the corners hold 2. -/
def tied : FillBadData.VolumeData where
  dims0 := 3
  dims1 := 3
  dims2 := 1
  totalPoints := 9
  m_FeatureIds := fun i =>
    if i = 4 then -1 else if i = 1 then 7 else if i = 7 then 7 else if i = 3 then 5
    else if i = 5 then 5 else 2
  cellData := fun i => i
  m_MinAllowedDefectSize := 1

/-- The state in which phase 2 starts on `tied`. -/
def tiedState : FillBadData.HealState where
  m_FeatureIds := tied.m_FeatureIds
  cellData := tied.cellData
  n := fun _ => 0
  m_Neighbors := fun _ => -1
  count := 1

/-- The state in which phase 2 starts on the line `[-1, -1, 5]`. -/
def lineState : FillBadData.HealState where
  m_FeatureIds := (line (-1) (-1) 5 1).m_FeatureIds
  cellData := (line (-1) (-1) 5 1).cellData
  n := fun _ => 0
  m_Neighbors := fun _ => -1
  count := 1

/-- An orientation library that returns the axis `(0.57735, -0.57735, 0.57735)`, a
`<111>` direction with one negative component, and the absolute difference of the
first quaternion components as the angle.  Its `acosf` stands for the arc cosine at
the two arguments that occur: it is 0 from `0.99` upwards (the arc cosine of
`0.99999` is below the axis tolerance) and 1 below (the arc cosine of `0.33333` is
above it). -/
def skewOps : OrientationOps where
  getMisoQuat := fun _ a b => (abs (a.q1 - b.q1), 0.57735, -0.57735, 0.57735)
  acosf := fun x => if x ≥ 0.99 then 0 else 1
  M_PI := 3

/-- The state in which the cluster of grain 1 of `twinPair` is collected. -/
def pairState : MergeTwins.MergeState :=
  { m_Grains := twinPair.m_Grains, twinlist := [1], n1 := 0, n2 := 0, n3 := 0 }

/-- The row of grains 1, 2, 3 after `merge_twins`: grain 2 is marked as merged into
grain 1. -/
def flagged : DataContainer :=
  container 1 1 3 (grain 0 [2] 1)
    { grain 60 [1, 3] 1 with gottwinmerged := true, twinnewnumber := 1 } (grain 200 [2] 1)

/-- The row of grains 2, 1, 3: grain 1 in the middle has the neighbours 2 and 3,
grains 1 and 2 are twins of each other, grain 3 is no twin of grain 1. -/
def fan : DataContainer :=
  container 2 1 3 (grain 0 [2, 3] 1) (grain 60 [1] 1) (grain 200 [1] 1)

end Examples

/-! ## `ModifiedLambertProjectionArray::EraseTuples` -/

namespace ModifiedLambertProjectionArray

/-- The state of the copy loop of `EraseTuples`: the position `idxsIndex` in the
index list, the write position `rIdx` and the vector `replacement`. -/
structure EraseState (α : Type) where
  idxsIndex : Nat
  rIdx : Nat
  replacement : List α

/-- The body of `for (size_t dIdx = 0; dIdx < size; ++dIdx)`.  The result is `none`
when `replacement[rIdx]` lies outside the vector. -/
def eraseStep {α : Type} [Inhabited α] (arr : List α) (idxs : List Nat) (s : EraseState α)
    (dIdx : Nat) : Option (EraseState α) :=
  if dIdx ≠ idxs.getD s.idxsIndex 0 then
    if s.rIdx < s.replacement.length then
      some { s with replacement := s.replacement.set s.rIdx (arr.getD dIdx default)
                    rIdx := s.rIdx + 1 }
    else none
  else
    let idxsIndex := s.idxsIndex + 1
    some { s with idxsIndex := if idxsIndex = idxs.length then idxsIndex - 1 else idxsIndex }

/-- The function `EraseTuples`, for the vector `arr` of tuples (shared pointers, the
default value being the null pointer) and the index list `idxs`.  The result is the
return value and the vector afterwards. -/
def EraseTuples {α : Type} [Inhabited α] (arr : List α) (idxs : List Nat) :
    Option (Int × List α) :=
  if idxs.length = 0 then some (0, arr)
  else if idxs.length ≥ arr.length then some (0, [])
  else if idxs.any (fun i => decide (i ≥ arr.length)) = true then some (-100, arr)
  else
    ((List.range arr.length).foldlM (eraseStep arr idxs)
      { idxsIndex := 0, rIdx := 0
        replacement := List.replicate (arr.length - idxs.length) default }).map
      (fun s => (0, s.replacement))

/-- The tuples of `arr` whose index is below `d` and not listed in `idxs`, in their
order. -/
def kept {α : Type} [Inhabited α] (arr : List α) (idxs : List Nat) (d : Nat) : List α :=
  ((List.range d).filter (fun i => decide (i ∉ idxs))).map (fun i => arr.getD i default)

/-- Invariant of the copy loop before the iteration for `dIdx = d`: the index list
splits into the entries below `d` (`done`) and the entries from `d` on (`rem`), the
position in the index list is the first entry of `rem` (the last entry of the list
when `rem` is empty), and `replacement` holds the tuples kept so far followed by
null pointers. -/
def EraseInv {α : Type} [Inhabited α] (arr : List α) (idxs : List Nat) (d : Nat)
    (s : EraseState α) : Prop :=
  ∃ done rem, idxs = done ++ rem ∧ (∀ i ∈ done, i < d) ∧ (∀ i ∈ rem, d ≤ i) ∧
    s.idxsIndex = (if rem = [] then idxs.length - 1 else done.length) ∧
    s.rIdx + done.length = d ∧ s.rIdx = (kept arr idxs d).length ∧
    s.replacement = kept arr idxs d
      ++ List.replicate (arr.length - idxs.length - s.rIdx) default

end ModifiedLambertProjectionArray

/-! ## `SegmentGrains`: the seed search, the grains as components, bounds of the
vectors -/

namespace SegmentGrains

/-- The indices the seed search reads: the values `randpoint` takes at the test
`grain_indicies[randpoint] == -1 && phases[randpoint] > 0` in `k` iterations of
the inner loop, when no iteration finds a seed. -/
def probes (total : Int) : Nat → Int → List Int
  | 0, _ => []
  | k + 1, randpoint =>
    let randpoint := if randpoint > total - 1 then randpoint - total else randpoint
    randpoint :: probes total k (randpoint + 1)

/-- The outcome of the growth of grain `c` from `seed` in the container `dc`: `l` is
the voxel list that is stored and `gi` the array `grain_indicies` after the growth.
The list has no repetition, starts with the seed and holds voxels that were
unassigned and in phase, which are exactly the voxels that changed; every later
entry was admitted from an earlier entry, its face neighbour, by the test `w < tol`;
and no entry is left with an unassigned in-phase face neighbour passing the test. -/
structure Grown (ops : OrientationOps) (tol : ℚ) (dc : DataContainer) (c : Nat) (seed : Int)
    (l : List Int) (gi : Int → Int) : Prop where
  nodup : l.Nodup
  head : l.head? = some seed
  sub : ∀ v ∈ l, v ∈ unassigned dc.totalpoints dc.phases dc.grain_indicies
  ids : ∀ v, gi v = if v ∈ l then (c : Int) else dc.grain_indicies v
  link : ∀ m, 0 < m → m < l.length → ∃ m', m' < m ∧ ∃ i ∈ directions,
    good dc.xpoints dc.ypoints dc.zpoints i (colOf dc.xpoints (l.getD m' 0))
      (rowOf dc.xpoints dc.ypoints (l.getD m' 0))
      (planeOf dc.xpoints dc.ypoints (l.getD m' 0)) = true ∧
    l.getD m 0 = l.getD m' 0 + neighpoints dc.xpoints dc.ypoints i ∧
    misoW ops dc (l.getD m' 0) (l.getD m 0) < tol
  maximal : ∀ v ∈ l, ∀ i ∈ directions,
    good dc.xpoints dc.ypoints dc.zpoints i (colOf dc.xpoints v)
      (rowOf dc.xpoints dc.ypoints v) (planeOf dc.xpoints dc.ypoints v) = true →
    gi (v + neighpoints dc.xpoints dc.ypoints i) = -1 →
    dc.phases (v + neighpoints dc.xpoints dc.ypoints i) > 0 →
    ¬ misoW ops dc v (v + neighpoints dc.xpoints dc.ypoints i) < tol

/-- Invariant of the outer loop of `form_grains` for the phase of the grains: the
crystal structures are those on entry, and every grain stored so far has a voxel
list whose first entry is a voxel `seed` with `phase = phases[seed]`; every voxel of
the list is in phase and, for a tolerance of at most `10000`, has the crystal
structure of `seed`. -/
def PhaseInv (tol : ℚ) (dc0 dc : DataContainer) (c : Nat) : Prop :=
  dc.crystruct = dc0.crystruct ∧
  ∀ g, 1 ≤ g → g < c → ∃ l seed, (dc.m_Grains g).voxellist = some l ∧ l.head? = some seed ∧
    (dc.m_Grains g).phase = dc0.phases seed ∧
    ∀ v ∈ l, dc0.phases v > 0 ∧ (tol ≤ 10000 → classAt dc0 v = classAt dc0 seed)

/-- Invariant of the outer loop of `form_grains` for the shape of the grains stored
so far, `dc0` being the container on entry: orientations and crystal structures are
unchanged; in the voxel list of every grain `g` each entry after the first was
admitted from an earlier entry, its face neighbour, by the test `w < tol`; and every
in-phase face neighbour of a voxel of the list that passes the test against that
voxel holds a grain number of `1 .. g`, so it was assigned when the growth of `g`
ended. -/
def ShapeInv (ops : OrientationOps) (tol : ℚ) (dc0 dc : DataContainer) (c : Nat) : Prop :=
  dc.crystruct = dc0.crystruct ∧ dc.quats = dc0.quats ∧
  ∀ g, 1 ≤ g → g < c → ∃ l, (dc.m_Grains g).voxellist = some l ∧
    (∀ m, 0 < m → m < l.length → ∃ m', m' < m ∧ ∃ i ∈ directions,
      good dc0.xpoints dc0.ypoints dc0.zpoints i (colOf dc0.xpoints (l.getD m' 0))
        (rowOf dc0.xpoints dc0.ypoints (l.getD m' 0))
        (planeOf dc0.xpoints dc0.ypoints (l.getD m' 0)) = true ∧
      l.getD m 0 = l.getD m' 0 + neighpoints dc0.xpoints dc0.ypoints i ∧
      misoW ops dc0 (l.getD m' 0) (l.getD m 0) < tol) ∧
    (∀ v ∈ l, ∀ i ∈ directions,
      good dc0.xpoints dc0.ypoints dc0.zpoints i (colOf dc0.xpoints v)
        (rowOf dc0.xpoints dc0.ypoints v) (planeOf dc0.xpoints dc0.ypoints v) = true →
      dc0.phases (v + neighpoints dc0.xpoints dc0.ypoints i) > 0 →
      misoW ops dc0 v (v + neighpoints dc0.xpoints dc0.ypoints i) < tol →
      1 ≤ dc.grain_indicies (v + neighpoints dc0.xpoints dc0.ypoints i) ∧
        dc.grain_indicies (v + neighpoints dc0.xpoints dc0.ypoints i) ≤ g)

/-- An edge of the grouping graph: `b` is the face neighbour of `a` in a direction
the boundary guard accepts, both voxels are in phase, and the test `w < tol` of
`form_grains` passes for `b` examined from `a`. -/
def Edge (ops : OrientationOps) (tol : ℚ) (dc : DataContainer) (a b : Int) : Prop :=
  ∃ i ∈ directions,
    good dc.xpoints dc.ypoints dc.zpoints i (colOf dc.xpoints a)
      (rowOf dc.xpoints dc.ypoints a) (planeOf dc.xpoints dc.ypoints a) = true ∧
    b = a + neighpoints dc.xpoints dc.ypoints i ∧ dc.phases a > 0 ∧ dc.phases b > 0 ∧
    misoW ops dc a b < tol

/-- The voxel `b` is reached from `a` along edges of the grouping graph: the two
voxels lie in one connected component. -/
def SameComponent (ops : OrientationOps) (tol : ℚ) (dc : DataContainer) (a b : Int) : Prop :=
  Relation.ReflTransGen (Edge ops tol dc) a b

/-- Invariant of the outer loop of `form_grains` that relates the grains to the
grouping graph of the container `dc0` on entry: orientations and crystal structures
are unchanged, two voxels of the grid that hold the same grain number lie in one
component, and every edge from an assigned voxel leads to a voxel of the same
grain. -/
structure CompInv (ops : OrientationOps) (tol : ℚ) (dc0 dc : DataContainer) : Prop where
  crys : dc.crystruct = dc0.crystruct
  quats : dc.quats = dc0.quats
  conn : ∀ a b, 0 ≤ a → a < dc0.totalpoints → 0 ≤ b → b < dc0.totalpoints →
    1 ≤ dc.grain_indicies a → dc.grain_indicies a = dc.grain_indicies b →
    SameComponent ops tol dc0 a b
  closed : ∀ a b, 0 ≤ a → a < dc0.totalpoints → 1 ≤ dc.grain_indicies a →
    Edge ops tol dc0 a b → dc.grain_indicies b = dc.grain_indicies a

/-- The outcome of a run in which the indices of vector accesses are checked: the
run ran out of fuel, it accessed a vector outside its bounds, or it ended with a
result. -/
inductive Checked (α : Type) where
  | outOfFuel : Checked α
  | outOfBounds : Checked α
  | done : α → Checked α

/-- The outcome of a run of the model without checks, seen as a checked run that
never leaves the bounds. -/
def Checked.ofOption {α : Type} : Option α → Checked α
  | none => Checked.outOfFuel
  | some a => Checked.done a

/-- Whether a checked run accessed a vector outside its bounds. -/
def Checked.isOutOfBounds {α : Type} : Checked α → Bool
  | Checked.outOfBounds => true
  | _ => false

/-- The body of `if (w < m_misorientationtolerance)` with the write
`voxelslist[size] = neighbor` checked against the length of `voxelslist`. -/
def joinGrainChecked (graincount : Nat) (neighbor : Int) (s : GrowState) : Option GrowState :=
  if s.size < s.voxelslist.length then some (joinGrain graincount neighbor s) else none

/-- The body of `for (int i = 0; i < 6; i++)` with the write to `voxelslist`
checked; `none` is a write outside the bounds, in this or in an earlier iteration. -/
def visitChecked (ops : OrientationOps) (tol : ℚ) (dc : DataContainer) (graincount : Nat)
    (currentpoint : Int) (s : Option GrowState) (i : Nat) : Option GrowState :=
  match s with
  | none => none
  | some s =>
    let col := colOf dc.xpoints currentpoint
    let row := rowOf dc.xpoints dc.ypoints currentpoint
    let plane := planeOf dc.xpoints dc.ypoints currentpoint
    let phase1 := dc.crystruct (dc.phases currentpoint)
    let q1 : Quat := ⟨1, dc.quats (currentpoint * 5 + 1), dc.quats (currentpoint * 5 + 2),
      dc.quats (currentpoint * 5 + 3), dc.quats (currentpoint * 5 + 4)⟩
    let neighbor := currentpoint + neighpoints dc.xpoints dc.ypoints i
    if good dc.xpoints dc.ypoints dc.zpoints i col row plane = true
        ∧ s.grain_indicies neighbor = -1 ∧ dc.phases neighbor > 0 then
      let q2 : Quat := ⟨1, dc.quats (neighbor * 5 + 1), dc.quats (neighbor * 5 + 2),
        dc.quats (neighbor * 5 + 3), dc.quats (neighbor * 5 + 4)⟩
      let phase2 := dc.crystruct (dc.phases neighbor)
      let w : ℚ := if phase1 = phase2 then (ops.getMisoQuat phase1 q1 q2).1 else 10000
      if w < tol then joinGrainChecked graincount neighbor s else some s
    else some s

/-- The loop `for (size_t j = 0; j < size; ++j)` with the writes to `voxelslist`
checked. -/
def growChecked (ops : OrientationOps) (tol : ℚ) (dc : DataContainer) (graincount : Nat) :
    Nat → GrowState → Nat → Checked GrowState
  | 0, _, _ => Checked.outOfFuel
  | fuel + 1, s, j =>
    if j < s.size then
      let currentpoint := s.voxelslist.getD j 0
      match directions.foldl (visitChecked ops tol dc graincount currentpoint) (some s) with
      | none => Checked.outOfBounds
      | some s' => growChecked ops tol dc graincount fuel s' (j + 1)
    else Checked.done s

/-- The handling of `m_Grains` after a grain is grown, with the index `graincount`
of the accesses `m_Grains[graincount]` checked against the size of the vector. -/
def storeGrainChecked (dc : DataContainer) (graincount : Nat) (seed : Int)
    (voxelslist : List Int) (gi : Int → Int) : Option DataContainer :=
  if graincount < dc.numGrains then some (storeGrain dc graincount seed voxelslist gi)
  else none

/-- The outer loop `while (noseeds == 0)` of `form_grains` with the accesses
`m_Grains[graincount]` and the writes `voxelslist[size]` checked.  The first write,
`voxelslist[0] = seed`, goes to a vector of `initialVoxelsListSize` entries. -/
def formLoopChecked (ops : OrientationOps) (tol : ℚ) (rg : Nat → UnitValue) :
    Nat → DataContainer → Nat → Nat → Checked (DataContainer × Nat)
  | 0, _, _, _ => Checked.outOfFuel
  | fuel + 1, dc, graincount, draws =>
    let totalPMinus1 := dc.totalpoints - 1
    let randpoint := truncToInt ((rg draws).val * (totalPMinus1 : ℚ))
    let seed := findSeed dc dc.totalpoints.toNat randpoint
    if seed = -1 then Checked.done (dc, graincount)
    else if seed ≥ 0 then
      if 0 < (List.replicate initialVoxelsListSize (-1 : Int)).length then
        match growChecked ops tol dc graincount (fuel + 1) (seedState dc graincount seed) 0 with
        | Checked.outOfFuel => Checked.outOfFuel
        | Checked.outOfBounds => Checked.outOfBounds
        | Checked.done s =>
          match storeGrainChecked dc graincount seed (eraseMinusOne s.voxelslist)
              s.grain_indicies with
          | none => Checked.outOfBounds
          | some dc' => formLoopChecked ops tol rg fuel dc' (graincount + 1) (draws + 1)
      else Checked.outOfBounds
    else formLoopChecked ops tol rg fuel dc graincount (draws + 1)

end SegmentGrains

namespace Examples

/-- Two voxels of the phases 1 and 2, which have the same crystal structure, with
one orientation. -/
def twoPhase : DataContainer where
  xpoints := 2
  ypoints := 1
  zpoints := 1
  totalpoints := 2
  grain_indicies := fun _ => -1
  phases := fun p => if p = 0 then 1 else 2
  quats := fun _ => 0
  crystruct := fun _ => 1
  m_Grains := fun _ => {}
  numGrains := 3

/-- A generator that always returns one. -/
def rgOne : Nat → SegmentGrains.UnitValue :=
  fun _ => ⟨1, by norm_num, by norm_num⟩

/-- A grain table of a single entry: the grid of `grid` with `numGrains = 1`. -/
def shortTable : DataContainer :=
  { grid with numGrains := 1 }

end Examples

/-! ## `MergeTwins`: a run without twins, and the smallest grain of a cluster -/

namespace MergeTwins

/-- The grain `g` after `renumber_grains` has made its `neighborlist` pointer
non-`NULL`: a missing vector is allocated with `numneighbors` zeros, an existing one
is kept. -/
def allocated (g : Grain) : Grain :=
  { g with
    neighborlist := some
      (match g.neighborlist with
       | none => List.replicate g.numneighbors.toNat 0
       | some l => l) }

/-- Invariant of the outer loop of `merge_twins` at the head of iteration `k`, on
top of `OuterInv`: every unmerged grain `i < k` of positive phase has all its
eligible twin neighbours merged, a merged grain has positive phase, and a merged
grain other than grain 0 is merged into a grain of smaller index. -/
structure SmallestInv (ops : OrientationOps) (crystruct : Int → Int) (numgrains : Nat)
    (G0 : Nat → Grain) (k : Nat) (s : MergeState) : Prop where
  outer : OuterInv ops crystruct numgrains G0 k s
  closed : ∀ i, 1 ≤ i → i < k → i < numgrains → (s.m_Grains i).twinnewnumber = -1 →
    (G0 i).phase > 0 →
    ∀ b, Nbr G0 i b → b ≠ i → (G0 b).phase > 0 → Twin ops crystruct G0 i b →
      (s.m_Grains b).twinnewnumber ≠ -1
  pos : ∀ g, g < numgrains → (s.m_Grains g).twinnewnumber ≠ -1 → (G0 g).phase > 0
  below : ∀ g, 1 ≤ g → g < numgrains → (s.m_Grains g).twinnewnumber ≠ -1 →
    (s.m_Grains g).twinnewnumber < g

end MergeTwins

namespace Examples

/-- The row of grains 1, 2, 3 with the misorientations 200 between neighbours: no
pair of neighbours passes the twin criterion. -/
def plain : DataContainer :=
  container 1 2 3 (grain 0 [2] 4) (grain 200 [1, 3] 5) (grain 0 [2] 6)

/-- The row of grains 1, 2, 3 with the misorientations 60 between neighbours and 120
between grains 1 and 3: grain 2 is a twin of grain 1 and grain 3 a twin of grain 2,
while grain 3 is neither a neighbour nor a twin of grain 1. -/
def twinChain : DataContainer :=
  container 1 2 3 (grain 0 [2] 4) (grain 60 [1, 3] 5) (grain 120 [2] 6)

/-- The row of grains 1, 2, 3 with empty neighbour lists. -/
def lonely : DataContainer :=
  container 1 2 3 (grain 0 [] 4) (grain 60 [] 5) (grain 0 [] 6)

end Examples

/-! ## `FillBadData::execute`: voxels the guard of phase 2 cuts off -/

namespace FillBadData

/-- No direction that the guard of phase 2 lets through at the voxel `i` leads to a
voxel with a positive feature id: the tally loop of `i` counts nothing. -/
def Blocked (d : VolumeData) (fid : Int → Int) (i : Int) : Prop :=
  ∀ j ∈ directions,
    goodFloat d.dims0 d.dims1 d.dims2 j (floatOf (colOf d.dims0 i))
        (floatOf (rowOf d.dims0 d.dims1 i)) (floatOf (planeOf d.dims0 d.dims1 i)) = true →
      ¬ fid (i + neighpoints d.dims0 d.dims1 j) > 0

end FillBadData

namespace Examples

/-- A line of `16777218 = 2 ^ 24 + 2` voxels: the last voxel, 16777217, holds
feature 5 and every other voxel holds `-1`. -/
def longLine : FillBadData.VolumeData where
  dims0 := 16777218
  dims1 := 1
  dims2 := 1
  totalPoints := 16777218
  m_FeatureIds := fun i => if i = 16777217 then 5 else -1
  cellData := fun i => i
  m_MinAllowedDefectSize := 1

/-- The state in which phase 2 starts on `longLine`. -/
def longState : FillBadData.HealState where
  m_FeatureIds := longLine.m_FeatureIds
  cellData := longLine.cellData
  n := fun _ => 0
  m_Neighbors := fun _ => -1
  count := 1

end Examples

end SIMPLView

/-! ## Theorems -/

namespace SIMPLView

/-! ### Grid addressing -/

theorem divmod_facts (p d : Int) (hp : 0 ≤ p) (hd : 1 ≤ d) :
    0 ≤ Int.tdiv p d ∧ 0 ≤ Int.tmod p d ∧ Int.tmod p d < d ∧
      p = d * Int.tdiv p d + Int.tmod p d := by
  have hd0 : (0:Int) ≤ d := by omega
  rw [Int.tdiv_eq_ediv hp hd0, Int.tmod_eq_emod hp hd0]
  refine ⟨Int.ediv_nonneg hp hd0, Int.emod_nonneg _ (by omega), Int.emod_lt_of_pos _ (by omega), ?_⟩
  exact (Int.ediv_add_emod p d).symm

theorem quot_lt (d q z p r : Int) (hd : 1 ≤ d) (hr : 0 ≤ r) (hpq : p = d * q + r)
    (hp : p < d * z) : q < z := by
  by_contra h
  push_neg at h
  have := mul_le_mul_of_nonneg_left h (by omega : (0:Int) ≤ d)
  linarith

theorem quot_step (d q z r : Int) (hd : 0 ≤ d) (hr : r < d) (h : q + 1 ≤ z) :
    d * q + r < d * z := by
  have := mul_le_mul_of_nonneg_left h hd
  linarith [mul_add d q 1, mul_one d]

theorem quot_ge (d q r : Int) (hd : 0 ≤ d) (hr : 0 ≤ r) (h : 1 ≤ q) : d ≤ d * q + r := by
  have := mul_le_mul_of_nonneg_left h hd
  linarith [mul_one d]

/-- A direction the boundary guard accepts leads to a voxel of the grid. -/
theorem neighbor_inGrid (xp yp zp p : Int) (hx : 1 ≤ xp) (hy : 1 ≤ yp)
    (hp0 : 0 ≤ p) (hp : p < xp * yp * zp) (i : Nat) (hi : i ∈ directions)
    (hg : good xp yp zp i (colOf xp p) (rowOf xp yp p) (planeOf xp yp p) = true) :
    0 ≤ p + neighpoints xp yp i ∧ p + neighpoints xp yp i < xp * yp * zp := by
  have hxy : 1 ≤ xp * yp := one_le_mul_of_one_le_of_one_le hx hy
  obtain ⟨hq0, hr0, hr1, hpq⟩ := divmod_facts p (xp * yp) hp0 hxy
  obtain ⟨ha0, hc0, hc1, hpa⟩ := divmod_facts p xp hp0 hx
  obtain ⟨hb0, hw0, hw1, hab⟩ := divmod_facts (Int.tdiv p xp) yp ha0 hy
  simp only [colOf, rowOf, planeOf] at hg
  generalize Int.tdiv p (xp * yp) = q at *
  generalize Int.tmod p (xp * yp) = r at *
  generalize Int.tmod (Int.tdiv p xp) yp = w at *
  generalize Int.tdiv (Int.tdiv p xp) yp = b at *
  generalize Int.tdiv p xp = a at *
  generalize Int.tmod p xp = c at *
  have hqz : q < zp := quot_lt (xp * yp) q zp p r hxy hr0 hpq hp
  have haz : a < yp * zp := quot_lt xp a (yp * zp) p c hx hc0 hpa (by rw [← mul_assoc]; exact hp)
  have hbz : b < zp := quot_lt yp b zp a w hy hw0 hab haz
  have hx0 : (0:Int) ≤ xp := by omega
  have hxy0 : (0:Int) ≤ xp * yp := by omega
  simp only [directions, List.mem_cons, List.mem_singleton, List.not_mem_nil, or_false] at hi
  rcases hi with rfl | rfl | rfl | rfl | rfl | rfl <;>
    simp [good, neighpoints] at hg ⊢
  · have h1 := quot_ge (xp * yp) q r hxy0 hr0 (by omega)
    constructor <;> linarith
  · have hb1 : 1 ≤ a := by
      have := mul_nonneg (by omega : (0:Int) ≤ yp) hb0
      omega
    have h1 := quot_ge xp a c hx0 hc0 hb1
    constructor <;> linarith
  · have h0 : 0 ≤ xp * a := mul_nonneg hx0 ha0
    constructor <;> linarith [show (1:Int) ≤ c by omega]
  · have h1 := quot_step xp a (yp * zp) (c + 1) hx0 (by omega) (by omega)
    rw [← mul_assoc] at h1
    constructor <;> linarith
  · have h1 := quot_step yp b zp (w + 1) (by omega) (by omega) (by omega)
    have h2 := quot_step xp (a + 1) (yp * zp) c hx0 hc1 (by linarith)
    rw [← mul_assoc] at h2
    constructor <;> linarith [mul_add xp a 1, mul_one xp]
  · have h1 := quot_step (xp * yp) (q + 1) zp r hxy0 hr1 (by omega)
    constructor <;> linarith [mul_add (xp * yp) q 1, mul_one (xp * yp)]

theorem divmod_unique (d q r : Int) (hd : 1 ≤ d) (hq : 0 ≤ q) (hr0 : 0 ≤ r) (hr : r < d) :
    Int.tdiv (d * q + r) d = q ∧ Int.tmod (d * q + r) d = r := by
  have hp : 0 ≤ d * q + r := add_nonneg (mul_nonneg (by omega) hq) hr0
  rw [Int.tdiv_eq_ediv hp (by omega), Int.tmod_eq_emod hp (by omega)]
  exact (Int.ediv_emod_unique (by omega)).mpr ⟨by ring, hr0, hr⟩

/-- The coordinates of the voxel with column `c`, row `w` and plane `b`. -/
theorem coords_of (xp yp c w b : Int) (hx : 1 ≤ xp) (hy : 1 ≤ yp) (hc0 : 0 ≤ c) (hc : c < xp)
    (hw0 : 0 ≤ w) (hw : w < yp) (hb : 0 ≤ b) :
    colOf xp (xp * yp * b + xp * w + c) = c ∧ rowOf xp yp (xp * yp * b + xp * w + c) = w ∧
      planeOf xp yp (xp * yp * b + xp * w + c) = b := by
  have e1 : xp * yp * b + xp * w + c = xp * (yp * b + w) + c := by ring
  have hq : 0 ≤ yp * b + w := add_nonneg (mul_nonneg (by omega) hb) hw0
  have h1 := divmod_unique xp (yp * b + w) c hx hq hc0 hc
  have h2 := divmod_unique yp b w hy hb hw0 hw
  have hxw : 0 ≤ xp * w := mul_nonneg (by omega) hw0
  have hxw1 : xp * w + c < xp * yp := by
    have := quot_step xp w yp c (by omega) hc (by omega)
    linarith
  have h3 := divmod_unique (xp * yp) b (xp * w + c) (one_le_mul_of_one_le_of_one_le hx hy) hb
    (by omega) hxw1
  refine ⟨?_, ?_, ?_⟩
  · unfold colOf; rw [e1]; exact h1.2
  · unfold rowOf; rw [e1, h1.1]; exact h2.2
  · unfold planeOf; rw [add_assoc]; exact h3.1

/-- Every voxel index decomposes into its coordinates. -/
theorem coords_decomp (xp yp p : Int) (hx : 1 ≤ xp) (hy : 1 ≤ yp) (hp : 0 ≤ p) :
    0 ≤ colOf xp p ∧ colOf xp p < xp ∧ 0 ≤ rowOf xp yp p ∧ rowOf xp yp p < yp ∧
      0 ≤ planeOf xp yp p ∧
      p = xp * yp * planeOf xp yp p + xp * rowOf xp yp p + colOf xp p := by
  obtain ⟨ha0, hc0, hc1, hpa⟩ := divmod_facts p xp hp hx
  obtain ⟨hb0, hw0, hw1, hab⟩ := divmod_facts (Int.tdiv p xp) yp ha0 hy
  have e : p = xp * yp * Int.tdiv (Int.tdiv p xp) yp + xp * Int.tmod (Int.tdiv p xp) yp
      + Int.tmod p xp := by
    have h1 : xp * Int.tdiv p xp
        = xp * (yp * Int.tdiv (Int.tdiv p xp) yp + Int.tmod (Int.tdiv p xp) yp) := by
      rw [← hab]
    linarith [mul_add xp (yp * Int.tdiv (Int.tdiv p xp) yp) (Int.tmod (Int.tdiv p xp) yp),
      mul_assoc xp yp (Int.tdiv (Int.tdiv p xp) yp)]
  have hpl : planeOf xp yp p = Int.tdiv (Int.tdiv p xp) yp := by
    have := (coords_of xp yp _ _ _ hx hy hc0 hc1 hw0 hw1 hb0).2.2
    rw [← e] at this
    exact this
  refine ⟨hc0, hc1, hw0, hw1, by rw [hpl]; exact hb0, ?_⟩
  rw [hpl]
  exact e

theorem neighpoints_opp (xp yp : Int) (i : Nat) (hi : i ∈ directions) :
    neighpoints xp yp i + neighpoints xp yp (5 - i) = 0 := by
  simp only [directions, List.mem_cons, List.mem_singleton, List.not_mem_nil, or_false] at hi
  rcases hi with rfl | rfl | rfl | rfl | rfl | rfl <;> simp [neighpoints]

/-- Face adjacency is symmetric: if the guard accepts direction `i` at `p`, it
accepts the opposite direction `5 - i` at the neighbour, which leads back to `p`. -/
theorem neighbor_symm (xp yp zp p : Int) (hx : 1 ≤ xp) (hy : 1 ≤ yp)
    (hp0 : 0 ≤ p) (hp : p < xp * yp * zp) (i : Nat) (hi : i ∈ directions)
    (hg : good xp yp zp i (colOf xp p) (rowOf xp yp p) (planeOf xp yp p) = true) :
    (5 - i) ∈ directions ∧
    good xp yp zp (5 - i) (colOf xp (p + neighpoints xp yp i))
      (rowOf xp yp (p + neighpoints xp yp i)) (planeOf xp yp (p + neighpoints xp yp i)) = true ∧
    p + neighpoints xp yp i + neighpoints xp yp (5 - i) = p := by
  rw [and_comm (a := (5 - i) ∈ directions), and_assoc]
  refine ⟨?_, by linarith [neighpoints_opp xp yp i hi], ?_⟩
  swap
  · simp only [directions, List.mem_cons, List.mem_singleton, List.not_mem_nil, or_false] at hi
    rcases hi with rfl | rfl | rfl | rfl | rfl | rfl <;> simp [directions]
  obtain ⟨hc0, hc1, hw0, hw1, hb0, hdec⟩ := coords_decomp xp yp p hx hy hp0
  generalize colOf xp p = c at *
  generalize rowOf xp yp p = w at *
  generalize planeOf xp yp p = b at *
  have hbz : b < zp := by
    have hxy : 1 ≤ xp * yp := one_le_mul_of_one_le_of_one_le hx hy
    have h0 : 0 ≤ xp * w := mul_nonneg (by omega) hw0
    exact quot_lt (xp * yp) b zp p (xp * w + c) hxy (by omega) (by linarith) hp
  simp only [directions, List.mem_cons, List.mem_singleton, List.not_mem_nil, or_false] at hi
  rcases hi with rfl | rfl | rfl | rfl | rfl | rfl
  · simp [good] at hg
    have e : p + neighpoints xp yp 0 = xp * yp * (b - 1) + xp * w + c := by
      simp only [neighpoints]; rw [hdec]; ring
    obtain ⟨k1, k2, k3⟩ := coords_of xp yp c w (b - 1) hx hy hc0 hc1 hw0 hw1 (by omega)
    rw [e, k1, k2, k3]
    simp [good]; omega
  · simp [good] at hg
    have e : p + neighpoints xp yp 1 = xp * yp * b + xp * (w - 1) + c := by
      simp only [neighpoints]; rw [hdec]; ring
    obtain ⟨k1, k2, k3⟩ := coords_of xp yp c (w - 1) b hx hy hc0 hc1 (by omega) (by omega) hb0
    rw [e, k1, k2, k3]
    simp [good]; omega
  · simp [good] at hg
    have e : p + neighpoints xp yp 2 = xp * yp * b + xp * w + (c - 1) := by
      simp only [neighpoints]; rw [hdec]; ring
    obtain ⟨k1, k2, k3⟩ := coords_of xp yp (c - 1) w b hx hy (by omega) (by omega) hw0 hw1 hb0
    rw [e, k1, k2, k3]
    simp [good]; omega
  · simp [good] at hg
    have e : p + neighpoints xp yp 3 = xp * yp * b + xp * w + (c + 1) := by
      simp only [neighpoints]; rw [hdec]; ring
    obtain ⟨k1, k2, k3⟩ := coords_of xp yp (c + 1) w b hx hy (by omega) (by omega) hw0 hw1 hb0
    rw [e, k1, k2, k3]
    simp [good]; omega
  · simp [good] at hg
    have e : p + neighpoints xp yp 4 = xp * yp * b + xp * (w + 1) + c := by
      simp only [neighpoints]; rw [hdec]; ring
    obtain ⟨k1, k2, k3⟩ := coords_of xp yp c (w + 1) b hx hy hc0 hc1 (by omega) (by omega) hb0
    rw [e, k1, k2, k3]
    simp [good]; omega
  · simp [good] at hg
    have e : p + neighpoints xp yp 5 = xp * yp * (b + 1) + xp * w + c := by
      simp only [neighpoints]; rw [hdec]; ring
    obtain ⟨k1, k2, k3⟩ := coords_of xp yp c w (b + 1) hx hy hc0 hc1 hw0 hw1 (by omega)
    rw [e, k1, k2, k3]
    simp [good]; omega

/-! ### Coordinates and neighbour enumeration -/

theorem plane_lt (nx ny nz p : Int) (hx : 1 ≤ nx) (hy : 1 ≤ ny) (hp0 : 0 ≤ p)
    (hp : p < nx * ny * nz) : planeOf nx ny p < nz := by
  obtain ⟨hc0, hc1, hw0, hw1, hb0, hdec⟩ := coords_decomp nx ny p hx hy hp0
  have hxy : 1 ≤ nx * ny := one_le_mul_of_one_le_of_one_le hx hy
  have h0 : 0 ≤ nx * rowOf nx ny p := mul_nonneg (by omega) hw0
  exact quot_lt (nx * ny) (planeOf nx ny p) nz p (nx * rowOf nx ny p + colOf nx p) hxy
    (by omega) (by linarith) hp

theorem index_lt (nx ny nz c r b : Int) (hx : 1 ≤ nx) (hy : 1 ≤ ny) (hc0 : 0 ≤ c) (hc : c < nx)
    (hr0 : 0 ≤ r) (hr : r < ny) (hb0 : 0 ≤ b) (hb : b < nz) :
    0 ≤ nx * ny * b + nx * r + c ∧ nx * ny * b + nx * r + c < nx * ny * nz := by
  have hxy : 1 ≤ nx * ny := one_le_mul_of_one_le_of_one_le hx hy
  have h1 : 0 ≤ nx * r := mul_nonneg (by omega) hr0
  have h2 : 0 ≤ nx * ny * b := mul_nonneg (by omega) hb0
  have h3 : nx * r + c < nx * ny := quot_step nx r ny c (by omega) hc (by omega)
  have h4 := quot_step (nx * ny) b nz (nx * r + c) (by omega) h3 (by omega)
  constructor <;> linarith

/-- C15 (index/coordinate round trip).  For `nx, ny, nz ≥ 1` and every index `i` of
the grid the coordinates `col = i % nx`, `row = (i / nx) % ny`,
`plane = i / (nx * ny)` lie in their ranges and `col + nx * row + nx * ny * plane`
is `i`; conversely every triple in range maps to an index of the grid whose
coordinates are that triple. -/
theorem index_coordinate_round_trip (nx ny nz : Int) (hx : 1 ≤ nx) (hy : 1 ≤ ny)
    (hz : 1 ≤ nz) :
    (∀ i, 0 ≤ i → i < nx * ny * nz →
      inBox nx ny nz (colOf nx i, rowOf nx ny i, planeOf nx ny i) ∧
      colOf nx i + nx * rowOf nx ny i + nx * ny * planeOf nx ny i = i) ∧
    (∀ c r b, inBox nx ny nz (c, r, b) →
      (0 ≤ c + nx * r + nx * ny * b ∧ c + nx * r + nx * ny * b < nx * ny * nz) ∧
      colOf nx (c + nx * r + nx * ny * b) = c ∧ rowOf nx ny (c + nx * r + nx * ny * b) = r ∧
      planeOf nx ny (c + nx * r + nx * ny * b) = b) := by
  have _ := hz
  constructor
  · intro i hi0 hi
    obtain ⟨hc0, hc1, hw0, hw1, hb0, hdec⟩ := coords_decomp nx ny i hx hy hi0
    exact ⟨⟨hc0, hc1, hw0, hw1, hb0, plane_lt nx ny nz i hx hy hi0 hi⟩, by linarith⟩
  · rintro c r b ⟨hc0, hc, hr0, hr, hb0, hb⟩
    simp only at hc0 hc hr0 hr hb0 hb
    have e : c + nx * r + nx * ny * b = nx * ny * b + nx * r + c := by ring
    rw [e]
    exact ⟨index_lt nx ny nz c r b hx hy hc0 hc hr0 hr hb0 hb,
      coords_of nx ny c r b hx hy hc0 hc hr0 hr hb0⟩

theorem index_coordinate_round_trip_witness :
    ((1 : Int) ≤ 2 ∧ (1 : Int) ≤ 3 ∧ (1 : Int) ≤ 4) ∧
    (∀ i, 0 ≤ i → i < (2 : Int) * 3 * 4 →
      inBox 2 3 4 (colOf 2 i, rowOf 2 3 i, planeOf 2 3 i) ∧
      colOf 2 i + 2 * rowOf 2 3 i + 2 * 3 * planeOf 2 3 i = i) ∧
    (∀ c r b, inBox 2 3 4 (c, r, b) →
      (0 ≤ c + 2 * r + 2 * 3 * b ∧ c + 2 * r + 2 * 3 * b < (2 : Int) * 3 * 4) ∧
      colOf 2 (c + 2 * r + 2 * 3 * b) = c ∧ rowOf 2 3 (c + 2 * r + 2 * 3 * b) = r ∧
      planeOf 2 3 (c + 2 * r + 2 * 3 * b) = b) :=
  ⟨⟨by decide, by decide, by decide⟩,
    index_coordinate_round_trip 2 3 4 (by decide) (by decide) (by decide)⟩

/-- The coordinates of the neighbour in a direction the boundary guard accepts are
one step away in that direction. -/
theorem neighbor_coords (nx ny nz p : Int) (hx : 1 ≤ nx) (hy : 1 ≤ ny)
    (hp0 : 0 ≤ p) (hp : p < nx * ny * nz) (i : Nat) (hi : i ∈ directions)
    (hg : good nx ny nz i (colOf nx p) (rowOf nx ny p) (planeOf nx ny p) = true) :
    (colOf nx (p + neighpoints nx ny i), rowOf nx ny (p + neighpoints nx ny i),
        planeOf nx ny (p + neighpoints nx ny i))
      = stepCoords i (colOf nx p) (rowOf nx ny p) (planeOf nx ny p) := by
  obtain ⟨hc0, hc1, hw0, hw1, hb0, hdec⟩ := coords_decomp nx ny p hx hy hp0
  have hbz := plane_lt nx ny nz p hx hy hp0 hp
  generalize colOf nx p = c at *
  generalize rowOf nx ny p = w at *
  generalize planeOf nx ny p = b at *
  simp only [directions, List.mem_cons, List.mem_singleton, List.not_mem_nil, or_false] at hi
  rcases hi with rfl | rfl | rfl | rfl | rfl | rfl
  · simp [good] at hg
    have e : p + neighpoints nx ny 0 = nx * ny * (b - 1) + nx * w + c := by
      simp only [neighpoints]; rw [hdec]; ring
    obtain ⟨k1, k2, k3⟩ := coords_of nx ny c w (b - 1) hx hy hc0 hc1 hw0 hw1 (by omega)
    rw [e, k1, k2, k3]; rfl
  · simp [good] at hg
    have e : p + neighpoints nx ny 1 = nx * ny * b + nx * (w - 1) + c := by
      simp only [neighpoints]; rw [hdec]; ring
    obtain ⟨k1, k2, k3⟩ := coords_of nx ny c (w - 1) b hx hy hc0 hc1 (by omega) (by omega) hb0
    rw [e, k1, k2, k3]; rfl
  · simp [good] at hg
    have e : p + neighpoints nx ny 2 = nx * ny * b + nx * w + (c - 1) := by
      simp only [neighpoints]; rw [hdec]; ring
    obtain ⟨k1, k2, k3⟩ := coords_of nx ny (c - 1) w b hx hy (by omega) (by omega) hw0 hw1 hb0
    rw [e, k1, k2, k3]; rfl
  · simp [good] at hg
    have e : p + neighpoints nx ny 3 = nx * ny * b + nx * w + (c + 1) := by
      simp only [neighpoints]; rw [hdec]; ring
    obtain ⟨k1, k2, k3⟩ := coords_of nx ny (c + 1) w b hx hy (by omega) (by omega) hw0 hw1 hb0
    rw [e, k1, k2, k3]; rfl
  · simp [good] at hg
    have e : p + neighpoints nx ny 4 = nx * ny * b + nx * (w + 1) + c := by
      simp only [neighpoints]; rw [hdec]; ring
    obtain ⟨k1, k2, k3⟩ := coords_of nx ny c (w + 1) b hx hy hc0 hc1 (by omega) (by omega) hb0
    rw [e, k1, k2, k3]; rfl
  · simp [good] at hg
    have e : p + neighpoints nx ny 5 = nx * ny * (b + 1) + nx * w + c := by
      simp only [neighpoints]; rw [hdec]; ring
    obtain ⟨k1, k2, k3⟩ := coords_of nx ny c w (b + 1) hx hy hc0 hc1 hw0 hw1 (by omega)
    rw [e, k1, k2, k3]; rfl

/-- The boundary guard accepts a direction exactly when the step in that direction
stays inside the grid. -/
theorem good_iff_inBox (nx ny nz c r b : Int) (hc0 : 0 ≤ c) (hc : c < nx) (hr0 : 0 ≤ r)
    (hr : r < ny) (hb0 : 0 ≤ b) (hb : b < nz) (i : Nat) (hi : i ∈ directions) :
    good nx ny nz i c r b = true ↔ inBox nx ny nz (stepCoords i c r b) := by
  simp only [directions, List.mem_cons, List.mem_singleton, List.not_mem_nil, or_false] at hi
  rcases hi with rfl | rfl | rfl | rfl | rfl | rfl <;>
    simp [good, inBox, stepCoords] <;> omega

theorem unit_step_cases (c w b c' w' b' : Int)
    (h : (c' - c).natAbs + (w' - w).natAbs + (b' - b).natAbs = 1) :
    (c' = c ∧ w' = w ∧ b' = b - 1) ∨ (c' = c ∧ w' = w - 1 ∧ b' = b) ∨
      (c' = c - 1 ∧ w' = w ∧ b' = b) ∨ (c' = c + 1 ∧ w' = w ∧ b' = b) ∨
      (c' = c ∧ w' = w + 1 ∧ b' = b) ∨ (c' = c ∧ w' = w ∧ b' = b + 1) := by
  have h1 := Int.natAbs_eq (c' - c)
  have h2 := Int.natAbs_eq (w' - w)
  have h3 := Int.natAbs_eq (b' - b)
  generalize (c' - c).natAbs = n1 at h h1
  generalize (w' - w).natAbs = n2 at h h2
  generalize (b' - b).natAbs = n3 at h h3
  have hn : (n1 = 1 ∧ n2 = 0 ∧ n3 = 0) ∨ (n1 = 0 ∧ n2 = 1 ∧ n3 = 0) ∨
      (n1 = 0 ∧ n2 = 0 ∧ n3 = 1) := by omega
  rcases hn with ⟨rfl, rfl, rfl⟩ | ⟨rfl, rfl, rfl⟩ | ⟨rfl, rfl, rfl⟩
  · rcases h1 with h1 | h1
    · exact Or.inr (Or.inr (Or.inr (Or.inl ⟨by omega, by omega, by omega⟩)))
    · exact Or.inr (Or.inr (Or.inl ⟨by omega, by omega, by omega⟩))
  · rcases h2 with h2 | h2
    · exact Or.inr (Or.inr (Or.inr (Or.inr (Or.inl ⟨by omega, by omega, by omega⟩))))
    · exact Or.inr (Or.inl ⟨by omega, by omega, by omega⟩)
  · rcases h3 with h3 | h3
    · exact Or.inr (Or.inr (Or.inr (Or.inr (Or.inr ⟨by omega, by omega, by omega⟩))))
    · exact Or.inl ⟨by omega, by omega, by omega⟩

/-- C14 (boundary-respecting neighbour enumeration).  On a grid with
`nx, ny, nz ≥ 1`, for a voxel index `p` of the grid: a direction the boundary guard
accepts leads to an index of the grid whose coordinates are one step away in that
direction, so they differ from those of `p` by exactly 1 in exactly one coordinate;
the guard accepts a direction exactly when that step stays inside the grid (a voxel
on a face has no neighbour across the face, nothing wraps around); and every voxel
of the grid whose coordinates differ from those of `p` by exactly 1 in exactly one
coordinate is `p + neighpoints[d]` for a direction `d` the guard accepts. -/
theorem neighbor_enumeration (nx ny nz : Int) (hx : 1 ≤ nx) (hy : 1 ≤ ny) (hz : 1 ≤ nz)
    (p : Int) (hp0 : 0 ≤ p) (hp : p < nx * ny * nz) :
    (∀ d ∈ directions,
      good nx ny nz d (colOf nx p) (rowOf nx ny p) (planeOf nx ny p) = true →
      (0 ≤ p + neighpoints nx ny d ∧ p + neighpoints nx ny d < nx * ny * nz) ∧
      (colOf nx (p + neighpoints nx ny d), rowOf nx ny (p + neighpoints nx ny d),
          planeOf nx ny (p + neighpoints nx ny d))
        = stepCoords d (colOf nx p) (rowOf nx ny p) (planeOf nx ny p) ∧
      (colOf nx (p + neighpoints nx ny d) - colOf nx p).natAbs
        + (rowOf nx ny (p + neighpoints nx ny d) - rowOf nx ny p).natAbs
        + (planeOf nx ny (p + neighpoints nx ny d) - planeOf nx ny p).natAbs = 1) ∧
    (∀ d ∈ directions,
      (good nx ny nz d (colOf nx p) (rowOf nx ny p) (planeOf nx ny p) = true ↔
        inBox nx ny nz (stepCoords d (colOf nx p) (rowOf nx ny p) (planeOf nx ny p)))) ∧
    (∀ q, 0 ≤ q → q < nx * ny * nz →
      (colOf nx q - colOf nx p).natAbs + (rowOf nx ny q - rowOf nx ny p).natAbs
        + (planeOf nx ny q - planeOf nx ny p).natAbs = 1 →
      ∃ d ∈ directions,
        good nx ny nz d (colOf nx p) (rowOf nx ny p) (planeOf nx ny p) = true ∧
        q = p + neighpoints nx ny d) := by
  have _ := hz
  obtain ⟨hc0, hc1, hw0, hw1, hb0, hdec⟩ := coords_decomp nx ny p hx hy hp0
  have hbz := plane_lt nx ny nz p hx hy hp0 hp
  refine ⟨?_, ?_, ?_⟩
  · intro d hd hg
    have hco := neighbor_coords nx ny nz p hx hy hp0 hp d hd hg
    refine ⟨neighbor_inGrid nx ny nz p hx hy hp0 hp d hd hg, hco, ?_⟩
    simp only [directions, List.mem_cons, List.mem_singleton, List.not_mem_nil, or_false] at hd
    rcases hd with rfl | rfl | rfl | rfl | rfl | rfl <;>
      · simp only [stepCoords, Prod.mk.injEq] at hco
        obtain ⟨e1, e2, e3⟩ := hco
        rw [e1, e2, e3]
        simp
  · intro d hd
    exact good_iff_inBox nx ny nz _ _ _ hc0 hc1 hw0 hw1 hb0 hbz d hd
  · intro q hq0 hq hdist
    obtain ⟨qc0, qc1, qw0, qw1, qb0, qdec⟩ := coords_decomp nx ny q hx hy hq0
    have qbz := plane_lt nx ny nz q hx hy hq0 hq
    generalize colOf nx p = c at *
    generalize rowOf nx ny p = w at *
    generalize planeOf nx ny p = b at *
    generalize colOf nx q = c' at *
    generalize rowOf nx ny q = w' at *
    generalize planeOf nx ny q = b' at *
    have hcases := unit_step_cases c w b c' w' b' hdist
    rcases hcases with h | h | h | h | h | h <;> obtain ⟨e1, e2, e3⟩ := h <;> subst e1 e2 e3
    · refine ⟨0, by simp [directions], by simp [good]; omega, ?_⟩
      rw [qdec, hdec]; simp only [neighpoints]; ring
    · refine ⟨1, by simp [directions], by simp [good]; omega, ?_⟩
      rw [qdec, hdec]; simp only [neighpoints]; ring
    · refine ⟨2, by simp [directions], by simp [good]; omega, ?_⟩
      rw [qdec, hdec]; simp only [neighpoints]; ring
    · refine ⟨3, by simp [directions], by simp [good]; omega, ?_⟩
      rw [qdec, hdec]; simp only [neighpoints]; ring
    · refine ⟨4, by simp [directions], by simp [good]; omega, ?_⟩
      rw [qdec, hdec]; simp only [neighpoints]; ring
    · refine ⟨5, by simp [directions], by simp [good]; omega, ?_⟩
      rw [qdec, hdec]; simp only [neighpoints]; ring

theorem neighbor_enumeration_witness :
    ((1 : Int) ≤ 2 ∧ (1 : Int) ≤ 3 ∧ (1 : Int) ≤ 4 ∧ (0 : Int) ≤ 7 ∧ (7 : Int) < 2 * 3 * 4) ∧
    (∀ d ∈ directions,
      good 2 3 4 d (colOf 2 7) (rowOf 2 3 7) (planeOf 2 3 7) = true →
      (0 ≤ 7 + neighpoints 2 3 d ∧ 7 + neighpoints 2 3 d < 2 * 3 * 4) ∧
      (colOf 2 (7 + neighpoints 2 3 d), rowOf 2 3 (7 + neighpoints 2 3 d),
          planeOf 2 3 (7 + neighpoints 2 3 d))
        = stepCoords d (colOf 2 7) (rowOf 2 3 7) (planeOf 2 3 7) ∧
      (colOf 2 (7 + neighpoints 2 3 d) - colOf 2 7).natAbs
        + (rowOf 2 3 (7 + neighpoints 2 3 d) - rowOf 2 3 7).natAbs
        + (planeOf 2 3 (7 + neighpoints 2 3 d) - planeOf 2 3 7).natAbs = 1) ∧
    (∀ d ∈ directions,
      (good 2 3 4 d (colOf 2 7) (rowOf 2 3 7) (planeOf 2 3 7) = true ↔
        inBox 2 3 4 (stepCoords d (colOf 2 7) (rowOf 2 3 7) (planeOf 2 3 7)))) ∧
    (∀ q, 0 ≤ q → q < (2 : Int) * 3 * 4 →
      (colOf 2 q - colOf 2 7).natAbs + (rowOf 2 3 q - rowOf 2 3 7).natAbs
        + (planeOf 2 3 q - planeOf 2 3 7).natAbs = 1 →
      ∃ d ∈ directions,
        good 2 3 4 d (colOf 2 7) (rowOf 2 3 7) (planeOf 2 3 7) = true ∧
        q = 7 + neighpoints 2 3 d) :=
  ⟨⟨by decide, by decide, by decide, by decide, by decide⟩,
    neighbor_enumeration 2 3 4 (by decide) (by decide) (by decide) 7 (by decide) (by decide)⟩

/-! ### `form_grains` -/

namespace SegmentGrains

theorem mem_unassigned {total : Int} {phases gi : Int → Int} {v : Int} :
    v ∈ unassigned total phases gi ↔ (0 ≤ v ∧ v < total) ∧ gi v = -1 ∧ phases v > 0 := by
  simp [unassigned]

theorem set_append_replicate (used : List Int) (k : Nat) (x : Int) :
    (used ++ List.replicate (k + 1) (-1)).set used.length x
      = (used ++ [x]) ++ List.replicate k (-1) := by
  induction used with
  | nil => simp [List.replicate_succ]
  | cons a t ih => simpa using ih

theorem GrowInv.size_le {total : Int} {phases gi0 : Int → Int} {c : Nat} {seed : Int} {s : GrowState}
    (h : GrowInv total phases gi0 c seed s) : s.size ≤ (unassigned total phases gi0).card := by
  obtain ⟨used, k, _, hlen, hnd, _, hsub, _⟩ := h
  rw [← hlen, ← List.toFinset_card_of_nodup hnd]
  apply Finset.card_le_card
  intro v hv
  exact hsub v (List.mem_toFinset.mp hv)

theorem initialVoxelsListSize_pos : 0 < initialVoxelsListSize := by decide

theorem resize_full (l : List Int) (n : Nat) (h : l.length ≤ n) :
    resize l n (-1) = l ++ List.replicate (n - l.length) (-1) := by
  unfold resize
  rw [List.take_of_length_le h]

/-- Adding the neighbour `nb` (the body of `if (w < m_misorientationtolerance)`)
keeps the growth invariant. -/
theorem joinGrain_inv (total : Int) (phases gi0 : Int → Int) (c : Nat) (seed : Int) (hc : 1 ≤ c)
    (s : GrowState) (h : GrowInv total phases gi0 c seed s) (nb : Int)
    (hin : 0 ≤ nb ∧ nb < total) (hun : s.grain_indicies nb = -1) (hph : phases nb > 0) :
    GrowInv total phases gi0 c seed (joinGrain c nb s) := by
  unfold joinGrain
  simp only
  obtain ⟨used, k, hvl, hlen, hnd, hhd, hsub, hgi⟩ := h
  have hnot : nb ∉ used := by
    intro hmem
    have := hgi nb
    rw [if_pos hmem, hun] at this
    omega
  have hgi0 : gi0 nb = -1 := by
    have := hgi nb
    rw [if_neg hnot, hun] at this
    exact this.symm
  have hs : s.voxelslist.set s.size nb = (used ++ [nb]) ++ List.replicate k (-1) := by
    rw [hvl, ← hlen]; exact set_append_replicate used k nb
  have hnd' : (used ++ [nb]).Nodup :=
    List.Nodup.append hnd (List.nodup_singleton nb) (by simpa using hnot)
  have hsub' : ∀ v ∈ used ++ [nb], v ∈ unassigned total phases gi0 := by
    intro v hv
    rcases List.mem_append.mp hv with hv | hv
    · exact hsub v hv
    · rw [List.mem_singleton.mp hv]
      exact mem_unassigned.mpr ⟨hin, hgi0, hph⟩
  have hgi' : ∀ v, Function.update s.grain_indicies nb (c : Int) v
      = if v ∈ used ++ [nb] then (c : Int) else gi0 v := by
    intro v
    by_cases hv : v = nb
    · subst hv; simp
    · simp [Function.update_noteq hv, hgi v, hv]
  have hhd' : (used ++ [nb]).head? = some seed := by
    cases used with
    | nil => simp at hhd
    | cons a t => simpa using hhd
  have hpos := initialVoxelsListSize_pos
  rw [hs]
  cases k with
  | zero =>
    refine ⟨used ++ [nb], initialVoxelsListSize - 1, ?_, by simp [hlen], hnd', hhd', hsub', hgi'⟩
    have hl : (used ++ [nb] ++ List.replicate 0 (-1)).length = s.size + 1 := by simp [hlen]
    simp only [hl, ge_iff_le, le_refl, if_true]
    rw [resize_full _ _ (by omega), hl]
    have e : s.size + 1 + initialVoxelsListSize - (s.size + 1) = initialVoxelsListSize - 1 + 1 := by
      omega
    rw [e]
    simp
  | succ k' =>
    refine ⟨used ++ [nb], k', ?_, by simp [hlen], hnd', hhd', hsub', hgi'⟩
    have hl : (used ++ [nb] ++ List.replicate (k' + 1) (-1)).length = s.size + 1 + (k' + 1) := by
      simp [hlen]; omega
    simp only [hl]
    rw [if_neg (by omega)]

/-- One direction of the neighbour loop keeps the growth invariant and never
shrinks the work list. -/
theorem visit_inv (ops : OrientationOps) (tol : ℚ) (dc : DataContainer) (c : Nat)
    (gi0 : Int → Int) (seed : Int) (hc : 1 ≤ c) (hx : 1 ≤ dc.xpoints) (hy : 1 ≤ dc.ypoints)
    (htot : dc.totalpoints = dc.xpoints * dc.ypoints * dc.zpoints)
    (cp : Int) (hcp0 : 0 ≤ cp) (hcp : cp < dc.totalpoints) (i : Nat) (hi : i ∈ directions)
    (s : GrowState) (h : GrowInv dc.totalpoints dc.phases gi0 c seed s) :
    GrowInv dc.totalpoints dc.phases gi0 c seed (visit ops tol dc c cp s i)
      ∧ s.size ≤ (visit ops tol dc c cp s i).size := by
  unfold visit
  simp only
  by_cases h1 : good dc.xpoints dc.ypoints dc.zpoints i (colOf dc.xpoints cp)
      (rowOf dc.xpoints dc.ypoints cp) (planeOf dc.xpoints dc.ypoints cp) = true
      ∧ s.grain_indicies (cp + neighpoints dc.xpoints dc.ypoints i) = -1
      ∧ dc.phases (cp + neighpoints dc.xpoints dc.ypoints i) > 0
  · rw [if_pos h1]
    obtain ⟨hg, hun, hph⟩ := h1
    have hin := neighbor_inGrid dc.xpoints dc.ypoints dc.zpoints cp hx hy hcp0 (htot ▸ hcp) i hi hg
    rw [← htot] at hin
    split_ifs <;>
      first
      | exact ⟨joinGrain_inv _ _ _ c seed hc s h _ hin hun hph, by simp [joinGrain]⟩
      | exact ⟨h, le_refl _⟩
  · rw [if_neg h1]
    exact ⟨h, le_refl _⟩

theorem foldl_visit_inv (ops : OrientationOps) (tol : ℚ) (dc : DataContainer) (c : Nat)
    (gi0 : Int → Int) (seed : Int) (hc : 1 ≤ c) (hx : 1 ≤ dc.xpoints) (hy : 1 ≤ dc.ypoints)
    (htot : dc.totalpoints = dc.xpoints * dc.ypoints * dc.zpoints)
    (cp : Int) (hcp0 : 0 ≤ cp) (hcp : cp < dc.totalpoints) (l : List Nat)
    (hl : ∀ i ∈ l, i ∈ directions) (s : GrowState)
    (h : GrowInv dc.totalpoints dc.phases gi0 c seed s) :
    GrowInv dc.totalpoints dc.phases gi0 c seed (l.foldl (visit ops tol dc c cp) s)
      ∧ s.size ≤ (l.foldl (visit ops tol dc c cp) s).size := by
  induction l generalizing s with
  | nil => exact ⟨h, le_refl _⟩
  | cons i t ih =>
    have h1 := visit_inv ops tol dc c gi0 seed hc hx hy htot cp hcp0 hcp i (hl i (by simp)) s h
    have h2 := ih (fun k hk => hl k (by simp [hk])) _ h1.1
    exact ⟨h2.1, le_trans h1.2 h2.2⟩

/-- The growth loop returns, given fuel beyond the number of unassigned voxels,
and keeps the growth invariant. -/
theorem grow_inv (ops : OrientationOps) (tol : ℚ) (dc : DataContainer) (c : Nat)
    (gi0 : Int → Int) (seed : Int) (hc : 1 ≤ c) (hx : 1 ≤ dc.xpoints) (hy : 1 ≤ dc.ypoints)
    (htot : dc.totalpoints = dc.xpoints * dc.ypoints * dc.zpoints)
    (fuel : Nat) (s : GrowState) (j : Nat)
    (h : GrowInv dc.totalpoints dc.phases gi0 c seed s) (hj : j ≤ s.size)
    (hf : (unassigned dc.totalpoints dc.phases gi0).card + 1 ≤ fuel + j) :
    ∃ s', grow ops tol dc c fuel s j = some s' ∧ GrowInv dc.totalpoints dc.phases gi0 c seed s' := by
  induction fuel generalizing s j with
  | zero =>
    have := h.size_le
    omega
  | succ fuel ih =>
    unfold grow
    by_cases hlt : j < s.size
    · rw [if_pos hlt]
      simp only
      obtain ⟨used, k, hvl, hlen, hnd, hhd, hsub, hgi⟩ := h
      have hju : j < used.length := by omega
      have hcp : s.voxelslist.getD j 0 ∈ used := by
        rw [hvl, List.getD_append _ _ _ _ hju, List.getD_eq_getElem _ _ hju]
        exact List.getElem_mem hju
      have hgrid := (mem_unassigned.mp (hsub _ hcp)).1
      have hfold := foldl_visit_inv ops tol dc c gi0 seed hc hx hy htot (s.voxelslist.getD j 0)
        hgrid.1 hgrid.2 directions (fun i hi => hi) s ⟨used, k, hvl, hlen, hnd, hhd, hsub, hgi⟩
      exact ih _ (j + 1) hfold.1 (by omega) (by omega)
    · rw [if_neg hlt]
      exact ⟨s, rfl, h⟩

/-- After the growth, erasing the `-1` entries leaves exactly the collected voxels. -/
theorem GrowInv.erase {total : Int} {phases gi0 : Int → Int} {c : Nat} {seed : Int} {s : GrowState}
    (h : GrowInv total phases gi0 c seed s) :
    (eraseMinusOne s.voxelslist).Nodup ∧ (eraseMinusOne s.voxelslist).head? = some seed ∧
      (∀ v ∈ eraseMinusOne s.voxelslist, v ∈ unassigned total phases gi0) ∧
      (∀ v, s.grain_indicies v = if v ∈ eraseMinusOne s.voxelslist then (c : Int) else gi0 v) := by
  obtain ⟨used, k, hvl, hlen, hnd, hhd, hsub, hgi⟩ := h
  have he : eraseMinusOne s.voxelslist = used := by
    unfold eraseMinusOne
    rw [hvl, List.filter_append, List.filter_replicate]
    simp only [bne_self_eq_false, Bool.false_eq_true, if_false, List.append_nil]
    rw [List.filter_eq_self]
    intro a ha
    have := (mem_unassigned.mp (hsub a ha)).1.1
    simp only [bne_iff_ne, ne_eq]
    omega
  rw [he]
  exact ⟨hnd, hhd, hsub, hgi⟩

/-! The seed search. -/

theorem truncToInt_bounds (x : ℚ) (n : Int) (h0 : 0 ≤ x) (h1 : x ≤ n) :
    0 ≤ truncToInt x ∧ truncToInt x ≤ n := by
  unfold truncToInt
  rw [Int.tdiv_eq_ediv (Rat.num_nonneg.mpr h0) (by exact_mod_cast Nat.zero_le _), ← Rat.floor_def]
  refine ⟨Int.floor_nonneg.mpr h0, Int.floor_le_iff.mpr ?_⟩
  linarith

theorem findSeed_some (dc : DataContainer) (k : Nat) (rp : Int) (h0 : 0 ≤ rp)
    (h1 : rp ≤ dc.totalpoints) (hT : 1 ≤ dc.totalpoints) (h : findSeed dc k rp ≠ -1) :
    (0 ≤ findSeed dc k rp ∧ findSeed dc k rp < dc.totalpoints) ∧
      dc.grain_indicies (findSeed dc k rp) = -1 ∧ dc.phases (findSeed dc k rp) > 0 := by
  induction k generalizing rp with
  | zero => simp [findSeed] at h
  | succ k ih =>
    unfold findSeed at h ⊢
    simp only at h ⊢
    split_ifs at h ⊢ with ha hb hb
    · exact ⟨⟨by omega, by omega⟩, hb⟩
    · exact ih _ (by omega) (by omega) h
    · exact ⟨⟨by omega, by omega⟩, hb⟩
    · exact ih _ (by omega) (by omega) h

theorem findSeed_none (dc : DataContainer) (k : Nat) (rp : Int) (h0 : 0 ≤ rp)
    (h1 : rp ≤ dc.totalpoints) (h : findSeed dc k rp = -1) (v : Int) (hv0 : 0 ≤ v)
    (hv : v < dc.totalpoints)
    (hr : (rp ≤ v ∧ v < rp + k) ∨ (rp ≤ v + dc.totalpoints ∧ v + dc.totalpoints < rp + k)) :
    ¬ (dc.grain_indicies v = -1 ∧ dc.phases v > 0) := by
  induction k generalizing rp with
  | zero => omega
  | succ k ih =>
    unfold findSeed at h
    simp only at h
    split_ifs at h with ha hb hb
    · omega
    · have hrp : rp = dc.totalpoints := by omega
      subst hrp
      simp only [sub_self] at hb h
      by_cases hv1 : v = 0
      · subst hv1; exact hb
      · exact ih _ (by omega) (by omega) h (Or.inl ⟨by omega, by push_cast at hr ⊢; omega⟩)
    · omega
    · by_cases hv1 : v = rp
      · subst hv1; exact hb
      · refine ih _ (by omega) (by omega) h ?_
        push_cast at hr
        rcases hr with hr | hr
        · exact Or.inl ⟨by omega, by omega⟩
        · exact Or.inr ⟨by omega, by omega⟩

/-! Storing a grain and the outer loop. -/

theorem storeGrain_fields (dc : DataContainer) (c : Nat) (seed : Int) (l : List Int)
    (gi : Int → Int) :
    (storeGrain dc c seed l gi).xpoints = dc.xpoints ∧
    (storeGrain dc c seed l gi).ypoints = dc.ypoints ∧
    (storeGrain dc c seed l gi).zpoints = dc.zpoints ∧
    (storeGrain dc c seed l gi).totalpoints = dc.totalpoints ∧
    (storeGrain dc c seed l gi).phases = dc.phases ∧
    (storeGrain dc c seed l gi).grain_indicies = gi := by
  unfold storeGrain
  simp only
  split <;> simp

theorem storeGrain_grains (dc : DataContainer) (c : Nat) (seed : Int) (l : List Int)
    (gi : Int → Int) :
    (c < dc.numGrains → c + 1 < (storeGrain dc c seed l gi).numGrains) ∧
    (c < dc.numGrains → ((storeGrain dc c seed l gi).m_Grains c).voxellist = some l) ∧
    (c < dc.numGrains → ∀ g, g < c → (storeGrain dc c seed l gi).m_Grains g = dc.m_Grains g) := by
  unfold storeGrain
  simp only
  split
  next h =>
    refine ⟨fun hc => by simp; omega, fun hc => ?_, fun hc => ?_⟩
    · simp only
      rw [if_neg (by omega)]
      simp
    · intro g hg
      simp only
      rw [if_neg (by omega), Function.update_noteq (by omega)]
  next h =>
    refine ⟨fun hc => by simp; omega, fun hc => by simp, fun hc => ?_⟩
    intro g hg
    simp only
    rw [Function.update_noteq (by omega)]

/-- Storing a grown grain re-establishes the invariant of the outer loop for the
next grain number, and the set of unassigned voxels has shrunk. -/
theorem storeGrain_inv (dc0 dc : DataContainer) (c : Nat) (hinv : FormInv dc0 dc c)
    (seed : Int) (l : List Int) (gi : Int → Int) (hnd : l.Nodup)
    (hsub : ∀ v ∈ l, v ∈ unassigned dc.totalpoints dc.phases dc.grain_indicies)
    (hgi : ∀ v, gi v = if v ∈ l then (c : Int) else dc.grain_indicies v) (hseed : seed ∈ l) :
    FormInv dc0 (storeGrain dc c seed l gi) (c + 1) ∧
      (unassigned dc.totalpoints dc.phases gi).card
        < (unassigned dc.totalpoints dc.phases dc.grain_indicies).card := by
  obtain ⟨e1, e2, e3, e4, e5, e6⟩ := storeGrain_fields dc c seed l gi
  obtain ⟨g1, g2, g3⟩ := storeGrain_grains dc c seed l gi
  have hcpos := hinv.cpos
  constructor
  · refine ⟨e1.trans hinv.xp, e2.trans hinv.yp, e3.trans hinv.zp, e4.trans hinv.total,
      e5.trans hinv.phases, by omega, ?_, ?_, ?_⟩
    · intro v hv0 hv
      rw [e4] at hv
      rw [e6, hgi v]
      split_ifs with hm
      · right; constructor <;> push_cast <;> omega
      · rcases hinv.ids v hv0 hv with h | h
        · left; exact h
        · right; constructor <;> push_cast <;> omega
    · intro v hv
      rw [e5] at hv
      rw [e6, hgi v, if_neg, hinv.outPhase v hv]
      intro hm
      exact hv (mem_unassigned.mp (hsub v hm)).2.2
    · intro h2
      obtain ⟨hcn, hlists⟩ := hinv.grains h2
      refine ⟨g1 hcn, ?_⟩
      intro g hg1 hg
      rw [e4, e6]
      by_cases hgc : g = c
      · subst hgc
        refine ⟨l, g2 hcn, hnd, ?_⟩
        intro v
        constructor
        · intro hm
          have := mem_unassigned.mp (hsub v hm)
          exact ⟨this.1.1, this.1.2, by rw [hgi v, if_pos hm]⟩
        · rintro ⟨hv0, hv, hg⟩
          by_contra hm
          rw [hgi v, if_neg hm] at hg
          rcases hinv.ids v hv0 hv with h | h <;> omega
      · have hlt : g < c := by omega
        obtain ⟨l', hl1, hl2, hl3⟩ := hlists g hg1 hlt
        refine ⟨l', by rw [g3 hcn g hlt]; exact hl1, hl2, ?_⟩
        intro v
        rw [hl3 v, hgi v]
        constructor
        · rintro ⟨hv0, hv, hg⟩
          refine ⟨hv0, hv, ?_⟩
          rw [if_neg]
          · exact hg
          · intro hm
            have := (mem_unassigned.mp (hsub v hm)).2.1
            omega
        · rintro ⟨hv0, hv, hg⟩
          refine ⟨hv0, hv, ?_⟩
          split_ifs at hg with hm
          · have : (g : Int) = c := hg.symm
            omega
          · exact hg
  · apply Finset.card_lt_card
    rw [Finset.ssubset_iff_of_subset]
    · refine ⟨seed, hsub seed hseed, ?_⟩
      intro hmem
      have := (mem_unassigned.mp hmem).2.1
      rw [hgi seed, if_pos hseed] at this
      omega
    · intro v hv
      have hv' := mem_unassigned.mp hv
      refine mem_unassigned.mpr ⟨hv'.1, ?_, hv'.2.2⟩
      have := hv'.2.1
      rw [hgi v] at this
      split_ifs at this with hm
      exact this

theorem two_le_initialVoxelsListSize : 2 ≤ initialVoxelsListSize := by decide

/-- The state the growth starts from (the seed alone in the work list) satisfies
the growth invariant. -/
theorem seed_inv (total : Int) (phases gi0 : Int → Int) (c : Nat) (seed : Int)
    (hseed : seed ∈ unassigned total phases gi0) :
    GrowInv total phases gi0 c seed
      { grain_indicies := Function.update gi0 seed c
        voxelslist := (List.replicate initialVoxelsListSize (-1)).set 0 seed
        size := 1 } := by
  have h2 := two_le_initialVoxelsListSize
  refine ⟨[seed], initialVoxelsListSize - 2, ?_, rfl, List.nodup_singleton _, rfl, ?_, ?_⟩
  · have e : initialVoxelsListSize = (initialVoxelsListSize - 2 + 1) + 1 := by omega
    have := set_append_replicate [] (initialVoxelsListSize - 2 + 1) seed
    simp only [List.nil_append, List.length_nil] at this
    simp only
    rw [← this, ← e]
  · intro v hv
    rw [List.mem_singleton.mp hv]
    exact hseed
  · intro v
    by_cases hv : v = seed
    · subst hv; simp
    · simp [Function.update_noteq hv, hv]

/-- The outer loop of `form_grains` returns, given fuel beyond the number of
unassigned in-phase voxels; the loop invariant holds on exit and no unassigned
in-phase voxel is left. -/
theorem formLoop_spec (ops : OrientationOps) (tol : ℚ) (rg : Nat → UnitValue)
    (dc0 : DataContainer)
    (hx : 1 ≤ dc0.xpoints) (hy : 1 ≤ dc0.ypoints) (hz : 1 ≤ dc0.zpoints)
    (htot : dc0.totalpoints = dc0.xpoints * dc0.ypoints * dc0.zpoints)
    (fuel : Nat) (dc : DataContainer) (c d : Nat) (hinv : FormInv dc0 dc c)
    (hf : (unassigned dc.totalpoints dc.phases dc.grain_indicies).card + 1 ≤ fuel) :
    ∃ dc' c', formLoop ops tol rg fuel dc c d = some (dc', c') ∧ FormInv dc0 dc' c' ∧
      unassigned dc'.totalpoints dc'.phases dc'.grain_indicies = ∅ := by
  induction fuel generalizing dc c d with
  | zero => omega
  | succ fuel ih =>
    have hT : 1 ≤ dc.totalpoints := by
      rw [hinv.total, htot]
      exact one_le_mul_of_one_le_of_one_le (one_le_mul_of_one_le_of_one_le hx hy) hz
    have hrp := truncToInt_bounds ((rg d).val * ((dc.totalpoints - 1 : Int) : ℚ))
      (dc.totalpoints - 1)
      (mul_nonneg (rg d).nonneg (by exact_mod_cast (by omega : (0:Int) ≤ dc.totalpoints - 1)))
      (by
        have h1 : (0:ℚ) ≤ ((dc.totalpoints - 1 : Int) : ℚ) := by
          exact_mod_cast (by omega : (0:Int) ≤ dc.totalpoints - 1)
        nlinarith [(rg d).le_one])
    unfold formLoop
    simp only
    generalize truncToInt ((rg d).val * ((dc.totalpoints - 1 : Int) : ℚ)) = rp at hrp ⊢
    by_cases hs : findSeed dc dc.totalpoints.toNat rp = -1
    · rw [if_pos hs]
      refine ⟨dc, c, rfl, hinv, ?_⟩
      rw [Finset.eq_empty_iff_forall_not_mem]
      intro v hv
      have hv' := mem_unassigned.mp hv
      have hcast : ((dc.totalpoints.toNat : Nat) : Int) = dc.totalpoints :=
        Int.toNat_of_nonneg (by omega)
      refine findSeed_none dc _ rp hrp.1 (by omega) hs v hv'.1.1 hv'.1.2 ?_ hv'.2
      rw [hcast]
      by_cases h : rp ≤ v
      · exact Or.inl ⟨h, by omega⟩
      · exact Or.inr ⟨by omega, by omega⟩
    · rw [if_neg hs]
      have hsome := findSeed_some dc dc.totalpoints.toNat rp hrp.1 (by omega) hT hs
      generalize findSeed dc dc.totalpoints.toNat rp = seed at hs hsome ⊢
      rw [if_pos (show seed ≥ 0 from hsome.1.1)]
      have hmem : seed ∈ unassigned dc.totalpoints dc.phases dc.grain_indicies :=
        mem_unassigned.mpr hsome
      have hdx : 1 ≤ dc.xpoints := by rw [hinv.xp]; exact hx
      have hdy : 1 ≤ dc.ypoints := by rw [hinv.yp]; exact hy
      have hdt : dc.totalpoints = dc.xpoints * dc.ypoints * dc.zpoints := by
        rw [hinv.total, hinv.xp, hinv.yp, hinv.zp]; exact htot
      obtain ⟨s', hgrow, hs'⟩ := grow_inv ops tol dc c dc.grain_indicies seed hinv.cpos hdx hdy hdt
        (fuel + 1) _ 0 (seed_inv dc.totalpoints dc.phases dc.grain_indicies c seed hmem)
        (Nat.zero_le _) (by omega)
      rw [hgrow]
      simp only
      obtain ⟨hnd, hhd, hsub, hgi⟩ := hs'.erase
      have hseedin : seed ∈ eraseMinusOne s'.voxelslist := List.mem_of_mem_head? hhd
      obtain ⟨hI, hcard⟩ := storeGrain_inv dc0 dc c hinv seed _ _ hnd hsub hgi hseedin
      obtain ⟨e1, e2, e3, e4, e5, e6⟩ := storeGrain_fields dc c seed
        (eraseMinusOne s'.voxelslist) s'.grain_indicies
      apply ih _ (c + 1) (d + 1) hI
      rw [e4, e5, e6]
      omega

/-- The invariant of the outer loop holds on entry when every voxel of the grid is
unassigned. -/
theorem formInv_init (dc : DataContainer)
    (hun : ∀ v, 0 ≤ v → v < dc.totalpoints → dc.grain_indicies v = -1) : FormInv dc dc 1 :=
  ⟨rfl, rfl, rfl, rfl, rfl, le_refl _, fun v h0 h1 => Or.inl (hun v h0 h1), fun _ _ => rfl,
    fun h2 => ⟨by omega, fun g h1 hg => by omega⟩⟩

theorem unassigned_card_le (total : Int) (phases gi : Int → Int) :
    (unassigned total phases gi).card ≤ total.toNat := by
  unfold unassigned
  refine le_trans (Finset.card_filter_le _ _) ?_
  simp

/-- C1 (partition completeness of `form_grains`).  On a grid with
`xpoints, ypoints, zpoints ≥ 1` whose voxels are all unassigned (`-1`) on entry,
`form_grains` returns for every fuel above the number of voxels; on return every
voxel with `phases > 0` holds a grain number `≥ 1`, and every voxel whose phase is
not positive (phase `0` in particular) still holds its entry value `-1`. -/
theorem form_grains_partition (ops : OrientationOps) (tol : ℚ) (rg : Nat → UnitValue)
    (dc : DataContainer) (hx : 1 ≤ dc.xpoints) (hy : 1 ≤ dc.ypoints) (hz : 1 ≤ dc.zpoints)
    (htot : dc.totalpoints = dc.xpoints * dc.ypoints * dc.zpoints)
    (hun : ∀ v, 0 ≤ v → v < dc.totalpoints → dc.grain_indicies v = -1)
    (fuel : Nat) (hfuel : dc.totalpoints.toNat + 1 ≤ fuel) :
    ∃ dc', form_grains ops tol rg fuel dc = some dc' ∧
      ∀ v, 0 ≤ v → v < dc.totalpoints →
        (dc.phases v > 0 → 1 ≤ dc'.grain_indicies v) ∧
        (¬ dc.phases v > 0 → dc'.grain_indicies v = -1 ∧
          dc'.grain_indicies v = dc.grain_indicies v) := by
  obtain ⟨dc', c', hrun, hinv, hempty⟩ := formLoop_spec ops tol rg dc hx hy hz htot fuel dc 1 0
    (formInv_init dc hun) (by have := unassigned_card_le dc.totalpoints dc.phases dc.grain_indicies; omega)
  refine ⟨dc', by simp [form_grains, hrun], ?_⟩
  intro v hv0 hv
  constructor
  · intro hph
    rcases hinv.ids v hv0 (by rw [hinv.total]; exact hv) with h | h
    · exfalso
      have : v ∈ unassigned dc'.totalpoints dc'.phases dc'.grain_indicies :=
        mem_unassigned.mpr ⟨⟨hv0, by rw [hinv.total]; exact hv⟩, h, by rw [hinv.phases]; exact hph⟩
      rw [hempty] at this
      exact absurd this (Finset.not_mem_empty v)
    · exact h.1
  · intro hph
    have := hinv.outPhase v (by rw [hinv.phases]; exact hph)
    exact ⟨by rw [this]; exact hun v hv0 hv, this⟩

theorem form_grains_partition_witness :
    (1 ≤ Examples.grid.xpoints ∧ 1 ≤ Examples.grid.ypoints ∧ 1 ≤ Examples.grid.zpoints ∧
      Examples.grid.totalpoints
        = Examples.grid.xpoints * Examples.grid.ypoints * Examples.grid.zpoints ∧
      (∀ v, 0 ≤ v → v < Examples.grid.totalpoints → Examples.grid.grain_indicies v = -1) ∧
      Examples.grid.totalpoints.toNat + 1 ≤ 10) ∧
    ∃ dc', form_grains Examples.ops 5 Examples.rg 10 Examples.grid = some dc' ∧
      ∀ v, 0 ≤ v → v < Examples.grid.totalpoints →
        (Examples.grid.phases v > 0 → 1 ≤ dc'.grain_indicies v) ∧
        (¬ Examples.grid.phases v > 0 → dc'.grain_indicies v = -1 ∧
          dc'.grain_indicies v = Examples.grid.grain_indicies v) :=
  ⟨⟨by decide, by decide, by decide, by decide, fun _ _ _ => rfl, by decide⟩,
    form_grains_partition Examples.ops 5 Examples.rg Examples.grid (by decide) (by decide)
      (by decide) (by decide) (fun _ _ _ => rfl) 10 (by decide)⟩

/-- C2 (no double assignment in `form_grains`).  On a grid with all voxels unassigned
on entry and a grain table of at least two entries, `form_grains` returns with a
final grain counter `c'`; every voxel holds `-1` or a grain number in `1 .. c' - 1`,
and for every such grain number `g` the stored voxel list has no repeated entry,
holds exactly the voxels of the grid whose grain number is `g` (so it has no `-1`
entry and its length is the number of voxels with number `g`), and shares no entry
with the voxel list of another grain. -/
theorem form_grains_voxellists (ops : OrientationOps) (tol : ℚ) (rg : Nat → UnitValue)
    (dc : DataContainer) (hx : 1 ≤ dc.xpoints) (hy : 1 ≤ dc.ypoints) (hz : 1 ≤ dc.zpoints)
    (htot : dc.totalpoints = dc.xpoints * dc.ypoints * dc.zpoints)
    (hun : ∀ v, 0 ≤ v → v < dc.totalpoints → dc.grain_indicies v = -1)
    (hgr : 2 ≤ dc.numGrains)
    (fuel : Nat) (hfuel : dc.totalpoints.toNat + 1 ≤ fuel) :
    ∃ dc' c', formLoop ops tol rg fuel dc 1 0 = some (dc', c') ∧
      form_grains ops tol rg fuel dc = some dc' ∧
      (∀ v, 0 ≤ v → v < dc.totalpoints →
        dc'.grain_indicies v = -1 ∨ (1 ≤ dc'.grain_indicies v ∧ dc'.grain_indicies v < c')) ∧
      ∀ g : Nat, 1 ≤ g → g < c' →
        ∃ l, (dc'.m_Grains g).voxellist = some l ∧ l.Nodup ∧
          (∀ v, v ∈ l ↔ (0 ≤ v ∧ v < dc.totalpoints ∧ dc'.grain_indicies v = g)) ∧
          (-1) ∉ l ∧
          l.length = ((Finset.Ico 0 dc.totalpoints).filter
            (fun v => dc'.grain_indicies v = g)).card ∧
          ∀ g' : Nat, g' ≠ g → ∀ l', (dc'.m_Grains g').voxellist = some l' →
            1 ≤ g' → g' < c' → ∀ v, v ∈ l → v ∉ l' := by
  obtain ⟨dc', c', hrun, hinv, hempty⟩ := formLoop_spec ops tol rg dc hx hy hz htot fuel dc 1 0
    (formInv_init dc hun) (by have := unassigned_card_le dc.totalpoints dc.phases dc.grain_indicies; omega)
  obtain ⟨hcn, hlists⟩ := hinv.grains hgr
  refine ⟨dc', c', hrun, by simp [form_grains, hrun], ?_, ?_⟩
  · intro v hv0 hv
    exact hinv.ids v hv0 (by rw [hinv.total]; exact hv)
  · intro g hg1 hg
    obtain ⟨l, hl1, hl2, hl3⟩ := hlists g hg1 hg
    rw [hinv.total] at hl3
    refine ⟨l, hl1, hl2, hl3, ?_, ?_, ?_⟩
    · intro hm
      have := (hl3 (-1)).mp hm
      omega
    · rw [← List.toFinset_card_of_nodup hl2]
      congr 1
      ext v
      simp only [List.mem_toFinset, Finset.mem_filter, Finset.mem_Ico, hl3 v]
      tauto
    · intro g' hne l' hl' hg1' hg' v hv hv'
      obtain ⟨l2, hl21, _, hl23⟩ := hlists g' hg1' hg'
      rw [hinv.total] at hl23
      rw [hl'] at hl21
      cases hl21
      have h1 := ((hl3 v).mp hv).2.2
      have h2 := ((hl23 v).mp hv').2.2
      rw [h1] at h2
      exact hne (by exact_mod_cast h2.symm)

theorem form_grains_voxellists_witness :
    (1 ≤ Examples.grid.xpoints ∧ 1 ≤ Examples.grid.ypoints ∧ 1 ≤ Examples.grid.zpoints ∧
      Examples.grid.totalpoints
        = Examples.grid.xpoints * Examples.grid.ypoints * Examples.grid.zpoints ∧
      (∀ v, 0 ≤ v → v < Examples.grid.totalpoints → Examples.grid.grain_indicies v = -1) ∧
      2 ≤ Examples.grid.numGrains ∧ Examples.grid.totalpoints.toNat + 1 ≤ 10) ∧
    ∃ dc' c', formLoop Examples.ops 5 Examples.rg 10 Examples.grid 1 0 = some (dc', c') ∧
      form_grains Examples.ops 5 Examples.rg 10 Examples.grid = some dc' ∧
      (∀ v, 0 ≤ v → v < Examples.grid.totalpoints →
        dc'.grain_indicies v = -1 ∨ (1 ≤ dc'.grain_indicies v ∧ dc'.grain_indicies v < c')) ∧
      ∀ g : Nat, 1 ≤ g → g < c' →
        ∃ l, (dc'.m_Grains g).voxellist = some l ∧ l.Nodup ∧
          (∀ v, v ∈ l ↔ (0 ≤ v ∧ v < Examples.grid.totalpoints ∧ dc'.grain_indicies v = g)) ∧
          (-1) ∉ l ∧
          l.length = ((Finset.Ico 0 Examples.grid.totalpoints).filter
            (fun v => dc'.grain_indicies v = g)).card ∧
          ∀ g' : Nat, g' ≠ g → ∀ l', (dc'.m_Grains g').voxellist = some l' →
            1 ≤ g' → g' < c' → ∀ v, v ∈ l → v ∉ l' :=
  ⟨⟨by decide, by decide, by decide, by decide, fun _ _ _ => rfl, by decide, by decide⟩,
    form_grains_voxellists Examples.ops 5 Examples.rg Examples.grid (by decide) (by decide)
      (by decide) (by decide) (fun _ _ _ => rfl) (by decide) 10 (by decide)⟩

/-- The run of `form_grains` on the example grid: voxels 1 and 0 form grain 1 (the
search starts at voxel 1), voxel 2 forms grain 2, voxel 3 (phase 0) stays at `-1`. -/
theorem form_grains_example :
    (form_grains Examples.ops 5 Examples.rg 10 Examples.grid).map
        (fun dc => ((List.range 4).map (fun k => dc.grain_indicies k),
          (dc.m_Grains 1).voxellist, (dc.m_Grains 2).voxellist))
      = some ([1, 1, 2, -1], some [1, 0], some [2]) := by
  decide!

end SegmentGrains

/-! ### `FillBadData::execute` -/

namespace FillBadData

theorem forRange_succ {σ : Type} (n : Nat) (body : σ → Int → σ) (s : σ) :
    forRange (n + 1) body s = body (forRange n body s) (n : Int) := by
  simp [forRange, List.range_succ]

theorem Adj.inGrid {d : VolumeData} (hwf : WF d) {v u : Int} (hv : InGrid d v)
    (h : Adj d v u) : InGrid d u := by
  obtain ⟨j, hj, hg, rfl⟩ := h
  have := neighbor_inGrid d.dims0 d.dims1 d.dims2 v hwf.hx hwf.hy hv.1 (hwf.htot ▸ hv.2) j hj hg
  exact ⟨this.1, by rw [hwf.htot]; exact this.2⟩

theorem Adj.symm {d : VolumeData} (hwf : WF d) {v u : Int} (hv : InGrid d v)
    (h : Adj d v u) : Adj d u v := by
  obtain ⟨j, hj, hg, rfl⟩ := h
  obtain ⟨h1, h2, h3⟩ :=
    neighbor_symm d.dims0 d.dims1 d.dims2 v hwf.hx hwf.hy hv.1 (hwf.htot ▸ hv.2) j hj hg
  exact ⟨5 - j, h1, h2, h3.symm⟩

theorem setAll_apply (fid : Int → Int) (l : List Int) (val : Int) (v : Int) :
    setAll fid l val v = if v ∈ l then val else fid v := by
  unfold setAll
  induction l generalizing fid with
  | nil => simp
  | cons a t ih =>
    rw [List.foldl_cons, ih]
    by_cases h1 : v ∈ t
    · simp [h1]
    · by_cases h2 : v = a
      · subst h2; simp [h1]
      · simp [h1, h2, Function.update_noteq h2]

/-- One direction of the flood fill: the invariant is kept, marks only grow, the
work list only grows at its end, and the neighbour in that direction, when it
holds 0, is marked afterwards. -/
theorem floodVisit_spec (d : VolumeData) (hwf : WF d) (fid : Int → Int) (chk0 : Int → Bool)
    (seed index : Int) (hidx : InGrid d index) (f : FloodState) (j : Nat) (hj : j ∈ directions)
    (h : FloodCore d fid chk0 seed f) :
    FloodCore d fid chk0 seed (floodVisit d fid index f j) ∧
    (∀ v, f.m_AlreadyChecked v = true → (floodVisit d fid index f j).m_AlreadyChecked v = true) ∧
    (∃ ext, (floodVisit d fid index f j).currentvlist = f.currentvlist ++ ext) ∧
    (good d.dims0 d.dims1 d.dims2 j (colOf d.dims0 index) (rowOf d.dims0 d.dims1 index)
        (planeOf d.dims0 d.dims1 index) = true →
      fid (index + neighpoints d.dims0 d.dims1 j) = 0 →
      (floodVisit d fid index f j).m_AlreadyChecked (index + neighpoints d.dims0 d.dims1 j)
        = true) := by
  unfold floodVisit
  simp only
  split
  next hc =>
    obtain ⟨hg, hz, hu⟩ := hc
    obtain ⟨rest, hl, hnd, hrest, hchk, hmono⟩ := h
    set nb := index + neighpoints d.dims0 d.dims1 j with hnb
    have hin : InGrid d nb := Adj.inGrid hwf hidx ⟨j, hj, hg, rfl⟩
    have hnot : nb ∉ rest := fun hm => by
      have := (hrest nb hm).2.2.2
      rw [hu] at this
      exact Bool.false_ne_true this
    have hc0 : chk0 nb = false := by
      by_contra hne
      have := hmono nb (by simpa using hne)
      rw [hu] at this
      exact Bool.false_ne_true this
    refine ⟨⟨rest ++ [nb], by simp [hl], ?_, ?_, ?_, ?_⟩, ?_, ⟨[nb], rfl⟩, fun _ _ => by simp⟩
    · exact List.Nodup.append hnd (List.nodup_singleton nb) (by simpa using hnot)
    · intro v hv
      rcases List.mem_append.mp hv with hv | hv
      · obtain ⟨a, b, c, e⟩ := hrest v hv
        refine ⟨a, b, c, ?_⟩
        by_cases hvn : v = nb
        · subst hvn; simp
        · simp [Function.update_noteq hvn, e]
      · rw [List.mem_singleton.mp hv]
        exact ⟨hin, hz, hc0, by simp⟩
    · intro v hv
      by_cases hvn : v = nb
      · right; subst hvn; simp
      · simp only [Function.update_noteq hvn] at hv
        rcases hchk v hv with h1 | h1
        · left; exact h1
        · right; exact List.mem_append.mpr (Or.inl h1)
    · intro v hv
      by_cases hvn : v = nb
      · subst hvn; simp
      · simp [Function.update_noteq hvn, hmono v hv]
    · intro v hv
      by_cases hvn : v = nb
      · subst hvn; simp
      · simp [Function.update_noteq hvn, hv]
  next hc =>
    refine ⟨h, fun v hv => hv, ⟨[], by simp⟩, ?_⟩
    intro hg hz
    by_contra hne
    exact hc ⟨hg, hz, by simpa using hne⟩

theorem foldl_floodVisit_spec (d : VolumeData) (hwf : WF d) (fid : Int → Int)
    (chk0 : Int → Bool) (seed index : Int) (hidx : InGrid d index) (l : List Nat)
    (hl : ∀ j ∈ l, j ∈ directions) (f : FloodState) (h : FloodCore d fid chk0 seed f) :
    FloodCore d fid chk0 seed (l.foldl (floodVisit d fid index) f) ∧
    (∀ v, f.m_AlreadyChecked v = true →
      (l.foldl (floodVisit d fid index) f).m_AlreadyChecked v = true) ∧
    (∃ ext, (l.foldl (floodVisit d fid index) f).currentvlist = f.currentvlist ++ ext) ∧
    (∀ j ∈ l, good d.dims0 d.dims1 d.dims2 j (colOf d.dims0 index) (rowOf d.dims0 d.dims1 index)
        (planeOf d.dims0 d.dims1 index) = true →
      fid (index + neighpoints d.dims0 d.dims1 j) = 0 →
      (l.foldl (floodVisit d fid index) f).m_AlreadyChecked
        (index + neighpoints d.dims0 d.dims1 j) = true) := by
  induction l generalizing f with
  | nil => exact ⟨h, fun v hv => hv, ⟨[], by simp⟩, fun j hj => by simp at hj⟩
  | cons a t ih =>
    obtain ⟨h1, h2, ⟨e1, h3⟩, h4⟩ :=
      floodVisit_spec d hwf fid chk0 seed index hidx f a (hl a (by simp)) h
    obtain ⟨k1, k2, ⟨e2, k3⟩, k4⟩ := ih (fun j hj => hl j (by simp [hj])) _ h1
    simp only [List.foldl_cons]
    refine ⟨k1, fun v hv => k2 v (h2 v hv), ⟨e1 ++ e2, by rw [k3, h3, List.append_assoc]⟩, ?_⟩
    intro j hj hg hz
    rcases List.mem_cons.mp hj with rfl | hj
    · exact k2 _ (h4 hg hz)
    · exact k4 j hj hg hz

theorem FloodCore.length_le {d : VolumeData} {fid : Int → Int} {chk0 : Int → Bool}
    {seed : Int} {f : FloodState} (h : FloodCore d fid chk0 seed f) :
    f.currentvlist.length ≤ d.totalPoints.toNat + 1 := by
  obtain ⟨rest, hl, hnd, hrest, _, _⟩ := h
  rw [hl, List.length_cons, ← List.toFinset_card_of_nodup hnd]
  have : rest.toFinset ⊆ Finset.Ico 0 d.totalPoints := by
    intro v hv
    have := (hrest v (List.mem_toFinset.mp hv)).1
    exact Finset.mem_Ico.mpr this
  have := Finset.card_le_card this
  rw [Int.card_Ico] at this
  simpa using this

theorem FloodCore.mem_inGrid {d : VolumeData} {fid : Int → Int} {chk0 : Int → Bool}
    {seed : Int} {f : FloodState} (h : FloodCore d fid chk0 seed f) (hseed : InGrid d seed)
    {v : Int} (hv : v ∈ f.currentvlist) : InGrid d v := by
  obtain ⟨rest, hl, _, hrest, _, _⟩ := h
  rw [hl] at hv
  rcases List.mem_cons.mp hv with rfl | hv
  · exact hseed
  · exact (hrest v hv).1

/-- The flood fill returns, given fuel beyond the number of voxels; on return the
whole work list has been processed. -/
theorem flood_spec (d : VolumeData) (hwf : WF d) (fid : Int → Int) (chk0 : Int → Bool)
    (seed : Int) (hseed : InGrid d seed) (fuel : Nat) (f : FloodState) (count : Nat)
    (h : FloodCore d fid chk0 seed f) (hp : Processed d fid f count)
    (hc : count ≤ f.currentvlist.length) (hf : d.totalPoints.toNat + 2 ≤ fuel + count) :
    ∃ f', flood d fid fuel f count = some (f', f'.currentvlist.length) ∧
      FloodCore d fid chk0 seed f' ∧ Processed d fid f' f'.currentvlist.length := by
  induction fuel generalizing f count with
  | zero =>
    have := h.length_le
    omega
  | succ fuel ih =>
    unfold flood
    by_cases hlt : count < f.currentvlist.length
    · rw [if_pos hlt]
      simp only
      have hget : f.currentvlist.getD count 0 = f.currentvlist[count] :=
        List.getD_eq_getElem _ _ hlt
      have hmem : f.currentvlist.getD count 0 ∈ f.currentvlist := by
        rw [hget]; exact List.getElem_mem hlt
      have hidx := h.mem_inGrid hseed hmem
      obtain ⟨k1, k2, ⟨ext, k3⟩, k4⟩ := foldl_floodVisit_spec d hwf fid chk0 seed
        (f.currentvlist.getD count 0) hidx directions (fun j hj => hj) f h
      refine ih _ (count + 1) k1 ?_ (by rw [k3, List.length_append]; omega) (by omega)
      intro v hv u hadj hz
      rw [k3, List.take_append_of_le_length (by omega), List.take_succ,
        List.getElem?_eq_getElem hlt] at hv
      rcases List.mem_append.mp hv with hv | hv
      · exact k2 u (hp v hv u hadj hz)
      · simp only [Option.toList, List.mem_singleton] at hv
        subst hv
        obtain ⟨j, hj, hg, rfl⟩ := hadj
        rw [← hget] at hg hz ⊢
        exact k4 j hj hg hz
    · rw [if_neg hlt]
      have e : count = f.currentvlist.length := by omega
      subst e
      exact ⟨f, rfl, h, hp⟩

theorem classify_apply (minSize : Int) (fid : Int → Int) (l : List Int)
    (hz : ∀ v ∈ l, fid v = 0) (v : Int) :
    classify minSize fid l v = if (l.length : Int) < minSize ∧ v ∈ l then -1 else fid v := by
  unfold classify
  by_cases h : (l.length : Int) < minSize
  · have h' : ¬ (l.length : Int) ≥ minSize := by omega
    simp only [h', if_false, h, if_true, setAll_apply, true_and]
  · have h' : (l.length : Int) ≥ minSize := by omega
    simp only [h', if_true, h, if_false, setAll_apply, false_and]
    split_ifs with hm
    · exact (hz v hm).symm
    · rfl

/-- Collecting and classifying one component keeps the invariant of phase 1. -/
theorem phase1_step (d : VolumeData) (hwf : WF d) (fid0 : Int → Int) (s : Phase1State)
    (hinv : P1Inv d fid0 s) (i : Int) (hi : InGrid d i) (hc : s.m_AlreadyChecked i = false)
    (hz : s.m_FeatureIds i = 0) (f : FloodState)
    (hcore : FloodCore d s.m_FeatureIds s.m_AlreadyChecked i f)
    (hproc : Processed d s.m_FeatureIds f f.currentvlist.length) :
    P1Inv d fid0
      { m_FeatureIds := classify d.m_MinAllowedDefectSize s.m_FeatureIds f.currentvlist
        m_AlreadyChecked := f.m_AlreadyChecked
        count := f.currentvlist.length } := by
  obtain ⟨rest, hl, hnd, hrest, hchk, hmono⟩ := hcore
  have hLz : ∀ v ∈ f.currentvlist, s.m_FeatureIds v = 0 := by
    intro v hv
    rw [hl] at hv
    rcases List.mem_cons.mp hv with rfl | hv
    · exact hz
    · exact (hrest v hv).2.1
  have hLu : ∀ v ∈ f.currentvlist, s.m_AlreadyChecked v = false := by
    intro v hv
    rw [hl] at hv
    rcases List.mem_cons.mp hv with rfl | hv
    · exact hc
    · exact (hrest v hv).2.2.1
  have hproc' : ∀ v ∈ f.currentvlist, ∀ u, Adj d v u → s.m_FeatureIds u = 0 →
      f.m_AlreadyChecked u = true := by
    intro v hv
    rw [Processed, List.take_length] at hproc
    exact hproc v hv
  have hfid := classify_apply d.m_MinAllowedDefectSize s.m_FeatureIds f.currentvlist hLz
  have hzero : ∀ v, classify d.m_MinAllowedDefectSize s.m_FeatureIds f.currentvlist v = 0 →
      s.m_FeatureIds v = 0 ∧
        ¬ ((f.currentvlist.length : Int) < d.m_MinAllowedDefectSize ∧ v ∈ f.currentvlist) := by
    intro v hv
    rw [hfid v] at hv
    split_ifs at hv with hm
    exact ⟨hv, hm⟩
  refine ⟨?_, ?_, ?_, ?_, ?_, ?_⟩
  · intro v hv
    simp only
    have h1 := hinv.keep v hv
    rw [hfid v, if_neg, h1]
    rintro ⟨_, hm⟩
    exact hv (by rw [← h1]; exact hLz v hm)
  · intro v hv
    simp only
    rw [hfid v]
    split_ifs with hm
    · right; rfl
    · exact hinv.zero v hv
  · intro v hvg hv0 hv u hadj
    simp only at hv ⊢
    intro hu0
    obtain ⟨hsu, hnu⟩ := hzero u hu0
    rw [hfid v] at hv
    split_ifs at hv with hm
    · have h1 := hproc' v hm.2 u hadj hsu
      have h2 : s.m_AlreadyChecked u = true := by
        rcases hchk u h1 with h2 | h2
        · exact h2
        · exact absurd ⟨hm.1, by rw [hl]; exact List.mem_cons_of_mem _ h2⟩ hnu
      have h3 := hinv.marked u (Adj.inGrid hwf hvg hadj) h2 hsu v (Adj.symm hwf hvg hadj)
        (hLz v hm.2)
      rw [hLu v hm.2] at h3
      exact Bool.false_ne_true h3
    · exact hinv.closed v hvg hv0 hv u hadj hsu
  · intro u hug hcu hu0 w hadj hw0
    simp only at hcu hu0 hw0 ⊢
    obtain ⟨hsu, hnu⟩ := hzero u hu0
    obtain ⟨hsw, _⟩ := hzero w hw0
    rcases hchk u hcu with h1 | h1
    · exact hmono w (hinv.marked u hug h1 hsu w hadj hsw)
    · exact hproc' u (by rw [hl]; exact List.mem_cons_of_mem _ h1) w hadj hsw
  · intro v hvg hv
    exact hmono v (hinv.nonzero v hvg hv)
  · simp [hl]

/-- The classification loop of phase 1 returns and keeps its invariant. -/
theorem phase1Loop_spec (d : VolumeData) (hwf : WF d) (fid0 : Int → Int) (fuel : Nat)
    (hfuel : d.totalPoints.toNat + 2 ≤ fuel) (k : Nat) (i : Int) (s : Phase1State)
    (hi : 0 ≤ i) (hik : i + k ≤ d.totalPoints) (hinv : P1Inv d fid0 s) :
    ∃ s', phase1Loop d fuel k i s = some s' ∧ P1Inv d fid0 s' := by
  induction k generalizing i s with
  | zero => exact ⟨s, rfl, hinv⟩
  | succ k ih =>
    unfold phase1Loop
    have hig : InGrid d i := ⟨hi, by push_cast at hik; omega⟩
    split
    next hc =>
      obtain ⟨f', hrun, hcore, hproc⟩ := flood_spec d hwf s.m_FeatureIds s.m_AlreadyChecked i hig
        fuel ⟨s.m_AlreadyChecked, [i]⟩ 0
        ⟨[], rfl, List.nodup_nil, by simp, fun v hv => Or.inl hv, fun v hv => hv⟩
        (by intro v hv; simp at hv) (Nat.zero_le _) (by omega)
      rw [hrun]
      simp only
      exact ih (i + 1) _ (by omega) (by push_cast at hik ⊢; omega)
        (phase1_step d hwf fid0 s hinv i hig hc.1 hc.2 f' hcore hproc)
    next hc =>
      exact ih (i + 1) s (by omega) (by push_cast at hik ⊢; omega) hinv

/-- Phase 1 returns; afterwards non-zero voxels are unchanged, zero voxels hold 0 or
`-1`, and no voxel set to `-1` has a face neighbour holding 0. -/
theorem phase1_spec (d : VolumeData) (hwf : WF d) (fuel : Nat)
    (hfuel : d.totalPoints.toNat + 2 ≤ fuel) :
    ∃ s', phase1 d fuel = some s' ∧ P1Inv d d.m_FeatureIds s' := by
  unfold phase1
  refine phase1Loop_spec d hwf d.m_FeatureIds fuel hfuel _ 0 _ (le_refl _) ?_ ?_
  · have := hwf.hx
    have h1 : 1 ≤ d.totalPoints := by
      rw [hwf.htot]
      exact one_le_mul_of_one_le_of_one_le (one_le_mul_of_one_le_of_one_le hwf.hx hwf.hy) hwf.hz
    rw [Int.toNat_of_nonneg (by omega)]
    omega
  · refine ⟨fun v _ => rfl, fun v hv => Or.inl hv, ?_, ?_, ?_, by simp⟩
    · intro v _ h0 h1
      simp only at h1
      omega
    · intro u hug hcu hu0
      simp only at hcu hu0
      rw [if_pos (show 0 ≤ u ∧ u < d.totalPoints from hug)] at hcu
      simp [hu0] at hcu
    · intro v hvg hv
      simp only
      rw [if_pos (show 0 ≤ v ∧ v < d.totalPoints from hvg)]
      simpa using hv

/-! Phase 2: the guard on `float` coordinates. -/

/-- An integer from 0 to `2 ^ 24` converts to `float` exactly. -/
theorem floatOf_exact (n : Int) (h0 : 0 ≤ n) (h1 : n ≤ 2 ^ 24) : floatOf n = n := by
  unfold floatOf
  rw [if_pos]
  omega

/-- On a grid with no dimension above `2 ^ 24 + 1` the guard of phase 2 on the `float`
coordinates is the guard on the integer coordinates, at every voxel of the grid. -/
theorem guardExact_of_small {d : VolumeData} (hwf : WF d) (hs : Small d) {i : Int}
    (hi : InGrid d i) : GuardExact d i := by
  obtain ⟨c0, c1, r0, r1, p0, _⟩ := coords_decomp d.dims0 d.dims1 i hwf.hx hwf.hy hi.1
  have p1 := plane_lt d.dims0 d.dims1 d.dims2 i hwf.hx hwf.hy hi.1 (by rw [← hwf.htot]; exact hi.2)
  have hx := hwf.hx
  have hy := hwf.hy
  have hz := hwf.hz
  have sx := hs.sx
  have sy := hs.sy
  have sz := hs.sz
  intro j
  unfold goodFloat good
  rw [floatOf_exact _ c0 (by omega), floatOf_exact _ r0 (by omega), floatOf_exact _ p0 (by omega),
    floatOf_exact (d.dims0 - 1) (by omega) (by omega),
    floatOf_exact (d.dims1 - 1) (by omega) (by omega),
    floatOf_exact (d.dims2 - 1) (by omega) (by omega)]

/-! Phase 2: the tally of one voxel. -/

theorem occIn_append (d : VolumeData) (fid : Int → Int) (i : Int) (l : List Nat) (j : Nat)
    (g : Int) :
    occIn d fid i (l ++ [j]) g = occIn d fid i l g +
      (if good d.dims0 d.dims1 d.dims2 j (colOf d.dims0 i) (rowOf d.dims0 d.dims1 i)
          (planeOf d.dims0 d.dims1 i) = true ∧ fid (i + neighpoints d.dims0 d.dims1 j) = g
        then 1 else 0) := by
  unfold occIn
  rw [List.filter_append, List.length_append]
  congr 1
  by_cases h : good d.dims0 d.dims1 d.dims2 j (colOf d.dims0 i) (rowOf d.dims0 d.dims1 i)
      (planeOf d.dims0 d.dims1 i) = true ∧ fid (i + neighpoints d.dims0 d.dims1 j) = g
  · simp [h.1, h.2]
  · rw [if_neg h]
    rw [List.filter_cons, if_neg]
    · rfl
    · intro hc
      simp only [Bool.and_eq_true, decide_eq_true_eq] at hc
      exact h hc

theorem tallyVisit_inv (d : VolumeData) (fid : Int → Int) (i : Int) (nb0 : Int → Int)
    (hex : GuardExact d i) (l : List Nat) (t : TallyState) (j : Nat)
    (h : TallyInv d fid i nb0 l t) :
    TallyInv d fid i nb0 (l ++ [j]) (tallyVisit d fid i t j) := by
  have happ := occIn_append d fid i l j
  unfold tallyVisit
  simp only
  rw [hex j]
  by_cases hg : good d.dims0 d.dims1 d.dims2 j (colOf d.dims0 i) (rowOf d.dims0 d.dims1 i)
      (planeOf d.dims0 d.dims1 i) = true
  · rw [if_pos hg]
    by_cases hf : fid (i + neighpoints d.dims0 d.dims1 j) > 0
    · rw [if_pos hf]
      set feature := fid (i + neighpoints d.dims0 d.dims1 j) with hfeat
      have hcur : Function.update t.n feature (t.n feature + 1) feature
          = (occIn d fid i (l ++ [j]) feature : Int) := by
        rw [Function.update_same, h.pos feature hf, happ feature, if_pos ⟨hg, rfl⟩]
        push_cast; ring
      have hother : ∀ g, g ≠ feature → occIn d fid i (l ++ [j]) g = occIn d fid i l g := by
        intro g hne
        rw [happ g, if_neg (fun hc => hne hc.2.symm)]
        rfl
      have hn : ∀ g, g > 0 → Function.update t.n feature (t.n feature + 1) g
          = (occIn d fid i (l ++ [j]) g : Int) := by
        intro g hgp
        by_cases hgf : g = feature
        · rw [hgf]; exact hcur
        · rw [Function.update_noteq hgf, h.pos g hgp, hother g hgf]
      have hnn : ∀ g, ¬ g > 0 → Function.update t.n feature (t.n feature + 1) g = 0 := by
        intro g hgp
        rw [Function.update_noteq (fun hc : g = feature => hgp (by rw [hc]; exact hf)), h.nonpos g hgp]
      have hge1 : 1 ≤ occIn d fid i (l ++ [j]) feature := by
        rw [happ feature, if_pos ⟨hg, rfl⟩]; omega
      rw [hcur]
      split
      next hgt =>
        refine ⟨hn, hnn, by simp only; omega, ?_, ?_, ?_, ?_⟩
        · intro g hgp
          simp only
          by_cases hgf : g = feature
          · rw [hgf]
          · rw [hother g hgf]
            have := h.bound g hgp
            omega
        · intro h0
          simp only at h0
          omega
        · intro _
          exact ⟨j, by simp, hg, hf, by simp, le_refl _⟩
        · intro v hv
          simp only
          rw [Function.update_noteq hv]
          exact h.frame v hv
      next hgt =>
        have hmost : t.most > 0 := by omega
        refine ⟨hn, hnn, h.most0, ?_, ?_, ?_, h.frame⟩
        · intro g hgp
          simp only
          by_cases hgf : g = feature
          · rw [hgf]; omega
          · rw [hother g hgf]
            exact h.bound g hgp
        · intro h0
          simp only at h0
          omega
        · intro _
          obtain ⟨j', hj', hg', hf', hnb, hle⟩ := h.some hmost
          refine ⟨j', by simp [hj'], hg', hf', hnb, le_trans hle ?_⟩
          rw [happ]
          push_cast
          split_ifs <;> omega
    · rw [if_neg hf]
      have hsame : ∀ g, g > 0 → occIn d fid i (l ++ [j]) g = occIn d fid i l g := by
        intro g hgp
        rw [happ g, if_neg (fun hc => hf (by rw [hc.2]; exact hgp))]
        rfl
      refine ⟨fun g hgp => by rw [hsame g hgp]; exact h.pos g hgp, h.nonpos, h.most0,
        fun g hgp => by rw [hsame g hgp]; exact h.bound g hgp, ?_, ?_, h.frame⟩
      · intro h0
        refine ⟨(h.none h0).1, ?_⟩
        intro j' hj'
        rcases List.mem_append.mp hj' with hj' | hj'
        · exact (h.none h0).2 j' hj'
        · rw [List.mem_singleton.mp hj']
          exact fun hc => hf hc.2
      · intro hm
        obtain ⟨j', hj', hg', hf', hnb, hle⟩ := h.some hm
        exact ⟨j', by simp [hj'], hg', hf', hnb, by rw [hsame _ hf']; exact hle⟩
  · rw [if_neg hg]
    have hsame : ∀ g, occIn d fid i (l ++ [j]) g = occIn d fid i l g := by
      intro g
      rw [happ g, if_neg (fun hc => hg hc.1)]
      rfl
    refine ⟨fun g hgp => by rw [hsame g]; exact h.pos g hgp, h.nonpos, h.most0,
      fun g hgp => by rw [hsame g]; exact h.bound g hgp, ?_, ?_, h.frame⟩
    · intro h0
      refine ⟨(h.none h0).1, ?_⟩
      intro j' hj'
      rcases List.mem_append.mp hj' with hj' | hj'
      · exact (h.none h0).2 j' hj'
      · rw [List.mem_singleton.mp hj']
        exact fun hc => hg hc.1
    · intro hm
      obtain ⟨j', hj', hg', hf', hnb, hle⟩ := h.some hm
      exact ⟨j', by simp [hj'], hg', hf', hnb, by rw [hsame]; exact hle⟩

theorem foldl_tallyVisit_inv (d : VolumeData) (fid : Int → Int) (i : Int) (nb0 : Int → Int)
    (hex : GuardExact d i) (l pre : List Nat) (t : TallyState)
    (h : TallyInv d fid i nb0 pre t) :
    TallyInv d fid i nb0 (pre ++ l) (l.foldl (tallyVisit d fid i) t) := by
  induction l generalizing pre t with
  | nil => simpa using h
  | cons a r ih =>
    have := ih (pre ++ [a]) _ (tallyVisit_inv d fid i nb0 hex pre t a h)
    simpa using this

theorem foldl_resetVisit_spec (d : VolumeData) (fid : Int → Int) (i : Int)
    (hex : GuardExact d i) (l : List Nat) (n : Int → Int) :
    (∀ g, l.foldl (resetVisit d fid i) n g = 0 ∨ l.foldl (resetVisit d fid i) n g = n g) ∧
    (∀ j ∈ l, good d.dims0 d.dims1 d.dims2 j (colOf d.dims0 i) (rowOf d.dims0 d.dims1 i)
        (planeOf d.dims0 d.dims1 i) = true → fid (i + neighpoints d.dims0 d.dims1 j) > 0 →
      l.foldl (resetVisit d fid i) n (fid (i + neighpoints d.dims0 d.dims1 j)) = 0) := by
  induction l generalizing n with
  | nil => exact ⟨fun g => Or.inr rfl, fun j hj => by simp at hj⟩
  | cons a r ih =>
    obtain ⟨h1, h2⟩ := ih (resetVisit d fid i n a)
    have hstep : ∀ g, resetVisit d fid i n a g = 0 ∨ resetVisit d fid i n a g = n g := by
      intro g
      unfold resetVisit
      simp only
      split_ifs with ha hb
      · by_cases hg : g = fid (i + neighpoints d.dims0 d.dims1 a)
        · left; rw [hg]; simp
        · right; rw [Function.update_noteq hg]
      · right; rfl
      · right; rfl
    simp only [List.foldl_cons]
    refine ⟨?_, ?_⟩
    · intro g
      rcases h1 g with h | h
      · left; exact h
      · rw [h]; exact hstep g
    · intro j hj hg hf
      rcases List.mem_cons.mp hj with rfl | hj
      · rcases h1 (fid (i + neighpoints d.dims0 d.dims1 j)) with h | h
        · exact h
        · rw [h]
          unfold resetVisit
          simp only
          rw [hex j, if_pos hg, if_pos hf]
          simp
      · exact h2 j hj hg hf

theorem occIn_pos (d : VolumeData) (fid : Int → Int) (i : Int) (l : List Nat) (g : Int)
    (h : 0 < occIn d fid i l g) :
    ∃ j ∈ l, good d.dims0 d.dims1 d.dims2 j (colOf d.dims0 i) (rowOf d.dims0 d.dims1 i)
      (planeOf d.dims0 d.dims1 i) = true ∧ fid (i + neighpoints d.dims0 d.dims1 j) = g := by
  unfold occIn at h
  obtain ⟨j, hj⟩ := List.exists_mem_of_length_pos h
  rw [List.mem_filter] at hj
  simp only [Bool.and_eq_true, decide_eq_true_eq] at hj
  exact ⟨j, hj.1, hj.2⟩

/-- The tally of one voxel: the tallies are cleared again afterwards, only the
entry of `m_Neighbors` of that voxel can change, and for a negative voxel with a
positive neighbour the recorded neighbour belongs to a most frequent feature. -/
theorem tallyVoxel_spec (d : VolumeData) (fid : Int → Int) (s : PassState) (i : Int)
    (hex : GuardExact d i) (hn : ∀ g, s.n g = 0) :
    (∀ g, (tallyVoxel d fid s i).n g = 0) ∧
    (∀ v, v ≠ i → (tallyVoxel d fid s i).m_Neighbors v = s.m_Neighbors v) ∧
    (fid i < 0 → HasPositive d fid i → Majority d fid i ((tallyVoxel d fid s i).m_Neighbors i)) ∧
    ((¬ fid i < 0 ∨ ¬ HasPositive d fid i) →
      (tallyVoxel d fid s i).m_Neighbors i = s.m_Neighbors i) ∧
    (tallyVoxel d fid s i).count = (if fid i < 0 then s.count + 1 else s.count) := by
  by_cases hneg : fid i < 0
  · have e : tallyVoxel d fid s i =
        { n := directions.foldl (resetVisit d fid i) (directions.foldl (tallyVisit d fid i)
            { n := s.n, current := 0, most := 0, m_Neighbors := s.m_Neighbors }).n
          m_Neighbors := (directions.foldl (tallyVisit d fid i)
            { n := s.n, current := 0, most := 0, m_Neighbors := s.m_Neighbors }).m_Neighbors
          count := s.count + 1 } := by
      unfold tallyVoxel
      rw [if_pos hneg]
    rw [e]
    simp only
    have h0 : TallyInv d fid i s.m_Neighbors []
        { n := s.n, current := 0, most := 0, m_Neighbors := s.m_Neighbors } :=
      ⟨fun g _ => by simp [hn g, occIn], fun g _ => hn g, le_refl _,
        fun g _ => by simp [occIn], fun _ => ⟨rfl, fun j hj => by simp at hj⟩,
        fun h => by simp at h, fun v _ => rfl⟩
    have hT := foldl_tallyVisit_inv d fid i s.m_Neighbors hex directions [] _ h0
    rw [List.nil_append] at hT
    generalize directions.foldl (tallyVisit d fid i)
      { n := s.n, current := 0, most := 0, m_Neighbors := s.m_Neighbors } = t at hT
    obtain ⟨r1, r2⟩ := foldl_resetVisit_spec d fid i hex directions t.n
    refine ⟨?_, hT.frame, ?_, ?_, by rw [if_pos hneg]⟩
    · intro g
      rcases r1 g with h | h
      · exact h
      · by_cases hgp : g > 0
        · by_cases hocc : 0 < occIn d fid i directions g
          · obtain ⟨j, hj, hg, hf⟩ := occIn_pos d fid i directions g hocc
            have := r2 j hj hg (by rw [hf]; exact hgp)
            rw [hf] at this
            exact this
          · rw [h, hT.pos g hgp]
            have : occIn d fid i directions g = 0 := by omega
            simp [this]
        · rw [h]; exact hT.nonpos g hgp
    · intro _ hpos
      have hmost : t.most > 0 := by
        by_contra hm
        have hz : t.most = 0 := by have := hT.most0; omega
        obtain ⟨u, ⟨j, hj, hg, rfl⟩, hu⟩ := hpos
        exact (hT.none hz).2 j hj ⟨hg, hu⟩
      obtain ⟨j, hj, hg, hf, hnb, hle⟩ := hT.some hmost
      rw [hnb]
      refine ⟨⟨j, hj, hg, rfl⟩, hf, ?_⟩
      intro g hgp
      have := hT.bound g hgp
      unfold occurrences
      omega
    · intro hor
      rcases hor with h | h
      · exact absurd hneg h
      · have hz : t.most = 0 := by
          by_contra hm
          have hmost : t.most > 0 := by have := hT.most0; omega
          obtain ⟨j, hj, hg, hf, _, _⟩ := hT.some hmost
          exact h ⟨_, ⟨j, hj, hg, rfl⟩, hf⟩
        exact (hT.none hz).1
  · have e : tallyVoxel d fid s i = s := by
      unfold tallyVoxel
      rw [if_neg hneg]
    rw [e]
    exact ⟨hn, fun v _ => rfl, fun h => absurd h hneg, fun _ => rfl, by rw [if_neg hneg]⟩

/-- The tally pass over the voxels `0 .. k - 1`. -/
theorem tallyPass_spec (d : VolumeData) (fid : Int → Int) (s0 : PassState)
    (hn : ∀ g, s0.n g = 0) (hc : s0.count = 0) (k : Nat)
    (hex : ∀ v, 0 ≤ v → v < (k : Int) → GuardExact d v) :
    (∀ g, (forRange k (tallyVoxel d fid) s0).n g = 0) ∧
    (∀ v, ¬ (0 ≤ v ∧ v < (k : Int)) →
      (forRange k (tallyVoxel d fid) s0).m_Neighbors v = s0.m_Neighbors v) ∧
    (∀ v, 0 ≤ v → v < (k : Int) →
      (fid v < 0 → HasPositive d fid v →
        Majority d fid v ((forRange k (tallyVoxel d fid) s0).m_Neighbors v)) ∧
      ((¬ fid v < 0 ∨ ¬ HasPositive d fid v) →
        (forRange k (tallyVoxel d fid) s0).m_Neighbors v = s0.m_Neighbors v)) ∧
    ((forRange k (tallyVoxel d fid) s0).count = 0 ↔ ∀ v, 0 ≤ v → v < (k : Int) → ¬ fid v < 0) := by
  induction k with
  | zero =>
    refine ⟨hn, fun v _ => rfl, fun v h0 h1 => ?_, ?_⟩
    · simp at h1; omega
    · constructor
      · intro _ v h0 h1
        simp at h1; omega
      · intro _
        simp [forRange, hc]
  | succ k ih =>
    obtain ⟨i1, i2, i3, i4⟩ := ih (fun v h0 h1 => hex v h0 (by push_cast; omega))
    rw [forRange_succ]
    generalize forRange k (tallyVoxel d fid) s0 = t at i1 i2 i3 i4
    obtain ⟨a1, a2, a3, a4, a5⟩ := tallyVoxel_spec d fid t (k : Int)
      (hex _ (by omega) (by push_cast; omega)) i1
    refine ⟨a1, ?_, ?_, ?_⟩
    · intro v hv
      have hvk : v ≠ (k : Int) := by intro h; apply hv; subst h; push_cast; omega
      rw [a2 v hvk]
      exact i2 v (by intro h; apply hv; push_cast; omega)
    · intro v h0 h1
      by_cases hvk : v = (k : Int)
      · subst hvk
        refine ⟨a3, fun h => ?_⟩
        rw [a4 h]
        exact i2 _ (by omega)
      · rw [a2 v hvk]
        exact i3 v h0 (by push_cast at h1; omega)
    · rw [a5]
      constructor
      · intro h v h0 h1
        by_cases hvk : v = (k : Int)
        · subst hvk
          intro hneg
          rw [if_pos hneg] at h
          exact absurd h (Nat.succ_ne_zero _)
        · have hz : t.count = 0 := by
            split_ifs at h
            exact h
          exact i4.mp hz v h0 (by push_cast at h1; omega)
      · intro h
        have hk := h (k : Int) (by omega) (by push_cast; omega)
        rw [if_neg hk]
        exact i4.mpr (fun v h0 h1 => h v h0 (by push_cast; omega))

/-- The commit pass over the voxels `0 .. k - 1`: a voxel that is not negative keeps
its id, a negative voxel keeps its id or becomes positive, and a negative voxel
with a recorded positive neighbour receives the id of that neighbour. -/
theorem commitPass_spec (nbrs fid cd : Int → Int) (k : Nat) :
    (∀ v, ¬ fid v < 0 → (forRange k (commitVoxel nbrs) (fid, cd)).1 v = fid v) ∧
    (∀ v, fid v < 0 → (forRange k (commitVoxel nbrs) (fid, cd)).1 v = fid v ∨
      (forRange k (commitVoxel nbrs) (fid, cd)).1 v > 0) ∧
    (∀ v, ¬ (0 ≤ v ∧ v < (k : Int)) → (forRange k (commitVoxel nbrs) (fid, cd)).1 v = fid v) ∧
    (∀ v, 0 ≤ v → v < (k : Int) → fid v < 0 → nbrs v ≠ -1 → fid (nbrs v) > 0 →
      (forRange k (commitVoxel nbrs) (fid, cd)).1 v = fid (nbrs v)) := by
  induction k with
  | zero =>
    refine ⟨fun v _ => rfl, fun v _ => Or.inl rfl, fun v _ => rfl, fun v h0 h1 => ?_⟩
    simp at h1; omega
  | succ k ih =>
    obtain ⟨i1, i2, i3, i4⟩ := ih
    rw [forRange_succ]
    generalize forRange k (commitVoxel nbrs) (fid, cd) = c at i1 i2 i3 i4
    have hk : c.1 (k : Int) = fid (k : Int) := i3 _ (by omega)
    unfold commitVoxel
    simp only
    by_cases hcond : c.1 (k : Int) < 0 ∧ nbrs (k : Int) ≠ -1 ∧ c.1 (nbrs (k : Int)) > 0
    · rw [if_pos hcond]
      simp only
      refine ⟨?_, ?_, ?_, ?_⟩
      · intro v hv
        have hvk : v ≠ (k : Int) := by
          intro h; subst h; rw [hk] at hcond; exact hv hcond.1
        rw [Function.update_noteq hvk]
        exact i1 v hv
      · intro v hv
        by_cases hvk : v = (k : Int)
        · subst hvk
          right
          rw [Function.update_same]
          exact hcond.2.2
        · rw [Function.update_noteq hvk]
          exact i2 v hv
      · intro v hv
        have hvk : v ≠ (k : Int) := by intro h; apply hv; subst h; push_cast; omega
        rw [Function.update_noteq hvk]
        exact i3 v (by intro h; apply hv; push_cast; omega)
      · intro v h0 h1 hneg hnb hpos
        by_cases hvk : v = (k : Int)
        · subst hvk
          rw [Function.update_same]
          exact i1 _ (by omega)
        · rw [Function.update_noteq hvk]
          exact i4 v h0 (by push_cast at h1; omega) hneg hnb hpos
    · rw [if_neg hcond]
      refine ⟨i1, i2, ?_, ?_⟩
      · intro v hv
        exact i3 v (by intro h; apply hv; push_cast; omega)
      · intro v h0 h1 hneg hnb hpos
        by_cases hvk : v = (k : Int)
        · subst hvk
          exfalso
          apply hcond
          refine ⟨by rw [hk]; exact hneg, hnb, ?_⟩
          rw [i1 _ (by omega)]
          exact hpos
        · exact i4 v h0 (by push_cast at h1; omega) hneg hnb hpos

/-- The tally of one voxel counts it exactly when it is negative. -/
theorem tallyVoxel_count (d : VolumeData) (fid : Int → Int) (s : PassState) (i : Int) :
    (tallyVoxel d fid s i).count = (if fid i < 0 then s.count + 1 else s.count) := by
  unfold tallyVoxel
  split_ifs <;> rfl

/-- The tally pass over the voxels `0 .. k - 1` ends with `count = 0` exactly when
none of them is negative. -/
theorem tallyPass_count (d : VolumeData) (fid : Int → Int) (s0 : PassState)
    (hc : s0.count = 0) (k : Nat) :
    (forRange k (tallyVoxel d fid) s0).count = 0 ↔ ∀ v, 0 ≤ v → v < (k : Int) → ¬ fid v < 0 := by
  induction k with
  | zero =>
    constructor
    · intro _ v h0 h1
      simp at h1; omega
    · intro _
      simp [forRange, hc]
  | succ k ih =>
    rw [forRange_succ, tallyVoxel_count]
    constructor
    · intro h v h0 h1
      by_cases hvk : v = (k : Int)
      · subst hvk
        intro hneg
        rw [if_pos hneg] at h
        exact absurd h (Nat.succ_ne_zero _)
      · have hz : (forRange k (tallyVoxel d fid) s0).count = 0 := by
          split_ifs at h
          exact h
        exact ih.mp hz v h0 (by push_cast at h1; omega)
    · intro h
      have hk := h (k : Int) (by omega) (by push_cast; omega)
      rw [if_neg hk]
      exact ih.mpr (fun v h0 h1 => h v h0 (by push_cast; omega))

/-- What a pass of phase 2 does whatever the guard lets through: a voxel that is not
negative keeps its id, a negative voxel keeps its id or becomes positive, and
`count` is 0 afterwards exactly when no voxel of the grid was negative. -/
theorem healPass_frame (d : VolumeData) (s : HealState) :
    (∀ v, ¬ s.m_FeatureIds v < 0 → (healPass d s).m_FeatureIds v = s.m_FeatureIds v) ∧
    (∀ v, s.m_FeatureIds v < 0 → (healPass d s).m_FeatureIds v = s.m_FeatureIds v ∨
      (healPass d s).m_FeatureIds v > 0) ∧
    ((healPass d s).count = 0 ↔ ∀ v, InGrid d v → ¬ s.m_FeatureIds v < 0) := by
  have t4 := tallyPass_count d s.m_FeatureIds
    { n := s.n, m_Neighbors := s.m_Neighbors, count := 0 } rfl d.totalPoints.toNat
  unfold healPass
  simp only
  generalize forRange d.totalPoints.toNat (tallyVoxel d s.m_FeatureIds)
    { n := s.n, m_Neighbors := s.m_Neighbors, count := 0 } = t at t4
  obtain ⟨c1, c2, _, _⟩ := commitPass_spec t.m_Neighbors s.m_FeatureIds s.cellData
    d.totalPoints.toNat
  refine ⟨c1, c2, ?_⟩
  rw [t4]
  constructor
  · intro h v hv
    exact h v hv.1 (by have := hv.2; omega)
  · intro h v h0 h1
    exact h v ⟨h0, by omega⟩

/-- One pass of phase 2, started with cleared tallies, on a grid within the range of
the number types of phase 2. -/
theorem healPass_spec (d : VolumeData) (hwf : WF d) (hs : Small d) (s : HealState)
    (hn : ∀ g, s.n g = 0) :
    (∀ g, (healPass d s).n g = 0) ∧
    (∀ v, ¬ s.m_FeatureIds v < 0 → (healPass d s).m_FeatureIds v = s.m_FeatureIds v) ∧
    (∀ v, s.m_FeatureIds v < 0 → (healPass d s).m_FeatureIds v = s.m_FeatureIds v ∨
      (healPass d s).m_FeatureIds v > 0) ∧
    (∀ v, InGrid d v → s.m_FeatureIds v < 0 → HasPositive d s.m_FeatureIds v →
      Majority d s.m_FeatureIds v ((healPass d s).m_Neighbors v) ∧
      (healPass d s).m_FeatureIds v = s.m_FeatureIds ((healPass d s).m_Neighbors v)) ∧
    ((healPass d s).count = 0 ↔ ∀ v, InGrid d v → ¬ s.m_FeatureIds v < 0) := by
  obtain ⟨t1, t2, t3, t4⟩ := tallyPass_spec d s.m_FeatureIds
    { n := s.n, m_Neighbors := s.m_Neighbors, count := 0 } hn rfl d.totalPoints.toNat
    (fun v h0 h1 => guardExact_of_small hwf hs ⟨h0, by omega⟩)
  unfold healPass
  simp only
  generalize forRange d.totalPoints.toNat (tallyVoxel d s.m_FeatureIds)
    { n := s.n, m_Neighbors := s.m_Neighbors, count := 0 } = t at t1 t2 t3 t4
  obtain ⟨c1, c2, c3, c4⟩ := commitPass_spec t.m_Neighbors s.m_FeatureIds s.cellData
    d.totalPoints.toNat
  refine ⟨t1, c1, c2, ?_, ?_⟩
  · intro v hv hneg hpos
    have hmaj := (t3 v hv.1 (by have := hv.2; omega)).1 hneg hpos
    refine ⟨hmaj, ?_⟩
    obtain ⟨hadj, hp, _⟩ := hmaj
    refine c4 v hv.1 (by have := hv.2; omega) hneg ?_ hp
    intro h
    have := (Adj.inGrid hwf hv hadj).1
    omega
  · rw [t4]
    constructor
    · intro h v hv
      exact h v hv.1 (by have := hv.2; omega)
    · intro h v h0 h1
      exact h v ⟨h0, by omega⟩

/-! Connectivity of the grid. -/

/-- Every voxel of the grid other than voxel 0 has a face neighbour with a smaller
index. -/
theorem exists_smaller_neighbor (d : VolumeData) (hwf : WF d) (w : Int) (hw : InGrid d w)
    (hne : w ≠ 0) : ∃ u, Adj d w u ∧ u < w := by
  obtain ⟨hc0, hc1, hr0, hr1, hb0, hdec⟩ := coords_decomp d.dims0 d.dims1 w hwf.hx hwf.hy hw.1
  have hx := hwf.hx
  have hy := hwf.hy
  by_cases hc : colOf d.dims0 w = 0
  · by_cases hr : rowOf d.dims0 d.dims1 w = 0
    · have hb : planeOf d.dims0 d.dims1 w ≠ 0 := by
        intro hb
        rw [hc, hr, hb] at hdec
        simp at hdec
        exact hne hdec
      refine ⟨w + neighpoints d.dims0 d.dims1 0, ⟨0, by simp [directions], ?_, rfl⟩, ?_⟩
      · simp [good, hb]
      · have : 1 ≤ d.dims0 * d.dims1 := one_le_mul_of_one_le_of_one_le hx hy
        simp only [neighpoints]
        omega
    · refine ⟨w + neighpoints d.dims0 d.dims1 1, ⟨1, by simp [directions], ?_, rfl⟩, ?_⟩
      · simp [good, hr]
      · simp only [neighpoints]
        omega
  · refine ⟨w + neighpoints d.dims0 d.dims1 2, ⟨2, by simp [directions], ?_, rfl⟩, ?_⟩
    · simp [good, hc]
    · simp only [neighpoints]
      omega

/-- A set of voxels that is closed under face adjacency and holds one voxel of the
grid holds every voxel of the grid. -/
theorem grid_connected (d : VolumeData) (hwf : WF d) (S : Int → Prop)
    (hS : ∀ v, InGrid d v → S v → ∀ u, Adj d v u → S u) (v0 : Int) (hv0 : InGrid d v0)
    (h0 : S v0) (w : Int) (hw : InGrid d w) : S w := by
  have down : ∀ n : Nat, ∀ v, InGrid d v → S v → v.toNat ≤ n → S 0 := by
    intro n
    induction n with
    | zero =>
      intro v hv hs hn
      have : v = 0 := by have := hv.1; omega
      rw [← this]; exact hs
    | succ n ih =>
      intro v hv hs hn
      by_cases hz : v = 0
      · rw [← hz]; exact hs
      · obtain ⟨u, hadj, hlt⟩ := exists_smaller_neighbor d hwf v hv hz
        have hu := Adj.inGrid hwf hv hadj
        exact ih u hu (hS v hv hs u hadj) (by have := hu.1; omega)
  have hzero : S 0 := down v0.toNat v0 hv0 h0 (le_refl _)
  have up : ∀ n : Nat, ∀ v, InGrid d v → v.toNat ≤ n → S v := by
    intro n
    induction n with
    | zero =>
      intro v hv hn
      have : v = 0 := by have := hv.1; omega
      rw [this]; exact hzero
    | succ n ih =>
      intro v hv hn
      by_cases hz : v = 0
      · rw [hz]; exact hzero
      · obtain ⟨u, hadj, hlt⟩ := exists_smaller_neighbor d hwf v hv hz
        have hu := Adj.inGrid hwf hv hadj
        exact hS u hu (ih u hu (by have := hu.1; omega)) v (Adj.symm hwf hv hadj)
  exact up w.toNat w hw (le_refl _)

/-! Termination of phase 2. -/

theorem mem_negatives {d : VolumeData} {fid : Int → Int} {v : Int} :
    v ∈ negatives d fid ↔ InGrid d v ∧ fid v < 0 := by
  simp [negatives, InGrid]

/-- While a negative voxel is left, some negative voxel has a positive neighbour. -/
theorem HealInv.progress {d : VolumeData} (hwf : WF d) {s : HealState} (h : HealInv d s)
    (hneg : ∃ v, InGrid d v ∧ s.m_FeatureIds v < 0) :
    ∃ v, InGrid d v ∧ s.m_FeatureIds v < 0 ∧ HasPositive d s.m_FeatureIds v := by
  by_contra hno
  push_neg at hno
  obtain ⟨v0, hv0, hn0⟩ := hneg
  obtain ⟨p, hp, hpp⟩ := h.positive
  have := grid_connected d hwf (fun v => s.m_FeatureIds v < 0) (fun v hv hs u hadj => by
    have h1 := h.closed v hv hs u hadj
    have h2 : ¬ s.m_FeatureIds u > 0 := fun hu => hno v hv hs ⟨u, hadj, hu⟩
    show s.m_FeatureIds u < 0
    omega) v0 hv0 hn0 p hp
  simp only at this
  omega

theorem HealInv.pass {d : VolumeData} (hwf : WF d) (hs : Small d) {s : HealState}
    (h : HealInv d s) : HealInv d (healPass d s) := by
  obtain ⟨a, b, c, _, _⟩ := healPass_spec d hwf hs s h.cleared
  refine ⟨a, ?_, ?_⟩
  · intro v hv hneg u hadj
    have hv' : s.m_FeatureIds v < 0 := by
      by_contra hnn
      rw [b v hnn] at hneg
      exact hnn hneg
    have hu := h.closed v hv hv' u hadj
    by_cases hun : s.m_FeatureIds u < 0
    · rcases c u hun with h1 | h1 <;> omega
    · rw [b u hun]; exact hu
  · obtain ⟨p, hp, hpp⟩ := h.positive
    exact ⟨p, hp, by rw [b p (by omega)]; exact hpp⟩

theorem negatives_pass_subset (d : VolumeData) (s : HealState) :
    negatives d (healPass d s).m_FeatureIds ⊆ negatives d s.m_FeatureIds := by
  obtain ⟨b, _, _⟩ := healPass_frame d s
  intro v hv
  obtain ⟨hg, hneg⟩ := mem_negatives.mp hv
  refine mem_negatives.mpr ⟨hg, ?_⟩
  by_contra hnn
  rw [b v hnn] at hneg
  exact hnn hneg

/-- The loop of phase 2 returns, given fuel beyond the number of negative voxels,
and leaves no negative voxel on the grid. -/
theorem healLoop_spec (d : VolumeData) (hwf : WF d) (hs : Small d) (fuel : Nat) (s : HealState)
    (h : HealInv d s) (hcount : s.count = 0 → negatives d s.m_FeatureIds = ∅)
    (hf : (negatives d s.m_FeatureIds).card + 2 ≤ fuel) :
    ∃ s', healLoop d fuel s = some s' ∧ negatives d s'.m_FeatureIds = ∅ ∧
      ∀ v, ¬ s.m_FeatureIds v < 0 → s'.m_FeatureIds v = s.m_FeatureIds v := by
  induction fuel generalizing s with
  | zero => omega
  | succ fuel ih =>
    unfold healLoop
    by_cases hc : s.count ≠ 0
    · rw [if_pos hc]
      obtain ⟨_, b, _, e, f⟩ := healPass_spec d hwf hs s h.cleared
      have hsub := negatives_pass_subset d s
      by_cases hempty : negatives d s.m_FeatureIds = ∅
      · have hc' : (healPass d s).count = 0 := by
          rw [f]
          intro v hv hneg
          have : v ∈ negatives d s.m_FeatureIds := mem_negatives.mpr ⟨hv, hneg⟩
          rw [hempty] at this
          exact absurd this (Finset.not_mem_empty v)
        have hfuel : 1 ≤ fuel := by omega
        obtain ⟨f', rfl⟩ : ∃ f', fuel = f' + 1 := ⟨fuel - 1, by omega⟩
        refine ⟨healPass d s, ?_, ?_, b⟩
        · unfold healLoop
          rw [if_neg (by simpa using hc')]
        · exact Finset.subset_empty.mp (hempty ▸ hsub)
      · obtain ⟨v0, hv0⟩ := Finset.nonempty_iff_ne_empty.mpr hempty
        obtain ⟨hg0, hn0⟩ := mem_negatives.mp hv0
        obtain ⟨v, hv, hneg, hpos⟩ := h.progress hwf ⟨v0, hg0, hn0⟩
        have hlt : (negatives d (healPass d s).m_FeatureIds).card
            < (negatives d s.m_FeatureIds).card := by
          apply Finset.card_lt_card
          rw [Finset.ssubset_iff_of_subset hsub]
          refine ⟨v, mem_negatives.mpr ⟨hv, hneg⟩, ?_⟩
          intro hmem
          have h1 := (mem_negatives.mp hmem).2
          obtain ⟨hmaj, heq⟩ := e v hv hneg hpos
          rw [heq] at h1
          have := hmaj.2.1
          omega
        have hc' : (healPass d s).count = 0 → negatives d (healPass d s).m_FeatureIds = ∅ := by
          intro hz
          exfalso
          exact (f.mp hz) v0 hg0 hn0
        obtain ⟨s', hrun, hres, hkeep⟩ := ih (healPass d s) (h.pass hwf hs) hc' (by omega)
        refine ⟨s', hrun, hres, ?_⟩
        intro u hu
        rw [hkeep u (by rw [b u hu]; exact hu), b u hu]
    · rw [if_neg hc]
      exact ⟨s, rfl, hcount (by simpa using hc), fun _ _ => rfl⟩

theorem negatives_card_le (d : VolumeData) (fid : Int → Int) :
    (negatives d fid).card ≤ d.totalPoints.toNat := by
  unfold negatives
  refine le_trans (Finset.card_filter_le _ _) ?_
  simp

/-- C4, the run on the failing input.  On the line `[0, 0, 5]` with minimum defect
size 3 the component of zero voxels is `{0, 1}` (two voxels, fewer than 3), but the
seed is never marked in `m_AlreadyChecked`, its neighbour pushes it again, the work
list is `[0, 1, 0]` of length 3, and phase 1 keeps both voxels at 0 instead of
setting them to `-1`. -/
theorem phase1_counts_seed_twice :
    Adj (Examples.line 0 0 5 3) 0 1 ∧
    (flood (Examples.line 0 0 5 3) (Examples.line 0 0 5 3).m_FeatureIds 10
        ⟨fun i => decide (i = 2), [0]⟩ 0).map (fun r => r.1.currentvlist) = some [0, 1, 0] ∧
    (phase1 (Examples.line 0 0 5 3) 10).map
        (fun p => (p.m_FeatureIds 0, p.m_FeatureIds 1, p.m_FeatureIds 2)) = some (0, 0, 5) ∧
    (execute 2 10 (Examples.line 0 0 5 3)).map
        (fun r => (r.m_FeatureIds 0, r.m_FeatureIds 1, r.m_FeatureIds 2)) = some (0, 0, 5) := by
  refine ⟨⟨3, by decide, by decide, by decide⟩, by decide, by decide, by decide⟩

/-- The majority vote on a grid within the range of the number types of phase 2 (no
dimension above `2 ^ 24 + 1`, fewer than `2 ^ 31` voxels).  In every pass
of phase 2 — the pass number `k + 1` of a loop started with cleared tallies, as
`execute` does — every negative voxel `v` of the grid (a voxel holding `-1` in
particular) that has an in-bounds face neighbour with a positive feature id gets a
recorded neighbour `m_Neighbors[v]` that is an in-bounds face neighbour of `v` with
a positive id whose number of occurrences among the in-bounds face neighbours of
`v` is maximal among the positive ids, and after the pass `v` holds the id that
neighbour held at the start of the pass. -/
theorem healPass_majority_vote (d : VolumeData) (hwf : WF d) (hs : Small d) (s0 : HealState)
    (hn : ∀ g, s0.n g = 0) (k : Nat) (v : Int) (hv : InGrid d v)
    (hneg : ((healPass d)^[k] s0).m_FeatureIds v < 0)
    (hpos : HasPositive d ((healPass d)^[k] s0).m_FeatureIds v) :
    Majority d ((healPass d)^[k] s0).m_FeatureIds v
        ((healPass d ((healPass d)^[k] s0)).m_Neighbors v) ∧
      (healPass d ((healPass d)^[k] s0)).m_FeatureIds v
        = ((healPass d)^[k] s0).m_FeatureIds ((healPass d ((healPass d)^[k] s0)).m_Neighbors v) := by
  have hclr : ∀ k : Nat, ∀ g, ((healPass d)^[k] s0).n g = 0 := by
    intro k
    induction k with
    | zero => exact hn
    | succ k ih =>
      rw [Function.iterate_succ_apply']
      exact (healPass_spec d hwf hs _ ih).1
  exact (healPass_spec d hwf hs _ (hclr k)).2.2.2.1 v hv hneg hpos

theorem healPass_majority_vote_witness :
    (WF Examples.slab ∧ Small Examples.slab ∧ (∀ g, Examples.slabState.n g = 0) ∧
      InGrid Examples.slab 4 ∧
      ((healPass Examples.slab)^[0] Examples.slabState).m_FeatureIds 4 < 0 ∧
      HasPositive Examples.slab ((healPass Examples.slab)^[0] Examples.slabState).m_FeatureIds 4) ∧
    (Majority Examples.slab ((healPass Examples.slab)^[0] Examples.slabState).m_FeatureIds 4
        ((healPass Examples.slab ((healPass Examples.slab)^[0] Examples.slabState)).m_Neighbors 4) ∧
      (healPass Examples.slab ((healPass Examples.slab)^[0] Examples.slabState)).m_FeatureIds 4
        = ((healPass Examples.slab)^[0] Examples.slabState).m_FeatureIds
            ((healPass Examples.slab ((healPass Examples.slab)^[0] Examples.slabState)).m_Neighbors 4)) :=
  have hwf : WF Examples.slab := ⟨by decide, by decide, by decide, by decide⟩
  have hpos : HasPositive Examples.slab
      ((healPass Examples.slab)^[0] Examples.slabState).m_FeatureIds 4 :=
    ⟨1, ⟨1, by decide, by decide, by decide⟩, by decide⟩
  ⟨⟨hwf, ⟨by decide, by decide, by decide, by decide⟩, fun _ => rfl, ⟨by decide, by decide⟩, by decide,
      hpos⟩,
    healPass_majority_vote Examples.slab hwf ⟨by decide, by decide, by decide, by decide⟩
      Examples.slabState (fun _ => rfl) 0 4
      ⟨by decide, by decide⟩ (by decide) hpos⟩

/-- The pass on the example slab: the centre voxel 4 records neighbour 5 (the
second neighbour of feature 7, where the tally of 7 reaches 2) and becomes 7. -/
theorem healPass_example :
    (healPass Examples.slab Examples.slabState).m_Neighbors 4 = 5 ∧
      (healPass Examples.slab Examples.slabState).m_FeatureIds 4 = 7 := by
  decide

end FillBadData

/-! ### `MergeTwins` -/

namespace MergeTwins

theorem SameData.refl (g : Grain) : SameData g g := rfl

theorem SameData.phase {g g' : Grain} (h : SameData g g') : g'.phase = g.phase := by
  rw [h]

theorem SameData.avg_quat {g g' : Grain} (h : SameData g g') : g'.avg_quat = g.avg_quat := by
  rw [h]

theorem SameData.neighborlist {g g' : Grain} (h : SameData g g') :
    g'.neighborlist = g.neighborlist := by
  rw [h]

theorem SameData.mark {g g' : Grain} (h : SameData g g') (b : Bool) (t : Int) :
    SameData g { g' with gottwinmerged := b, twinnewnumber := t } := by
  unfold SameData at h ⊢
  rw [h]

/-- Without a call of `getMisoQuat` the angle is `10000` and the criterion fails,
so the stale axis never decides the test. -/
theorem twinCriterion_stale (ops : OrientationOps) (crystruct : Int → Int) (g1 g2 : Grain)
    (stale : ℚ × ℚ × ℚ) :
    twinCriterion ops (misorientation ops crystruct g1 g2 stale) = isTwin ops crystruct g1 g2 := by
  unfold isTwin misorientation
  simp only
  split_ifs with h
  · rfl
  · unfold twinCriterion
    simp only
    have : ¬ (abs ((10000 : ℚ) - 60) < 2) := by norm_num
    simp [this]

theorem isTwin_sameData (ops : OrientationOps) (crystruct : Int → Int) {g1 g1' g2 g2' : Grain}
    (h1 : SameData g1 g1') (h2 : SameData g2 g2') :
    isTwin ops crystruct g1' g2' = isTwin ops crystruct g1 g2 := by
  unfold isTwin misorientation
  rw [h1.avg_quat, h1.phase, h2.avg_quat, h2.phase]

theorem natCast_ne_neg_one (i : Nat) : (i : Int) ≠ -1 := by omega

/-- One neighbour entry `e` of the work-list grain `f`: the invariant is kept, merged
grains are left alone, the work list only grows at its end, and the grain named by
`e` is merged afterwards when it is eligible and passes the twin criterion. -/
theorem examine_spec (ops : OrientationOps) (crystruct : Int → Int) (numgrains : Nat)
    (Gh : Nat → Grain) (i : Nat) (hok : GrainsOk Gh numgrains) (s : MergeState)
    (h : CollectInv ops crystruct numgrains Gh i s) (f : Nat) (hf : f ∈ s.twinlist)
    (hflt : f < numgrains) (nl : List Int) (hnl : (Gh f).neighborlist = some nl) (e : Int)
    (he : e ∈ nl) :
    CollectInv ops crystruct numgrains Gh i (examine ops crystruct i f s e) ∧
    (∀ g, (s.m_Grains g).twinnewnumber ≠ -1 →
      (examine ops crystruct i f s e).m_Grains g = s.m_Grains g) ∧
    (∃ ext, (examine ops crystruct i f s e).twinlist = s.twinlist ++ ext) ∧
    (e.toNat ≠ i → (Gh e.toNat).phase > 0 → Twin ops crystruct Gh f e.toNat →
      ((examine ops crystruct i f s e).m_Grains e.toNat).twinnewnumber ≠ -1) := by
  obtain ⟨rest, hl, hnd, hsame, hrest, hout⟩ := h
  have htw : ∀ st, twinCriterion ops (misorientation ops crystruct (s.m_Grains f)
      (s.m_Grains e.toNat) st) = isTwin ops crystruct (Gh f) (Gh e.toNat) := by
    intro st
    rw [twinCriterion_stale, isTwin_sameData ops crystruct (hsame f) (hsame e.toNat)]
  unfold examine
  simp only
  split_ifs with hc ht
  · obtain ⟨hgi, hgt, hgp⟩ := hc
    set g := e.toNat with hg
    have hnot : g ∉ rest := fun hm => by
      have := (hrest g hm).2.2.2.2.1
      rw [hgt] at this
      exact natCast_ne_neg_one i this.symm
    have hgh : s.m_Grains g = Gh g := hout g hnot
    have hfg : f ≠ g := by
      rw [hl] at hf
      rcases List.mem_cons.mp hf with h1 | h1
      · rw [h1]; exact fun h2 => hgi h2.symm
      · intro h2
        rw [h2] at h1
        exact hnot h1
    refine ⟨⟨rest ++ [g], by simp [hl], ?_, ?_, ?_, ?_⟩, ?_, ⟨[g], rfl⟩, ?_⟩
    · exact List.Nodup.append hnd (List.nodup_singleton g) (by simpa using hnot)
    · intro g'
      by_cases hg' : g' = g
      · rw [hg']
        simp only [Function.update_same]
        exact (hsame g).mark true i
      · simp only [Function.update_noteq hg']
        exact hsame g'
    · intro g' hg'
      rcases List.mem_append.mp hg' with hm | hm
      · obtain ⟨a1, a2, a3, a4, a5, a6, f', b1, b2, b3, b4⟩ := hrest g' hm
        have hne : g' ≠ g := fun h2 => hnot (h2 ▸ hm)
        refine ⟨a1, a2, a3, a4, ?_, ?_, f', ?_, b2, b3, b4⟩
        · simp only [Function.update_noteq hne]; exact a5
        · simp only [Function.update_noteq hne]; exact a6
        · rcases b1 with b1 | b1
          · left; exact b1
          · right; exact List.mem_append.mpr (Or.inl b1)
      · rw [List.mem_singleton.mp hm]
        refine ⟨(hok.range f hflt nl hnl e he).2, hgi, by rw [← hgh]; exact hgt,
          by rw [← hgh]; exact hgp, by simp, by simp, f, ?_, hfg, ⟨nl, hnl, e, he, rfl⟩, ?_⟩
        · rw [hl] at hf
          rcases List.mem_cons.mp hf with h1 | h1
          · left; exact h1
          · right; exact List.mem_append.mpr (Or.inl h1)
        · unfold Twin
          rw [← htw]
          exact ht
    · intro g' hg'
      have h1 : g' ∉ rest := fun hm => hg' (List.mem_append.mpr (Or.inl hm))
      have h2 : g' ≠ g := fun hm => hg' (List.mem_append.mpr (Or.inr (by simp [hm])))
      simp only [Function.update_noteq h2]
      exact hout g' h1
    · intro g' hg'
      have h2 : g' ≠ g := fun hm => hg' (by rw [hm]; exact hgt)
      simp only [Function.update_noteq h2]
    · intro _ _ _
      simp only [Function.update_same]
      exact natCast_ne_neg_one i
  · refine ⟨⟨rest, hl, hnd, hsame, hrest, hout⟩, fun _ _ => rfl, ⟨[], by simp⟩, ?_⟩
    intro _ _ htwin
    exfalso
    unfold Twin at htwin
    rw [← htw] at htwin
    exact ht htwin
  · refine ⟨⟨rest, hl, hnd, hsame, hrest, hout⟩, fun _ _ => rfl, ⟨[], by simp⟩, ?_⟩
    intro h1 h2 _ h3
    apply hc
    refine ⟨h1, h3, ?_⟩
    rw [(hsame e.toNat).phase]
    exact h2

theorem foldl_examine_spec (ops : OrientationOps) (crystruct : Int → Int) (numgrains : Nat)
    (Gh : Nat → Grain) (i : Nat) (hok : GrainsOk Gh numgrains) (f : Nat) (hflt : f < numgrains)
    (nl : List Int) (hnl : (Gh f).neighborlist = some nl) (l : List Int) (hl : ∀ e ∈ l, e ∈ nl)
    (s : MergeState) (h : CollectInv ops crystruct numgrains Gh i s) (hf : f ∈ s.twinlist) :
    CollectInv ops crystruct numgrains Gh i (l.foldl (examine ops crystruct i f) s) ∧
    (∀ g, (s.m_Grains g).twinnewnumber ≠ -1 →
      (l.foldl (examine ops crystruct i f) s).m_Grains g = s.m_Grains g) ∧
    (∃ ext, (l.foldl (examine ops crystruct i f) s).twinlist = s.twinlist ++ ext) ∧
    (∀ e ∈ l, e.toNat ≠ i → (Gh e.toNat).phase > 0 → Twin ops crystruct Gh f e.toNat →
      ((l.foldl (examine ops crystruct i f) s).m_Grains e.toNat).twinnewnumber ≠ -1) := by
  induction l generalizing s with
  | nil => exact ⟨h, fun _ _ => rfl, ⟨[], by simp⟩, fun e he => by simp at he⟩
  | cons a t ih =>
    obtain ⟨h1, h2, ⟨e1, h3⟩, h4⟩ :=
      examine_spec ops crystruct numgrains Gh i hok s h f hf hflt nl hnl a (hl a (by simp))
    obtain ⟨k1, k2, ⟨e2, k3⟩, k4⟩ := ih (fun e he => hl e (by simp [he])) _ h1
      (by rw [h3]; exact List.mem_append.mpr (Or.inl hf))
    simp only [List.foldl_cons]
    refine ⟨k1, ?_, ⟨e1 ++ e2, by rw [k3, h3, List.append_assoc]⟩, ?_⟩
    · intro g hg
      rw [k2 g (by rw [h2 g hg]; exact hg), h2 g hg]
    · intro e he hei hep htw
      rcases List.mem_cons.mp he with rfl | he
      · have := h4 hei hep htw
        rw [k2 _ this]
        exact this
      · exact k4 e he hei hep htw

theorem CollectInv.twinlist_le {ops : OrientationOps} {crystruct : Int → Int} {numgrains : Nat}
    {Gh : Nat → Grain} {i : Nat} {s : MergeState}
    (h : CollectInv ops crystruct numgrains Gh i s) : s.twinlist.length ≤ numgrains + 1 := by
  obtain ⟨rest, hl, hnd, _, hrest, _⟩ := h
  rw [hl, List.length_cons, ← List.toFinset_card_of_nodup hnd]
  have : rest.toFinset ⊆ Finset.range numgrains := by
    intro v hv
    exact Finset.mem_range.mpr (hrest v (List.mem_toFinset.mp hv)).1
  have := Finset.card_le_card this
  rw [Finset.card_range] at this
  omega

theorem CollectInv.mem_lt {ops : OrientationOps} {crystruct : Int → Int} {numgrains : Nat}
    {Gh : Nat → Grain} {i : Nat} {s : MergeState}
    (h : CollectInv ops crystruct numgrains Gh i s) (hi : i < numgrains)
    (hip : (Gh i).phase > 0) {f : Nat}
    (hf : f ∈ s.twinlist) : f < numgrains ∧ (Gh f).phase > 0 := by
  obtain ⟨rest, hl, _, _, hrest, _⟩ := h
  rw [hl] at hf
  rcases List.mem_cons.mp hf with rfl | hf
  · exact ⟨hi, hip⟩
  · exact ⟨(hrest f hf).1, (hrest f hf).2.2.2.1⟩

/-- The collection of a cluster returns, given fuel beyond the number of grains; on
return the whole work list has been processed and no grain merged before the
collection has changed. -/
theorem collect_spec (ops : OrientationOps) (crystruct : Int → Int) (numgrains : Nat)
    (Gh : Nat → Grain) (i : Nat) (hok : GrainsOk Gh numgrains) (hi : i < numgrains)
    (hip : (Gh i).phase > 0) (fuel : Nat) (s : MergeState) (j : Nat)
    (h : CollectInv ops crystruct numgrains Gh i s) (hp : Collected ops crystruct Gh i s j)
    (hj : j ≤ s.twinlist.length) (hfuel : numgrains + 2 ≤ fuel + j) :
    ∃ s', collect ops crystruct i fuel s j = some s' ∧
      CollectInv ops crystruct numgrains Gh i s' ∧
      Collected ops crystruct Gh i s' s'.twinlist.length ∧
      (∀ g, (s.m_Grains g).twinnewnumber ≠ -1 → s'.m_Grains g = s.m_Grains g) := by
  induction fuel generalizing s j with
  | zero =>
    have := h.twinlist_le
    omega
  | succ fuel ih =>
    unfold collect
    by_cases hlt : j < s.twinlist.length
    · rw [if_pos hlt]
      simp only
      have hget : s.twinlist.getD j 0 = s.twinlist[j] := List.getD_eq_getElem _ _ hlt
      have hmem : s.twinlist.getD j 0 ∈ s.twinlist := by
        rw [hget]; exact List.getElem_mem hlt
      obtain ⟨hflt, hfp⟩ := h.mem_lt hi hip hmem
      have hsame : ∀ g, SameData (Gh g) (s.m_Grains g) := by
        obtain ⟨_, _, _, hs, _, _⟩ := h
        exact hs
      obtain ⟨nl, hnl⟩ := Option.ne_none_iff_exists'.mp (hok.lists _ hflt hfp)
      rw [(hsame _).neighborlist, hnl]
      simp only
      obtain ⟨k1, k2, ⟨ext, k3⟩, k4⟩ := foldl_examine_spec ops crystruct numgrains Gh i hok
        (s.twinlist.getD j 0) hflt nl hnl nl (fun e he => he) s h hmem
      have hcol : Collected ops crystruct Gh i
          (nl.foldl (examine ops crystruct i (s.twinlist.getD j 0)) s) (j + 1) := by
        intro f hf b hnb hbi hbp hbt
        rw [k3, List.take_append_of_le_length (by omega), List.take_succ,
          List.getElem?_eq_getElem hlt] at hf
        rcases List.mem_append.mp hf with hf | hf
        · have := hp f hf b hnb hbi hbp hbt
          rw [k2 b this]
          exact this
        · simp only [Option.toList, List.mem_singleton] at hf
          subst hf
          obtain ⟨nl', hnl', e, he, rfl⟩ := hnb
          rw [← hget, hnl] at hnl'
          cases hnl'
          rw [← hget] at hbt
          exact k4 e he hbi hbp hbt
      obtain ⟨s', r1, r2, r3, r4⟩ := ih _ (j + 1) k1 hcol
        (by rw [k3, List.length_append]; omega) (by omega)
      refine ⟨s', r1, r2, r3, ?_⟩
      intro g hg
      rw [r4 g (by rw [k2 g hg]; exact hg), k2 g hg]
    · rw [if_neg hlt]
      have e : j = s.twinlist.length := by omega
      subst e
      exact ⟨s, rfl, h, hp, fun _ _ => rfl⟩

theorem GrainsOk.of_same {G0 G : Nat → Grain} {n : Nat} (h : GrainsOk G0 n)
    (hs : ∀ g, SameData (G0 g) (G g)) : GrainsOk G n :=
  ⟨fun g hg hp => by
      rw [(hs g).neighborlist]; exact h.lists g hg (by rw [← (hs g).phase]; exact hp),
    fun g hg nl hnl => h.range g hg nl (by rw [← (hs g).neighborlist]; exact hnl)⟩

theorem Nbr.same_iff {G0 G : Nat → Grain} (hs : ∀ g, SameData (G0 g) (G g)) {a b : Nat} :
    Nbr G a b ↔ Nbr G0 a b := by
  unfold Nbr
  rw [(hs a).neighborlist]

theorem Twin.congr_same (ops : OrientationOps) (crystruct : Int → Int) {G0 G : Nat → Grain}
    (hs : ∀ g, SameData (G0 g) (G g)) {a b : Nat} :
    Twin ops crystruct G a b ↔ Twin ops crystruct G0 a b := by
  unfold Twin
  rw [isTwin_sameData ops crystruct (hs a) (hs b)]

theorem SameData.trans {a b c : Grain} (h1 : SameData a b) (h2 : SameData b c) :
    SameData a c := by
  unfold SameData at *
  rw [h2, h1]

/-- The collection started at the head of the outer loop for an unmerged grain `i`
of positive phase. -/
theorem collect_from_head (ops : OrientationOps) (crystruct : Int → Int) (numgrains : Nat)
    (s : MergeState) (i : Nat) (hok : GrainsOk s.m_Grains numgrains) (hi : i < numgrains)
    (hip : (s.m_Grains i).phase > 0)
    (htl : s.twinlist = []) (fuel : Nat) (hfuel : numgrains + 2 ≤ fuel) :
    ∃ s', collect ops crystruct i fuel { s with twinlist := s.twinlist ++ [i] } 0 = some s' ∧
      CollectInv ops crystruct numgrains s.m_Grains i s' ∧
      Collected ops crystruct s.m_Grains i s' s'.twinlist.length ∧
      (∀ g, (s.m_Grains g).twinnewnumber ≠ -1 → s'.m_Grains g = s.m_Grains g) := by
  refine collect_spec ops crystruct numgrains s.m_Grains i hok hi hip fuel _ 0 ?_ ?_
    (Nat.zero_le _) (by omega)
  · exact ⟨[], by simp [htl], List.nodup_nil, fun g => SameData.refl _, by simp, fun _ _ => rfl⟩
  · intro f hf
    simp at hf

/-- The outer loop of `merge_twins` returns, given a well-formed grain table and
fuel beyond the number of grains; only the merge fields change and a grain that is
merged stays as it is. -/
theorem mergeLoop_frame (ops : OrientationOps) (crystruct : Int → Int) (numgrains : Nat)
    (G0 : Nat → Grain) (hok : GrainsOk G0 numgrains) (fuel : Nat) (hfuel : numgrains + 2 ≤ fuel)
    (k i : Nat) (s : MergeState) (hs : ∀ g, SameData (G0 g) (s.m_Grains g))
    (htl : s.twinlist = []) (hik : i + k ≤ numgrains) :
    ∃ s', mergeLoop ops crystruct fuel k i s = some s' ∧
      (∀ g, SameData (G0 g) (s'.m_Grains g)) ∧ s'.twinlist = [] ∧
      (∀ g, (s.m_Grains g).twinnewnumber ≠ -1 → s'.m_Grains g = s.m_Grains g) := by
  induction k generalizing i s with
  | zero => exact ⟨s, rfl, hs, htl, fun _ _ => rfl⟩
  | succ k ih =>
    unfold mergeLoop
    split
    next hc =>
      obtain ⟨s1, h1, h2, _, h4⟩ := collect_from_head ops crystruct numgrains s i
        (hok.of_same hs) (by omega) hc.2 htl fuel hfuel
      rw [h1]
      simp only
      obtain ⟨_, _, _, hsame, _, _⟩ := h2
      obtain ⟨s', r1, r2, r3, r4⟩ := ih (i + 1) { s1 with twinlist := [] }
        (fun g => (hs g).trans (hsame g)) rfl (by omega)
      refine ⟨s', r1, r2, r3, ?_⟩
      intro g hg
      rw [r4 g (by simp only; rw [h4 g hg]; exact hg)]
      exact h4 g hg
    next hc =>
      obtain ⟨s', r1, r2, r3, r4⟩ := ih (i + 1) { s with twinlist := [] } hs rfl (by omega)
      exact ⟨s', r1, r2, r3, r4⟩

theorem mergeLoop_succ (ops : OrientationOps) (crystruct : Int → Int) (fuel : Nat)
    (k i : Nat) (s : MergeState) :
    mergeLoop ops crystruct fuel (k + 1) i s =
      if (s.m_Grains i).twinnewnumber = -1 ∧ (s.m_Grains i).phase > 0 then
        match collect ops crystruct i fuel { s with twinlist := s.twinlist ++ [i] } 0 with
        | none => none
        | some s' => mergeLoop ops crystruct fuel k (i + 1) { s' with twinlist := [] }
      else mergeLoop ops crystruct fuel k (i + 1) { s with twinlist := [] } := by
  rw [mergeLoop]

theorem mergeLoop_add (ops : OrientationOps) (crystruct : Int → Int) (fuel : Nat)
    (a b i : Nat) (s : MergeState) :
    mergeLoop ops crystruct fuel (a + b) i s
      = (mergeLoop ops crystruct fuel a i s).bind (mergeLoop ops crystruct fuel b (i + a)) := by
  induction a generalizing i s with
  | zero => simp [mergeLoop]
  | succ a ih =>
    have e : a + 1 + b = (a + b) + 1 := by omega
    have e2 : i + (a + 1) = i + 1 + a := by omega
    rw [e, mergeLoop_succ, mergeLoop_succ, e2]
    split
    next hc =>
      cases hcol : collect ops crystruct i fuel { s with twinlist := s.twinlist ++ [i] } 0 with
      | none => simp
      | some s1 =>
        simp only
        rw [ih]
    next hc =>
      rw [ih]

/-- Every grain of a chain of twin neighbours that starts at `a`, a grain of the
work list, is in the collected cluster. -/
theorem chain_collected (ops : OrientationOps) (crystruct : Int → Int) (numgrains : Nat)
    (Gh : Nat → Grain) (i : Nat) (s : MergeState)
    (h : CollectInv ops crystruct numgrains Gh i s)
    (hp : Collected ops crystruct Gh i s s.twinlist.length) (chain : List Nat) (a : Nat)
    (ha : a ∈ s.twinlist)
    (hchain : List.Chain (fun a b => Nbr Gh a b ∧ Twin ops crystruct Gh a b) a chain)
    (hel : ∀ n ∈ chain, n ≠ i ∧ (Gh n).twinnewnumber = -1 ∧ (Gh n).phase > 0) :
    ∀ n ∈ chain, (s.m_Grains n).gottwinmerged = true ∧ (s.m_Grains n).twinnewnumber = i := by
  induction chain generalizing a with
  | nil => intro n hn; simp at hn
  | cons b t ih =>
    obtain ⟨rest, hl, hnd, hsame, hrest, hout⟩ := h
    rw [List.chain_cons] at hchain
    obtain ⟨⟨hnb, htw⟩, hct⟩ := hchain
    obtain ⟨hbi, hbu, hbp⟩ := hel b (by simp)
    have hb : b ∈ rest := by
      by_contra hno
      have h1 := hp a (by rw [List.take_length]; exact ha) b hnb hbi hbp htw
      rw [hout b hno] at h1
      exact h1 hbu
    intro n hn
    rcases List.mem_cons.mp hn with rfl | hn
    · exact ⟨(hrest n hb).2.2.2.2.2.1, (hrest n hb).2.2.2.2.1⟩
    · exact ih b (by rw [hl]; exact List.mem_cons_of_mem _ hb) hct
        (fun m hm => hel m (List.mem_cons_of_mem _ hm)) n hn

/-! Facts about the example containers. -/

theorem Nbr_iff (G : Nat → Grain) (a b : Nat) : Nbr G a b ↔ hasNeighbor G a b = true := by
  unfold Nbr hasNeighbor
  cases h : (G a).neighborlist with
  | none => simp
  | some nl => simp [List.any_eq_true]

theorem twinPair_ok : GrainsOk Examples.twinPair.m_Grains Examples.twinPair.numGrains := by
  constructor
  · intro g hg
    change g < 4 at hg
    interval_cases g <;> decide
  · intro g hg nl h e he
    change g < 4 at hg
    interval_cases g
    · cases h
    · cases h
      simp at he
      subst he
      decide
    · cases h
      simp at he
      rcases he with rfl | rfl <;> decide
    · cases h
      simp at he
      subst he
      decide

theorem lopsided_ok : GrainsOk Examples.lopsided.m_Grains Examples.lopsided.numGrains := by
  constructor
  · intro g hg
    change g < 4 at hg
    interval_cases g <;> decide
  · intro g hg nl h e he
    change g < 4 at hg
    interval_cases g
    · cases h
    all_goals
      cases h
      simp at he
      subst he
      decide

theorem twinPair_fresh : ∀ g, g < Examples.twinPair.numGrains →
    (Examples.twinPair.m_Grains g).gottwinmerged = false ∧
      (Examples.twinPair.m_Grains g).twinnewnumber = -1 := by
  intro g hg
  change g < 4 at hg
  interval_cases g <;> decide

theorem lopsided_fresh : ∀ g, g < Examples.lopsided.numGrains →
    (Examples.lopsided.m_Grains g).gottwinmerged = false ∧
      (Examples.lopsided.m_Grains g).twinnewnumber = -1 := by
  intro g hg
  change g < 4 at hg
  interval_cases g <;> decide

theorem twinPair_nbr_symm : ∀ a b, a < Examples.twinPair.numGrains →
    b < Examples.twinPair.numGrains →
    Nbr Examples.twinPair.m_Grains a b → Nbr Examples.twinPair.m_Grains b a := by
  intro a b ha hb
  change a < 4 at ha
  change b < 4 at hb
  rw [Nbr_iff, Nbr_iff]
  interval_cases a <;> interval_cases b <;> decide

theorem twinPair_twin_symm : ∀ a b, a < Examples.twinPair.numGrains →
    b < Examples.twinPair.numGrains →
    Twin Examples.ops Examples.twinPair.crystruct Examples.twinPair.m_Grains a b →
      Twin Examples.ops Examples.twinPair.crystruct Examples.twinPair.m_Grains b a := by
  intro a b ha hb
  change a < 4 at ha
  change b < 4 at hb
  unfold Twin
  interval_cases a <;> interval_cases b <;> decide!

theorem twinChain_ok : GrainsOk Examples.twinChain.m_Grains Examples.twinChain.numGrains := by
  constructor
  · intro g hg
    change g < 4 at hg
    interval_cases g <;> decide
  · intro g hg nl h e he
    change g < 4 at hg
    interval_cases g
    · cases h
    · cases h
      simp at he
      subst he
      decide
    · cases h
      simp at he
      rcases he with rfl | rfl <;> decide
    · cases h
      simp at he
      subst he
      decide

/-- C8 (transitive twin merge).  On a well-formed grain table and with fuel beyond
the number of grains `merge_twins` returns.  If `sh` is the state in which the outer
loop reaches grain `i`, grain `i` is unmerged with positive phase there, and `chain`
is a list `n_1, ..., n_k` with `n_1` in the neighbour list of `i`, `n_(j+1)` in the
neighbour list of `n_j`, every consecutive pair passing the twin criterion, and every
`n_j` different from `i`, unmerged in `sh` and of positive phase, then after
`merge_twins` every `n_j` has `gottwinmerged = true` and `twinnewnumber = i`. -/
theorem merge_twins_transitive (ops : OrientationOps) (n1 n2 n3 : ℚ) (fuel : Nat)
    (dc : DataContainer) (hok : GrainsOk dc.m_Grains dc.numGrains)
    (hfuel : dc.numGrains + 2 ≤ fuel) (i : Nat) (hi1 : 1 ≤ i) (hi : i < dc.numGrains)
    (sh : MergeState)
    (hreach : mergeLoop ops dc.crystruct fuel (i - 1) 1
      { m_Grains := dc.m_Grains, twinlist := [], n1 := n1, n2 := n2, n3 := n3 } = some sh)
    (hun : (sh.m_Grains i).twinnewnumber = -1) (hph : (sh.m_Grains i).phase > 0)
    (chain : List Nat)
    (hchain : List.Chain
      (fun a b => Nbr dc.m_Grains a b ∧ Twin ops dc.crystruct dc.m_Grains a b) i chain)
    (hel : ∀ n ∈ chain, n ≠ i ∧ (sh.m_Grains n).twinnewnumber = -1 ∧ (sh.m_Grains n).phase > 0) :
    ∃ dc', merge_twins ops n1 n2 n3 fuel dc = some dc' ∧
      ∀ n ∈ chain, (dc'.m_Grains n).gottwinmerged = true ∧ (dc'.m_Grains n).twinnewnumber = i := by
  obtain ⟨s0, hs0, hsame0, htl0, _⟩ := mergeLoop_frame ops dc.crystruct dc.numGrains dc.m_Grains
    hok fuel hfuel (i - 1) 1 { m_Grains := dc.m_Grains, twinlist := [], n1 := n1, n2 := n2, n3 := n3 }
    (fun g => SameData.refl _) rfl (by omega)
  rw [hreach] at hs0
  cases hs0
  obtain ⟨k, hk⟩ : ∃ k, dc.numGrains - 1 = (i - 1) + (k + 1) := ⟨dc.numGrains - i - 1, by omega⟩
  obtain ⟨s1, c1, c2, c3, c4⟩ := collect_from_head ops dc.crystruct dc.numGrains sh i
    (hok.of_same hsame0) hi hph htl0 fuel hfuel
  have hsame1 : ∀ g, SameData (dc.m_Grains g) (s1.m_Grains g) := by
    obtain ⟨_, _, _, hs, _, _⟩ := c2
    exact fun g => (hsame0 g).trans (hs g)
  obtain ⟨sF, f1, f2, f3, f4⟩ := mergeLoop_frame ops dc.crystruct dc.numGrains dc.m_Grains
    hok fuel hfuel k (i + 1) { s1 with twinlist := [] } hsame1 rfl (by omega)
  have hrun : mergeLoop ops dc.crystruct fuel (dc.numGrains - 1) 1
      { m_Grains := dc.m_Grains, twinlist := [], n1 := n1, n2 := n2, n3 := n3 } = some sF := by
    rw [hk, mergeLoop_add, hreach]
    simp only [Option.some_bind]
    have e : 1 + (i - 1) = i := by omega
    rw [e, mergeLoop_succ, if_pos ⟨hun, hph⟩, c1]
    exact f1
  refine ⟨_, by unfold merge_twins; rw [hrun], ?_⟩
  intro n hn
  have hmem : i ∈ s1.twinlist := by
    obtain ⟨rest, hl, _⟩ := c2
    rw [hl]; simp
  have hch := chain_collected ops dc.crystruct dc.numGrains sh.m_Grains i s1 c2 c3 chain i hmem
    (List.Chain.imp (fun a b hab =>
      ⟨(Nbr.same_iff hsame0).mpr hab.1, (Twin.congr_same ops dc.crystruct hsame0).mpr hab.2⟩) hchain)
    hel n hn
  simp only
  rw [f4 n (by simp only; rw [hch.2]; exact natCast_ne_neg_one i)]
  exact hch

/-- The theorem for C8 applied to the row `twinChain` and the chain `2, 3` from
grain 1: grain 3 is no neighbour and no twin of grain 1 and is merged into grain 1
as the twin of its twin 2. -/
theorem merge_twins_transitive_witness :
    (GrainsOk Examples.twinChain.m_Grains Examples.twinChain.numGrains ∧
      Examples.twinChain.numGrains + 2 ≤ 10 ∧ 1 ≤ 1 ∧ 1 < Examples.twinChain.numGrains ∧
      mergeLoop Examples.skewOps Examples.twinChain.crystruct 10 (1 - 1) 1
        { m_Grains := Examples.twinChain.m_Grains, twinlist := [], n1 := 0, n2 := 0, n3 := 0 }
        = some { m_Grains := Examples.twinChain.m_Grains, twinlist := [], n1 := 0, n2 := 0,
                 n3 := 0 } ∧
      (Examples.twinChain.m_Grains 1).twinnewnumber = -1 ∧
      (Examples.twinChain.m_Grains 1).phase > 0 ∧
      List.Chain (fun a b => Nbr Examples.twinChain.m_Grains a b ∧
        Twin Examples.skewOps Examples.twinChain.crystruct Examples.twinChain.m_Grains a b)
        1 [2, 3] ∧
      ¬ Nbr Examples.twinChain.m_Grains 1 3 ∧
      ¬ Twin Examples.skewOps Examples.twinChain.crystruct Examples.twinChain.m_Grains 1 3) ∧
    ∃ dc', merge_twins Examples.skewOps 0 0 0 10 Examples.twinChain = some dc' ∧
      ∀ n ∈ [2, 3], (dc'.m_Grains n).gottwinmerged = true ∧
        (dc'.m_Grains n).twinnewnumber = (1 : Nat) :=
  have hchain : List.Chain (fun a b => Nbr Examples.twinChain.m_Grains a b ∧
      Twin Examples.skewOps Examples.twinChain.crystruct Examples.twinChain.m_Grains a b)
      1 [2, 3] :=
    List.Chain.cons ⟨(Nbr_iff _ 1 2).mpr (by decide), by unfold Twin; decide!⟩
      (List.Chain.cons ⟨(Nbr_iff _ 2 3).mpr (by decide), by unfold Twin; decide!⟩
        List.Chain.nil)
  ⟨⟨twinChain_ok, by decide, by decide, by decide, rfl, by decide, by decide, hchain,
      by rw [Nbr_iff]; decide, by unfold Twin; decide!⟩,
    merge_twins_transitive Examples.skewOps 0 0 0 10 Examples.twinChain twinChain_ok
      (by decide) 1 (by decide) (by decide)
      { m_Grains := Examples.twinChain.m_Grains, twinlist := [], n1 := 0, n2 := 0, n3 := 0 }
      rfl (by decide) (by decide) [2, 3] hchain
      (fun n hn => by
        have e : n = 2 ∨ n = 3 := by simpa using hn
        rcases e with rfl | rfl
        · exact ⟨by decide, by decide, by decide⟩
        · exact ⟨by decide, by decide, by decide⟩)⟩

/-- The run of `merge_twins` on the row `twinChain`: the grains 2 and 3 are marked
as merged into grain 1. -/
theorem merge_twins_chain_example :
    (merge_twins Examples.skewOps 0 0 0 10 Examples.twinChain).map
      (fun dc => ((dc.m_Grains 2).gottwinmerged, (dc.m_Grains 2).twinnewnumber,
        (dc.m_Grains 3).gottwinmerged, (dc.m_Grains 3).twinnewnumber))
      = some (true, 1, true, 1) := by
  decide!

/-! The survivor of a cluster (symmetric neighbour lists and criterion). -/

/-- One iteration of the outer loop that collects a cluster keeps the outer
invariant, provided neighbour lists and twin criterion are symmetric. -/
theorem outer_step (ops : OrientationOps) (crystruct : Int → Int) (numgrains : Nat)
    (G0 : Nat → Grain)
    (hsn : ∀ a b, a < numgrains → b < numgrains → Nbr G0 a b → Nbr G0 b a)
    (hst : ∀ a b, a < numgrains → b < numgrains →
      Twin ops crystruct G0 a b → Twin ops crystruct G0 b a)
    (i : Nat) (hi1 : 1 ≤ i) (hi : i < numgrains) (s s1 : MergeState)
    (hinv : OuterInv ops crystruct numgrains G0 i s)
    (hc : (s.m_Grains i).twinnewnumber = -1 ∧ (s.m_Grains i).phase > 0)
    (c2 : CollectInv ops crystruct numgrains s.m_Grains i s1)
    (c3 : Collected ops crystruct s.m_Grains i s1 s1.twinlist.length)
    (c4 : ∀ g, (s.m_Grains g).twinnewnumber ≠ -1 → s1.m_Grains g = s.m_Grains g) :
    OuterInv ops crystruct numgrains G0 (i + 1) { s1 with twinlist := [] } := by
  obtain ⟨rest, hl, hnd, hsame, hrest, hout⟩ := c2
  have hinot : i ∉ rest := fun hm => (hrest i hm).2.1 rfl
  refine ⟨fun g => (hinv.same g).trans (hsame g), rfl, ?_, ?_⟩
  · intro g hg
    simp only
    by_cases hm : g ∈ rest
    · obtain ⟨_, _, _, _, a5, a6, _⟩ := hrest g hm
      rw [a5, a6]
      simp [natCast_ne_neg_one]
    · rw [hout g hm]
      exact hinv.flag g hg
  · intro g hg hne
    simp only at hne ⊢
    by_cases hm : g ∈ rest
    · obtain ⟨_, _, _, _, a5, _, _⟩ := hrest g hm
      refine ⟨i, hi1, by omega, hi, a5, by rw [hout i hinot]; exact hc.1, ?_⟩
      intro b hnb hbi hbp htw
      refine c3 i (by rw [List.take_length, hl]; simp) b ((Nbr.same_iff hinv.same).mpr hnb) hbi
        (by rw [(hinv.same b).phase]; exact hbp) ((Twin.congr_same ops crystruct hinv.same).mpr htw)
    · rw [hout g hm] at hne ⊢
      obtain ⟨i', h1, h2, h3, h4, h5, h6⟩ := hinv.rep g hg hne
      have hi'not : i' ∉ rest := by
        intro hmem
        obtain ⟨_, _, _, _, _, _, f, hf, hfne, hfn, hft⟩ := hrest i' hmem
        have hfacts : f < numgrains ∧ (s.m_Grains f).twinnewnumber = -1 ∧
            (s.m_Grains f).phase > 0 := by
          rcases hf with rfl | hf
          · exact ⟨hi, hc.1, hc.2⟩
          · exact ⟨(hrest f hf).1, (hrest f hf).2.2.1, (hrest f hf).2.2.2.1⟩
        have h7 := h6 f (hsn f i' hfacts.1 h3 ((Nbr.same_iff hinv.same).mp hfn)) hfne
          (by rw [← (hinv.same f).phase]; exact hfacts.2.2)
          (hst f i' hfacts.1 h3 ((Twin.congr_same ops crystruct hinv.same).mp hft))
        exact h7 hfacts.2.1
      refine ⟨i', h1, by omega, h3, h4, by rw [hout i' hi'not]; exact h5, ?_⟩
      intro b hnb hbi hbp htw
      have := h6 b hnb hbi hbp htw
      rw [c4 b this]
      exact this

/-- Under the outer invariant a grain marked merged names an unmerged grain. -/
theorem OuterInv.survivor {ops : OrientationOps} {crystruct : Int → Int} {numgrains : Nat}
    {G0 : Nat → Grain} {k : Nat} {s : MergeState}
    (hinv : OuterInv ops crystruct numgrains G0 k s) (g : Nat) (hg : g < numgrains)
    (hflag : (s.m_Grains g).gottwinmerged = true) :
    ∃ i : Nat, 1 ≤ i ∧ i < numgrains ∧ (s.m_Grains g).twinnewnumber = i ∧
      (s.m_Grains i).gottwinmerged = false := by
  obtain ⟨i, h1, _, h3, h4, h5, _⟩ := hinv.rep g hg ((hinv.flag g hg).mp hflag)
  refine ⟨i, h1, h3, h4, ?_⟩
  have := hinv.flag i h3
  rw [h5] at this
  simp only [ne_eq, not_true_eq_false, iff_false, Bool.not_eq_true] at this
  exact this

/-- The symmetry of the neighbour lists is needed for the survivor.  On the row of
grains 2, 1, 3 in which grain 3 lists grain 1 as a neighbour but grain 1 does not
list grain 3 (a well-formed table, unmerged on entry), `merge_twins` merges grain 2
into grain 1 and later, from grain 3, merges grain 1 into grain 3: grain 2 is marked
merged and its `twinnewnumber` names grain 1, which is itself marked merged. -/
theorem merge_twins_seed_merged_later :
    GrainsOk Examples.lopsided.m_Grains Examples.lopsided.numGrains ∧
    (∀ g, g < Examples.lopsided.numGrains →
      (Examples.lopsided.m_Grains g).gottwinmerged = false ∧
        (Examples.lopsided.m_Grains g).twinnewnumber = -1) ∧
    (merge_twins Examples.skewOps 0 0 0 10 Examples.lopsided).map
      (fun dc => ((dc.m_Grains 2).gottwinmerged, (dc.m_Grains 2).twinnewnumber,
        (dc.m_Grains 1).gottwinmerged, (dc.m_Grains 1).twinnewnumber))
      = some (true, 1, true, 3) ∧
    ¬ ∀ dc', merge_twins Examples.skewOps 0 0 0 10 Examples.lopsided = some dc' →
        ∀ g, g < Examples.lopsided.numGrains → (dc'.m_Grains g).gottwinmerged = true →
          ∃ i : Nat, (dc'.m_Grains g).twinnewnumber = i ∧
            (dc'.m_Grains i).gottwinmerged = false := by
  have hE : (merge_twins Examples.skewOps 0 0 0 10 Examples.lopsided).map
      (fun dc => ((dc.m_Grains 2).gottwinmerged, (dc.m_Grains 2).twinnewnumber,
        (dc.m_Grains 1).gottwinmerged, (dc.m_Grains 1).twinnewnumber))
      = some (true, 1, true, 3) := by decide!
  refine ⟨lopsided_ok, lopsided_fresh, hE, ?_⟩
  intro h
  obtain ⟨d, hd, hv⟩ := Option.map_eq_some'.mp hE
  simp only [Prod.mk.injEq] at hv
  obtain ⟨v1, v2, v3, _⟩ := hv
  obtain ⟨i, hi, hf⟩ := h d hd 2 (by decide) v1
  rw [v2] at hi
  have e : i = 1 := by omega
  subst e
  rw [v3] at hf
  cases hf

/-! The voxel loop of `merge_twins`. -/

theorem rewriteVoxels_apply (grains : Nat → Grain) (n : Nat) (gi : Int → Int) (k : Int) :
    rewriteVoxels grains n gi k =
      if 0 ≤ k ∧ k < (n : Int) ∧ (grains (gi k).toNat).gottwinmerged = true then
        (grains (gi k).toNat).twinnewnumber
      else gi k := by
  unfold rewriteVoxels
  induction n generalizing k with
  | zero =>
    have e : FillBadData.forRange 0 (rewriteVoxel grains) gi = gi := by
      simp [FillBadData.forRange]
    rw [e, if_neg]
    intro h
    have := h.2.1
    simp at this
    omega
  | succ n ih =>
    rw [FillBadData.forRange_succ]
    have hcur : FillBadData.forRange n (rewriteVoxel grains) gi (n : Int) = gi (n : Int) := by
      rw [ih, if_neg]
      intro h
      omega
    generalize FillBadData.forRange n (rewriteVoxel grains) gi = cur at ih hcur
    unfold rewriteVoxel
    rw [hcur]
    by_cases hk : k = (n : Int)
    · subst hk
      by_cases hf : (grains (gi (n : Int)).toNat).gottwinmerged = true
      · rw [if_pos hf, Function.update_same, if_pos ⟨by omega, by push_cast; omega, hf⟩]
      · rw [if_neg hf, hcur, if_neg (fun h => hf h.2.2)]
    · have hstep : (if (grains (gi (n : Int)).toNat).gottwinmerged = true then
          Function.update cur (n : Int) (grains (gi (n : Int)).toNat).twinnewnumber
          else cur) k = cur k := by
        split_ifs
        · rw [Function.update_noteq hk]
        · rfl
      rw [hstep, ih]
      by_cases hc : 0 ≤ k ∧ k < (n : Int) ∧ (grains (gi k).toNat).gottwinmerged = true
      · rw [if_pos hc, if_pos ⟨hc.1, by push_cast; omega, hc.2.2⟩]
      · rw [if_neg hc, if_neg]
        intro h
        apply hc
        refine ⟨h.1, ?_, h.2.2⟩
        have := h.2.1
        push_cast at this
        omega

/-- C10 (voxel rewrite of the merge).  After the rewrite loop of `merge_twins`, run
with any grain table over the voxels `0 .. n - 1`, every voxel whose grain is marked
merged holds the `twinnewnumber` of that grain and every voxel whose grain is not
marked merged is unchanged; hence two voxels that shared a grain before the loop
share a grain after it. -/
theorem rewriteVoxels_merge (grains : Nat → Grain) (n : Nat) (gi : Int → Int) :
    (∀ k, 0 ≤ k → k < (n : Int) →
      ((grains (gi k).toNat).gottwinmerged = true →
        rewriteVoxels grains n gi k = (grains (gi k).toNat).twinnewnumber) ∧
      ((grains (gi k).toNat).gottwinmerged = false → rewriteVoxels grains n gi k = gi k)) ∧
    (∀ k1 k2, 0 ≤ k1 → k1 < (n : Int) → 0 ≤ k2 → k2 < (n : Int) → gi k1 = gi k2 →
      rewriteVoxels grains n gi k1 = rewriteVoxels grains n gi k2) := by
  constructor
  · intro k h0 h1
    rw [rewriteVoxels_apply]
    constructor
    · intro hf
      rw [if_pos ⟨h0, h1, hf⟩]
    · intro hf
      rw [if_neg]
      intro h
      rw [hf] at h
      exact Bool.false_ne_true h.2.2
  · intro k1 k2 h10 h11 h20 h21 heq
    rw [rewriteVoxels_apply, rewriteVoxels_apply, heq]
    by_cases hf : (grains (gi k2).toNat).gottwinmerged = true
    · rw [if_pos ⟨h10, h11, hf⟩, if_pos ⟨h20, h21, hf⟩]
    · rw [if_neg (fun h => hf h.2.2), if_neg (fun h => hf h.2.2)]

/-! `renumber_grains`. -/

theorem flags_update (G G' : Nat → Grain) (a : Nat) (x : Grain) (g : Nat)
    (hG : ∀ g, (G' g).gottwinmerged = (G g).gottwinmerged)
    (hx : x.gottwinmerged = (G' a).gottwinmerged) :
    (Function.update G' a x g).gottwinmerged = (G g).gottwinmerged := by
  by_cases h : g = a
  · subst h; rw [Function.update_same, hx, hG]
  · rw [Function.update_noteq h, hG]

/-- Renumbering a grain never changes a merge flag. -/
theorem renumberGrain_flags (s : RenumberState) (i g : Nat) :
    ((renumberGrain s i).m_Grains g).gottwinmerged = (s.m_Grains g).gottwinmerged := by
  unfold renumberGrain
  split
  next h =>
    simp only
    refine flags_update s.m_Grains _ _ _ g ?_ rfl
    intro g'
    cases hnl : (s.m_Grains i).neighborlist with
    | none =>
      simp only
      exact flags_update s.m_Grains s.m_Grains _ _ g' (fun _ => rfl) rfl
    | some l =>
      simp only
      split
      · exact flags_update s.m_Grains s.m_Grains _ _ g' (fun _ => rfl) rfl
      next hci =>
        refine flags_update s.m_Grains _ _ _ g' ?_ ?_
        · intro g''
          refine flags_update s.m_Grains _ _ _ g'' ?_ rfl
          intro g3
          exact flags_update s.m_Grains s.m_Grains _ _ g3 (fun _ => rfl) rfl
        · simp only [Function.update_noteq (Ne.symm hci)]
  next h => rfl

theorem renumberGrain_newnames (s : RenumberState) (i : Nat) :
    (renumberGrain s i).newnames =
        (if (s.m_Grains i).gottwinmerged ≠ true then
          Function.update s.newnames i (s.graincount : Int) else s.newnames) ∧
      (renumberGrain s i).graincount =
        (if (s.m_Grains i).gottwinmerged ≠ true then s.graincount + 1 else s.graincount) := by
  unfold renumberGrain
  split <;> simp

/-- The renumbering loop over a list of distinct grains: flags are unchanged, names
outside the list and names of merged grains are unchanged, and the unmerged grains
of the list receive consecutive numbers starting at `graincount`. -/
theorem renumberFold_spec (l : List Nat) (hnd : l.Nodup) (s : RenumberState) :
    (∀ g, ((l.foldl renumberGrain s).m_Grains g).gottwinmerged = (s.m_Grains g).gottwinmerged) ∧
    (∀ i, i ∉ l → (l.foldl renumberGrain s).newnames i = s.newnames i) ∧
    (∀ i, (s.m_Grains i).gottwinmerged = true →
      (l.foldl renumberGrain s).newnames i = s.newnames i) ∧
    (l.filter (fun i => decide ((s.m_Grains i).gottwinmerged ≠ true))).map
        (l.foldl renumberGrain s).newnames
      = List.map (fun m : Nat => (m : Int)) (List.range' s.graincount
          (l.filter (fun i => decide ((s.m_Grains i).gottwinmerged ≠ true))).length) ∧
    (l.foldl renumberGrain s).graincount = s.graincount +
      (l.filter (fun i => decide ((s.m_Grains i).gottwinmerged ≠ true))).length := by
  induction l generalizing s with
  | nil => simp
  | cons a t ih =>
    obtain ⟨hat, hndt⟩ := List.nodup_cons.mp hnd
    obtain ⟨i1, i2, i3, i4, i5⟩ := ih hndt (renumberGrain s a)
    obtain ⟨n1, n2⟩ := renumberGrain_newnames s a
    have hfl := renumberGrain_flags s a
    have hfilt : t.filter (fun i => decide (((renumberGrain s a).m_Grains i).gottwinmerged ≠ true))
        = t.filter (fun i => decide ((s.m_Grains i).gottwinmerged ≠ true)) := by
      congr 1
      funext i
      rw [hfl i]
    rw [hfilt] at i4 i5
    simp only [List.foldl_cons]
    refine ⟨fun g => by rw [i1 g, hfl g], ?_, ?_, ?_, ?_⟩
    · intro i hi
      have hia : i ≠ a := fun h => hi (by simp [h])
      rw [i2 i (fun h => hi (by simp [h])), n1]
      split_ifs
      · rw [Function.update_noteq hia]
      · rfl
    · intro i hi
      rw [i3 i (by rw [hfl i]; exact hi), n1]
      split_ifs with hc
      · have hia : i ≠ a := fun h => hc (by rw [← h]; exact hi)
        rw [Function.update_noteq hia]
      · rfl
    · by_cases hc : (s.m_Grains a).gottwinmerged ≠ true
      · rw [List.filter_cons, if_pos (by simpa using hc)]
        rw [if_pos hc] at n1 n2
        rw [List.map_cons, List.length_cons, List.range'_succ, List.map_cons, i4, n2,
          i2 a hat, n1, Function.update_same]
      · rw [List.filter_cons, if_neg (by simpa using hc)]
        rw [if_neg hc] at n2
        rw [i4, n2]
    · by_cases hc : (s.m_Grains a).gottwinmerged ≠ true
      · rw [List.filter_cons, if_pos (by simpa using hc), List.length_cons, i5, n2, if_pos hc]
        omega
      · rw [List.filter_cons, if_neg (by simpa using hc), i5, n2, if_neg hc]

theorem renameVoxels_apply (newnames : Nat → Int) (n : Nat) (gi : Int → Int) (k : Int) :
    FillBadData.forRange n (renameVoxel newnames) gi k =
      if 0 ≤ k ∧ k < (n : Int) ∧ gi k ≥ 1 then newnames (gi k).toNat else gi k := by
  induction n generalizing k with
  | zero =>
    have e : FillBadData.forRange 0 (renameVoxel newnames) gi = gi := by
      simp [FillBadData.forRange]
    rw [e, if_neg]
    intro h
    have := h.2.1
    simp at this
    omega
  | succ n ih =>
    rw [FillBadData.forRange_succ]
    have hcur : FillBadData.forRange n (renameVoxel newnames) gi (n : Int) = gi (n : Int) := by
      rw [ih, if_neg]
      intro h
      omega
    generalize FillBadData.forRange n (renameVoxel newnames) gi = cur at ih hcur
    unfold renameVoxel
    rw [hcur]
    by_cases hk : k = (n : Int)
    · subst hk
      by_cases hf : gi (n : Int) ≥ 1
      · rw [if_pos hf, Function.update_same, if_pos ⟨by omega, by push_cast; omega, hf⟩]
      · rw [if_neg hf, hcur, if_neg (fun h => hf h.2.2)]
    · have hstep : (if gi (n : Int) ≥ 1 then
          Function.update cur (n : Int) (newnames (gi (n : Int)).toNat) else cur) k = cur k := by
        split_ifs
        · rw [Function.update_noteq hk]
        · rfl
      rw [hstep, ih]
      by_cases hc : 0 ≤ k ∧ k < (n : Int) ∧ gi k ≥ 1
      · rw [if_pos hc, if_pos ⟨hc.1, by push_cast; omega, hc.2.2⟩]
      · rw [if_neg hc, if_neg]
        intro h
        apply hc
        refine ⟨h.1, ?_, h.2.2⟩
        have := h.2.1
        push_cast at this
        omega

theorem mem_survivors {G : Nat → Grain} {numgrains i : Nat} :
    i ∈ survivors G numgrains ↔ 1 ≤ i ∧ i < numgrains ∧ (G i).gottwinmerged = false := by
  unfold survivors
  rw [List.mem_filter, List.mem_range'_1]
  simp only [ne_eq, Bool.not_eq_true, decide_eq_true_eq]
  constructor
  · rintro ⟨⟨h1, h2⟩, h3⟩
    exact ⟨h1, by omega, h3⟩
  · rintro ⟨h1, h2, h3⟩
    exact ⟨⟨h1, by omega⟩, h3⟩

theorem merge_twins_fields (ops : OrientationOps) (n1 n2 n3 : ℚ) (fuel : Nat)
    (dc dc1 : DataContainer) (h : merge_twins ops n1 n2 n3 fuel dc = some dc1) :
    dc1.numGrains = dc.numGrains ∧ dc1.totalpoints = dc.totalpoints ∧
      dc1.grain_indicies = rewriteVoxels dc1.m_Grains
        (dc.xpoints * dc.ypoints * dc.zpoints).toNat dc.grain_indicies := by
  unfold merge_twins at h
  split at h
  · cases h
  · cases h
    exact ⟨rfl, rfl, rfl⟩

/-- C6 (twin-merge idempotence), evaluated on the row of grains 1, 2, 3 with grains
1 and 2 twins.  The first run of `execute` leaves the voxels `[1, 1, 2]`;
`renumber_grains` moves grain 3 to entry 2 of the table but leaves
`gottwinmerged = true` and `twinnewnumber = 1` of the merged grain there, so the
second run rewrites the voxel of the surviving grain 2 to 1: the voxels are
`[1, 1, 1]`. -/
theorem execute_twice_rewrites :
    (execute Examples.skewOps 0 0 0 10 Examples.twinPair).map Examples.voxels = some [1, 1, 2] ∧
    ((execute Examples.skewOps 0 0 0 10 Examples.twinPair).bind
      (execute Examples.skewOps 0 0 0 10)).map Examples.voxels = some [1, 1, 1] := by
  decide!

end MergeTwins

/-! ### `form_grains`: empty input, grouping test, connectivity, numbering -/

namespace SegmentGrains

theorem findSeed_empty (dc : DataContainer) (rp : Int) (h0 : 0 ≤ rp) (h1 : rp ≤ dc.totalpoints)
    (hph : ∀ v, 0 ≤ v → v < dc.totalpoints → ¬ dc.phases v > 0) :
    findSeed dc dc.totalpoints.toNat rp = -1 := by
  by_cases hT : 1 ≤ dc.totalpoints
  · by_contra hne
    obtain ⟨hr, _, hp⟩ := findSeed_some dc dc.totalpoints.toNat rp h0 h1 hT hne
    exact hph _ hr.1 hr.2 hp
  · have e : dc.totalpoints.toNat = 0 := by omega
    rw [e]
    rfl

theorem randpoint_bounds (rg : Nat → UnitValue) (d : Nat) (total : Int) (hT : 1 ≤ total) :
    0 ≤ truncToInt ((rg d).val * ((total - 1 : Int) : ℚ)) ∧
      truncToInt ((rg d).val * ((total - 1 : Int) : ℚ)) ≤ total - 1 := by
  have h1 : (0:ℚ) ≤ ((total - 1 : Int) : ℚ) := by
    exact_mod_cast (by omega : (0:Int) ≤ total - 1)
  exact truncToInt_bounds _ _ (mul_nonneg (rg d).nonneg h1) (by nlinarith [(rg d).le_one])

/-- C17 (empty input to `form_grains`).  If no voxel of the grid has `phases > 0`
(in particular when the grid has no voxel), `form_grains` returns after one seed
search for every fuel `≥ 1`: the grain counter is still 1 (no grain was created),
the data container, with the grain number of every voxel, is unchanged, and
`execute` sets the error condition 0. -/
theorem form_grains_empty (ops : OrientationOps) (tol : ℚ) (rg : Nat → UnitValue)
    (dc : DataContainer) (fuel : Nat) (hfuel : 1 ≤ fuel)
    (hph : ∀ v, 0 ≤ v → v < dc.totalpoints → ¬ dc.phases v > 0) :
    formLoop ops tol rg fuel dc 1 0 = some (dc, 1) ∧
      form_grains ops tol rg fuel dc = some dc ∧
      execute ops tol rg fuel dc = some (dc, 0) := by
  obtain ⟨f, rfl⟩ : ∃ f, fuel = f + 1 := ⟨fuel - 1, by omega⟩
  have hrun : formLoop ops tol rg (f + 1) dc 1 0 = some (dc, 1) := by
    unfold formLoop
    simp only
    by_cases hT : 1 ≤ dc.totalpoints
    · have hb := randpoint_bounds rg 0 dc.totalpoints hT
      rw [if_pos (findSeed_empty dc _ hb.1 (by omega) hph)]
    · have e : dc.totalpoints.toNat = 0 := by omega
      rw [e]
      rfl
  refine ⟨hrun, ?_, ?_⟩
  · unfold form_grains
    rw [hrun]
    rfl
  · unfold execute form_grains
    rw [hrun]
    rfl

theorem form_grains_empty_witness :
    (1 ≤ 3 ∧ ∀ v, 0 ≤ v → v < Examples.voidGrid.totalpoints → ¬ Examples.voidGrid.phases v > 0) ∧
    (formLoop Examples.ops 5 Examples.rg 3 Examples.voidGrid 1 0 = some (Examples.voidGrid, 1) ∧
      form_grains Examples.ops 5 Examples.rg 3 Examples.voidGrid = some Examples.voidGrid ∧
      execute Examples.ops 5 Examples.rg 3 Examples.voidGrid = some (Examples.voidGrid, 0)) :=
  ⟨⟨by decide, fun _ _ _ h => absurd (show (0 : Int) > 0 from h) (by decide)⟩,
    form_grains_empty Examples.ops 5 Examples.rg Examples.voidGrid 3 (by decide)
      (fun _ _ _ h => absurd (show (0 : Int) > 0 from h) (by decide))⟩

/-! The grouping test. -/

/-- The body of the neighbour loop in terms of `misoW`. -/
theorem visit_eq (ops : OrientationOps) (tol : ℚ) (dc : DataContainer) (c : Nat) (cp : Int)
    (s : GrowState) (i : Nat) :
    visit ops tol dc c cp s i =
      if good dc.xpoints dc.ypoints dc.zpoints i (colOf dc.xpoints cp)
          (rowOf dc.xpoints dc.ypoints cp) (planeOf dc.xpoints dc.ypoints cp) = true
          ∧ s.grain_indicies (cp + neighpoints dc.xpoints dc.ypoints i) = -1
          ∧ dc.phases (cp + neighpoints dc.xpoints dc.ypoints i) > 0 then
        if misoW ops dc cp (cp + neighpoints dc.xpoints dc.ypoints i) < tol then
          joinGrain c (cp + neighpoints dc.xpoints dc.ypoints i) s
        else s
      else s := rfl

theorem joinGrain_ne (c : Nat) (nb : Int) (s : GrowState) : joinGrain c nb s ≠ s := by
  intro h
  have := congrArg GrowState.size h
  simp [joinGrain] at this

/-- C11, as amended (grouping predicate).  When the neighbour `nb` of the dequeued
voxel `cp` passes the guard (the direction is accepted, `nb` is unassigned and in
phase): for every tolerance `tol ≤ 10000` the neighbour is admitted exactly when
the crystal structures agree and the angle returned by `getMisoQuat` is below
`tol`, and it is not admitted when the structures differ; for `tol > 10000` a
neighbour of a different crystal structure is admitted, because `w` keeps its
initial value `10000`. -/
theorem visit_accepts_iff (ops : OrientationOps) (tol : ℚ) (dc : DataContainer) (c : Nat)
    (cp : Int) (s : GrowState) (i : Nat)
    (hg : good dc.xpoints dc.ypoints dc.zpoints i (colOf dc.xpoints cp)
      (rowOf dc.xpoints dc.ypoints cp) (planeOf dc.xpoints dc.ypoints cp) = true)
    (hun : s.grain_indicies (cp + neighpoints dc.xpoints dc.ypoints i) = -1)
    (hph : dc.phases (cp + neighpoints dc.xpoints dc.ypoints i) > 0) :
    (tol ≤ 10000 →
      (visit ops tol dc c cp s i = joinGrain c (cp + neighpoints dc.xpoints dc.ypoints i) s ↔
        specAccepts ops tol dc cp (cp + neighpoints dc.xpoints dc.ypoints i)) ∧
      (visit ops tol dc c cp s i = s ↔
        ¬ specAccepts ops tol dc cp (cp + neighpoints dc.xpoints dc.ypoints i)) ∧
      (classAt dc cp ≠ classAt dc (cp + neighpoints dc.xpoints dc.ypoints i) →
        visit ops tol dc c cp s i = s)) ∧
    (10000 < tol →
      classAt dc cp ≠ classAt dc (cp + neighpoints dc.xpoints dc.ypoints i) →
      visit ops tol dc c cp s i = joinGrain c (cp + neighpoints dc.xpoints dc.ypoints i) s) := by
  rw [visit_eq, if_pos ⟨hg, hun, hph⟩]
  generalize cp + neighpoints dc.xpoints dc.ypoints i = nb
  have hne := joinGrain_ne c nb s
  constructor
  · intro htol
    have hiff : misoW ops dc cp nb < tol ↔ specAccepts ops tol dc cp nb := by
      unfold misoW specAccepts
      by_cases hcl : classAt dc cp = classAt dc nb
      · rw [if_pos hcl]
        exact ⟨fun h => ⟨hcl, h⟩, fun h => h.2⟩
      · rw [if_neg hcl]
        constructor
        · intro h
          exfalso
          linarith
        · intro h
          exact absurd h.1 hcl
    by_cases hw : misoW ops dc cp nb < tol
    · rw [if_pos hw]
      refine ⟨⟨fun _ => hiff.mp hw, fun _ => rfl⟩, ⟨fun h => absurd h hne, fun h => absurd (hiff.mp hw) h⟩, ?_⟩
      intro hcl
      exact absurd (hiff.mp hw).1 hcl
    · rw [if_neg hw]
      refine ⟨⟨fun h => absurd h.symm hne, fun h => absurd (hiff.mpr h) hw⟩,
        ⟨fun _ h => hw (hiff.mpr h), fun _ => rfl⟩, fun _ => rfl⟩
  · intro htol hcl
    have hw : misoW ops dc cp nb < tol := by
      unfold misoW
      rw [if_neg hcl]
      exact htol
    rw [if_pos hw]

theorem visit_accepts_iff_witness :
    (good Examples.grid.xpoints Examples.grid.ypoints Examples.grid.zpoints 3
        (colOf Examples.grid.xpoints 0) (rowOf Examples.grid.xpoints Examples.grid.ypoints 0)
        (planeOf Examples.grid.xpoints Examples.grid.ypoints 0) = true ∧
      (seedState Examples.grid 1 0).grain_indicies
        (0 + neighpoints Examples.grid.xpoints Examples.grid.ypoints 3) = -1 ∧
      Examples.grid.phases (0 + neighpoints Examples.grid.xpoints Examples.grid.ypoints 3) > 0) ∧
    ((5 ≤ (10000 : ℚ) →
      (visit Examples.ops 5 Examples.grid 1 0 (seedState Examples.grid 1 0) 3
          = joinGrain 1 (0 + neighpoints Examples.grid.xpoints Examples.grid.ypoints 3)
              (seedState Examples.grid 1 0) ↔
        specAccepts Examples.ops 5 Examples.grid 0
          (0 + neighpoints Examples.grid.xpoints Examples.grid.ypoints 3)) ∧
      (visit Examples.ops 5 Examples.grid 1 0 (seedState Examples.grid 1 0) 3
          = seedState Examples.grid 1 0 ↔
        ¬ specAccepts Examples.ops 5 Examples.grid 0
          (0 + neighpoints Examples.grid.xpoints Examples.grid.ypoints 3)) ∧
      (classAt Examples.grid 0
          ≠ classAt Examples.grid (0 + neighpoints Examples.grid.xpoints Examples.grid.ypoints 3) →
        visit Examples.ops 5 Examples.grid 1 0 (seedState Examples.grid 1 0) 3
          = seedState Examples.grid 1 0)) ∧
    ((10000 : ℚ) < 5 →
      classAt Examples.grid 0
        ≠ classAt Examples.grid (0 + neighpoints Examples.grid.xpoints Examples.grid.ypoints 3) →
      visit Examples.ops 5 Examples.grid 1 0 (seedState Examples.grid 1 0) 3
        = joinGrain 1 (0 + neighpoints Examples.grid.xpoints Examples.grid.ypoints 3)
            (seedState Examples.grid 1 0))) :=
  ⟨⟨by decide, by decide, by decide⟩,
    visit_accepts_iff Examples.ops 5 Examples.grid 1 0 (seedState Examples.grid 1 0) 3
      (by decide) (by decide) (by decide)⟩

/-- C11, counterexample.  With the tolerance 10001 the voxels 0 and 1 of the example
`mixed`, whose crystal structures 1 and 2 differ, end in the same grain: voxel 1 is
admitted from voxel 0 although the predicate of the specification rejects it. -/
theorem visit_admits_other_class :
    classAt Examples.mixed 0 ≠ classAt Examples.mixed 1 ∧
    ¬ specAccepts Examples.ops 10001 Examples.mixed 0 1 ∧
    (visit Examples.ops 10001 Examples.mixed 1 0 (seedState Examples.mixed 1 0) 3).grain_indicies 1
      = 1 ∧
    (visit Examples.ops 10001 Examples.mixed 1 0 (seedState Examples.mixed 1 0) 3).size = 2 ∧
    (form_grains Examples.ops 10001 Examples.rg 10 Examples.mixed).map
      (fun dc => ([dc.grain_indicies 0, dc.grain_indicies 1], (dc.m_Grains 1).voxellist))
      = some ([1, 1], some [0, 1]) := by
  refine ⟨by decide, fun h => absurd h.1 (by decide), by decide!, by decide!, by decide!⟩

/-! The trace of the growth of one grain. -/

theorem joinGrain_list (c : Nat) (nb : Int) (s : GrowState) (used : List Int) (k : Nat)
    (hvl : s.voxelslist = used ++ List.replicate (k + 1) (-1)) (hlen : used.length = s.size) :
    ∃ k', (joinGrain c nb s).voxelslist = (used ++ [nb]) ++ List.replicate (k' + 1) (-1) := by
  unfold joinGrain
  simp only
  have hs : s.voxelslist.set s.size nb = (used ++ [nb]) ++ List.replicate k (-1) := by
    rw [hvl, ← hlen]; exact set_append_replicate used k nb
  have hpos := initialVoxelsListSize_pos
  rw [hs]
  cases k with
  | zero =>
    refine ⟨initialVoxelsListSize - 1, ?_⟩
    have hl : (used ++ [nb] ++ List.replicate 0 (-1)).length = s.size + 1 := by simp [hlen]
    simp only [hl, ge_iff_le, le_refl, if_true]
    rw [resize_full _ _ (by omega), hl]
    have e : s.size + 1 + initialVoxelsListSize - (s.size + 1) = initialVoxelsListSize - 1 + 1 := by
      omega
    rw [e]
    simp
  | succ k' =>
    refine ⟨k', ?_⟩
    have hl : (used ++ [nb] ++ List.replicate (k' + 1) (-1)).length = s.size + 1 + (k' + 1) := by
      simp [hlen]; omega
    simp only [hl]
    rw [if_neg (by omega)]

theorem getD_append_lt (used : List Int) (x : Int) (m : Nat) (hm : m < used.length) :
    (used ++ [x]).getD m 0 = used.getD m 0 := by
  rw [List.getD_append _ _ _ _ hm]

theorem getD_append_last (used : List Int) (x : Int) :
    (used ++ [x]).getD used.length 0 = x := by
  rw [List.getD_append_right _ _ _ _ (le_refl _)]
  simp

theorem getD_replicate_tail (used : List Int) (k m : Nat) (hm : m < used.length) :
    (used ++ List.replicate k (-1)).getD m 0 = used.getD m 0 := by
  rw [List.getD_append _ _ _ _ hm]

/-- One direction of the neighbour loop extends the trace invariant by that
direction; the dequeued voxel stays at its position of the work list. -/
theorem visit_link (ops : OrientationOps) (tol : ℚ) (dc : DataContainer) (c : Nat)
    (s : GrowState) (j : Nat) (done : List Nat) (i : Nat) (hi : i ∈ directions)
    (hj : j < s.size) (h : GrowLink ops tol dc s j done) :
    GrowLink ops tol dc (visit ops tol dc c (s.voxelslist.getD j 0) s i) j (done ++ [i]) ∧
    (visit ops tol dc c (s.voxelslist.getD j 0) s i).voxelslist.getD j 0
      = s.voxelslist.getD j 0 ∧
    j < (visit ops tol dc c (s.voxelslist.getD j 0) s i).size := by
  obtain ⟨used, k, hvl, hlen, hlink, hexh⟩ := h
  have hju : j < used.length := by omega
  have hcp : s.voxelslist.getD j 0 = used.getD j 0 := by
    rw [hvl]; exact getD_replicate_tail used _ j hju
  rw [visit_eq, hcp]
  by_cases hguard : good dc.xpoints dc.ypoints dc.zpoints i (colOf dc.xpoints (used.getD j 0))
      (rowOf dc.xpoints dc.ypoints (used.getD j 0))
      (planeOf dc.xpoints dc.ypoints (used.getD j 0)) = true
      ∧ s.grain_indicies (used.getD j 0 + neighpoints dc.xpoints dc.ypoints i) = -1
      ∧ dc.phases (used.getD j 0 + neighpoints dc.xpoints dc.ypoints i) > 0
  · rw [if_pos hguard]
    by_cases hw : misoW ops dc (used.getD j 0)
        (used.getD j 0 + neighpoints dc.xpoints dc.ypoints i) < tol
    · rw [if_pos hw]
      obtain ⟨k', hk'⟩ := joinGrain_list c (used.getD j 0 + neighpoints dc.xpoints dc.ypoints i)
        s used k hvl hlen
      refine ⟨⟨used ++ [used.getD j 0 + neighpoints dc.xpoints dc.ypoints i], k', hk', ?_, ?_, ?_⟩,
        ?_, ?_⟩
      · simp [joinGrain, hlen]
      · intro m hm0 hm
        simp only [List.length_append, List.length_singleton] at hm
        by_cases hmu : m < used.length
        · obtain ⟨m', hm', i', hi', a1, a2, a3⟩ := hlink m hm0 hmu
          refine ⟨m', hm', i', hi', ?_⟩
          rw [getD_append_lt _ _ m hmu, getD_append_lt _ _ m' (by omega)]
          exact ⟨a1, a2, a3⟩
        · have hme : m = used.length := by omega
          subst hme
          refine ⟨j, hju, i, hi, ?_⟩
          rw [getD_append_last, getD_append_lt _ _ j hju]
          exact ⟨hguard.1, rfl, hw⟩
      · intro m i' hmi hgood hun hph
        have hmu : m < used.length := by
          rcases hmi with hmi | hmi <;> omega
        rw [getD_append_lt _ _ m hmu] at hgood hun hph ⊢
        simp only [joinGrain] at hun
        by_cases hnb : used.getD m 0 + neighpoints dc.xpoints dc.ypoints i'
            = used.getD j 0 + neighpoints dc.xpoints dc.ypoints i
        · rw [hnb, Function.update_same] at hun
          omega
        · rw [Function.update_noteq hnb] at hun
          rcases hmi with hmi | ⟨hmj, hmem⟩
          · exact hexh m i' (Or.inl hmi) hgood hun hph
          · rcases List.mem_append.mp hmem with hd | hd
            · exact hexh m i' (Or.inr ⟨hmj, hd⟩) hgood hun hph
            · rw [List.mem_singleton.mp hd, hmj] at hnb
              exact absurd rfl hnb
      · rw [hk', List.append_assoc, List.getD_append _ _ _ _ hju]
      · simp [joinGrain]; omega
    · rw [if_neg hw]
      refine ⟨⟨used, k, hvl, hlen, hlink, ?_⟩, hcp, hj⟩
      intro m i' hmi hgood hun hph
      rcases hmi with hmi | ⟨hmj, hmem⟩
      · exact hexh m i' (Or.inl hmi) hgood hun hph
      · rcases List.mem_append.mp hmem with hd | hd
        · exact hexh m i' (Or.inr ⟨hmj, hd⟩) hgood hun hph
        · rw [List.mem_singleton.mp hd, hmj]
          exact hw
  · rw [if_neg hguard]
    refine ⟨⟨used, k, hvl, hlen, hlink, ?_⟩, hcp, hj⟩
    intro m i' hmi hgood hun hph
    rcases hmi with hmi | ⟨hmj, hmem⟩
    · exact hexh m i' (Or.inl hmi) hgood hun hph
    · rcases List.mem_append.mp hmem with hd | hd
      · exact hexh m i' (Or.inr ⟨hmj, hd⟩) hgood hun hph
      · rw [List.mem_singleton.mp hd, hmj] at hgood hun hph
        exact absurd ⟨hgood, hun, hph⟩ hguard

theorem foldl_visit_link (ops : OrientationOps) (tol : ℚ) (dc : DataContainer) (c : Nat)
    (j : Nat) (cp : Int) (l : List Nat) (hl : ∀ i ∈ l, i ∈ directions) (done : List Nat)
    (s : GrowState) (hj : j < s.size) (hcp : s.voxelslist.getD j 0 = cp)
    (h : GrowLink ops tol dc s j done) :
    GrowLink ops tol dc (l.foldl (visit ops tol dc c cp) s) j (done ++ l) := by
  induction l generalizing s done with
  | nil => simpa using h
  | cons i t ih =>
    subst hcp
    obtain ⟨h1, h2, h3⟩ := visit_link ops tol dc c s j done i (hl i (by simp)) hj h
    have := ih (fun k hk => hl k (by simp [hk])) (done ++ [i]) _ h3 h2 h1
    simpa using this

/-- The growth loop keeps the trace invariant: when it returns, every entry of the
work list has been processed. -/
theorem grow_link (ops : OrientationOps) (tol : ℚ) (dc : DataContainer) (c : Nat)
    (fuel : Nat) (s : GrowState) (j : Nat) (hj : j ≤ s.size)
    (h : GrowLink ops tol dc s j []) (s' : GrowState)
    (hrun : grow ops tol dc c fuel s j = some s') :
    GrowLink ops tol dc s' s'.size [] := by
  induction fuel generalizing s j with
  | zero => simp [grow] at hrun
  | succ fuel ih =>
    unfold grow at hrun
    by_cases hlt : j < s.size
    · rw [if_pos hlt] at hrun
      simp only at hrun
      have hf := foldl_visit_link ops tol dc c j (s.voxelslist.getD j 0) directions
        (fun i hi => hi) [] s hlt rfl h
      have hsz : j + 1 ≤ (directions.foldl (visit ops tol dc c (s.voxelslist.getD j 0)) s).size := by
        obtain ⟨used, k, hvl, hlen, _, _⟩ := h
        have hmono : ∀ (l : List Nat) (t : GrowState), j < t.size →
            j < (l.foldl (visit ops tol dc c (s.voxelslist.getD j 0)) t).size := by
          intro l
          induction l with
          | nil => intro t ht; exact ht
          | cons i r ihr =>
            intro t ht
            apply ihr
            rw [visit_eq]
            split_ifs <;> first | exact ht | (simp [joinGrain]; omega)
        exact hmono directions s hlt
      refine ih _ (j + 1) hsz ?_ hrun
      obtain ⟨used, k, hvl, hlen, hlink, hexh⟩ := hf
      refine ⟨used, k, hvl, hlen, hlink, ?_⟩
      intro m i hmi
      rcases hmi with hmi | hmi
      · by_cases hmj : m = j
        · exact hexh m i (Or.inr ⟨hmj, by simpa using hmi.2⟩)
        · exact hexh m i (Or.inl ⟨by omega, hmi.2⟩)
      · simp at hmi
    · rw [if_neg hlt] at hrun
      injection hrun with hs
      rw [← hs]
      have e : s.size = j := by omega
      rw [e]
      exact h

theorem seed_link (ops : OrientationOps) (tol : ℚ) (dc : DataContainer) (c : Nat) (seed : Int) :
    GrowLink ops tol dc (seedState dc c seed) 0 [] := by
  have h2 := two_le_initialVoxelsListSize
  refine ⟨[seed], initialVoxelsListSize - 2, ?_, rfl, ?_, ?_⟩
  · have e : initialVoxelsListSize = (initialVoxelsListSize - 2 + 1) + 1 := by omega
    have := set_append_replicate [] (initialVoxelsListSize - 2 + 1) seed
    simp only [List.nil_append, List.length_nil] at this
    simp only [seedState]
    rw [← this, ← e]
  · intro m hm0 hm
    simp at hm
    omega
  · intro m i hmi
    rcases hmi with hmi | hmi
    · omega
    · simp at hmi

theorem take_used (vl used : List Int) (k size : Nat)
    (hvl : vl = used ++ List.replicate (k + 1) (-1)) (hlen : used.length = size) :
    vl.take size = used := by
  rw [hvl, ← hlen]
  simp

theorem GrowInv.erase_eq {total : Int} {phases gi0 : Int → Int} {c : Nat} {seed : Int}
    {s : GrowState} (h : GrowInv total phases gi0 c seed s) :
    eraseMinusOne s.voxelslist = s.voxelslist.take s.size := by
  obtain ⟨used, k, hvl, hlen, hnd, hhd, hsub, hgi⟩ := h
  rw [take_used _ used k _ hvl hlen]
  unfold eraseMinusOne
  rw [hvl, List.filter_append, List.filter_replicate]
  simp only [bne_self_eq_false, Bool.false_eq_true, if_false, List.append_nil]
  rw [List.filter_eq_self]
  intro a ha
  have := (mem_unassigned.mp (hsub a ha)).1.1
  simp only [bne_iff_ne, ne_eq]
  omega

/-- The growth of one grain from its seed: the loop returns, and the voxel list that
is stored has no repetition, starts with the seed, holds voxels that were
unassigned and in phase, which are exactly the voxels that changed; every later
entry was admitted from an earlier entry that is its face neighbour, passing the
test `w < tol` against it; and no entry is left with an unassigned in-phase face
neighbour that passes the test. -/
theorem grow_seed_spec (ops : OrientationOps) (tol : ℚ) (dc : DataContainer) (c : Nat)
    (hc : 1 ≤ c) (hx : 1 ≤ dc.xpoints) (hy : 1 ≤ dc.ypoints)
    (htot : dc.totalpoints = dc.xpoints * dc.ypoints * dc.zpoints) (seed : Int)
    (hseed : seed ∈ unassigned dc.totalpoints dc.phases dc.grain_indicies) (fuel : Nat)
    (hfuel : dc.totalpoints.toNat + 1 ≤ fuel) :
    ∃ s', grow ops tol dc c fuel (seedState dc c seed) 0 = some s' ∧
      (eraseMinusOne s'.voxelslist).Nodup ∧
      (eraseMinusOne s'.voxelslist).head? = some seed ∧
      (∀ v ∈ eraseMinusOne s'.voxelslist,
        v ∈ unassigned dc.totalpoints dc.phases dc.grain_indicies) ∧
      (∀ v, s'.grain_indicies v
        = if v ∈ eraseMinusOne s'.voxelslist then (c : Int) else dc.grain_indicies v) ∧
      (∀ m, 0 < m → m < (eraseMinusOne s'.voxelslist).length → ∃ m', m' < m ∧ ∃ i ∈ directions,
        good dc.xpoints dc.ypoints dc.zpoints i
          (colOf dc.xpoints ((eraseMinusOne s'.voxelslist).getD m' 0))
          (rowOf dc.xpoints dc.ypoints ((eraseMinusOne s'.voxelslist).getD m' 0))
          (planeOf dc.xpoints dc.ypoints ((eraseMinusOne s'.voxelslist).getD m' 0)) = true ∧
        (eraseMinusOne s'.voxelslist).getD m 0
          = (eraseMinusOne s'.voxelslist).getD m' 0 + neighpoints dc.xpoints dc.ypoints i ∧
        misoW ops dc ((eraseMinusOne s'.voxelslist).getD m' 0)
          ((eraseMinusOne s'.voxelslist).getD m 0) < tol) ∧
      (∀ v ∈ eraseMinusOne s'.voxelslist, ∀ i ∈ directions,
        good dc.xpoints dc.ypoints dc.zpoints i (colOf dc.xpoints v)
          (rowOf dc.xpoints dc.ypoints v) (planeOf dc.xpoints dc.ypoints v) = true →
        s'.grain_indicies (v + neighpoints dc.xpoints dc.ypoints i) = -1 →
        dc.phases (v + neighpoints dc.xpoints dc.ypoints i) > 0 →
        ¬ misoW ops dc v (v + neighpoints dc.xpoints dc.ypoints i) < tol) := by
  have hcard := unassigned_card_le dc.totalpoints dc.phases dc.grain_indicies
  obtain ⟨s', hrun, hinv⟩ := grow_inv ops tol dc c dc.grain_indicies seed hc hx hy htot fuel
    (seedState dc c seed) 0 (seed_inv dc.totalpoints dc.phases dc.grain_indicies c seed hseed)
    (Nat.zero_le _) (by omega)
  have hlink := grow_link ops tol dc c fuel (seedState dc c seed) 0 (Nat.zero_le _)
    (seed_link ops tol dc c seed) s' hrun
  obtain ⟨hnd, hhd, hsub, hgi⟩ := hinv.erase
  obtain ⟨used, k, hvl, hlen, hl1, hl2⟩ := hlink
  have he : eraseMinusOne s'.voxelslist = used := by
    rw [hinv.erase_eq, take_used _ used k _ hvl hlen]
  rw [he] at hnd hhd hsub hgi
  refine ⟨s', hrun, ?_⟩
  rw [he]
  refine ⟨hnd, hhd, hsub, hgi, hl1, ?_⟩
  intro v hv i hi
  obtain ⟨m, hm, hmv⟩ := List.getElem_of_mem hv
  have hgd : used.getD m 0 = v := by
    rw [List.getD_eq_getElem _ _ hm]; exact hmv
  have := hl2 m i (Or.inl ⟨by omega, hi⟩)
  rw [hgd] at this
  exact this

/-- C12, as amended (reference orientation of the grouping test).  In the growth of
a grain from its seed, every voxel of the stored voxel list other than the first
was admitted by the test `w < tol` in which the first orientation given to
`getMisoQuat` is the orientation of the voxel dequeued at that moment: an earlier
entry of the list of which the admitted voxel is a face neighbour.  It is the
orientation of the seed only when that entry is the first one. -/
theorem grow_tests_against_dequeued (ops : OrientationOps) (tol : ℚ) (dc : DataContainer)
    (c : Nat) (hc : 1 ≤ c) (hx : 1 ≤ dc.xpoints) (hy : 1 ≤ dc.ypoints)
    (htot : dc.totalpoints = dc.xpoints * dc.ypoints * dc.zpoints) (seed : Int)
    (hseed : seed ∈ unassigned dc.totalpoints dc.phases dc.grain_indicies) (fuel : Nat)
    (hfuel : dc.totalpoints.toNat + 1 ≤ fuel) :
    ∃ s', grow ops tol dc c fuel (seedState dc c seed) 0 = some s' ∧
      (eraseMinusOne s'.voxelslist).getD 0 0 = seed ∧
      ∀ m, 0 < m → m < (eraseMinusOne s'.voxelslist).length → ∃ m', m' < m ∧ ∃ i ∈ directions,
        good dc.xpoints dc.ypoints dc.zpoints i
          (colOf dc.xpoints ((eraseMinusOne s'.voxelslist).getD m' 0))
          (rowOf dc.xpoints dc.ypoints ((eraseMinusOne s'.voxelslist).getD m' 0))
          (planeOf dc.xpoints dc.ypoints ((eraseMinusOne s'.voxelslist).getD m' 0)) = true ∧
        (eraseMinusOne s'.voxelslist).getD m 0
          = (eraseMinusOne s'.voxelslist).getD m' 0 + neighpoints dc.xpoints dc.ypoints i ∧
        (if classAt dc ((eraseMinusOne s'.voxelslist).getD m' 0)
            = classAt dc ((eraseMinusOne s'.voxelslist).getD m 0) then
          (ops.getMisoQuat (classAt dc ((eraseMinusOne s'.voxelslist).getD m' 0))
            (quatAt dc ((eraseMinusOne s'.voxelslist).getD m' 0))
            (quatAt dc ((eraseMinusOne s'.voxelslist).getD m 0))).1
          else 10000) < tol := by
  obtain ⟨s', hrun, _, hhd, _, _, hlink, _⟩ := grow_seed_spec ops tol dc c hc hx hy htot seed
    hseed fuel hfuel
  refine ⟨s', hrun, ?_, hlink⟩
  cases hl : eraseMinusOne s'.voxelslist with
  | nil => rw [hl] at hhd; simp at hhd
  | cons a t =>
    rw [hl] at hhd
    simpa using hhd

theorem grow_tests_against_dequeued_witness :
    (1 ≤ 1 ∧ 1 ≤ Examples.ramp.xpoints ∧ 1 ≤ Examples.ramp.ypoints ∧
      Examples.ramp.totalpoints
        = Examples.ramp.xpoints * Examples.ramp.ypoints * Examples.ramp.zpoints ∧
      (1 : Int) ∈ unassigned Examples.ramp.totalpoints Examples.ramp.phases
        Examples.ramp.grain_indicies ∧
      Examples.ramp.totalpoints.toNat + 1 ≤ 5) ∧
    ∃ s', grow Examples.ops 5 Examples.ramp 1 5 (seedState Examples.ramp 1 1) 0 = some s' ∧
      (eraseMinusOne s'.voxelslist).getD 0 0 = 1 ∧
      ∀ m, 0 < m → m < (eraseMinusOne s'.voxelslist).length → ∃ m', m' < m ∧ ∃ i ∈ directions,
        good Examples.ramp.xpoints Examples.ramp.ypoints Examples.ramp.zpoints i
          (colOf Examples.ramp.xpoints ((eraseMinusOne s'.voxelslist).getD m' 0))
          (rowOf Examples.ramp.xpoints Examples.ramp.ypoints
            ((eraseMinusOne s'.voxelslist).getD m' 0))
          (planeOf Examples.ramp.xpoints Examples.ramp.ypoints
            ((eraseMinusOne s'.voxelslist).getD m' 0)) = true ∧
        (eraseMinusOne s'.voxelslist).getD m 0
          = (eraseMinusOne s'.voxelslist).getD m' 0
            + neighpoints Examples.ramp.xpoints Examples.ramp.ypoints i ∧
        (if classAt Examples.ramp ((eraseMinusOne s'.voxelslist).getD m' 0)
            = classAt Examples.ramp ((eraseMinusOne s'.voxelslist).getD m 0) then
          (Examples.ops.getMisoQuat
            (classAt Examples.ramp ((eraseMinusOne s'.voxelslist).getD m' 0))
            (quatAt Examples.ramp ((eraseMinusOne s'.voxelslist).getD m' 0))
            (quatAt Examples.ramp ((eraseMinusOne s'.voxelslist).getD m 0))).1
          else 10000) < 5 :=
  have hseed : (1 : Int) ∈ unassigned Examples.ramp.totalpoints Examples.ramp.phases
      Examples.ramp.grain_indicies :=
    mem_unassigned.mpr ⟨⟨by decide, by decide⟩, by decide, by decide⟩
  ⟨⟨by decide, by decide, by decide, by decide, hseed, by decide⟩,
    grow_tests_against_dequeued Examples.ops 5 Examples.ramp 1 (by decide) (by decide)
      (by decide) (by decide) 1 hseed 5 (by decide)⟩

/-- C12, counterexample.  On the row of orientations 0, 4, 8, 12 with tolerance 5
the seed is voxel 1 and the grain is `[1, 0, 2, 3]`: voxel 3, whose only face
neighbour is voxel 2, is admitted although its misorientation to the seed is
`8 ≥ 5`; the test that admitted it used the orientation of the dequeued voxel 2. -/
theorem grow_reference_is_not_the_seed :
    findSeed Examples.ramp Examples.ramp.totalpoints.toNat
      (truncToInt ((Examples.rg 0).val * ((Examples.ramp.totalpoints - 1 : Int) : ℚ))) = 1 ∧
    (form_grains Examples.ops 5 Examples.rg 10 Examples.ramp).map
      (fun dc => (dc.m_Grains 1).voxellist) = some (some [1, 0, 2, 3]) ∧
    misoW Examples.ops Examples.ramp 1 3 = 8 ∧
    ¬ misoW Examples.ops Examples.ramp 1 3 < 5 ∧
    misoW Examples.ops Examples.ramp 2 3 < 5 ∧
    (∀ i ∈ directions,
      good Examples.ramp.xpoints Examples.ramp.ypoints Examples.ramp.zpoints i
        (colOf Examples.ramp.xpoints 3) (rowOf Examples.ramp.xpoints Examples.ramp.ypoints 3)
        (planeOf Examples.ramp.xpoints Examples.ramp.ypoints 3) = true →
      3 + neighpoints Examples.ramp.xpoints Examples.ramp.ypoints i = 2) := by
  refine ⟨by decide!, by decide!, by decide!, by decide!, by decide!, by decide⟩

/-- The growth of one grain inside the outer loop.  In an iteration of the outer loop of
`form_grains` that finds a seed, the growth returns and the voxel list that is
stored for the grain starts with the seed; every later entry is the face neighbour,
in a direction the boundary guard accepts, of an earlier entry of the list; and
when the growth has ended no voxel of the list has a face neighbour that is
unassigned, in phase and passes the test `w < tol` against that voxel. -/
theorem grow_connected_maximal (ops : OrientationOps) (tol : ℚ) (rg : Nat → UnitValue)
    (dc : DataContainer) (c d fuel : Nat) (hc : 1 ≤ c)
    (hx : 1 ≤ dc.xpoints) (hy : 1 ≤ dc.ypoints) (hz : 1 ≤ dc.zpoints)
    (htot : dc.totalpoints = dc.xpoints * dc.ypoints * dc.zpoints)
    (hfuel : dc.totalpoints.toNat ≤ fuel) (seed : Int)
    (hseed : seed = findSeed dc dc.totalpoints.toNat
      (truncToInt ((rg d).val * ((dc.totalpoints - 1 : Int) : ℚ))))
    (hfound : seed ≠ -1) :
    ∃ s', grow ops tol dc c (fuel + 1) (seedState dc c seed) 0 = some s' ∧
      formLoop ops tol rg (fuel + 1) dc c d
        = formLoop ops tol rg fuel
            (storeGrain dc c seed (eraseMinusOne s'.voxelslist) s'.grain_indicies)
            (c + 1) (d + 1) ∧
      (eraseMinusOne s'.voxelslist).head? = some seed ∧
      (∀ m, 0 < m → m < (eraseMinusOne s'.voxelslist).length → ∃ m', m' < m ∧ ∃ i ∈ directions,
        good dc.xpoints dc.ypoints dc.zpoints i
          (colOf dc.xpoints ((eraseMinusOne s'.voxelslist).getD m' 0))
          (rowOf dc.xpoints dc.ypoints ((eraseMinusOne s'.voxelslist).getD m' 0))
          (planeOf dc.xpoints dc.ypoints ((eraseMinusOne s'.voxelslist).getD m' 0)) = true ∧
        (eraseMinusOne s'.voxelslist).getD m 0
          = (eraseMinusOne s'.voxelslist).getD m' 0 + neighpoints dc.xpoints dc.ypoints i) ∧
      (∀ v ∈ eraseMinusOne s'.voxelslist, ∀ i ∈ directions,
        good dc.xpoints dc.ypoints dc.zpoints i (colOf dc.xpoints v)
          (rowOf dc.xpoints dc.ypoints v) (planeOf dc.xpoints dc.ypoints v) = true →
        s'.grain_indicies (v + neighpoints dc.xpoints dc.ypoints i) = -1 →
        dc.phases (v + neighpoints dc.xpoints dc.ypoints i) > 0 →
        ¬ misoW ops dc v (v + neighpoints dc.xpoints dc.ypoints i) < tol) := by
  have hT : 1 ≤ dc.totalpoints := by
    rw [htot]
    exact one_le_mul_of_one_le_of_one_le (one_le_mul_of_one_le_of_one_le hx hy) hz
  have hb := randpoint_bounds rg d dc.totalpoints hT
  have hsome := findSeed_some dc dc.totalpoints.toNat _ hb.1 (by omega) hT (hseed ▸ hfound)
  rw [← hseed] at hsome
  have hmem : seed ∈ unassigned dc.totalpoints dc.phases dc.grain_indicies :=
    mem_unassigned.mpr hsome
  obtain ⟨s', hrun, _, hhd, _, _, hlink, hmax⟩ := grow_seed_spec ops tol dc c hc hx hy htot seed
    hmem (fuel + 1) (by omega)
  refine ⟨s', hrun, ?_, hhd, ?_, hmax⟩
  · have hstep : formLoop ops tol rg (fuel + 1) dc c d
        = if seed = -1 then some (dc, c)
          else if seed ≥ 0 then
            match grow ops tol dc c (fuel + 1) (seedState dc c seed) 0 with
            | none => none
            | some s =>
              formLoop ops tol rg fuel
                (storeGrain dc c seed (eraseMinusOne s.voxelslist) s.grain_indicies)
                (c + 1) (d + 1)
          else formLoop ops tol rg fuel dc c (d + 1) := by
      rw [hseed]
      rfl
    rw [hstep, if_neg hfound, if_pos (show seed ≥ 0 from hsome.1.1), hrun]
  · intro m hm0 hm
    obtain ⟨m', hm', i, hi, a1, a2, _⟩ := hlink m hm0 hm
    exact ⟨m', hm', i, hi, a1, a2⟩

theorem grow_connected_maximal_witness :
    (1 ≤ 1 ∧ 1 ≤ Examples.ramp.xpoints ∧ 1 ≤ Examples.ramp.ypoints ∧
      1 ≤ Examples.ramp.zpoints ∧
      Examples.ramp.totalpoints
        = Examples.ramp.xpoints * Examples.ramp.ypoints * Examples.ramp.zpoints ∧
      Examples.ramp.totalpoints.toNat ≤ 5 ∧
      (1 : Int) = findSeed Examples.ramp Examples.ramp.totalpoints.toNat
        (truncToInt ((Examples.rg 0).val * ((Examples.ramp.totalpoints - 1 : Int) : ℚ))) ∧
      (1 : Int) ≠ -1) ∧
    ∃ s', grow Examples.ops 5 Examples.ramp 1 (5 + 1) (seedState Examples.ramp 1 1) 0 = some s' ∧
      formLoop Examples.ops 5 Examples.rg (5 + 1) Examples.ramp 1 0
        = formLoop Examples.ops 5 Examples.rg 5
            (storeGrain Examples.ramp 1 1 (eraseMinusOne s'.voxelslist) s'.grain_indicies)
            (1 + 1) (0 + 1) ∧
      (eraseMinusOne s'.voxelslist).head? = some 1 ∧
      (∀ m, 0 < m → m < (eraseMinusOne s'.voxelslist).length → ∃ m', m' < m ∧ ∃ i ∈ directions,
        good Examples.ramp.xpoints Examples.ramp.ypoints Examples.ramp.zpoints i
          (colOf Examples.ramp.xpoints ((eraseMinusOne s'.voxelslist).getD m' 0))
          (rowOf Examples.ramp.xpoints Examples.ramp.ypoints
            ((eraseMinusOne s'.voxelslist).getD m' 0))
          (planeOf Examples.ramp.xpoints Examples.ramp.ypoints
            ((eraseMinusOne s'.voxelslist).getD m' 0)) = true ∧
        (eraseMinusOne s'.voxelslist).getD m 0
          = (eraseMinusOne s'.voxelslist).getD m' 0
            + neighpoints Examples.ramp.xpoints Examples.ramp.ypoints i) ∧
      (∀ v ∈ eraseMinusOne s'.voxelslist, ∀ i ∈ directions,
        good Examples.ramp.xpoints Examples.ramp.ypoints Examples.ramp.zpoints i
          (colOf Examples.ramp.xpoints v) (rowOf Examples.ramp.xpoints Examples.ramp.ypoints v)
          (planeOf Examples.ramp.xpoints Examples.ramp.ypoints v) = true →
        s'.grain_indicies (v + neighpoints Examples.ramp.xpoints Examples.ramp.ypoints i) = -1 →
        Examples.ramp.phases (v + neighpoints Examples.ramp.xpoints Examples.ramp.ypoints i) > 0 →
        ¬ misoW Examples.ops Examples.ramp v
          (v + neighpoints Examples.ramp.xpoints Examples.ramp.ypoints i) < 5) :=
  have hseed : (1 : Int) = findSeed Examples.ramp Examples.ramp.totalpoints.toNat
      (truncToInt ((Examples.rg 0).val * ((Examples.ramp.totalpoints - 1 : Int) : ℚ))) := by
    decide!
  ⟨⟨by decide, by decide, by decide, by decide, by decide, by decide, hseed, by decide⟩,
    grow_connected_maximal Examples.ops 5 Examples.rg Examples.ramp 1 0 5 (by decide) (by decide)
      (by decide) (by decide) (by decide) (by decide) 1 hseed (by decide)⟩

/-! The numbering of the grains. -/

/-- The outer loop of `form_grains` with the seeds recorded: it returns; the voxels
already assigned and the grains already stored are left alone; the `k`-th seed
found from here on is a voxel of the grid that ends with the grain number
`graincount + k`, and it is the first entry of the voxel list of that grain. -/
theorem formLoop_trace (ops : OrientationOps) (tol : ℚ) (rg : Nat → UnitValue)
    (dc0 : DataContainer)
    (hx : 1 ≤ dc0.xpoints) (hy : 1 ≤ dc0.ypoints) (hz : 1 ≤ dc0.zpoints)
    (htot : dc0.totalpoints = dc0.xpoints * dc0.ypoints * dc0.zpoints)
    (fuel : Nat) (dc : DataContainer) (c d : Nat) (hinv : FormInv dc0 dc c)
    (hf : (unassigned dc.totalpoints dc.phases dc.grain_indicies).card + 1 ≤ fuel) :
    ∃ dc' c' seeds, formLoop ops tol rg fuel dc c d = some (dc', c') ∧
      formSeeds ops tol rg fuel dc c d = some seeds ∧ FormInv dc0 dc' c' ∧
      c' = c + seeds.length ∧
      (∀ v, dc.grain_indicies v ≠ -1 → dc'.grain_indicies v = dc.grain_indicies v) ∧
      (2 ≤ dc0.numGrains → ∀ g, g < c → dc'.m_Grains g = dc.m_Grains g) ∧
      (∀ k, k < seeds.length →
        (0 ≤ seeds.getD k 0 ∧ seeds.getD k 0 < dc0.totalpoints) ∧
        dc'.grain_indicies (seeds.getD k 0) = ((c + k : Nat) : Int) ∧
        (2 ≤ dc0.numGrains → ∃ l, (dc'.m_Grains (c + k)).voxellist = some l ∧
          l.head? = some (seeds.getD k 0))) := by
  induction fuel generalizing dc c d with
  | zero => omega
  | succ fuel ih =>
    have hT : 1 ≤ dc.totalpoints := by
      rw [hinv.total, htot]
      exact one_le_mul_of_one_le_of_one_le (one_le_mul_of_one_le_of_one_le hx hy) hz
    have hrp := randpoint_bounds rg d dc.totalpoints hT
    unfold formLoop formSeeds
    simp only
    generalize truncToInt ((rg d).val * ((dc.totalpoints - 1 : Int) : ℚ)) = rp at hrp ⊢
    by_cases hs : findSeed dc dc.totalpoints.toNat rp = -1
    · rw [if_pos hs, if_pos hs]
      exact ⟨dc, c, [], rfl, rfl, hinv, rfl, fun _ _ => rfl, fun _ _ _ => rfl,
        fun k hk => absurd hk (by simp)⟩
    · rw [if_neg hs, if_neg hs]
      have hsome := findSeed_some dc dc.totalpoints.toNat rp hrp.1 (by omega) hT hs
      generalize findSeed dc dc.totalpoints.toNat rp = seed at hs hsome ⊢
      rw [if_pos (show seed ≥ 0 from hsome.1.1), if_pos (show seed ≥ 0 from hsome.1.1)]
      have hmem : seed ∈ unassigned dc.totalpoints dc.phases dc.grain_indicies :=
        mem_unassigned.mpr hsome
      have hdx : 1 ≤ dc.xpoints := by rw [hinv.xp]; exact hx
      have hdy : 1 ≤ dc.ypoints := by rw [hinv.yp]; exact hy
      have hdt : dc.totalpoints = dc.xpoints * dc.ypoints * dc.zpoints := by
        rw [hinv.total, hinv.xp, hinv.yp, hinv.zp]; exact htot
      obtain ⟨s', hgrow, hs'⟩ := grow_inv ops tol dc c dc.grain_indicies seed hinv.cpos hdx hdy hdt
        (fuel + 1) _ 0 (seed_inv dc.totalpoints dc.phases dc.grain_indicies c seed hmem)
        (Nat.zero_le _) (by omega)
      have hgrow2 : grow ops tol dc c (fuel + 1) (seedState dc c seed) 0 = some s' := hgrow
      rw [hgrow, hgrow2]
      simp only
      obtain ⟨hnd, hhd, hsub, hgi⟩ := hs'.erase
      have hseedin : seed ∈ eraseMinusOne s'.voxelslist := List.mem_of_mem_head? hhd
      obtain ⟨hI, hcard⟩ := storeGrain_inv dc0 dc c hinv seed _ _ hnd hsub hgi hseedin
      obtain ⟨e1, e2, e3, e4, e5, e6⟩ := storeGrain_fields dc c seed
        (eraseMinusOne s'.voxelslist) s'.grain_indicies
      obtain ⟨g1, g2, g3⟩ := storeGrain_grains dc c seed
        (eraseMinusOne s'.voxelslist) s'.grain_indicies
      obtain ⟨dc', c', seeds, r1, r2, r3, r4, r5, r6, r7⟩ := ih _ (c + 1) (d + 1) hI
        (by rw [e4, e5, e6]; omega)
      rw [r1, r2]
      have hcne : ((c : Nat) : Int) ≠ -1 := by omega
      have hseedc : dc'.grain_indicies seed = (c : Int) := by
        rw [r5 seed (by rw [e6, hgi seed, if_pos hseedin]; exact hcne), e6, hgi seed,
          if_pos hseedin]
      refine ⟨dc', c', seed :: seeds, rfl, rfl, r3, by rw [r4]; simp; omega, ?_, ?_, ?_⟩
      · intro v hv
        have hnot : v ∉ eraseMinusOne s'.voxelslist := by
          intro hm
          exact hv (mem_unassigned.mp (hsub v hm)).2.1
        have e : s'.grain_indicies v = dc.grain_indicies v := by rw [hgi v, if_neg hnot]
        rw [r5 v (by rw [e6, e]; exact hv), e6, e]
      · intro h2 g hg
        have hcn := (hinv.grains h2).1
        rw [r6 h2 g (by omega), g3 hcn g hg]
      · intro k hk
        cases k with
        | zero =>
          refine ⟨⟨hsome.1.1, by rw [← hinv.total]; exact hsome.1.2⟩, by simpa using hseedc, ?_⟩
          intro h2
          have hcn := (hinv.grains h2).1
          refine ⟨eraseMinusOne s'.voxelslist, ?_, by simpa using hhd⟩
          rw [Nat.add_zero, r6 h2 c (by omega)]
          exact g2 hcn
        | succ k =>
          have hk' : k < seeds.length := by simpa using hk
          obtain ⟨a1, a2, a3⟩ := r7 k hk'
          have e : c + (k + 1) = c + 1 + k := by omega
          simp only [List.getD_cons_succ]
          rw [e]
          exact ⟨a1, a2, a3⟩

/-- C16 (the grain numbering of `form_grains` is dense from 1).  On a grid whose
voxels are all unassigned on entry and with a grain table of at least two entries,
`form_grains` returns; with `N` the number of seeds found (the number of grains
created, `graincount - 1`): every voxel holds `-1` or a grain number in `1 .. N`,
every number in `1 .. N` is held by a voxel, the `k`-th seed found holds the number
`k` and is the first entry of the voxel list of grain `k`, which is therefore not
empty, no voxel holds 0, and entry 0 of the grain table is unchanged. -/
theorem form_grains_dense_numbering (ops : OrientationOps) (tol : ℚ) (rg : Nat → UnitValue)
    (dc : DataContainer) (hx : 1 ≤ dc.xpoints) (hy : 1 ≤ dc.ypoints) (hz : 1 ≤ dc.zpoints)
    (htot : dc.totalpoints = dc.xpoints * dc.ypoints * dc.zpoints)
    (hun : ∀ v, 0 ≤ v → v < dc.totalpoints → dc.grain_indicies v = -1)
    (hgr : 2 ≤ dc.numGrains)
    (fuel : Nat) (hfuel : dc.totalpoints.toNat + 1 ≤ fuel) :
    ∃ dc' c' seeds, formLoop ops tol rg fuel dc 1 0 = some (dc', c') ∧
      form_grains ops tol rg fuel dc = some dc' ∧
      formSeeds ops tol rg fuel dc 1 0 = some seeds ∧
      c' = seeds.length + 1 ∧
      (∀ v, 0 ≤ v → v < dc.totalpoints →
        dc'.grain_indicies v = -1 ∨
          (1 ≤ dc'.grain_indicies v ∧ dc'.grain_indicies v ≤ seeds.length)) ∧
      (∀ g : Nat, 1 ≤ g → g ≤ seeds.length →
        ∃ v, 0 ≤ v ∧ v < dc.totalpoints ∧ dc'.grain_indicies v = g) ∧
      (∀ k : Nat, 1 ≤ k → k ≤ seeds.length →
        dc'.grain_indicies (seeds.getD (k - 1) 0) = k ∧
        ∃ l, (dc'.m_Grains k).voxellist = some l ∧ l ≠ [] ∧
          l.head? = some (seeds.getD (k - 1) 0)) ∧
      (∀ v, 0 ≤ v → v < dc.totalpoints → dc'.grain_indicies v ≠ 0) ∧
      dc'.m_Grains 0 = dc.m_Grains 0 := by
  obtain ⟨dc', c', seeds, r1, r2, r3, r4, _, r6, r7⟩ := formLoop_trace ops tol rg dc hx hy hz htot
    fuel dc 1 0 (formInv_init dc hun)
    (by have := unassigned_card_le dc.totalpoints dc.phases dc.grain_indicies; omega)
  have hids : ∀ v, 0 ≤ v → v < dc.totalpoints →
      dc'.grain_indicies v = -1 ∨
        (1 ≤ dc'.grain_indicies v ∧ dc'.grain_indicies v ≤ seeds.length) := by
    intro v hv0 hv
    rcases r3.ids v hv0 (by rw [r3.total]; exact hv) with h | h
    · exact Or.inl h
    · refine Or.inr ⟨h.1, ?_⟩
      have := h.2
      rw [r4] at this
      push_cast at this
      omega
  have hseed : ∀ k : Nat, 1 ≤ k → k ≤ seeds.length →
      (0 ≤ seeds.getD (k - 1) 0 ∧ seeds.getD (k - 1) 0 < dc.totalpoints) ∧
      dc'.grain_indicies (seeds.getD (k - 1) 0) = k ∧
      ∃ l, (dc'.m_Grains k).voxellist = some l ∧ l.head? = some (seeds.getD (k - 1) 0) := by
    intro k hk1 hk
    obtain ⟨a1, a2, a3⟩ := r7 (k - 1) (by omega)
    have e : 1 + (k - 1) = k := by omega
    rw [e] at a2 a3
    exact ⟨a1, a2, a3 hgr⟩
  refine ⟨dc', c', seeds, r1, by simp [form_grains, r1], r2, by rw [r4]; omega, hids, ?_, ?_, ?_,
    r6 hgr 0 (by omega)⟩
  · intro g hg1 hg
    obtain ⟨a1, a2, _⟩ := hseed g hg1 hg
    exact ⟨_, a1.1, a1.2, a2⟩
  · intro k hk1 hk
    obtain ⟨_, a2, l, hl1, hl2⟩ := hseed k hk1 hk
    refine ⟨a2, l, hl1, ?_, hl2⟩
    intro hnil
    rw [hnil] at hl2
    simp at hl2
  · intro v hv0 hv
    rcases hids v hv0 hv with h | h <;> omega

theorem form_grains_dense_numbering_witness :
    (1 ≤ Examples.grid.xpoints ∧ 1 ≤ Examples.grid.ypoints ∧ 1 ≤ Examples.grid.zpoints ∧
      Examples.grid.totalpoints
        = Examples.grid.xpoints * Examples.grid.ypoints * Examples.grid.zpoints ∧
      (∀ v, 0 ≤ v → v < Examples.grid.totalpoints → Examples.grid.grain_indicies v = -1) ∧
      2 ≤ Examples.grid.numGrains ∧ Examples.grid.totalpoints.toNat + 1 ≤ 10) ∧
    ∃ dc' c' seeds, formLoop Examples.ops 5 Examples.rg 10 Examples.grid 1 0 = some (dc', c') ∧
      form_grains Examples.ops 5 Examples.rg 10 Examples.grid = some dc' ∧
      formSeeds Examples.ops 5 Examples.rg 10 Examples.grid 1 0 = some seeds ∧
      c' = seeds.length + 1 ∧
      (∀ v, 0 ≤ v → v < Examples.grid.totalpoints →
        dc'.grain_indicies v = -1 ∨
          (1 ≤ dc'.grain_indicies v ∧ dc'.grain_indicies v ≤ seeds.length)) ∧
      (∀ g : Nat, 1 ≤ g → g ≤ seeds.length →
        ∃ v, 0 ≤ v ∧ v < Examples.grid.totalpoints ∧ dc'.grain_indicies v = g) ∧
      (∀ k : Nat, 1 ≤ k → k ≤ seeds.length →
        dc'.grain_indicies (seeds.getD (k - 1) 0) = k ∧
        ∃ l, (dc'.m_Grains k).voxellist = some l ∧ l ≠ [] ∧
          l.head? = some (seeds.getD (k - 1) 0)) ∧
      (∀ v, 0 ≤ v → v < Examples.grid.totalpoints → dc'.grain_indicies v ≠ 0) ∧
      dc'.m_Grains 0 = Examples.grid.m_Grains 0 :=
  ⟨⟨by decide, by decide, by decide, by decide, fun _ _ _ => rfl, by decide, by decide⟩,
    form_grains_dense_numbering Examples.ops 5 Examples.rg Examples.grid (by decide) (by decide)
      (by decide) (by decide) (fun _ _ _ => rfl) (by decide) 10 (by decide)⟩

/-- The seeds found on the example grid: voxel 1, then voxel 2. -/
theorem formSeeds_example :
    formSeeds Examples.ops 5 Examples.rg 10 Examples.grid 1 0 = some [1, 2] := by
  decide!

end SegmentGrains

/-! ### `FillBadData::execute`: frame, isolated voxels, kept components -/

namespace FillBadData

/-- The loop of phase 2 never changes a voxel that is not negative. -/
theorem healLoop_frame (d : VolumeData) (fuel : Nat) (s s' : HealState)
    (hrun : healLoop d fuel s = some s') :
    ∀ v, ¬ s.m_FeatureIds v < 0 → s'.m_FeatureIds v = s.m_FeatureIds v := by
  induction fuel generalizing s with
  | zero => simp [healLoop] at hrun
  | succ fuel ih =>
    unfold healLoop at hrun
    by_cases hc : s.count ≠ 0
    · rw [if_pos hc] at hrun
      obtain ⟨b, _, _⟩ := healPass_frame d s
      intro v hv
      rw [ih (healPass d s) hrun v (by rw [b v hv]; exact hv), b v hv]
    · rw [if_neg hc] at hrun
      injection hrun with hs
      intro v _
      rw [hs]

/-- The result of `execute` in terms of the two phases, when the feature check
passes. -/
theorem execute_eq (point fuel : Nat) (d : VolumeData) (r : Result)
    (hr : execute point fuel d = some r)
    (hnf : numfeaturesLoop (d.m_FeatureIds point) d.totalPoints.toNat 0 ≠ 0) :
    ∃ p h, phase1 d fuel = some p ∧ healLoop d fuel (healStart d p) = some h ∧
      r = { errorCondition := 0, m_FeatureIds := h.m_FeatureIds, cellData := h.cellData } := by
  unfold execute at hr
  simp only at hr
  rw [if_neg hnf] at hr
  cases hp : phase1 d fuel with
  | none => rw [hp] at hr; simp at hr
  | some p =>
    rw [hp] at hr
    simp only at hr
    cases hh : healLoop d fuel (healStart d p) with
    | none =>
      simp only [healStart] at hh
      rw [hh] at hr
      simp at hr
    | some h =>
      have hh2 := hh
      simp only [healStart] at hh2
      rw [hh2] at hr
      simp only at hr
      injection hr with hr
      exact ⟨p, h, rfl, hh, hr.symm⟩

/-- C18 (heal leaves resolved voxels alone).  On a well-formed grid, for every
minimum defect size and every value of the unassigned local `point`: when
`execute` returns, every voxel whose feature id was positive on entry holds the
same feature id, so a voxel whose feature id changed was not positive on entry. -/
theorem execute_keeps_positive (d : VolumeData) (hwf : WF d) (point fuel : Nat)
    (hfuel : d.totalPoints.toNat + 2 ≤ fuel) (r : Result)
    (hr : execute point fuel d = some r) :
    (∀ v, d.m_FeatureIds v > 0 → r.m_FeatureIds v = d.m_FeatureIds v) ∧
    (∀ v, r.m_FeatureIds v ≠ d.m_FeatureIds v → ¬ d.m_FeatureIds v > 0) := by
  have hmain : ∀ v, d.m_FeatureIds v > 0 → r.m_FeatureIds v = d.m_FeatureIds v := by
    intro v hv
    by_cases hnf : numfeaturesLoop (d.m_FeatureIds point) d.totalPoints.toNat 0 = 0
    · unfold execute at hr
      simp only at hr
      rw [if_pos hnf] at hr
      injection hr with hr
      rw [← hr]
    · obtain ⟨p, h, hp, hh, rfl⟩ := execute_eq point fuel d r hr hnf
      obtain ⟨p', hp', hinv⟩ := phase1_spec d hwf fuel hfuel
      rw [hp] at hp'
      injection hp' with hp'
      subst hp'
      have hk := hinv.keep v (by omega)
      have := healLoop_frame d fuel (healStart d p) h hh v
        (by show ¬ p.m_FeatureIds v < 0; rw [hk]; omega)
      simp only
      rw [this]
      exact hk
  exact ⟨hmain, fun v hne hpos => hne (hmain v hpos)⟩

theorem healedLine_eq : execute 2 5 (Examples.line 0 7 5 2) = some Examples.healedLine := by
  have hs : (execute 2 5 (Examples.line 0 7 5 2)).isSome = true := by decide
  obtain ⟨x, hx⟩ := Option.isSome_iff_exists.mp hs
  unfold Examples.healedLine
  rw [hx]
  rfl

theorem execute_keeps_positive_witness :
    (WF (Examples.line 0 7 5 2) ∧ (Examples.line 0 7 5 2).totalPoints.toNat + 2 ≤ 5 ∧
      execute 2 5 (Examples.line 0 7 5 2) = some Examples.healedLine) ∧
    ((∀ v, (Examples.line 0 7 5 2).m_FeatureIds v > 0 →
        Examples.healedLine.m_FeatureIds v = (Examples.line 0 7 5 2).m_FeatureIds v) ∧
      (∀ v, Examples.healedLine.m_FeatureIds v ≠ (Examples.line 0 7 5 2).m_FeatureIds v →
        ¬ (Examples.line 0 7 5 2).m_FeatureIds v > 0)) :=
  have hwf : WF (Examples.line 0 7 5 2) := ⟨by decide, by decide, by decide, by decide⟩
  ⟨⟨hwf, by decide, healedLine_eq⟩,
    execute_keeps_positive (Examples.line 0 7 5 2) hwf 2 5 (by decide) _ healedLine_eq⟩

/-- The healed line: voxel 0 received the id of its neighbour. -/
theorem healedLine_values :
    [Examples.healedLine.m_FeatureIds 0, Examples.healedLine.m_FeatureIds 1,
      Examples.healedLine.m_FeatureIds 2] = [7, 7, 5] := by
  decide

/-! Regions of zero voxels in phase 1. -/

theorem floodVisit_stays (d : VolumeData) (fid : Int → Int) (R : Int → Prop)
    (hR : ∀ a, R a → ∀ j ∈ directions,
      good d.dims0 d.dims1 d.dims2 j (colOf d.dims0 a) (rowOf d.dims0 d.dims1 a)
        (planeOf d.dims0 d.dims1 a) = true →
      fid (a + neighpoints d.dims0 d.dims1 j) = 0 → R (a + neighpoints d.dims0 d.dims1 j))
    (index : Int) (hidx : R index) (f : FloodState) (j : Nat) (hj : j ∈ directions)
    (h : ∀ v ∈ f.currentvlist, R v) :
    ∀ v ∈ (floodVisit d fid index f j).currentvlist, R v := by
  unfold floodVisit
  simp only
  split_ifs with hc
  · intro v hv
    simp only [List.mem_append, List.mem_singleton] at hv
    rcases hv with hv | hv
    · exact h v hv
    · rw [hv]
      exact hR index hidx j hj hc.1 hc.2.1
  · exact h

theorem foldl_floodVisit_stays (d : VolumeData) (fid : Int → Int) (R : Int → Prop)
    (hR : ∀ a, R a → ∀ j ∈ directions,
      good d.dims0 d.dims1 d.dims2 j (colOf d.dims0 a) (rowOf d.dims0 d.dims1 a)
        (planeOf d.dims0 d.dims1 a) = true →
      fid (a + neighpoints d.dims0 d.dims1 j) = 0 → R (a + neighpoints d.dims0 d.dims1 j))
    (index : Int) (hidx : R index) (l : List Nat) (hl : ∀ j ∈ l, j ∈ directions)
    (f : FloodState) (h : ∀ v ∈ f.currentvlist, R v) :
    ∀ v ∈ (l.foldl (floodVisit d fid index) f).currentvlist, R v := by
  induction l generalizing f with
  | nil => exact h
  | cons j t ih =>
    exact ih (fun k hk => hl k (by simp [hk])) _
      (floodVisit_stays d fid R hR index hidx f j (hl j (by simp)) h)

/-- A flood fill stays inside every set that holds its work list on entry and is
closed under the steps of the fill. -/
theorem flood_stays (d : VolumeData) (fid : Int → Int) (R : Int → Prop)
    (hR : ∀ a, R a → ∀ j ∈ directions,
      good d.dims0 d.dims1 d.dims2 j (colOf d.dims0 a) (rowOf d.dims0 d.dims1 a)
        (planeOf d.dims0 d.dims1 a) = true →
      fid (a + neighpoints d.dims0 d.dims1 j) = 0 → R (a + neighpoints d.dims0 d.dims1 j))
    (fuel : Nat) (f : FloodState) (count : Nat) (h : ∀ v ∈ f.currentvlist, R v)
    (r : FloodState × Nat) (hrun : flood d fid fuel f count = some r) :
    ∀ v ∈ r.1.currentvlist, R v := by
  induction fuel generalizing f count with
  | zero => simp [flood] at hrun
  | succ fuel ih =>
    unfold flood at hrun
    by_cases hlt : count < f.currentvlist.length
    · rw [if_pos hlt] at hrun
      simp only at hrun
      have hidx : R (f.currentvlist.getD count 0) := by
        rw [List.getD_eq_getElem _ _ hlt]
        exact h _ (List.getElem_mem hlt)
      exact ih _ (count + 1)
        (foldl_floodVisit_stays d fid R hR _ hidx directions (fun _ hj => hj) f h) hrun
    · rw [if_neg hlt] at hrun
      injection hrun with hrun
      rw [← hrun]
      exact h

/-- A flood fill seeded outside a closed set of zero voxels never enters it. -/
theorem flood_avoids (d : VolumeData) (hwf : WF d) (fid0 : Int → Int) (s : Phase1State)
    (hinv : P1Inv d fid0 s) (C : Finset Int) (hC : ZeroClosed d fid0 C) (i : Int)
    (hi : InGrid d i) (hz : s.m_FeatureIds i = 0) (hni : i ∉ C) (fuel : Nat)
    (r : FloodState × Nat)
    (hrun : flood d s.m_FeatureIds fuel ⟨s.m_AlreadyChecked, [i]⟩ 0 = some r) :
    ∀ a ∈ C, a ∉ r.1.currentvlist := by
  have hstay := flood_stays d s.m_FeatureIds
    (fun a => a ∉ C ∧ s.m_FeatureIds a = 0 ∧ InGrid d a) ?_ fuel ⟨s.m_AlreadyChecked, [i]⟩ 0 ?_
    r hrun
  · intro a ha hmem
    exact (hstay a hmem).1 ha
  · rintro a ⟨haC, haz, hag⟩ j hj hgood hbz
    have hadj : Adj d a (a + neighpoints d.dims0 d.dims1 j) := ⟨j, hj, hgood, rfl⟩
    refine ⟨?_, hbz, hadj.inGrid hwf hag⟩
    intro hb
    have hback := hadj.symm hwf hag
    have ha0 : fid0 a = 0 := by
      by_contra hne
      rw [hinv.keep a hne] at haz
      exact hne haz
    exact haC ((hC _ hb).2.2 a hback ha0)
  · intro v hv
    simp only [List.mem_singleton] at hv
    rw [hv]
    exact ⟨hni, hz, hi⟩

/-- The classification loop of phase 1 and a closed set `C` of zero voxels: until a
seed of `C` is met the voxels of `C` hold 0 and are unmarked; if the fill seeded in
`C` gives every voxel of `C` the value `val`, they hold `val` from then on. -/
theorem phase1Loop_region (d : VolumeData) (hwf : WF d) (fid0 : Int → Int) (fuel : Nat)
    (hfuel : d.totalPoints.toNat + 2 ≤ fuel) (C : Finset Int) (hC : ZeroClosed d fid0 C)
    (val : Int)
    (htrans : ∀ (s : Phase1State) (i : Int) (f' : FloodState), P1Inv d fid0 s → InGrid d i →
      i ∈ C → (∀ a ∈ C, s.m_FeatureIds a = 0 ∧ s.m_AlreadyChecked a = false ∧ i ≤ a) →
      flood d s.m_FeatureIds fuel ⟨s.m_AlreadyChecked, [i]⟩ 0
        = some (f', f'.currentvlist.length) →
      FloodCore d s.m_FeatureIds s.m_AlreadyChecked i f' →
      Processed d s.m_FeatureIds f' f'.currentvlist.length →
      ∀ a ∈ C, classify d.m_MinAllowedDefectSize s.m_FeatureIds f'.currentvlist a = val ∧
        (val = 0 → f'.m_AlreadyChecked a = true ∨ a < i + 1))
    (k : Nat) (i : Int) (s : Phase1State) (hi : 0 ≤ i) (hik : i + k ≤ d.totalPoints)
    (hinv : P1Inv d fid0 s)
    (hstate : (∀ a ∈ C, s.m_FeatureIds a = 0 ∧ s.m_AlreadyChecked a = false ∧ i ≤ a) ∨
      (∀ a ∈ C, s.m_FeatureIds a = val ∧ (val = 0 → s.m_AlreadyChecked a = true ∨ a < i))) :
    ∃ s', phase1Loop d fuel k i s = some s' ∧ P1Inv d fid0 s' ∧
      ((∀ a ∈ C, s'.m_FeatureIds a = 0 ∧ s'.m_AlreadyChecked a = false ∧ i + k ≤ a) ∨
        (∀ a ∈ C, s'.m_FeatureIds a = val ∧
          (val = 0 → s'.m_AlreadyChecked a = true ∨ a < i + k))) := by
  induction k generalizing i s with
  | zero =>
    refine ⟨s, rfl, hinv, ?_⟩
    simpa using hstate
  | succ k ih =>
    unfold phase1Loop
    have hig : InGrid d i := ⟨hi, by push_cast at hik; omega⟩
    have e : i + 1 + (k : Int) = i + ((k + 1 : Nat) : Int) := by push_cast; ring
    split
    next hc =>
      obtain ⟨f', hrun, hcore, hproc⟩ := flood_spec d hwf s.m_FeatureIds s.m_AlreadyChecked i hig
        fuel ⟨s.m_AlreadyChecked, [i]⟩ 0
        ⟨[], rfl, List.nodup_nil, by simp, fun v hv => Or.inl hv, fun v hv => hv⟩
        (by intro v hv; simp at hv) (Nat.zero_le _) (by omega)
      rw [hrun]
      simp only
      have hstep := phase1_step d hwf fid0 s hinv i hig hc.1 hc.2 f' hcore hproc
      obtain ⟨rest, hlist, _, hrest, hmark, hmono⟩ := hcore
      have hzl : ∀ v ∈ f'.currentvlist, s.m_FeatureIds v = 0 := by
        intro v hv
        rw [hlist] at hv
        rcases List.mem_cons.mp hv with rfl | hv
        · exact hc.2
        · exact (hrest v hv).2.1
      have hnew : (∀ a ∈ C,
            classify d.m_MinAllowedDefectSize s.m_FeatureIds f'.currentvlist a = 0 ∧
              f'.m_AlreadyChecked a = false ∧ i + 1 ≤ a) ∨
          (∀ a ∈ C, classify d.m_MinAllowedDefectSize s.m_FeatureIds f'.currentvlist a = val ∧
            (val = 0 → f'.m_AlreadyChecked a = true ∨ a < i + 1)) := by
        rcases hstate with hB | hA
        · by_cases hiC : i ∈ C
          · exact Or.inr (htrans s i f' hinv hig hiC hB hrun
              ⟨rest, hlist, by assumption, hrest, hmark, hmono⟩ hproc)
          · left
            intro a ha
            have hnot := flood_avoids d hwf fid0 s hinv C hC i hig hc.2 hiC fuel _ hrun a ha
            simp only at hnot
            obtain ⟨b1, b2, b3⟩ := hB a ha
            refine ⟨?_, ?_, ?_⟩
            · rw [classify_apply _ _ _ hzl, if_neg (fun h => hnot h.2)]
              exact b1
            · by_contra hm
              have hm' : f'.m_AlreadyChecked a = true := by simpa using hm
              rcases hmark a hm' with h | h
              · rw [b2] at h; exact Bool.false_ne_true h
              · exact hnot (by rw [hlist]; exact List.mem_cons_of_mem _ h)
            · have : a ≠ i := fun h => hiC (h ▸ ha)
              omega
        · right
          intro a ha
          obtain ⟨a1, a2⟩ := hA a ha
          have hiC : i ∉ C := by
            intro hiC
            obtain ⟨c1, c2⟩ := hA i hiC
            have hv0 : val = 0 := by rw [← c1]; exact hc.2
            rcases c2 hv0 with h | h
            · rw [hc.1] at h; exact Bool.false_ne_true h
            · omega
          have hnot : a ∉ f'.currentvlist := by
            by_cases hv0 : val = 0
            · have hCz : ∀ b ∈ C, s.m_FeatureIds b = 0 := fun b hb => by
                rw [(hA b hb).1]; exact hv0
              have := flood_avoids d hwf fid0 s hinv C hC i hig hc.2 hiC fuel _ hrun a ha
              exact this
            · intro hm
              have := hzl a hm
              rw [a1] at this
              exact hv0 this
          refine ⟨?_, ?_⟩
          · rw [classify_apply _ _ _ hzl, if_neg (fun h => hnot h.2)]
            exact a1
          · intro hv0
            rcases a2 hv0 with h | h
            · exact Or.inl (hmono a h)
            · exact Or.inr (by omega)
      obtain ⟨s', h1, h2, h3⟩ := ih (i + 1) _ (by omega) (by push_cast at hik ⊢; omega) hstep hnew
      rw [e] at h3
      exact ⟨s', h1, h2, h3⟩
    next hc =>
      have hnew : (∀ a ∈ C, s.m_FeatureIds a = 0 ∧ s.m_AlreadyChecked a = false ∧ i + 1 ≤ a) ∨
          (∀ a ∈ C, s.m_FeatureIds a = val ∧
            (val = 0 → s.m_AlreadyChecked a = true ∨ a < i + 1)) := by
        rcases hstate with hB | hA
        · left
          intro a ha
          obtain ⟨b1, b2, b3⟩ := hB a ha
          refine ⟨b1, b2, ?_⟩
          have : a ≠ i := by
            intro h
            rw [h] at b1 b2
            exact hc ⟨b2, b1⟩
          omega
        · right
          intro a ha
          obtain ⟨a1, a2⟩ := hA a ha
          refine ⟨a1, fun hv0 => ?_⟩
          rcases a2 hv0 with h | h
          · exact Or.inl h
          · exact Or.inr (by omega)
      obtain ⟨s', h1, h2, h3⟩ := ih (i + 1) s (by omega) (by push_cast at hik ⊢; omega) hinv hnew
      rw [e] at h3
      exact ⟨s', h1, h2, h3⟩

/-- Phase 1 and a closed set of zero voxels: if the fill seeded in the set gives its
voxels the value `val`, they hold `val` when phase 1 ends. -/
theorem phase1_region (d : VolumeData) (hwf : WF d) (fuel : Nat)
    (hfuel : d.totalPoints.toNat + 2 ≤ fuel) (C : Finset Int)
    (hC : ZeroClosed d d.m_FeatureIds C) (val : Int)
    (htrans : ∀ (s : Phase1State) (i : Int) (f' : FloodState), P1Inv d d.m_FeatureIds s →
      InGrid d i → i ∈ C →
      (∀ a ∈ C, s.m_FeatureIds a = 0 ∧ s.m_AlreadyChecked a = false ∧ i ≤ a) →
      flood d s.m_FeatureIds fuel ⟨s.m_AlreadyChecked, [i]⟩ 0
        = some (f', f'.currentvlist.length) →
      FloodCore d s.m_FeatureIds s.m_AlreadyChecked i f' →
      Processed d s.m_FeatureIds f' f'.currentvlist.length →
      ∀ a ∈ C, classify d.m_MinAllowedDefectSize s.m_FeatureIds f'.currentvlist a = val ∧
        (val = 0 → f'.m_AlreadyChecked a = true ∨ a < i + 1)) :
    ∃ p, phase1 d fuel = some p ∧ P1Inv d d.m_FeatureIds p ∧ ∀ a ∈ C, p.m_FeatureIds a = val := by
  have h1 : 1 ≤ d.totalPoints := by
    rw [hwf.htot]
    exact one_le_mul_of_one_le_of_one_le (one_le_mul_of_one_le_of_one_le hwf.hx hwf.hy) hwf.hz
  have hcast : ((d.totalPoints.toNat : Nat) : Int) = d.totalPoints :=
    Int.toNat_of_nonneg (by omega)
  obtain ⟨p, hp, hI, hres⟩ := phase1Loop_region d hwf d.m_FeatureIds fuel hfuel C hC val htrans
    d.totalPoints.toNat 0
    { m_FeatureIds := d.m_FeatureIds
      m_AlreadyChecked := fun i =>
        if 0 ≤ i ∧ i < d.totalPoints then decide (d.m_FeatureIds i ≠ 0) else false
      count := 1 }
    (le_refl _) (by rw [hcast]; omega)
    (by
      refine ⟨fun v _ => rfl, fun v hv => Or.inl hv, ?_, ?_, ?_, by simp⟩
      · intro v _ h0 h1
        simp only at h1
        omega
      · intro u hug hcu hu0
        simp only at hcu hu0
        rw [if_pos (show 0 ≤ u ∧ u < d.totalPoints from hug)] at hcu
        simp [hu0] at hcu
      · intro v hvg hv
        simp only
        rw [if_pos (show 0 ≤ v ∧ v < d.totalPoints from hvg)]
        simpa using hv)
    (Or.inl (fun a ha => by
      obtain ⟨hg, hz, _⟩ := hC a ha
      refine ⟨hz, ?_, hg.1⟩
      simp only
      rw [if_pos (show 0 ≤ a ∧ a < d.totalPoints from hg)]
      simp [hz]))
  refine ⟨p, hp, hI, ?_⟩
  intro a ha
  rcases hres with h | h
  · have := (h a ha).2.2
    have hg := (hC a ha).1.2
    rw [hcast] at this
    omega
  · exact (h a ha).1

/-! Components of zero voxels that are kept. -/

theorem healPass_iterate_frame (d : VolumeData) (s : HealState) (k : Nat) :
    ∀ v, ¬ s.m_FeatureIds v < 0 → ((healPass d)^[k] s).m_FeatureIds v = s.m_FeatureIds v := by
  induction k with
  | zero => exact fun _ _ => rfl
  | succ k ih =>
    rw [Function.iterate_succ_apply']
    obtain ⟨b, _, _⟩ := healPass_frame d ((healPass d)^[k] s)
    intro v hv
    rw [b v (by rw [ih v hv]; exact hv), ih v hv]

/-- The fill seeded in a connected closed set of zero voxels collects the whole set. -/
theorem flood_covers (d : VolumeData) (fid : Int → Int) (chk0 : Int → Bool) (C : Finset Int)
    (hconn : ZeroConnected d C) (hCz : ∀ a ∈ C, fid a = 0 ∧ chk0 a = false) (i : Int)
    (hi : i ∈ C) (f' : FloodState) (hcore : FloodCore d fid chk0 i f')
    (hproc : Processed d fid f' f'.currentvlist.length) :
    ∀ a ∈ C, a ∈ f'.currentvlist := by
  obtain ⟨rest, hlist, _, _, hmark, _⟩ := hcore
  have key : ∀ a, Relation.ReflTransGen (fun x y => Adj d x y ∧ y ∈ C) i a →
      a ∈ f'.currentvlist := by
    intro a hpath
    induction hpath with
    | refl => rw [hlist]; exact List.mem_cons_self _ _
    | @tail x y _ hstep ih =>
      have hx : x ∈ f'.currentvlist.take f'.currentvlist.length := by
        rw [List.take_length]
        exact ih
      have hy := hproc x hx y hstep.1 (hCz y hstep.2).1
      rcases hmark y hy with h | h
      · rw [(hCz y hstep.2).2] at h
        exact absurd h Bool.false_ne_true
      · rw [hlist]
        exact List.mem_cons_of_mem _ h
  intro a ha
  exact key a (hconn i hi a ha)

/-- C20 (boundary of the size check).  On a well-formed grid, a 6-connected
component of zero voxels whose number of voxels is exactly `MinAllowedDefectSize`
is kept: phase 1 returns with every voxel of the component holding 0, after every
pass of phase 2 every voxel of it holds 0, and whenever `execute` returns every
voxel of it holds 0. -/
theorem execute_keeps_boundary_component (d : VolumeData) (hwf : WF d) (point fuel : Nat)
    (hfuel : d.totalPoints.toNat + 2 ≤ fuel) (C : Finset Int)
    (hcomp : ZeroComponent d d.m_FeatureIds C)
    (hsize : (C.card : Int) = d.m_MinAllowedDefectSize) :
    ∃ p, phase1 d fuel = some p ∧ (∀ a ∈ C, p.m_FeatureIds a = 0) ∧
      (∀ k, ∀ a ∈ C, ((healPass d)^[k] (healStart d p)).m_FeatureIds a = 0) ∧
      (∀ r, execute point fuel d = some r → ∀ a ∈ C, r.m_FeatureIds a = 0) := by
  obtain ⟨_, hclosed, hconn⟩ := hcomp
  obtain ⟨p, hp, _, hzero⟩ := phase1_region d hwf fuel hfuel C hclosed 0 (by
    intro s i f' _ _ hiC hB hrun hcore hproc
    have hcov := flood_covers d s.m_FeatureIds s.m_AlreadyChecked C hconn
      (fun a ha => ⟨(hB a ha).1, (hB a ha).2.1⟩) i hiC f' hcore hproc
    obtain ⟨rest, hlist, _, hrest, _, _⟩ := hcore
    have hzl : ∀ v ∈ f'.currentvlist, s.m_FeatureIds v = 0 := by
      intro v hv
      rw [hlist] at hv
      rcases List.mem_cons.mp hv with rfl | hv
      · exact (hB _ hiC).1
      · exact (hrest v hv).2.1
    have hcard : C.card ≤ f'.currentvlist.length := by
      refine le_trans (Finset.card_le_card ?_) (List.toFinset_card_le f'.currentvlist)
      intro a ha
      exact List.mem_toFinset.mpr (hcov a ha)
    intro a ha
    refine ⟨?_, fun _ => ?_⟩
    · rw [classify_apply _ _ _ hzl, if_neg]
      · exact (hB a ha).1
      · intro h
        have := h.1
        rw [← hsize] at this
        omega
    · have hm := hcov a ha
      rw [hlist] at hm
      rcases List.mem_cons.mp hm with h | h
      · exact Or.inr (by omega)
      · exact Or.inl (hrest a h).2.2.2)
  refine ⟨p, hp, hzero, ?_, ?_⟩
  · intro k a ha
    rw [healPass_iterate_frame d (healStart d p) k a
      (by show ¬ p.m_FeatureIds a < 0; rw [hzero a ha]; omega)]
    exact hzero a ha
  · intro r hr a ha
    by_cases hnf : numfeaturesLoop (d.m_FeatureIds point) d.totalPoints.toNat 0 = 0
    · unfold execute at hr
      simp only at hr
      rw [if_pos hnf] at hr
      injection hr with hr
      rw [← hr]
      exact (hclosed a ha).2.1
    · obtain ⟨p', h, hp', hh, rfl⟩ := execute_eq point fuel d r hr hnf
      rw [hp] at hp'
      injection hp' with hp'
      subst hp'
      simp only
      rw [healLoop_frame d fuel (healStart d p) h hh a
        (by show ¬ p.m_FeatureIds a < 0; rw [hzero a ha]; omega)]
      exact hzero a ha

/-! Isolated zero voxels. -/

theorem foldl_floodVisit_id (d : VolumeData) (fid : Int → Int) (v : Int)
    (hnb : ∀ j ∈ directions,
      good d.dims0 d.dims1 d.dims2 j (colOf d.dims0 v) (rowOf d.dims0 d.dims1 v)
        (planeOf d.dims0 d.dims1 v) = true → fid (v + neighpoints d.dims0 d.dims1 j) ≠ 0)
    (l : List Nat) (hl : ∀ j ∈ l, j ∈ directions) (f : FloodState) :
    l.foldl (floodVisit d fid v) f = f := by
  induction l generalizing f with
  | nil => rfl
  | cons j t ih =>
    have e : floodVisit d fid v f j = f := by
      unfold floodVisit
      simp only
      rw [if_neg]
      intro h
      exact hnb j (hl j (by simp)) h.1 h.2.1
    rw [List.foldl_cons, e]
    exact ih (fun k hk => hl k (by simp [hk])) f

/-- The fill seeded at a zero voxel without a zero neighbour collects the seed alone. -/
theorem flood_isolated (d : VolumeData) (fid : Int → Int) (chk : Int → Bool) (v : Int)
    (hnb : ∀ j ∈ directions,
      good d.dims0 d.dims1 d.dims2 j (colOf d.dims0 v) (rowOf d.dims0 d.dims1 v)
        (planeOf d.dims0 d.dims1 v) = true → fid (v + neighpoints d.dims0 d.dims1 j) ≠ 0)
    (fuel : Nat) :
    flood d fid (fuel + 2) ⟨chk, [v]⟩ 0 = some (⟨chk, [v]⟩, 1) := by
  unfold flood
  rw [if_pos (by simp)]
  simp only [List.getD_cons_zero]
  rw [foldl_floodVisit_id d fid v hnb directions (fun _ h => h)]
  unfold flood
  rw [if_neg (by simp)]

/-- Phase 2 started after a phase 1 that kept the invariant, on a grid without
negative ids on entry and with a positive voxel, returns. -/
theorem heal_returns (d : VolumeData) (hwf : WF d) (hs : Small d) (fuel : Nat)
    (hfuel : d.totalPoints.toNat + 2 ≤ fuel) (p : Phase1State)
    (hinv : P1Inv d d.m_FeatureIds p)
    (hnn : ∀ v, InGrid d v → 0 ≤ d.m_FeatureIds v)
    (hpos : ∃ v, InGrid d v ∧ d.m_FeatureIds v > 0) :
    ∃ h, healLoop d fuel (healStart d p) = some h := by
  have hH : HealInv d (healStart d p) := by
    refine ⟨fun _ => rfl, ?_, ?_⟩
    · intro v hv hneg u hadj
      simp only [healStart] at hneg ⊢
      have hz : d.m_FeatureIds v = 0 := by
        by_contra hne
        rw [hinv.keep v hne] at hneg
        have := hnn v hv
        omega
      have hm1 : p.m_FeatureIds v = -1 := by
        rcases hinv.zero v hz with h | h
        · omega
        · exact h
      exact hinv.closed v hv hz hm1 u hadj
    · obtain ⟨v, hv, hvp⟩ := hpos
      exact ⟨v, hv, by simp only [healStart]; rw [hinv.keep v (by omega)]; exact hvp⟩
  obtain ⟨s', hrun, _, _⟩ := healLoop_spec d hwf hs fuel _ hH
    (fun hc => absurd hc hinv.count)
    (by have := negatives_card_le d p.m_FeatureIds; simp only [healStart]; omega)
  exact ⟨s', hrun⟩

/-- The loop of phase 2 heals a negative voxel whose in-bounds face neighbours all
hold the positive id `f`: when the loop returns the voxel holds `f`. -/
theorem healLoop_heals (d : VolumeData) (hwf : WF d) (hs : Small d) (v f : Int)
    (hv : InGrid d v)
    (hf : f > 0) (hex : ∃ u, Adj d v u) (fuel : Nat) (s s' : HealState)
    (hn : ∀ g, s.n g = 0)
    (hstate : s.m_FeatureIds v = f ∨
      (s.m_FeatureIds v < 0 ∧ (∀ u, Adj d v u → s.m_FeatureIds u = f) ∧ s.count ≠ 0))
    (hrun : healLoop d fuel s = some s') : s'.m_FeatureIds v = f := by
  induction fuel generalizing s with
  | zero => simp [healLoop] at hrun
  | succ fuel ih =>
    unfold healLoop at hrun
    by_cases hc : s.count ≠ 0
    · rw [if_pos hc] at hrun
      obtain ⟨a, b, _, e, _⟩ := healPass_spec d hwf hs s hn
      refine ih (healPass d s) a (Or.inl ?_) hrun
      rcases hstate with h | ⟨hneg, hnb, _⟩
      · rw [b v (by rw [h]; omega), h]
      · obtain ⟨u, hu⟩ := hex
        obtain ⟨hmaj, heq⟩ := e v hv hneg ⟨u, hu, by rw [hnb u hu]; exact hf⟩
        rw [heq, hnb _ hmaj.1]
    · rw [if_neg hc] at hrun
      injection hrun with hse
      rw [← hse]
      rcases hstate with h | ⟨_, _, hcnt⟩
      · exact h
      · exact absurd hcnt hc

/-- An isolated defect voxel in the runs that pass the feature check.  On a
well-formed grid within the range of the number types of phase 2, let `v` be a
voxel with feature id 0 that has an in-bounds face neighbour and whose in-bounds face
neighbours all hold the positive id `f`, and let `MinAllowedDefectSize ≥ 2`.  Then
phase 1 returns with `v` set to `-1`; whenever `execute` returns without the error
of the feature check, `v` holds `f`; and when the grid holds no negative id on
entry and the feature check passes, `execute` does return, without error and with
`v` holding `f`. -/
theorem execute_heals_isolated (d : VolumeData) (hwf : WF d) (hs : Small d) (point fuel : Nat)
    (hfuel : d.totalPoints.toNat + 2 ≤ fuel) (v f : Int) (hv : InGrid d v)
    (hz : d.m_FeatureIds v = 0) (hex : ∃ u, Adj d v u)
    (hnb : ∀ u, Adj d v u → d.m_FeatureIds u = f) (hf : f > 0)
    (hmin : 2 ≤ d.m_MinAllowedDefectSize) :
    ∃ p, phase1 d fuel = some p ∧ p.m_FeatureIds v = -1 ∧
      (∀ r, execute point fuel d = some r → r.errorCondition = 0 → r.m_FeatureIds v = f) ∧
      ((∀ w, InGrid d w → 0 ≤ d.m_FeatureIds w) →
        numfeaturesLoop (d.m_FeatureIds point) d.totalPoints.toNat 0 ≠ 0 →
        ∃ r, execute point fuel d = some r ∧ r.errorCondition = 0 ∧ r.m_FeatureIds v = f) := by
  have hclosed : ZeroClosed d d.m_FeatureIds {v} := by
    intro a ha
    rw [Finset.mem_singleton] at ha
    subst ha
    refine ⟨hv, hz, ?_⟩
    intro b hadj hb
    rw [hnb b hadj] at hb
    omega
  obtain ⟨p, hp, hinv, hres⟩ := phase1_region d hwf fuel hfuel {v} hclosed (-1) (by
    intro s i f' hI _ hiC hB hrun _ _
    rw [Finset.mem_singleton] at hiC
    subst hiC
    obtain ⟨fl, rfl⟩ : ∃ fl, fuel = fl + 2 := ⟨fuel - 2, by omega⟩
    have hiso := flood_isolated d s.m_FeatureIds s.m_AlreadyChecked i (by
      intro j hj hg
      have hadj : Adj d i (i + neighpoints d.dims0 d.dims1 j) := ⟨j, hj, hg, rfl⟩
      have hne : d.m_FeatureIds (i + neighpoints d.dims0 d.dims1 j) ≠ 0 := by
        rw [hnb _ hadj]; omega
      rw [hI.keep _ hne]
      exact hne) fl
    rw [hiso] at hrun
    injection hrun with hrun
    injection hrun with h1 _
    intro a ha
    rw [Finset.mem_singleton] at ha
    subst ha
    refine ⟨?_, fun h => by omega⟩
    rw [← h1]
    have hzl : ∀ w ∈ [a], s.m_FeatureIds w = 0 := by
      intro w hw
      rw [List.mem_singleton.mp hw]
      exact (hB a (Finset.mem_singleton_self a)).1
    rw [classify_apply _ _ _ hzl, if_pos ⟨by simp; omega, List.mem_singleton_self a⟩])
  have hpv : p.m_FeatureIds v = -1 := hres v (Finset.mem_singleton_self v)
  have hstart : (healStart d p).m_FeatureIds v = f ∨
      ((healStart d p).m_FeatureIds v < 0 ∧
        (∀ u, Adj d v u → (healStart d p).m_FeatureIds u = f) ∧ (healStart d p).count ≠ 0) := by
    right
    refine ⟨by show p.m_FeatureIds v < 0; rw [hpv]; omega, ?_, hinv.count⟩
    intro u hu
    show p.m_FeatureIds u = f
    rw [hinv.keep u (by rw [hnb u hu]; omega)]
    exact hnb u hu
  have hgood : ∀ r, execute point fuel d = some r →
      numfeaturesLoop (d.m_FeatureIds point) d.totalPoints.toNat 0 ≠ 0 →
      r.errorCondition = 0 ∧ r.m_FeatureIds v = f := by
    intro r hr hnf
    obtain ⟨p', h, hp', hh, rfl⟩ := execute_eq point fuel d r hr hnf
    rw [hp] at hp'
    injection hp' with hp'
    subst hp'
    exact ⟨rfl, healLoop_heals d hwf hs v f hv hf hex fuel (healStart d p) h (fun _ => rfl)
      hstart hh⟩
  refine ⟨p, hp, hpv, ?_, ?_⟩
  · intro r hr herr
    by_cases hnf : numfeaturesLoop (d.m_FeatureIds point) d.totalPoints.toNat 0 = 0
    · unfold execute at hr
      simp only at hr
      rw [if_pos hnf] at hr
      injection hr with hr
      rw [← hr] at herr
      simp at herr
    · exact (hgood r hr hnf).2
  · intro hnn hnf
    obtain ⟨u, hu⟩ := hex
    obtain ⟨h, hh⟩ := heal_returns d hwf hs fuel hfuel p hinv hnn
      ⟨u, hu.inGrid hwf hv, by rw [hnb u hu]; exact hf⟩
    have hr : execute point fuel d
        = some { errorCondition := 0, m_FeatureIds := h.m_FeatureIds, cellData := h.cellData } := by
      unfold execute
      simp only
      rw [if_neg hnf, hp]
      simp only
      have hh2 := hh
      simp only [healStart] at hh2
      rw [hh2]
    exact ⟨_, hr, hgood _ hr hnf⟩

theorem cube_neighbors :
    ∀ u, Adj (Examples.cube 2) 13 u → (Examples.cube 2).m_FeatureIds u = 3 := by
  rintro u ⟨j, hj, hg, rfl⟩
  simp only [directions, List.mem_cons, List.mem_singleton, List.not_mem_nil, or_false] at hj
  rcases hj with rfl | rfl | rfl | rfl | rfl | rfl <;> decide

theorem execute_heals_isolated_witness :
    (WF (Examples.cube 2) ∧ Small (Examples.cube 2) ∧
      (Examples.cube 2).totalPoints.toNat + 2 ≤ 30 ∧
      InGrid (Examples.cube 2) 13 ∧ (Examples.cube 2).m_FeatureIds 13 = 0 ∧
      (∃ u, Adj (Examples.cube 2) 13 u) ∧
      (∀ u, Adj (Examples.cube 2) 13 u → (Examples.cube 2).m_FeatureIds u = 3) ∧
      (3 : Int) > 0 ∧ 2 ≤ (Examples.cube 2).m_MinAllowedDefectSize) ∧
    ∃ p, phase1 (Examples.cube 2) 30 = some p ∧ p.m_FeatureIds 13 = -1 ∧
      (∀ r, execute 0 30 (Examples.cube 2) = some r → r.errorCondition = 0 →
        r.m_FeatureIds 13 = 3) ∧
      ((∀ w, InGrid (Examples.cube 2) w → 0 ≤ (Examples.cube 2).m_FeatureIds w) →
        numfeaturesLoop ((Examples.cube 2).m_FeatureIds (0 : Nat))
          (Examples.cube 2).totalPoints.toNat 0 ≠ 0 →
        ∃ r, execute 0 30 (Examples.cube 2) = some r ∧ r.errorCondition = 0 ∧
          r.m_FeatureIds 13 = 3) :=
  have hwf : WF (Examples.cube 2) := ⟨by decide, by decide, by decide, by decide⟩
  have hex : ∃ u, Adj (Examples.cube 2) 13 u := ⟨14, 3, by decide, by decide, by decide⟩
  ⟨⟨hwf, ⟨by decide, by decide, by decide, by decide⟩, by decide, ⟨by decide, by decide⟩, by decide, hex,
      cube_neighbors, by decide, by decide⟩,
    execute_heals_isolated (Examples.cube 2) hwf ⟨by decide, by decide, by decide, by decide⟩ 0 30
      (by decide) 13 3 ⟨by decide, by decide⟩ (by decide) hex (cube_neighbors) (by decide)
      (by decide)⟩

/-- The two scenarios of the specification: the centre voxel of the cube, with six
neighbours of feature 3 and minimum defect size 2, ends with feature 3; a defect of
one voxel with minimum defect size 5 is set to `-1` by phase 1 and ends with the
feature of its neighbours. -/
theorem execute_heals_examples :
    (execute 0 30 (Examples.cube 2)).map (fun r => (r.errorCondition, r.m_FeatureIds 13))
      = some (0, 3) ∧
    (phase1 (Examples.line 3 0 3 5) 5).map (fun p => p.m_FeatureIds 1) = some (-1) ∧
    (execute 0 5 (Examples.line 3 0 3 5)).map
      (fun r => (r.errorCondition, r.m_FeatureIds 0, r.m_FeatureIds 1, r.m_FeatureIds 2))
      = some (0, 3, 3, 3) := by
  refine ⟨by decide!, by decide, by decide⟩

theorem line_component : ZeroComponent (Examples.line 0 0 5 2)
    (Examples.line 0 0 5 2).m_FeatureIds {0, 1} := by
  have h01 : Adj (Examples.line 0 0 5 2) 0 1 := ⟨3, by decide, by decide, by decide⟩
  have h10 : Adj (Examples.line 0 0 5 2) 1 0 := ⟨2, by decide, by decide, by decide⟩
  refine ⟨⟨0, by simp⟩, ?_, ?_⟩
  · intro a ha
    simp only [Finset.mem_insert, Finset.mem_singleton] at ha
    rcases ha with rfl | rfl
    · refine ⟨⟨by decide, by decide⟩, by decide, ?_⟩
      rintro b ⟨j, hj, hg, rfl⟩ hb
      simp only [directions, List.mem_cons, List.mem_singleton, List.not_mem_nil, or_false] at hj
      rcases hj with rfl | rfl | rfl | rfl | rfl | rfl <;> revert hg hb <;> decide
    · refine ⟨⟨by decide, by decide⟩, by decide, ?_⟩
      rintro b ⟨j, hj, hg, rfl⟩ hb
      simp only [directions, List.mem_cons, List.mem_singleton, List.not_mem_nil, or_false] at hj
      rcases hj with rfl | rfl | rfl | rfl | rfl | rfl <;> revert hg hb <;> decide
  · intro a ha b hb
    simp only [Finset.mem_insert, Finset.mem_singleton] at ha hb
    rcases ha with rfl | rfl <;> rcases hb with rfl | rfl
    · exact Relation.ReflTransGen.refl
    · exact Relation.ReflTransGen.single ⟨h01, by simp⟩
    · exact Relation.ReflTransGen.single ⟨h10, by simp⟩
    · exact Relation.ReflTransGen.refl

theorem execute_keeps_boundary_component_witness :
    (WF (Examples.line 0 0 5 2) ∧ (Examples.line 0 0 5 2).totalPoints.toNat + 2 ≤ 5 ∧
      ZeroComponent (Examples.line 0 0 5 2) (Examples.line 0 0 5 2).m_FeatureIds {0, 1} ∧
      ((({0, 1} : Finset Int).card : Nat) : Int)
        = (Examples.line 0 0 5 2).m_MinAllowedDefectSize) ∧
    ∃ p, phase1 (Examples.line 0 0 5 2) 5 = some p ∧
      (∀ a ∈ ({0, 1} : Finset Int), p.m_FeatureIds a = 0) ∧
      (∀ k, ∀ a ∈ ({0, 1} : Finset Int),
        ((healPass (Examples.line 0 0 5 2))^[k]
          (healStart (Examples.line 0 0 5 2) p)).m_FeatureIds a = 0) ∧
      (∀ r, execute 2 5 (Examples.line 0 0 5 2) = some r →
        ∀ a ∈ ({0, 1} : Finset Int), r.m_FeatureIds a = 0) :=
  have hwf : WF (Examples.line 0 0 5 2) := ⟨by decide, by decide, by decide, by decide⟩
  ⟨⟨hwf, by decide, line_component, by decide⟩,
    execute_keeps_boundary_component (Examples.line 0 0 5 2) hwf 2 5 (by decide) {0, 1}
      line_component (by decide)⟩

/-- The run on the line `[0, 0, 5]` with minimum defect size 2: the component of two
zero voxels is kept. -/
theorem execute_keeps_example :
    (execute 2 5 (Examples.line 0 0 5 2)).map
      (fun r => (r.errorCondition, r.m_FeatureIds 0, r.m_FeatureIds 1, r.m_FeatureIds 2))
      = some (0, 0, 0, 5) := by
  decide

end FillBadData

/-! ### `FillBadData::execute`: the feature check, the work lists and the minimum size -/

namespace FillBadData

/-- The conversion to `size_t` never yields a negative number. -/
theorem toSizeT_nonneg (x : Int) : 0 ≤ toSizeT x := by
  unfold toSizeT
  exact Int.emod_nonneg _ (by norm_num)

/-- The loop that computes `numfeatures` ends with 0 exactly when it started with 0
and either never ran or read the value 0. -/
theorem numfeaturesLoop_eq_zero (f : Int) (k : Nat) (n : Int) (hn : 0 ≤ n) :
    numfeaturesLoop f k n = 0 ↔ n = 0 ∧ (k = 0 ∨ toSizeT f = 0) := by
  induction k generalizing n with
  | zero => simp [numfeaturesLoop]
  | succ k ih =>
    have hs := toSizeT_nonneg f
    unfold numfeaturesLoop
    by_cases hc : toSizeT f > n
    · rw [if_pos hc, ih _ hs]
      constructor
      · intro h
        omega
      · intro h
        omega
    · rw [if_neg hc, ih _ hn]
      constructor
      · intro h
        refine ⟨h.1, Or.inr ?_⟩
        omega
      · intro h
        refine ⟨h.1, Or.inr ?_⟩
        omega

/-- The error exit of `execute`: the error code `-90001` is reported exactly when
the grid is empty or the entry `m_FeatureIds[point]` is 0 as a `size_t`; the arrays
are then returned as they were.  The ids of the other voxels play no part. -/
theorem execute_error_iff (point fuel : Nat) (d : VolumeData) (r : Result)
    (hr : execute point fuel d = some r) :
    (r.errorCondition = -90001 ↔
      (d.totalPoints.toNat = 0 ∨ toSizeT (d.m_FeatureIds point) = 0)) ∧
    (r.errorCondition = -90001 → r.m_FeatureIds = d.m_FeatureIds) ∧
    (r.errorCondition = 0 ∨ r.errorCondition = -90001) := by
  have hz := numfeaturesLoop_eq_zero (d.m_FeatureIds point) d.totalPoints.toNat 0 (le_refl _)
  by_cases hnf : numfeaturesLoop (d.m_FeatureIds point) d.totalPoints.toNat 0 = 0
  · unfold execute at hr
    simp only at hr
    rw [if_pos hnf] at hr
    injection hr with hr
    rw [← hr]
    exact ⟨⟨fun _ => (hz.mp hnf).2, fun _ => rfl⟩, fun _ => rfl, Or.inr rfl⟩
  · obtain ⟨p, h, _, _, rfl⟩ := execute_eq point fuel d r hr hnf
    refine ⟨⟨fun h0 => ?_, fun h0 => ?_⟩, fun h0 => ?_, Or.inl rfl⟩
    · simp only at h0
      omega
    · exact absurd (hz.mpr ⟨rfl, h0⟩) hnf
    · simp only at h0
      omega

/-- C24, the run on the failing input.  The line `[0, 3, 3]` holds two positive
voxels, so no error is due.  The loop that computes `numfeatures` reads
`m_FeatureIds[point]` in every iteration, `point` being a local that is never
assigned (the loop variable is `i`): when `point` happens to be 0 the value read is
0, `numfeatures` stays 0 and `execute` reports `-90001` although voxels 1 and 2 are
positive; when `point` happens to be 1 the same grid passes the check and voxel 0
is healed. -/
theorem execute_feature_check_reads_point :
    (∃ v, InGrid (Examples.line 0 3 3 2) v ∧ (Examples.line 0 3 3 2).m_FeatureIds v > 0) ∧
    (execute 0 10 (Examples.line 0 3 3 2)).map
        (fun r => (r.errorCondition, r.m_FeatureIds 0, r.m_FeatureIds 1, r.m_FeatureIds 2))
      = some (-90001, 0, 3, 3) ∧
    (execute 1 10 (Examples.line 0 3 3 2)).map
        (fun r => (r.errorCondition, r.m_FeatureIds 0, r.m_FeatureIds 1, r.m_FeatureIds 2))
      = some (0, 3, 3, 3) := by
  refine ⟨⟨1, ⟨by decide, by decide⟩, by decide⟩, by decide, by decide⟩

/-- C27, the run on the failing input.  On the line `[7, 0, 0]` the component of
zero voxels is `{1, 2}`.  The fill starts with the work list `[1]` without marking
voxel 1 in `m_AlreadyChecked`; voxel 2 is pushed and marked, and when voxel 2 is
taken from the list its neighbour 1 is still unmarked and is pushed again.  The
work list ends as `[1, 2, 1]`: voxel 1 is listed twice and the length 3 differs
from the 2 distinct voxels of the component. -/
theorem flood_lists_seed_twice :
    (flood (Examples.line 7 0 0 3) (Examples.line 7 0 0 3).m_FeatureIds 10
        ⟨initialMarks (Examples.line 7 0 0 3), [1]⟩ 0).map
      (fun r => (r.1.currentvlist, r.1.currentvlist.length, r.1.currentvlist.dedup.length))
      = some ([1, 2, 1], 3, 2) ∧
    ¬ ([1, 2, 1] : List Int).Nodup := by
  refine ⟨by decide, by decide⟩

/-! A minimum allowed defect size that is not positive. -/

/-- With a minimum size that is not positive the classification of a work list of
zero voxels changes nothing. -/
theorem classify_small (minSize : Int) (hmin : minSize ≤ 0) (fid : Int → Int) (l : List Int)
    (hz : ∀ v ∈ l, fid v = 0) : classify minSize fid l = fid := by
  funext v
  rw [classify_apply minSize fid l hz v, if_neg]
  intro h
  have := h.1
  omega

/-- With a minimum size that is not positive the classification loop of phase 1
leaves `FeatureIds` as it is. -/
theorem phase1Loop_small (d : VolumeData) (hmin : d.m_MinAllowedDefectSize ≤ 0) (fuel : Nat)
    (k : Nat) (i : Int) (s s' : Phase1State) (h : phase1Loop d fuel k i s = some s') :
    s'.m_FeatureIds = s.m_FeatureIds := by
  induction k generalizing i s with
  | zero =>
    simp only [phase1Loop] at h
    injection h with h
    rw [← h]
  | succ k ih =>
    unfold phase1Loop at h
    split at h
    next hc =>
      cases hfl : flood d s.m_FeatureIds fuel ⟨s.m_AlreadyChecked, [i]⟩ 0 with
      | none =>
        rw [hfl] at h
        simp at h
      | some r =>
        obtain ⟨f, c⟩ := r
        rw [hfl] at h
        simp only at h
        rw [ih _ _ h]
        simp only
        refine classify_small _ hmin _ _ ?_
        exact flood_stays d s.m_FeatureIds (fun v => s.m_FeatureIds v = 0)
          (fun a _ j _ _ h0 => h0) fuel ⟨s.m_AlreadyChecked, [i]⟩ 0
          (by intro v hv; simp only [List.mem_singleton] at hv; rw [hv]; exact hc.2)
          (f, c) hfl
    next hc => exact ih _ _ h

/-- The loop of phase 2 returns on a grid without negative voxels. -/
theorem healLoop_idle (d : VolumeData) (fuel : Nat) (s : HealState)
    (hnn : ∀ v, InGrid d v → ¬ s.m_FeatureIds v < 0) :
    ∃ s', healLoop d (fuel + 2) s = some s' := by
  unfold healLoop
  by_cases hc : s.count ≠ 0
  · rw [if_pos hc]
    unfold healLoop
    have h0 : (healPass d s).count = 0 := (healPass_frame d s).2.2.mpr hnn
    rw [if_neg (by rw [h0]; simp)]
    exact ⟨_, rfl⟩
  · rw [if_neg hc]
    exact ⟨_, rfl⟩

/-- C25 (a minimum defect size that is not positive), amended.  `execute` has no
check of the configuration.  With a minimum allowed defect size `≤ 0` on a
well-formed grid: phase 1 returns and relabels no voxel (every component of zero
voxels is kept); the only error `execute` can report is the feature check
`-90001`, which does not depend on the minimum size; and on a grid without
negative ids that passes the feature check `execute` returns with error
condition 0 and every voxel of the grid unchanged. -/
theorem execute_nonpositive_min_size (d : VolumeData) (hwf : WF d) (point fuel : Nat)
    (hfuel : d.totalPoints.toNat + 2 ≤ fuel) (hmin : d.m_MinAllowedDefectSize ≤ 0) :
    (∃ p, phase1 d fuel = some p ∧ p.m_FeatureIds = d.m_FeatureIds) ∧
    (∀ r, execute point fuel d = some r →
      (r.errorCondition = 0 ∨ r.errorCondition = -90001) ∧
      (r.errorCondition = -90001 ↔
        (d.totalPoints.toNat = 0 ∨ toSizeT (d.m_FeatureIds point) = 0))) ∧
    ((∀ v, InGrid d v → 0 ≤ d.m_FeatureIds v) →
      numfeaturesLoop (d.m_FeatureIds point) d.totalPoints.toNat 0 ≠ 0 →
      ∃ r, execute point fuel d = some r ∧ r.errorCondition = 0 ∧
        ∀ v, InGrid d v → r.m_FeatureIds v = d.m_FeatureIds v) := by
  obtain ⟨p, hp, hinv⟩ := phase1_spec d hwf fuel hfuel
  have hsame : p.m_FeatureIds = d.m_FeatureIds := by
    have := hp
    unfold phase1 at this
    exact phase1Loop_small d hmin fuel _ _ _ _ this
  refine ⟨⟨p, hp, hsame⟩, ?_, ?_⟩
  · intro r hr
    obtain ⟨e1, _, e3⟩ := execute_error_iff point fuel d r hr
    exact ⟨e3, e1⟩
  · intro hnn hnf
    have hn0 : ∀ v, InGrid d v → ¬ (healStart d p).m_FeatureIds v < 0 := by
      intro v hv
      simp only [healStart]
      rw [hsame]
      have := hnn v hv
      omega
    obtain ⟨fuel2, rfl⟩ : ∃ f2, fuel = f2 + 2 := ⟨fuel - 2, by omega⟩
    obtain ⟨h, hh⟩ := healLoop_idle d fuel2 (healStart d p) hn0
    have hfr := healLoop_frame d (fuel2 + 2) (healStart d p) h hh
    refine ⟨{ errorCondition := 0, m_FeatureIds := h.m_FeatureIds, cellData := h.cellData },
      ?_, rfl, ?_⟩
    · unfold execute
      simp only
      rw [if_neg hnf, hp]
      simp only
      have hh2 := hh
      simp only [healStart] at hh2
      rw [hh2]
    · intro v hv
      simp only
      rw [hfr v (hn0 v hv)]
      simp only [healStart]
      rw [hsame]

/-- The theorem for C25 applied to the line `[0, 7, 5]` with minimum size 0. -/
theorem execute_nonpositive_min_size_witness :
    (WF (Examples.line 0 7 5 0) ∧ (Examples.line 0 7 5 0).totalPoints.toNat + 2 ≤ 5 ∧
      (Examples.line 0 7 5 0).m_MinAllowedDefectSize ≤ 0) ∧
    ((∃ p, phase1 (Examples.line 0 7 5 0) 5 = some p ∧
        p.m_FeatureIds = (Examples.line 0 7 5 0).m_FeatureIds) ∧
      (∀ r, execute 1 5 (Examples.line 0 7 5 0) = some r →
        (r.errorCondition = 0 ∨ r.errorCondition = -90001) ∧
        (r.errorCondition = -90001 ↔
          ((Examples.line 0 7 5 0).totalPoints.toNat = 0 ∨
            toSizeT ((Examples.line 0 7 5 0).m_FeatureIds (1 : Nat)) = 0))) ∧
      ((∀ v, InGrid (Examples.line 0 7 5 0) v → 0 ≤ (Examples.line 0 7 5 0).m_FeatureIds v) →
        numfeaturesLoop ((Examples.line 0 7 5 0).m_FeatureIds (1 : Nat))
          (Examples.line 0 7 5 0).totalPoints.toNat 0 ≠ 0 →
        ∃ r, execute 1 5 (Examples.line 0 7 5 0) = some r ∧ r.errorCondition = 0 ∧
          ∀ v, InGrid (Examples.line 0 7 5 0) v →
            r.m_FeatureIds v = (Examples.line 0 7 5 0).m_FeatureIds v)) :=
  ⟨⟨⟨by decide, by decide, by decide, by decide⟩, by decide, by decide⟩,
    execute_nonpositive_min_size (Examples.line 0 7 5 0)
      ⟨by decide, by decide, by decide, by decide⟩ 1 5 (by decide) (by decide)⟩

/-- C25, the counterexample.  With the minimum allowed defect size 0 the run on the
line `[0, 7, 5]` reports no error (error condition 0), and the run on the line
`[-1, 7, 5]` reports no error either and changes the id of voxel 0 from `-1` to 7. -/
theorem execute_accepts_nonpositive_min :
    (Examples.line 0 7 5 0).m_MinAllowedDefectSize ≤ 0 ∧
    (execute 1 10 (Examples.line 0 7 5 0)).map
        (fun r => (r.errorCondition, r.m_FeatureIds 0, r.m_FeatureIds 1, r.m_FeatureIds 2))
      = some (0, 0, 7, 5) ∧
    (Examples.line (-1) 7 5 0).m_FeatureIds 0 = -1 ∧
    (execute 1 10 (Examples.line (-1) 7 5 0)).map
        (fun r => (r.errorCondition, r.m_FeatureIds 0, r.m_FeatureIds 1, r.m_FeatureIds 2))
      = some (0, 7, 7, 5) ∧
    ¬ ∀ (d : VolumeData) (r : Result), d.m_MinAllowedDefectSize ≤ 0 →
        execute 1 10 d = some r → r.errorCondition ≠ 0 := by
  refine ⟨by decide, by decide, by decide, by decide, ?_⟩
  intro h
  have hs : (execute 1 10 (Examples.line 0 7 5 0)).isSome = true := by decide
  obtain ⟨x, hx⟩ := Option.isSome_iff_exists.mp hs
  have he : (execute 1 10 (Examples.line 0 7 5 0)).map (fun r => r.errorCondition) = some 0 := by
    decide
  rw [hx] at he
  simp only [Option.map_some', Option.some.injEq] at he
  exact h _ x (by decide) hx he

/-! ### Phase 2: read-then-commit passes and the tie-break of the vote -/

/-- The commit pass leaves a voxel without a recorded neighbour as it is. -/
theorem commitPass_skip (nbrs fid cd : Int → Int) (k : Nat) (v : Int) (h : nbrs v = -1) :
    (forRange k (commitVoxel nbrs) (fid, cd)).1 v = fid v := by
  induction k with
  | zero => rfl
  | succ k ih =>
    rw [forRange_succ]
    unfold commitVoxel
    simp only
    split_ifs with hc
    · simp only
      have hvk : v ≠ (k : Int) := by
        intro e
        rw [e] at h
        exact hc.2.1 h
      rw [Function.update_noteq hvk]
      exact ih
    · exact ih

/-- A negative voxel of the grid without a positive neighbour and without a recorded
neighbour keeps its id through a pass, and still has no recorded neighbour. -/
theorem healPass_stays (d : VolumeData) (hwf : WF d) (hs : Small d) (s : HealState)
    (hn : ∀ g, s.n g = 0) (v : Int) (hv : InGrid d v)
    (hno : ¬ HasPositive d s.m_FeatureIds v) (hnb : s.m_Neighbors v = -1) :
    (healPass d s).m_FeatureIds v = s.m_FeatureIds v ∧ (healPass d s).m_Neighbors v = -1 := by
  obtain ⟨_, _, t3, _⟩ := tallyPass_spec d s.m_FeatureIds
    { n := s.n, m_Neighbors := s.m_Neighbors, count := 0 } hn rfl d.totalPoints.toNat
    (fun v h0 h1 => guardExact_of_small hwf hs ⟨h0, by omega⟩)
  unfold healPass
  simp only
  generalize forRange d.totalPoints.toNat (tallyVoxel d s.m_FeatureIds)
    { n := s.n, m_Neighbors := s.m_Neighbors, count := 0 } = t at t3
  have hnbt : t.m_Neighbors v = -1 := by
    rw [(t3 v hv.1 (by have := hv.2; omega)).2 (Or.inr hno)]
    exact hnb
  exact ⟨commitPass_skip _ _ _ _ v hnbt, hnbt⟩

/-- Phase 2 starts in the condition `PassInv`. -/
theorem passInv_healStart (d : VolumeData) (p : Phase1State) : PassInv d (healStart d p) :=
  ⟨fun _ => rfl, fun _ _ _ => rfl⟩

/-- A pass keeps the condition `PassInv`: a voxel that is still negative afterwards
had no positive neighbour, so nothing was recorded for it. -/
theorem PassInv.next {d : VolumeData} (hwf : WF d) (hs : Small d) {s : HealState}
    (h : PassInv d s) : PassInv d (healPass d s) := by
  obtain ⟨p1, p2, _, p4, _⟩ := healPass_spec d hwf hs s h.1
  refine ⟨p1, ?_⟩
  intro v hv hneg
  have hneg0 : s.m_FeatureIds v < 0 := by
    by_contra hc
    rw [p2 v hc] at hneg
    exact hc hneg
  have hno : ¬ HasPositive d s.m_FeatureIds v := by
    intro hpos
    obtain ⟨hmaj, he⟩ := p4 v hv hneg0 hpos
    rw [he] at hneg
    have := hmaj.2.1
    omega
  exact (healPass_stays d hwf hs s h.1 v hv hno (h.2 v hv hneg0)).2

theorem PassInv.iterate {d : VolumeData} (hwf : WF d) (hs : Small d) {s : HealState}
    (h : PassInv d s) (k : Nat) : PassInv d ((healPass d)^[k] s) := by
  induction k with
  | zero => exact h
  | succ k ih =>
    rw [Function.iterate_succ_apply']
    exact ih.next hwf hs

/-- The read-then-commit passes on a grid within the range of the number types of
phase 2.  On such a well-formed grid let phase 2 start with cleared tallies and no
recorded neighbour for the negative voxels (the state in which `execute` enters the
loop), and let `v` be a voxel of the grid that is
negative at the start of pass `k + 1`.  Then `v` is positive at the end of that
pass exactly when one of its in-bounds face neighbours was positive at the start of
the pass; in that case the id it receives is the id a positive in-bounds face
neighbour held at the start of the pass; otherwise `v` keeps its id and is still
negative for the next pass. -/
theorem healPass_read_then_commit (d : VolumeData) (hwf : WF d) (hs : Small d)
    (s0 : HealState)
    (h0 : PassInv d s0) (k : Nat) (v : Int) (hv : InGrid d v)
    (hneg : ((healPass d)^[k] s0).m_FeatureIds v < 0) :
    ((healPass d ((healPass d)^[k] s0)).m_FeatureIds v > 0 ↔
      HasPositive d ((healPass d)^[k] s0).m_FeatureIds v) ∧
    (HasPositive d ((healPass d)^[k] s0).m_FeatureIds v →
      ∃ u, Adj d v u ∧ ((healPass d)^[k] s0).m_FeatureIds u > 0 ∧
        (healPass d ((healPass d)^[k] s0)).m_FeatureIds v
          = ((healPass d)^[k] s0).m_FeatureIds u) ∧
    (¬ HasPositive d ((healPass d)^[k] s0).m_FeatureIds v →
      (healPass d ((healPass d)^[k] s0)).m_FeatureIds v
          = ((healPass d)^[k] s0).m_FeatureIds v ∧
        (healPass d ((healPass d)^[k] s0)).m_FeatureIds v < 0) := by
  have hk := h0.iterate hwf hs k
  generalize (healPass d)^[k] s0 = s at hk hneg
  obtain ⟨_, _, _, p4, _⟩ := healPass_spec d hwf hs s hk.1
  have hyes : HasPositive d s.m_FeatureIds v →
      ∃ u, Adj d v u ∧ s.m_FeatureIds u > 0 ∧
        (healPass d s).m_FeatureIds v = s.m_FeatureIds u := by
    intro hpos
    obtain ⟨hmaj, he⟩ := p4 v hv hneg hpos
    exact ⟨_, hmaj.1, hmaj.2.1, he⟩
  have hnot : ¬ HasPositive d s.m_FeatureIds v →
      (healPass d s).m_FeatureIds v = s.m_FeatureIds v ∧ (healPass d s).m_FeatureIds v < 0 := by
    intro hno
    have := (healPass_stays d hwf hs s hk.1 v hv hno (hk.2 v hv hneg)).1
    exact ⟨this, by rw [this]; exact hneg⟩
  refine ⟨⟨fun hp => ?_, fun hpos => ?_⟩, hyes, hnot⟩
  · by_contra hno
    have := (hnot hno).2
    omega
  · obtain ⟨u, _, hu, he⟩ := hyes hpos
    rw [he]
    exact hu

/-- The passes on voxel 0 of the line `[-1, -1, 5]` at the start of the second pass. -/
theorem healPass_read_then_commit_witness :
    (WF (Examples.line (-1) (-1) 5 1) ∧ Small (Examples.line (-1) (-1) 5 1) ∧
      PassInv (Examples.line (-1) (-1) 5 1) Examples.lineState ∧
      InGrid (Examples.line (-1) (-1) 5 1) 0 ∧
      ((healPass (Examples.line (-1) (-1) 5 1))^[1] Examples.lineState).m_FeatureIds 0 < 0) ∧
    (((healPass (Examples.line (-1) (-1) 5 1)
          ((healPass (Examples.line (-1) (-1) 5 1))^[1] Examples.lineState)).m_FeatureIds 0 > 0 ↔
        HasPositive (Examples.line (-1) (-1) 5 1)
          ((healPass (Examples.line (-1) (-1) 5 1))^[1] Examples.lineState).m_FeatureIds 0) ∧
      (HasPositive (Examples.line (-1) (-1) 5 1)
          ((healPass (Examples.line (-1) (-1) 5 1))^[1] Examples.lineState).m_FeatureIds 0 →
        ∃ u, Adj (Examples.line (-1) (-1) 5 1) 0 u ∧
          ((healPass (Examples.line (-1) (-1) 5 1))^[1] Examples.lineState).m_FeatureIds u > 0 ∧
          (healPass (Examples.line (-1) (-1) 5 1)
              ((healPass (Examples.line (-1) (-1) 5 1))^[1] Examples.lineState)).m_FeatureIds 0
            = ((healPass (Examples.line (-1) (-1) 5 1))^[1] Examples.lineState).m_FeatureIds u) ∧
      (¬ HasPositive (Examples.line (-1) (-1) 5 1)
          ((healPass (Examples.line (-1) (-1) 5 1))^[1] Examples.lineState).m_FeatureIds 0 →
        (healPass (Examples.line (-1) (-1) 5 1)
              ((healPass (Examples.line (-1) (-1) 5 1))^[1] Examples.lineState)).m_FeatureIds 0
            = ((healPass (Examples.line (-1) (-1) 5 1))^[1] Examples.lineState).m_FeatureIds 0 ∧
          (healPass (Examples.line (-1) (-1) 5 1)
              ((healPass (Examples.line (-1) (-1) 5 1))^[1] Examples.lineState)).m_FeatureIds 0
            < 0)) :=
  ⟨⟨⟨by decide, by decide, by decide, by decide⟩, ⟨by decide, by decide, by decide, by decide⟩,
      ⟨fun _ => rfl, fun _ _ _ => rfl⟩, ⟨by decide, by decide⟩, by decide⟩,
    healPass_read_then_commit (Examples.line (-1) (-1) 5 1)
      ⟨by decide, by decide, by decide, by decide⟩ ⟨by decide, by decide, by decide, by decide⟩
      Examples.lineState
      ⟨fun _ => rfl, fun _ _ _ => rfl⟩ 1 0 ⟨by decide, by decide⟩ (by decide)⟩

/-- The passes on the line `[-1, -1, 5]`: the first pass heals voxel 1 only (voxel 0
has no positive neighbour yet), the second pass heals voxel 0. -/
theorem healPass_line_example :
    ((healPass (Examples.line (-1) (-1) 5 1))^[1] Examples.lineState).m_FeatureIds 0 = -1 ∧
    ((healPass (Examples.line (-1) (-1) 5 1))^[1] Examples.lineState).m_FeatureIds 1 = 5 ∧
    ((healPass (Examples.line (-1) (-1) 5 1))^[2] Examples.lineState).m_FeatureIds 0 = 5 := by
  decide

/-! The tie-break. -/

theorem occIn_mono (d : VolumeData) (fid : Int → Int) (i : Int) (a b : List Nat) (g : Int) :
    occIn d fid i a g ≤ occIn d fid i (a ++ b) g := by
  unfold occIn
  rw [List.filter_append, List.length_append]
  omega

theorem occIn_mem (d : VolumeData) (fid : Int → Int) (i : Int) (l : List Nat) (j : Nat)
    (hj : j ∈ l)
    (hg : good d.dims0 d.dims1 d.dims2 j (colOf d.dims0 i) (rowOf d.dims0 d.dims1 i)
      (planeOf d.dims0 d.dims1 i) = true) :
    0 < occIn d fid i l (fid (i + neighpoints d.dims0 d.dims1 j)) := by
  unfold occIn
  apply List.length_pos_of_mem (a := j)
  rw [List.mem_filter]
  exact ⟨hj, by simp [hg]⟩

/-- One step of the tally loop keeps `FirstInv`. -/
theorem tallyVisit_first (d : VolumeData) (fid : Int → Int) (i : Int) (nb0 : Int → Int)
    (hex : GuardExact d i) (l : List Nat) (t : TallyState) (j : Nat)
    (h : TallyInv d fid i nb0 l t) (hf : FirstInv d fid i l t) :
    FirstInv d fid i (l ++ [j]) (tallyVisit d fid i t j) := by
  have hext : t.most > 0 → ∃ a j2 b, l ++ [j] = a ++ j2 :: b ∧
      good d.dims0 d.dims1 d.dims2 j2 (colOf d.dims0 i) (rowOf d.dims0 d.dims1 i)
        (planeOf d.dims0 d.dims1 i) = true ∧
      fid (i + neighpoints d.dims0 d.dims1 j2) > 0 ∧
      t.m_Neighbors i = i + neighpoints d.dims0 d.dims1 j2 ∧
      (occIn d fid i (a ++ [j2]) (fid (i + neighpoints d.dims0 d.dims1 j2)) : Int) = t.most ∧
      ∀ g, g > 0 → (occIn d fid i a g : Int) < t.most := by
    intro hm
    obtain ⟨a, j2, b, hl, r⟩ := hf hm
    exact ⟨a, j2, b ++ [j], by rw [hl]; simp, r⟩
  unfold tallyVisit
  simp only
  rw [hex j]
  by_cases hg : good d.dims0 d.dims1 d.dims2 j (colOf d.dims0 i) (rowOf d.dims0 d.dims1 i)
      (planeOf d.dims0 d.dims1 i) = true
  · rw [if_pos hg]
    by_cases hp : fid (i + neighpoints d.dims0 d.dims1 j) > 0
    · rw [if_pos hp]
      have hcur : Function.update t.n (fid (i + neighpoints d.dims0 d.dims1 j))
          (t.n (fid (i + neighpoints d.dims0 d.dims1 j)) + 1)
            (fid (i + neighpoints d.dims0 d.dims1 j))
          = (occIn d fid i (l ++ [j]) (fid (i + neighpoints d.dims0 d.dims1 j)) : Int) := by
        rw [Function.update_same, h.pos _ hp, occIn_append, if_pos ⟨hg, rfl⟩]
        push_cast
        ring
      rw [hcur]
      split
      next hgt =>
        intro _
        refine ⟨l, j, [], rfl, hg, hp, by simp, rfl, ?_⟩
        intro g hgp
        have := h.bound g hgp
        simp only
        omega
      next hgt => exact hext
    · rw [if_neg hp]
      exact hext
  · rw [if_neg hg]
    exact hext

theorem foldl_tallyVisit_first (d : VolumeData) (fid : Int → Int) (i : Int) (nb0 : Int → Int)
    (hex : GuardExact d i) (l pre : List Nat) (t : TallyState)
    (h : TallyInv d fid i nb0 pre t) (hf : FirstInv d fid i pre t) :
    FirstInv d fid i (pre ++ l) (l.foldl (tallyVisit d fid i) t) := by
  induction l generalizing pre t with
  | nil => simpa using hf
  | cons a r ih =>
    have := ih (pre ++ [a]) _ (tallyVisit_inv d fid i nb0 hex pre t a h)
      (tallyVisit_first d fid i nb0 hex pre t a h hf)
    simpa using this

/-- A split of `0, 1, .., n - 1` at the entry `j` has the entries `0 .. j - 1` in
front. -/
theorem range_split (n : Nat) (a b : List Nat) (j : Nat) (h : List.range n = a ++ j :: b) :
    a = List.range j ∧ j < n := by
  have hlen : a.length < n := by
    have := congrArg List.length h
    simp at this
    omega
  have hj : j = a.length := by
    have h1 : (List.range n)[a.length]? = some a.length := by
      rw [List.getElem?_range hlen]
    have h2 : (a ++ j :: b)[a.length]? = some j := by
      rw [List.getElem?_append_right (le_refl _)]
      simp
    rw [h, h2] at h1
    injection h1
  refine ⟨?_, by omega⟩
  have h2 := congrArg (List.take a.length) h
  rw [List.take_range, List.take_left, Nat.min_eq_left (le_of_lt hlen)] at h2
  rw [hj]
  exact h2.symm

/-- The tally of one negative voxel with a positive neighbour records the
neighbour at which a running tally first reaches the highest final tally. -/
theorem tallyVoxel_first (d : VolumeData) (fid : Int → Int) (s : PassState) (i : Int)
    (hex : GuardExact d i) (hn : ∀ g, s.n g = 0) (hneg : fid i < 0)
    (hpos : HasPositive d fid i) :
    FirstToTop d fid i ((tallyVoxel d fid s i).m_Neighbors i) := by
  have e : tallyVoxel d fid s i =
      { n := directions.foldl (resetVisit d fid i) (directions.foldl (tallyVisit d fid i)
          { n := s.n, current := 0, most := 0, m_Neighbors := s.m_Neighbors }).n
        m_Neighbors := (directions.foldl (tallyVisit d fid i)
          { n := s.n, current := 0, most := 0, m_Neighbors := s.m_Neighbors }).m_Neighbors
        count := s.count + 1 } := by
    unfold tallyVoxel
    rw [if_pos hneg]
  rw [e]
  simp only
  have h0 : TallyInv d fid i s.m_Neighbors []
      { n := s.n, current := 0, most := 0, m_Neighbors := s.m_Neighbors } :=
    ⟨fun g _ => by simp [hn g, occIn], fun g _ => hn g, le_refl _,
      fun g _ => by simp [occIn], fun _ => ⟨rfl, fun j hj => by simp at hj⟩,
      fun h => by simp at h, fun v _ => rfl⟩
  have hF0 : FirstInv d fid i []
      { n := s.n, current := 0, most := 0, m_Neighbors := s.m_Neighbors } := by
    intro h
    simp at h
  have hT := foldl_tallyVisit_inv d fid i s.m_Neighbors hex directions [] _ h0
  have hF := foldl_tallyVisit_first d fid i s.m_Neighbors hex directions [] _ h0 hF0
  rw [List.nil_append] at hT hF
  generalize directions.foldl (tallyVisit d fid i)
    { n := s.n, current := 0, most := 0, m_Neighbors := s.m_Neighbors } = t at hT hF
  have hmost : t.most > 0 := by
    by_contra hm
    have hz : t.most = 0 := by have := hT.most0; omega
    obtain ⟨u, ⟨j, hj, hg, rfl⟩, hu⟩ := hpos
    exact (hT.none hz).2 j hj ⟨hg, hu⟩
  obtain ⟨a, j, b, hl, hg, hf, hnb, hocc, hlt⟩ := hF hmost
  have hdir : directions = List.range 6 := by decide
  obtain ⟨ha, hj6⟩ := range_split 6 a b j (by rw [← hdir]; exact hl)
  have hsplit : directions = (a ++ [j]) ++ b := by rw [hl]; simp
  have hle := occIn_mono d fid i (a ++ [j]) b (fid (i + neighpoints d.dims0 d.dims1 j))
  rw [← hsplit] at hle
  have hb := hT.bound _ hf
  have htop : (occurrences d fid i (fid (i + neighpoints d.dims0 d.dims1 j)) : Int) = t.most := by
    unfold occurrences
    omega
  rw [hnb]
  refine ⟨j, hj6, hg, rfl, hf, ?_, ?_, ?_⟩
  · intro g hgp
    have := hT.bound g hgp
    unfold occurrences at htop ⊢
    omega
  · rw [List.range_succ, ← ha]
    omega
  · intro g hgp
    have := hlt g hgp
    rw [← ha]
    omega

/-- A property of the neighbour recorded by the tally of one voxel holds after the
tally pass for every voxel visited. -/
theorem tallyPass_lift (d : VolumeData) (fid : Int → Int) (P : Int → Int → Prop)
    (hP : ∀ (s : PassState) (i : Int), GuardExact d i → (∀ g, s.n g = 0) → fid i < 0 →
      HasPositive d fid i → P i ((tallyVoxel d fid s i).m_Neighbors i))
    (s0 : PassState) (hn : ∀ g, s0.n g = 0) (hc : s0.count = 0) (k : Nat) (v : Int)
    (h0 : 0 ≤ v) (h1 : v < (k : Int)) (hneg : fid v < 0) (hpos : HasPositive d fid v)
    (hex : ∀ u, 0 ≤ u → u < (k : Int) → GuardExact d u) :
    P v ((forRange k (tallyVoxel d fid) s0).m_Neighbors v) := by
  induction k with
  | zero => simp at h1; omega
  | succ k ih =>
    rw [forRange_succ]
    have hexk : ∀ u, 0 ≤ u → u < (k : Int) → GuardExact d u :=
      fun u h0 h1 => hex u h0 (by push_cast; omega)
    have hk := hex (k : Int) (by omega) (by push_cast; omega)
    have hclr := (tallyPass_spec d fid s0 hn hc k hexk).1
    by_cases hvk : v = (k : Int)
    · subst hvk
      exact hP _ _ hk hclr hneg hpos
    · rw [(tallyVoxel_spec d fid _ (k : Int) hk hclr).2.1 v hvk]
      exact ih (by push_cast at h1; omega) hexk

/-- Two neighbours that are first to reach the highest tally are the same. -/
theorem FirstToTop.unique {d : VolumeData} {fid : Int → Int} {v r r2 : Int}
    (h : FirstToTop d fid v r) (h2 : FirstToTop d fid v r2) : r = r2 := by
  obtain ⟨j, _, _, hr, hp, htop, heq, hlt⟩ := h
  obtain ⟨j2, _, _, hr2, hp2, htop2, heq2, hlt2⟩ := h2
  have hM : occurrences d fid v (fid r) = occurrences d fid v (fid r2) :=
    le_antisymm (htop2 _ hp) (htop _ hp2)
  have key : ∀ (x y : Nat) (g : Int), x + 1 ≤ y →
      occIn d fid v (List.range (x + 1)) g ≤ occIn d fid v (List.range y) g := by
    intro x y g hxy
    obtain ⟨c, rfl⟩ : ∃ c, y = (x + 1) + c := ⟨y - (x + 1), by omega⟩
    rw [List.range_add (x + 1) c]
    exact occIn_mono d fid v _ _ g
  have hjj : j = j2 := by
    rcases Nat.lt_trichotomy j j2 with hlt3 | he | hgt3
    · have := key j j2 (fid r) hlt3
      have := hlt2 (fid r) hp
      omega
    · exact he
    · have := key j2 j (fid r2) hgt3
      have := hlt (fid r2) hp2
      omega
  rw [hr, hr2, hjj]

/-- When the highest tally is 1 the neighbour that is first to reach it is the one
with the lowest direction index among the positive in-bounds neighbours. -/
theorem FirstToTop.lowest {d : VolumeData} {fid : Int → Int} {v r : Int}
    (h : FirstToTop d fid v r) (hone : occurrences d fid v (fid r) = 1) :
    LowestTied d fid v r := by
  obtain ⟨j, hj6, hg, hr, hp, htop, _, hlt⟩ := h
  refine ⟨j, ?_, hg, hr, hp, ?_, ?_⟩
  · have : j = 0 ∨ j = 1 ∨ j = 2 ∨ j = 3 ∨ j = 4 ∨ j = 5 := by omega
    simp only [directions, List.mem_cons, List.mem_nil_iff, or_false]
    exact this
  · intro j2 _ _ hp2
    exact htop _ hp2
  · intro j2 _ hj2 hc
    have h1 := occIn_mem d fid v (List.range j) j2 (List.mem_range.mpr hj2) hc.1
    have h2 := hlt _ hc.2.1
    omega

/-- C21 (tie-break of the vote), amended.  On a well-formed grid with no dimension
above `2 ^ 24 + 1` and fewer than `2 ^ 31` voxels (so that the `float` coordinates
and the `int` indices of phase 2 are exact), in a pass started with cleared tallies,
for a negative voxel `v` of the grid with a positive neighbour: the neighbour recorded in `m_Neighbors[v]` is the in-bounds positive face neighbour
at which a running tally first reaches the highest final tally, the directions being
taken in the order `0 .. 5` (its feature is the tied feature whose tally is complete
first, and the neighbour is the last one counted of that feature); `v` receives the
id of that neighbour; no other neighbour has that property; and when the highest
tally is 1 the recorded neighbour is the one with the lowest direction index among
the neighbours of the tied features. -/
theorem healPass_first_to_top (d : VolumeData) (hwf : WF d) (hs : Small d) (s : HealState)
    (hn : ∀ g, s.n g = 0) (v : Int) (hv : InGrid d v) (hneg : s.m_FeatureIds v < 0)
    (hpos : HasPositive d s.m_FeatureIds v) :
    FirstToTop d s.m_FeatureIds v ((healPass d s).m_Neighbors v) ∧
    (healPass d s).m_FeatureIds v = s.m_FeatureIds ((healPass d s).m_Neighbors v) ∧
    (∀ r, FirstToTop d s.m_FeatureIds v r → r = (healPass d s).m_Neighbors v) ∧
    (occurrences d s.m_FeatureIds v (s.m_FeatureIds ((healPass d s).m_Neighbors v)) = 1 →
      LowestTied d s.m_FeatureIds v ((healPass d s).m_Neighbors v)) := by
  have hfirst : FirstToTop d s.m_FeatureIds v ((healPass d s).m_Neighbors v) := by
    have := tallyPass_lift d s.m_FeatureIds (FirstToTop d s.m_FeatureIds)
      (fun s1 i he h1 h2 h3 => tallyVoxel_first d s.m_FeatureIds s1 i he h1 h2 h3)
      { n := s.n, m_Neighbors := s.m_Neighbors, count := 0 } hn rfl d.totalPoints.toNat v
      hv.1 (by have := hv.2; omega) hneg hpos
      (fun u h0 h1 => guardExact_of_small hwf hs ⟨h0, by omega⟩)
    exact this
  exact ⟨hfirst, ((healPass_spec d hwf hs s hn).2.2.2.1 v hv hneg hpos).2,
    fun r hr => hr.unique hfirst, fun h1 => hfirst.lowest h1⟩

/-- The theorem for C21 applied to the centre voxel of the slab `tied`. -/
theorem healPass_first_to_top_witness :
    (WF Examples.tied ∧ Small Examples.tied ∧ (∀ g, Examples.tiedState.n g = 0) ∧
      InGrid Examples.tied 4 ∧
      Examples.tiedState.m_FeatureIds 4 < 0 ∧
      HasPositive Examples.tied Examples.tiedState.m_FeatureIds 4) ∧
    (FirstToTop Examples.tied Examples.tiedState.m_FeatureIds 4
        ((healPass Examples.tied Examples.tiedState).m_Neighbors 4) ∧
      (healPass Examples.tied Examples.tiedState).m_FeatureIds 4
        = Examples.tiedState.m_FeatureIds ((healPass Examples.tied Examples.tiedState).m_Neighbors 4) ∧
      (∀ r, FirstToTop Examples.tied Examples.tiedState.m_FeatureIds 4 r →
        r = (healPass Examples.tied Examples.tiedState).m_Neighbors 4) ∧
      (occurrences Examples.tied Examples.tiedState.m_FeatureIds 4
          (Examples.tiedState.m_FeatureIds
            ((healPass Examples.tied Examples.tiedState).m_Neighbors 4)) = 1 →
        LowestTied Examples.tied Examples.tiedState.m_FeatureIds 4
          ((healPass Examples.tied Examples.tiedState).m_Neighbors 4))) :=
  ⟨⟨⟨by decide, by decide, by decide, by decide⟩, ⟨by decide, by decide, by decide, by decide⟩,
      fun _ => rfl, ⟨by decide, by decide⟩,
      by decide, ⟨1, ⟨1, by decide, by decide, by decide⟩, by decide⟩⟩,
    healPass_first_to_top Examples.tied ⟨by decide, by decide, by decide, by decide⟩
      ⟨by decide, by decide, by decide, by decide⟩ Examples.tiedState (fun _ => rfl) 4
      ⟨by decide, by decide⟩ (by decide)
      ⟨1, ⟨1, by decide, by decide, by decide⟩, by decide⟩⟩

/-- C21, the counterexample.  Around the centre voxel 4 of the slab `tied` the
features 7 (directions 1 and 4) and 5 (directions 2 and 3) tie with two neighbours
each.  The neighbour with the lowest direction index among them is voxel 1
(direction 1, feature 7).  The pass records voxel 5 (direction 3), where the tally of
feature 5 reaches 2 before the tally of feature 7 does, and voxel 4 becomes 5. -/
theorem healPass_tie_not_lowest_direction :
    occurrences Examples.tied Examples.tied.m_FeatureIds 4 5 = 2 ∧
    occurrences Examples.tied Examples.tied.m_FeatureIds 4 7 = 2 ∧
    IsTop Examples.tied Examples.tied.m_FeatureIds 4 5 ∧
    IsTop Examples.tied Examples.tied.m_FeatureIds 4 7 ∧
    LowestTied Examples.tied Examples.tied.m_FeatureIds 4 1 ∧
    (healPass Examples.tied Examples.tiedState).m_Neighbors 4 = 5 ∧
    (healPass Examples.tied Examples.tiedState).m_FeatureIds 4 = 5 ∧
    ¬ LowestTied Examples.tied Examples.tied.m_FeatureIds 4
      ((healPass Examples.tied Examples.tiedState).m_Neighbors 4) := by
  decide

/-! ### Phase 2: what is healed when `execute` returns, and what the `float` guard
cuts off -/

/-- The loop of phase 2 leaves a negative voxel as it is or makes it positive. -/
theorem healLoop_sign (d : VolumeData) (fuel : Nat) (s s' : HealState)
    (hrun : healLoop d fuel s = some s') :
    ∀ v, s.m_FeatureIds v < 0 →
      s'.m_FeatureIds v = s.m_FeatureIds v ∨ s'.m_FeatureIds v > 0 := by
  induction fuel generalizing s with
  | zero => simp [healLoop] at hrun
  | succ fuel ih =>
    unfold healLoop at hrun
    by_cases hc : s.count ≠ 0
    · rw [if_pos hc] at hrun
      obtain ⟨_, c, _⟩ := healPass_frame d s
      intro v hv
      rcases c v hv with h | h
      · rcases ih (healPass d s) hrun v (by rw [h]; exact hv) with h2 | h2
        · left
          rw [h2, h]
        · right
          exact h2
      · right
        rw [healLoop_frame d fuel (healPass d s) s' hrun v (by omega)]
        exact h
    · rw [if_neg hc] at hrun
      injection hrun with e
      intro v _
      left
      rw [e]

/-- C3, as amended (healing termination and coverage).  On a well-formed grid with
no dimension above `2 ^ 24 + 1` and fewer than `2 ^ 31` voxels (the range in which
the `float` coordinates and `int` indices of phase 2 are exact) that holds no
negative feature id on entry and at least one positive one, `execute` returns for every fuel above the number of voxels
and every value of the unassigned local `point`, and on return no voxel of the grid
holds a negative feature id (`-1` in particular).  The two exits are these: when
`m_FeatureIds[point]` is 0 as a `size_t` the feature check fails and `execute`
returns `-90001` with the feature ids as they were, nothing being healed; otherwise
it returns the error condition 0, every voxel that phase 1 left negative holds a
positive feature id, and every other voxel holds what phase 1 left there. -/
theorem execute_terminates_and_covers (d : VolumeData) (hwf : WF d) (hs : Small d)
    (point fuel : Nat)
    (hnn : ∀ v, InGrid d v → 0 ≤ d.m_FeatureIds v)
    (hpos : ∃ v, InGrid d v ∧ d.m_FeatureIds v > 0)
    (hfuel : d.totalPoints.toNat + 2 ≤ fuel) :
    ∃ r p, execute point fuel d = some r ∧ phase1 d fuel = some p ∧
      (∀ v, InGrid d v → r.m_FeatureIds v ≠ -1 ∧ 0 ≤ r.m_FeatureIds v) ∧
      (toSizeT (d.m_FeatureIds point) = 0 →
        r.errorCondition = -90001 ∧ r.m_FeatureIds = d.m_FeatureIds) ∧
      (toSizeT (d.m_FeatureIds point) ≠ 0 →
        r.errorCondition = 0 ∧
        ∀ v, InGrid d v → (p.m_FeatureIds v < 0 → r.m_FeatureIds v > 0) ∧
          (¬ p.m_FeatureIds v < 0 → r.m_FeatureIds v = p.m_FeatureIds v)) := by
  obtain ⟨p, hp, hinv⟩ := phase1_spec d hwf fuel hfuel
  have hk : d.totalPoints.toNat ≠ 0 := by
    obtain ⟨v, hv, _⟩ := hpos
    have h1 := hv.1
    have h2 := hv.2
    omega
  have hz := numfeaturesLoop_eq_zero (d.m_FeatureIds point) d.totalPoints.toNat 0 (le_refl _)
  by_cases hnf : numfeaturesLoop (d.m_FeatureIds point) d.totalPoints.toNat 0 = 0
  · have h0 : toSizeT (d.m_FeatureIds point) = 0 := by
      rcases (hz.mp hnf).2 with h | h
      · exact absurd h hk
      · exact h
    refine ⟨{ errorCondition := -90001, m_FeatureIds := d.m_FeatureIds
              cellData := d.cellData }, p, ?_, hp, ?_, fun _ => ⟨rfl, rfl⟩,
      fun h => absurd h0 h⟩
    · unfold execute
      simp only
      rw [if_pos hnf]
    · intro v hv
      have := hnn v hv
      simp only
      omega
  · have h0 : toSizeT (d.m_FeatureIds point) ≠ 0 := fun h => hnf (hz.mpr ⟨rfl, Or.inr h⟩)
    have hH : HealInv d (healStart d p) := by
      refine ⟨fun _ => rfl, ?_, ?_⟩
      · intro v hv hneg u hadj
        simp only [healStart] at hneg ⊢
        have hz0 : d.m_FeatureIds v = 0 := by
          by_contra hne
          rw [hinv.keep v hne] at hneg
          have := hnn v hv
          omega
        have hm1 : p.m_FeatureIds v = -1 := by
          rcases hinv.zero v hz0 with h | h
          · omega
          · exact h
        exact hinv.closed v hv hz0 hm1 u hadj
      · obtain ⟨v, hv, hvp⟩ := hpos
        exact ⟨v, hv, by simp only [healStart]; rw [hinv.keep v (by omega)]; exact hvp⟩
    obtain ⟨s', hrun, hempty, hkeep⟩ := healLoop_spec d hwf hs fuel (healStart d p) hH
      (fun hc => absurd hc hinv.count)
      (by have := negatives_card_le d p.m_FeatureIds; simp only [healStart]; omega)
    have hsign := healLoop_sign d fuel (healStart d p) s' hrun
    have hnoneg : ∀ v, InGrid d v → ¬ s'.m_FeatureIds v < 0 := by
      intro v hv hneg
      have : v ∈ negatives d s'.m_FeatureIds := mem_negatives.mpr ⟨hv, hneg⟩
      rw [hempty] at this
      exact absurd this (Finset.not_mem_empty v)
    refine ⟨{ errorCondition := 0, m_FeatureIds := s'.m_FeatureIds, cellData := s'.cellData },
      p, ?_, hp, ?_, fun h => absurd h h0, fun _ => ⟨rfl, ?_⟩⟩
    · unfold execute
      simp only
      rw [if_neg hnf, hp]
      simp only
      have hh2 := hrun
      simp only [healStart] at hh2
      rw [hh2]
    · intro v hv
      have := hnoneg v hv
      simp only
      omega
    · intro v hv
      have h1 := hnoneg v hv
      refine ⟨fun hneg => ?_, fun hge => hkeep v hge⟩
      rcases hsign v hneg with h | h
      · exfalso
        apply h1
        rw [h]
        exact hneg
      · exact h

/-- The theorem for C3 applied to the line `[0, 7, 5]` with minimum size 2 and the
local `point` at voxel 2. -/
theorem execute_terminates_and_covers_witness :
    (WF (Examples.line 0 7 5 2) ∧ Small (Examples.line 0 7 5 2) ∧
      (∀ v, InGrid (Examples.line 0 7 5 2) v → 0 ≤ (Examples.line 0 7 5 2).m_FeatureIds v) ∧
      (∃ v, InGrid (Examples.line 0 7 5 2) v ∧ (Examples.line 0 7 5 2).m_FeatureIds v > 0) ∧
      (Examples.line 0 7 5 2).totalPoints.toNat + 2 ≤ 5) ∧
    ∃ r p, execute 2 5 (Examples.line 0 7 5 2) = some r ∧
      phase1 (Examples.line 0 7 5 2) 5 = some p ∧
      (∀ v, InGrid (Examples.line 0 7 5 2) v → r.m_FeatureIds v ≠ -1 ∧ 0 ≤ r.m_FeatureIds v) ∧
      (toSizeT ((Examples.line 0 7 5 2).m_FeatureIds (2 : Nat)) = 0 →
        r.errorCondition = -90001 ∧ r.m_FeatureIds = (Examples.line 0 7 5 2).m_FeatureIds) ∧
      (toSizeT ((Examples.line 0 7 5 2).m_FeatureIds (2 : Nat)) ≠ 0 →
        r.errorCondition = 0 ∧
        ∀ v, InGrid (Examples.line 0 7 5 2) v →
          (p.m_FeatureIds v < 0 → r.m_FeatureIds v > 0) ∧
          (¬ p.m_FeatureIds v < 0 → r.m_FeatureIds v = p.m_FeatureIds v)) :=
  have hwf : WF (Examples.line 0 7 5 2) := ⟨by decide, by decide, by decide, by decide⟩
  have hnn : ∀ v, InGrid (Examples.line 0 7 5 2) v → 0 ≤ (Examples.line 0 7 5 2).m_FeatureIds v :=
    fun v _ => by
      simp only [Examples.line]
      split_ifs <;> decide
  have hpos : ∃ v, InGrid (Examples.line 0 7 5 2) v ∧ (Examples.line 0 7 5 2).m_FeatureIds v > 0 :=
    ⟨2, ⟨by decide, by decide⟩, by decide⟩
  ⟨⟨hwf, ⟨by decide, by decide, by decide, by decide⟩, hnn, hpos, by decide⟩,
    execute_terminates_and_covers (Examples.line 0 7 5 2) hwf ⟨by decide, by decide, by decide, by decide⟩
      2 5 hnn hpos (by decide)⟩

/-- The two exits on the line `[0, 7, 5]` with minimum size 2: with `point` at
voxel 2 the zero voxel is set to `-1` by phase 1 and healed to 7; with `point` at
voxel 0 the run ends with `-90001` and the ids as they were. -/
theorem execute_covers_example :
    (phase1 (Examples.line 0 7 5 2) 5).map
        (fun p => (p.m_FeatureIds 0, p.m_FeatureIds 1, p.m_FeatureIds 2)) = some (-1, 7, 5) ∧
    (execute 2 5 (Examples.line 0 7 5 2)).map
        (fun r => (r.errorCondition, r.m_FeatureIds 0, r.m_FeatureIds 1, r.m_FeatureIds 2))
      = some (0, 7, 7, 5) ∧
    (execute 0 5 (Examples.line 0 7 5 2)).map
        (fun r => (r.errorCondition, r.m_FeatureIds 0, r.m_FeatureIds 1, r.m_FeatureIds 2))
      = some (-90001, 0, 7, 5) := by
  refine ⟨by decide, by decide, by decide⟩

/-- C3, counterexample.  On the line of three voxels `[-1, 0, 5]` with minimum
defect size 1 (a well-formed grid with a positive voxel) `execute` never returns:
the zero voxel is kept as void and walls voxel 0 off from the positive voxel, so
every pass of phase 2 finds voxel 0 negative and changes nothing. -/
theorem execute_blocked_never_returns :
    WF (Examples.line (-1) 0 5 1) ∧
    (∃ v, InGrid (Examples.line (-1) 0 5 1) v ∧ (Examples.line (-1) 0 5 1).m_FeatureIds v > 0) ∧
    ∀ fuel, execute 2 fuel (Examples.line (-1) 0 5 1) = none := by
  refine ⟨⟨by decide, by decide, by decide, by decide⟩, ⟨2, ⟨by decide, by decide⟩, by decide⟩, ?_⟩
  have hpass : ∀ fuel, healLoop (Examples.line (-1) 0 5 1) fuel
      { m_FeatureIds := classify 1 (Examples.line (-1) 0 5 1).m_FeatureIds [1]
        cellData := (Examples.line (-1) 0 5 1).cellData, n := fun _ => 0
        m_Neighbors := fun _ => -1, count := 1 } = none := by
    intro fuel
    induction fuel with
    | zero => rfl
    | succ fuel ih => exact ih
  intro fuel
  match fuel with
  | 0 => rfl
  | 1 => rfl
  | n + 2 =>
    have h1 : phase1 (Examples.line (-1) 0 5 1) (n + 2) = some
        { m_FeatureIds := classify 1 (Examples.line (-1) 0 5 1).m_FeatureIds [1]
          m_AlreadyChecked := fun i =>
            if 0 ≤ i ∧ i < (Examples.line (-1) 0 5 1).totalPoints then
              decide ((Examples.line (-1) 0 5 1).m_FeatureIds i ≠ 0) else false
          count := 1 } := rfl
    unfold execute
    simp only
    rw [if_neg (by decide), h1]
    simp only
    rw [hpass (n + 2)]

/-! ### Phase 2 on a grid with a dimension above `2 ^ 24 + 1` -/

/-- The tally of voxel `i` writes no entry of `m_Neighbors` but that of `i`. -/
theorem tallyVisit_other (d : VolumeData) (fid : Int → Int) (i : Int) (t : TallyState)
    (j : Nat) (v : Int) (hv : v ≠ i) :
    (tallyVisit d fid i t j).m_Neighbors v = t.m_Neighbors v := by
  unfold tallyVisit
  simp only
  split_ifs
  · exact Function.update_noteq hv _ _
  · rfl
  · rfl
  · rfl

theorem foldl_tallyVisit_other (d : VolumeData) (fid : Int → Int) (i : Int) (l : List Nat)
    (t : TallyState) (v : Int) (hv : v ≠ i) :
    (l.foldl (tallyVisit d fid i) t).m_Neighbors v = t.m_Neighbors v := by
  induction l generalizing t with
  | nil => rfl
  | cons a r ih =>
    simp only [List.foldl_cons]
    rw [ih, tallyVisit_other d fid i t a v hv]

theorem tallyVoxel_other (d : VolumeData) (fid : Int → Int) (s : PassState) (i v : Int)
    (hv : v ≠ i) : (tallyVoxel d fid s i).m_Neighbors v = s.m_Neighbors v := by
  unfold tallyVoxel
  split_ifs
  · simp only
    rw [foldl_tallyVisit_other d fid i directions _ v hv]
  · rfl

/-- A direction that the guard rejects, or that leads to a voxel that is not
positive, leaves the tally as it is. -/
theorem tallyVisit_blocked (d : VolumeData) (fid : Int → Int) (i : Int) (t : TallyState)
    (j : Nat)
    (h : goodFloat d.dims0 d.dims1 d.dims2 j (floatOf (colOf d.dims0 i))
        (floatOf (rowOf d.dims0 d.dims1 i)) (floatOf (planeOf d.dims0 d.dims1 i)) = true →
      ¬ fid (i + neighpoints d.dims0 d.dims1 j) > 0) :
    tallyVisit d fid i t j = t := by
  unfold tallyVisit
  simp only
  by_cases hg : goodFloat d.dims0 d.dims1 d.dims2 j (floatOf (colOf d.dims0 i))
      (floatOf (rowOf d.dims0 d.dims1 i)) (floatOf (planeOf d.dims0 d.dims1 i)) = true
  · rw [if_pos hg, if_neg (h hg)]
  · rw [if_neg hg]

theorem foldl_tallyVisit_blocked (d : VolumeData) (fid : Int → Int) (i : Int) (l : List Nat)
    (t : TallyState)
    (h : ∀ j ∈ l, goodFloat d.dims0 d.dims1 d.dims2 j (floatOf (colOf d.dims0 i))
        (floatOf (rowOf d.dims0 d.dims1 i)) (floatOf (planeOf d.dims0 d.dims1 i)) = true →
      ¬ fid (i + neighpoints d.dims0 d.dims1 j) > 0) :
    l.foldl (tallyVisit d fid i) t = t := by
  induction l generalizing t with
  | nil => rfl
  | cons a r ih =>
    simp only [List.foldl_cons]
    rw [tallyVisit_blocked d fid i t a (h a (List.mem_cons_self a r))]
    exact ih t (fun j hj => h j (List.mem_cons_of_mem a hj))

/-- The tally of a voxel that the guard cuts off from its positive neighbours
records nothing. -/
theorem tallyVoxel_blocked (d : VolumeData) (fid : Int → Int) (s : PassState) (i : Int)
    (h : Blocked d fid i) : (tallyVoxel d fid s i).m_Neighbors i = s.m_Neighbors i := by
  unfold tallyVoxel
  split_ifs
  · simp only
    rw [foldl_tallyVisit_blocked d fid i directions _ h]
  · rfl

theorem tallyPass_blocked (d : VolumeData) (fid : Int → Int) (s0 : PassState) (k : Nat)
    (v : Int) (h : Blocked d fid v) :
    (forRange k (tallyVoxel d fid) s0).m_Neighbors v = s0.m_Neighbors v := by
  induction k with
  | zero => rfl
  | succ k ih =>
    rw [forRange_succ]
    by_cases hvk : v = (k : Int)
    · rw [← hvk, tallyVoxel_blocked d fid _ v h]
      exact ih
    · rw [tallyVoxel_other d fid _ (k : Int) v hvk]
      exact ih

/-- A pass of phase 2 records no neighbour for a voxel that the guard cuts off from
its positive neighbours, and leaves its feature id as it is. -/
theorem healPass_blocked (d : VolumeData) (s : HealState) (v : Int)
    (h : Blocked d s.m_FeatureIds v) (hnb : s.m_Neighbors v = -1) :
    (healPass d s).m_Neighbors v = -1 ∧
      (healPass d s).m_FeatureIds v = s.m_FeatureIds v := by
  have ht := tallyPass_blocked d s.m_FeatureIds
    { n := s.n, m_Neighbors := s.m_Neighbors, count := 0 } d.totalPoints.toNat v h
  unfold healPass
  simp only
  generalize forRange d.totalPoints.toNat (tallyVoxel d s.m_FeatureIds)
    { n := s.n, m_Neighbors := s.m_Neighbors, count := 0 } = t at ht
  simp only at ht
  rw [hnb] at ht
  exact ⟨ht, commitPass_skip _ _ _ _ v ht⟩

/-- A pass of phase 2 changes no feature id when every negative voxel of the grid is
cut off from its positive neighbours and has no recorded neighbour. -/
theorem healPass_fixed (d : VolumeData) (s : HealState)
    (h : ∀ v, InGrid d v → s.m_FeatureIds v < 0 →
      Blocked d s.m_FeatureIds v ∧ s.m_Neighbors v = -1) :
    (healPass d s).m_FeatureIds = s.m_FeatureIds ∧
      ∀ v, InGrid d v → s.m_FeatureIds v < 0 → (healPass d s).m_Neighbors v = -1 := by
  refine ⟨?_, fun v hv hneg => (healPass_blocked d s v (h v hv hneg).1 (h v hv hneg).2).1⟩
  funext v
  by_cases hneg : s.m_FeatureIds v < 0
  · by_cases hv : InGrid d v
    · exact (healPass_blocked d s v (h v hv hneg).1 (h v hv hneg).2).2
    · unfold healPass
      simp only
      exact (commitPass_spec _ s.m_FeatureIds s.cellData d.totalPoints.toNat).2.2.1 v
        (fun hc => hv ⟨hc.1, by have := hc.2; omega⟩)
  · exact (healPass_frame d s).1 v hneg

/-- On the long line every negative voxel of the grid is cut off: the only positive
voxel is the last one, and at its neighbour 16777216 the guard rejects the
direction `+x`, the `float` values of the column 16777216 and of `dims[0] - 1 =
16777217` being equal. -/
theorem longLine_blocked (v : Int) (hv : InGrid Examples.longLine v)
    (hneg : Examples.longLine.m_FeatureIds v < 0) :
    Blocked Examples.longLine Examples.longLine.m_FeatureIds v := by
  have hv0 : 0 ≤ v := hv.1
  have hv1 : v < 16777218 := hv.2
  have hne : v ≠ 16777217 := by
    intro e
    rw [e] at hneg
    revert hneg
    decide
  intro j hj hg hp
  have hu : v + neighpoints Examples.longLine.dims0 Examples.longLine.dims1 j = 16777217 := by
    by_contra hc
    have e : Examples.longLine.m_FeatureIds
        (v + neighpoints Examples.longLine.dims0 Examples.longLine.dims1 j) = -1 := by
      show (if v + neighpoints Examples.longLine.dims0 Examples.longLine.dims1 j = 16777217
        then (5 : Int) else -1) = -1
      rw [if_neg hc]
    rw [e] at hp
    omega
  simp only [directions, List.mem_cons, List.mem_singleton, List.not_mem_nil, or_false] at hj
  rcases hj with rfl | rfl | rfl | rfl | rfl | rfl
  · have e : neighpoints Examples.longLine.dims0 Examples.longLine.dims1 0 = -16777218 := by
      decide
    omega
  · have e : neighpoints Examples.longLine.dims0 Examples.longLine.dims1 1 = -16777218 := by
      decide
    omega
  · have e : neighpoints Examples.longLine.dims0 Examples.longLine.dims1 2 = -1 := by decide
    omega
  · have e : neighpoints Examples.longLine.dims0 Examples.longLine.dims1 3 = 1 := by decide
    have e2 : v = 16777216 := by omega
    subst e2
    revert hg
    decide
  · have e : neighpoints Examples.longLine.dims0 Examples.longLine.dims1 4 = 16777218 := by
      decide
    omega
  · have e : neighpoints Examples.longLine.dims0 Examples.longLine.dims1 5 = 16777218 := by
      decide
    omega

/-- Every pass of phase 2 on the long line leaves the feature ids as they are. -/
theorem longLine_iterate (k : Nat) :
    ((healPass Examples.longLine)^[k] Examples.longState).m_FeatureIds
        = Examples.longLine.m_FeatureIds ∧
      ∀ v, InGrid Examples.longLine v → Examples.longLine.m_FeatureIds v < 0 →
        ((healPass Examples.longLine)^[k] Examples.longState).m_Neighbors v = -1 := by
  induction k with
  | zero => exact ⟨rfl, fun _ _ _ => rfl⟩
  | succ k ih =>
    rw [Function.iterate_succ_apply']
    obtain ⟨i1, i2⟩ := ih
    generalize (healPass Examples.longLine)^[k] Examples.longState = s at i1 i2
    obtain ⟨f1, f2⟩ := healPass_fixed Examples.longLine s (fun v hv hneg => by
      rw [i1] at hneg ⊢
      exact ⟨longLine_blocked v hv hneg, i2 v hv hneg⟩)
    refine ⟨by rw [f1, i1], fun v hv hneg => f2 v hv (by rw [i1]; exact hneg)⟩

/-- C5, the run on the failing input.  On the line of `2 ^ 24 + 2` voxels whose last
voxel 16777217 holds feature 5 and whose other voxels hold `-1`, voxel 16777216
holds `-1` and its in-bounds face neighbour in the direction `+x` holds the positive
id 5.  Phase 2 keeps the column as the `float` `x = 16777216` and compares it with
`dims[0] - 1 = 16777217`, which converts to the `float` 16777216 as well: the guard
takes the voxel for one of the last column and rejects the direction `+x`.  The
pass records no neighbour for the voxel (`m_Neighbors` stays `-1`), so the recorded
neighbour is no neighbour with a most frequent positive id, and the voxel does not
receive the id 5. -/
theorem healPass_misses_far_neighbor :
    WF Examples.longLine ∧ InGrid Examples.longLine 16777216 ∧
    Examples.longState.m_FeatureIds 16777216 = -1 ∧
    Adj Examples.longLine 16777216 16777217 ∧
    Examples.longState.m_FeatureIds 16777217 = 5 ∧
    HasPositive Examples.longLine Examples.longState.m_FeatureIds 16777216 ∧
    floatOf (colOf Examples.longLine.dims0 16777216) = 16777216 ∧
    floatOf (Examples.longLine.dims0 - 1) = 16777216 ∧
    goodFloat Examples.longLine.dims0 Examples.longLine.dims1 Examples.longLine.dims2 3
      (floatOf (colOf Examples.longLine.dims0 16777216))
      (floatOf (rowOf Examples.longLine.dims0 Examples.longLine.dims1 16777216))
      (floatOf (planeOf Examples.longLine.dims0 Examples.longLine.dims1 16777216)) = false ∧
    (healPass Examples.longLine Examples.longState).m_Neighbors 16777216 = -1 ∧
    ¬ Majority Examples.longLine Examples.longState.m_FeatureIds 16777216
      ((healPass Examples.longLine Examples.longState).m_Neighbors 16777216) ∧
    (healPass Examples.longLine Examples.longState).m_FeatureIds 16777216 ≠ 5 := by
  have hadj : Adj Examples.longLine 16777216 16777217 := ⟨3, by decide, by decide, by decide⟩
  have hb := healPass_blocked Examples.longLine Examples.longState 16777216
    (longLine_blocked 16777216 ⟨by decide, by decide⟩ (by decide)) rfl
  refine ⟨⟨by decide, by decide, by decide, by decide⟩, ⟨by decide, by decide⟩, by decide, hadj,
    by decide, ⟨16777217, hadj, by decide⟩, by decide, by decide, by decide, hb.1, ?_, ?_⟩
  · rw [hb.1]
    rintro ⟨⟨j, hj, _, hu⟩, _⟩
    simp only [directions, List.mem_cons, List.mem_singleton, List.not_mem_nil, or_false] at hj
    rcases hj with rfl | rfl | rfl | rfl | rfl | rfl <;> revert hu <;> decide
  · rw [hb.2]
    decide

/-- C28, the run on the failing input.  On the line of `2 ^ 24 + 2` voxels whose
last voxel holds feature 5 and whose other voxels hold `-1`, in the state in which
phase 2 starts, voxel 16777216 is negative at the start of every pass and its
in-bounds face neighbour 16777217 is positive at the start of every pass, yet the
voxel is negative at the end of every pass: the guard on the `float` coordinates
rejects the direction `+x` at that voxel, so the equivalence of the claim fails in
the first pass and the retry in the later passes never succeeds. -/
theorem healPass_never_reads_far_neighbor :
    PassInv Examples.longLine Examples.longState ∧
    InGrid Examples.longLine 16777216 ∧ InGrid Examples.longLine 16777217 ∧
    Adj Examples.longLine 16777216 16777217 ∧
    (∀ k, ((healPass Examples.longLine)^[k] Examples.longState).m_FeatureIds 16777216 = -1 ∧
      ((healPass Examples.longLine)^[k] Examples.longState).m_FeatureIds 16777217 = 5 ∧
      HasPositive Examples.longLine
        ((healPass Examples.longLine)^[k] Examples.longState).m_FeatureIds 16777216 ∧
      (healPass Examples.longLine
        ((healPass Examples.longLine)^[k] Examples.longState)).m_FeatureIds 16777216 = -1) ∧
    ¬ ((healPass Examples.longLine Examples.longState).m_FeatureIds 16777216 > 0 ↔
      HasPositive Examples.longLine Examples.longState.m_FeatureIds 16777216) := by
  have hadj : Adj Examples.longLine 16777216 16777217 := ⟨3, by decide, by decide, by decide⟩
  have hall : ∀ k, ((healPass Examples.longLine)^[k] Examples.longState).m_FeatureIds 16777216
        = -1 ∧
      ((healPass Examples.longLine)^[k] Examples.longState).m_FeatureIds 16777217 = 5 ∧
      HasPositive Examples.longLine
        ((healPass Examples.longLine)^[k] Examples.longState).m_FeatureIds 16777216 ∧
      (healPass Examples.longLine
        ((healPass Examples.longLine)^[k] Examples.longState)).m_FeatureIds 16777216 = -1 := by
    intro k
    have h1 := (longLine_iterate k).1
    have h2 := (longLine_iterate (k + 1)).1
    rw [Function.iterate_succ_apply'] at h2
    rw [h1, h2]
    exact ⟨by decide, by decide, ⟨16777217, hadj, by decide⟩, by decide⟩
  refine ⟨⟨fun _ => rfl, fun _ _ _ => rfl⟩, ⟨by decide, by decide⟩, ⟨by decide, by decide⟩, hadj,
    hall, ?_⟩
  intro h
  have h3 := h.mpr (hall 0).2.2.1
  have h4 := (hall 0).2.2.2
  rw [Function.iterate_zero, id_eq] at h4
  omega

/-- C19, the runs on the failing inputs.  The centre voxel 13 of the `3 x 3 x 3`
cube holds 0 and its six in-bounds face neighbours hold feature 3, with the minimum
allowed defect size 2.  The feature check reads `m_FeatureIds[point]`, `point` being
a local that is never assigned: when `point` happens to be 13 the value read is 0,
`execute` returns `-90001` before phase 1, and voxel 13 still holds 0 instead of 3;
when `point` happens to be 0 the same grid is healed.  The same happens to the
defect of one voxel on the line `[3, 0, 3]` with minimum size 5 when `point` is 1. -/
theorem execute_leaves_isolated_voxel :
    WF (Examples.cube 2) ∧ InGrid (Examples.cube 2) 13 ∧
    (Examples.cube 2).m_FeatureIds 13 = 0 ∧
    (∃ u, Adj (Examples.cube 2) 13 u) ∧
    (∀ u, Adj (Examples.cube 2) 13 u → (Examples.cube 2).m_FeatureIds u = 3) ∧
    2 ≤ (Examples.cube 2).m_MinAllowedDefectSize ∧
    (execute 13 30 (Examples.cube 2)).map (fun r => (r.errorCondition, r.m_FeatureIds 13))
      = some (-90001, 0) ∧
    (execute 0 30 (Examples.cube 2)).map (fun r => (r.errorCondition, r.m_FeatureIds 13))
      = some (0, 3) ∧
    (execute 1 5 (Examples.line 3 0 3 5)).map
      (fun r => (r.errorCondition, r.m_FeatureIds 0, r.m_FeatureIds 1, r.m_FeatureIds 2))
      = some (-90001, 3, 0, 3) ∧
    (execute 0 5 (Examples.line 3 0 3 5)).map
      (fun r => (r.errorCondition, r.m_FeatureIds 0, r.m_FeatureIds 1, r.m_FeatureIds 2))
      = some (0, 3, 3, 3) := by
  refine ⟨⟨by decide, by decide, by decide, by decide⟩, ⟨by decide, by decide⟩, by decide,
    ⟨14, 3, by decide, by decide, by decide⟩, cube_neighbors, by decide, by decide!, by decide!,
    by decide, by decide⟩

end FillBadData

/-! ### `MergeTwins`: the data moved by `renumber_grains` and the twin criterion -/

namespace MergeTwins

theorem SameData.copied {g g' : Grain} (h : SameData g g') : copiedData g' = copiedData g := by
  unfold copiedData
  rw [h]

/-- A grain marked as merged is skipped by the renumbering loop. -/
theorem renumberGrain_skip (s : RenumberState) (i : Nat)
    (h : (s.m_Grains i).gottwinmerged = true) : renumberGrain s i = s := by
  unfold renumberGrain
  rw [if_neg (by simpa using h)]

/-- One iteration of the renumbering loop for a surviving grain `i`: only the slots
`graincount` and `i` change, and the slot `graincount` receives the copied fields
of `i` and, when `i` has a neighbour list, that list. -/
theorem renumberGrain_data (s : RenumberState) (i : Nat)
    (hs : (s.m_Grains i).gottwinmerged ≠ true) :
    (∀ j, j ≠ s.graincount → j ≠ i → (renumberGrain s i).m_Grains j = s.m_Grains j) ∧
    copiedData ((renumberGrain s i).m_Grains s.graincount) = copiedData (s.m_Grains i) ∧
    (∀ l, (s.m_Grains i).neighborlist = some l →
      ((renumberGrain s i).m_Grains s.graincount).neighborlist = some l) := by
  unfold renumberGrain
  rw [if_pos hs]
  simp only
  cases hnl : (s.m_Grains i).neighborlist with
  | none =>
    simp only
    refine ⟨?_, ?_, ?_⟩
    · intro j hj _
      rw [Function.update_noteq hj, Function.update_noteq hj]
    · simp [copiedData]
    · intro l hl
      cases hl
  | some l0 =>
    simp only
    by_cases hci : s.graincount = i
    · rw [if_pos hci]
      refine ⟨?_, ?_, ?_⟩
      · intro j hj _
        rw [Function.update_noteq hj, Function.update_noteq hj]
      · simp [copiedData]
      · intro l hl
        have e : (s.m_Grains s.graincount).neighborlist = some l0 := by rw [hci]; exact hnl
        simp only [Function.update_same, e]
        exact hl
    · rw [if_neg hci]
      refine ⟨?_, ?_, ?_⟩
      · intro j hj hji
        rw [Function.update_noteq hj, Function.update_noteq hji, Function.update_noteq hj,
          Function.update_noteq hj]
      · simp [copiedData, Function.update_noteq hci]
      · intro l hl
        simp only [Function.update_same, Function.update_noteq hci]
        exact hl

/-- The renumbering loop over the grains `a, a + 1, .., a + n - 1`, started with
`graincount ≤ a`: the slots from `a + n` on and the slots below `graincount` are
untouched, and the slot with the new number of a surviving grain of that range
holds the copied fields of the grain and, when the grain has one, its neighbour
list. -/
theorem renumberFold_data (n : Nat) (a : Nat) (s : RenumberState) (hgc : s.graincount ≤ a) :
    (∀ j, a + n ≤ j → ((List.range' a n).foldl renumberGrain s).m_Grains j = s.m_Grains j) ∧
    (∀ j, j < s.graincount →
      ((List.range' a n).foldl renumberGrain s).m_Grains j = s.m_Grains j) ∧
    (∀ i, a ≤ i → i < a + n → (s.m_Grains i).gottwinmerged ≠ true →
      copiedData (((List.range' a n).foldl renumberGrain s).m_Grains
          (((List.range' a n).foldl renumberGrain s).newnames i).toNat)
        = copiedData (s.m_Grains i) ∧
      ∀ l, (s.m_Grains i).neighborlist = some l →
        (((List.range' a n).foldl renumberGrain s).m_Grains
          (((List.range' a n).foldl renumberGrain s).newnames i).toNat).neighborlist
          = some l) := by
  induction n generalizing a s with
  | zero =>
    refine ⟨fun j _ => rfl, fun j _ => rfl, fun i h1 h2 => ?_⟩
    omega
  | succ n ih =>
    rw [List.range'_succ, List.foldl_cons]
    obtain ⟨nn1, nn2⟩ := renumberGrain_newnames s a
    obtain ⟨_, f2, _, _, _⟩ := renumberFold_spec (List.range' (a + 1) n)
      (List.nodup_range' (a + 1) n) (renumberGrain s a)
    by_cases hsa : (s.m_Grains a).gottwinmerged ≠ true
    · rw [if_pos hsa] at nn1 nn2
      obtain ⟨d1, d2, d3⟩ := renumberGrain_data s a hsa
      obtain ⟨i1, i2, i3⟩ := ih (a + 1) (renumberGrain s a) (by rw [nn2]; omega)
      refine ⟨?_, ?_, ?_⟩
      · intro j hj
        rw [i1 j (by omega), d1 j (by omega) (by omega)]
      · intro j hj
        rw [i2 j (by rw [nn2]; omega), d1 j (by omega) (by omega)]
      · intro i hi1 hi2 hsi
        by_cases hia : i = a
        · subst hia
          have hname : ((List.range' (i + 1) n).foldl renumberGrain (renumberGrain s i)).newnames i
              = (s.graincount : Int) := by
            rw [f2 i (by rw [List.mem_range'_1]; omega), nn1, Function.update_same]
          rw [hname, Int.toNat_ofNat, i2 s.graincount (by rw [nn2]; omega)]
          exact ⟨d2, d3⟩
        · have hkeep : (renumberGrain s a).m_Grains i = s.m_Grains i :=
            d1 i (by omega) hia
          have := i3 i (by omega) (by omega) (by rw [hkeep]; exact hsi)
          rw [hkeep] at this
          exact this
    · have hskip : renumberGrain s a = s := renumberGrain_skip s a (by simpa using hsa)
      rw [hskip]
      obtain ⟨i1, i2, i3⟩ := ih (a + 1) s (by omega)
      refine ⟨fun j hj => i1 j (by omega), i2, ?_⟩
      intro i hi1 hi2 hsi
      have hia : i ≠ a := fun h => hsa (by rw [← h]; exact hsi)
      exact i3 i (by omega) (by omega) hsi

/-- The loop of `renumber_grains`: for a surviving grain `i` of the table the slot
with its new number holds the copied fields of `i` and, when `i` has one, its
neighbour list. -/
theorem renumberLoop_data (numgrains : Nat) (G : Nat → Grain) (i : Nat) (h1 : 1 ≤ i)
    (h2 : i < numgrains) (hs : (G i).gottwinmerged ≠ true) :
    copiedData ((renumberLoop numgrains G).m_Grains ((renumberLoop numgrains G).newnames i).toNat)
      = copiedData (G i) ∧
    ∀ l, (G i).neighborlist = some l →
      ((renumberLoop numgrains G).m_Grains
        ((renumberLoop numgrains G).newnames i).toNat).neighborlist = some l :=
  (renumberFold_data (numgrains - 1) 1 (renumberStart G) (le_refl _)).2.2 i h1 (by omega) hs

/-- C30 (renumbering keeps each survivor's data).  For every grain `i` of the table
that is not marked as merged and has a neighbour list, after `renumber_grains` the
slot with the new number `newnames[i]` holds the neighbour list, `numvoxels`,
`numneighbors` and the three Euler angles that slot `i` held before the call.
While the loop runs no slot is changed before its turn: after the iterations for
the grains `1 .. m` every slot `j > m` is as it was on entry. -/
theorem renumber_grains_keeps_data (dc : DataContainer) (i : Nat) (l : List Int)
    (h1 : 1 ≤ i) (h2 : i < dc.numGrains) (hs : (dc.m_Grains i).gottwinmerged ≠ true)
    (hl : (dc.m_Grains i).neighborlist = some l) :
    ((renumber_grains dc).m_Grains
        ((renumberLoop dc.numGrains dc.m_Grains).newnames i).toNat).neighborlist = some l ∧
    ((renumber_grains dc).m_Grains
        ((renumberLoop dc.numGrains dc.m_Grains).newnames i).toNat).numneighbors
      = (dc.m_Grains i).numneighbors ∧
    ((renumber_grains dc).m_Grains
        ((renumberLoop dc.numGrains dc.m_Grains).newnames i).toNat).numvoxels
      = (dc.m_Grains i).numvoxels ∧
    ((renumber_grains dc).m_Grains
        ((renumberLoop dc.numGrains dc.m_Grains).newnames i).toNat).euler1
      = (dc.m_Grains i).euler1 ∧
    ((renumber_grains dc).m_Grains
        ((renumberLoop dc.numGrains dc.m_Grains).newnames i).toNat).euler2
      = (dc.m_Grains i).euler2 ∧
    ((renumber_grains dc).m_Grains
        ((renumberLoop dc.numGrains dc.m_Grains).newnames i).toNat).euler3
      = (dc.m_Grains i).euler3 ∧
    ∀ m j, m < j →
      ((List.range' 1 m).foldl renumberGrain (renumberStart dc.m_Grains)).m_Grains j
        = dc.m_Grains j := by
  obtain ⟨hc, hn⟩ := renumberLoop_data dc.numGrains dc.m_Grains i h1 h2 hs
  have hg : (renumber_grains dc).m_Grains = (renumberLoop dc.numGrains dc.m_Grains).m_Grains :=
    rfl
  rw [hg]
  unfold copiedData at hc
  simp only [Prod.mk.injEq] at hc
  refine ⟨hn l hl, hc.2.1, hc.1, hc.2.2.1, hc.2.2.2.1, hc.2.2.2.2, ?_⟩
  intro m j hmj
  exact (renumberFold_data m 1 (renumberStart dc.m_Grains) (le_refl _)).1 j (by omega)

/-- The theorem for C30 applied to grain 3 of the row `flagged`, whose new number
is 2. -/
theorem renumber_grains_keeps_data_witness :
    (1 ≤ 3 ∧ 3 < Examples.flagged.numGrains ∧
      (Examples.flagged.m_Grains 3).gottwinmerged ≠ true ∧
      (Examples.flagged.m_Grains 3).neighborlist = some [2]) ∧
    (((renumber_grains Examples.flagged).m_Grains
        ((renumberLoop Examples.flagged.numGrains Examples.flagged.m_Grains).newnames 3).toNat
        ).neighborlist = some [2] ∧
    ((renumber_grains Examples.flagged).m_Grains
        ((renumberLoop Examples.flagged.numGrains Examples.flagged.m_Grains).newnames 3).toNat
        ).numneighbors = (Examples.flagged.m_Grains 3).numneighbors ∧
    ((renumber_grains Examples.flagged).m_Grains
        ((renumberLoop Examples.flagged.numGrains Examples.flagged.m_Grains).newnames 3).toNat
        ).numvoxels = (Examples.flagged.m_Grains 3).numvoxels ∧
    ((renumber_grains Examples.flagged).m_Grains
        ((renumberLoop Examples.flagged.numGrains Examples.flagged.m_Grains).newnames 3).toNat
        ).euler1 = (Examples.flagged.m_Grains 3).euler1 ∧
    ((renumber_grains Examples.flagged).m_Grains
        ((renumberLoop Examples.flagged.numGrains Examples.flagged.m_Grains).newnames 3).toNat
        ).euler2 = (Examples.flagged.m_Grains 3).euler2 ∧
    ((renumber_grains Examples.flagged).m_Grains
        ((renumberLoop Examples.flagged.numGrains Examples.flagged.m_Grains).newnames 3).toNat
        ).euler3 = (Examples.flagged.m_Grains 3).euler3 ∧
    ∀ m j, m < j →
      ((List.range' 1 m).foldl renumberGrain (renumberStart Examples.flagged.m_Grains)).m_Grains j
        = Examples.flagged.m_Grains j) :=
  ⟨⟨by decide, by decide, by decide, by decide⟩,
    renumber_grains_keeps_data Examples.flagged 3 [2] (by decide) (by decide) (by decide)
      (by decide)⟩

/-- The renumbering of the row `flagged`: grain 3 gets the new number 2, and slot 2
of the table then holds its neighbour list `[2]` and its voxel count. -/
theorem renumber_grains_example :
    (renumberLoop Examples.flagged.numGrains Examples.flagged.m_Grains).newnames 3 = 2 ∧
    ((renumber_grains Examples.flagged).m_Grains 2).neighborlist = some [2] ∧
    ((renumber_grains Examples.flagged).m_Grains 2).numvoxels = 1 ∧
    ((renumber_grains Examples.flagged).m_Grains 3).neighborlist = some [1, 3] := by
  decide

/-! `execute`. -/

/-- The function `merge_twins` returns on a well-formed table and changes at most
the two merge fields of a grain. -/
theorem merge_twins_same (ops : OrientationOps) (n1 n2 n3 : ℚ) (fuel : Nat)
    (dc : DataContainer) (hok : GrainsOk dc.m_Grains dc.numGrains)
    (hfuel : dc.numGrains + 2 ≤ fuel) :
    ∃ dc1, merge_twins ops n1 n2 n3 fuel dc = some dc1 ∧
      ∀ g, SameData (dc.m_Grains g) (dc1.m_Grains g) := by
  have hrun : ∃ s', mergeLoop ops dc.crystruct fuel (dc.numGrains - 1) 1
      { m_Grains := dc.m_Grains, twinlist := [], n1 := n1, n2 := n2, n3 := n3 } = some s' ∧
      ∀ g, SameData (dc.m_Grains g) (s'.m_Grains g) := by
    by_cases hn : dc.numGrains = 0
    · rw [hn]
      exact ⟨_, rfl, fun g => SameData.refl _⟩
    · obtain ⟨s', h1, h2, _, _⟩ := mergeLoop_frame ops dc.crystruct dc.numGrains dc.m_Grains hok
        fuel hfuel (dc.numGrains - 1) 1
        { m_Grains := dc.m_Grains, twinlist := [], n1 := n1, n2 := n2, n3 := n3 }
        (fun g => SameData.refl _) rfl (by omega)
      exact ⟨s', h1, h2⟩
  obtain ⟨s', h1, h2⟩ := hrun
  unfold merge_twins
  rw [h1]
  exact ⟨_, rfl, h2⟩

/-- C23 (voxel count of a survivor), amended.  On a well-formed grain table
`MergeTwins::execute` returns, and for every surviving grain `i` the slot with its
new number holds the `numvoxels` that grain `i` itself had before the call:
`renumber_grains` copies the count of the survivor, and no step of `execute` adds
the counts of the grains merged into it. -/
theorem execute_copies_numvoxels (ops : OrientationOps) (n1 n2 n3 : ℚ) (fuel : Nat)
    (dc : DataContainer) (hok : GrainsOk dc.m_Grains dc.numGrains)
    (hfuel : dc.numGrains + 2 ≤ fuel) :
    ∃ dc1 dc', merge_twins ops n1 n2 n3 fuel dc = some dc1 ∧
      execute ops n1 n2 n3 fuel dc = some dc' ∧
      ∀ i ∈ survivors dc1.m_Grains dc.numGrains,
        (dc'.m_Grains ((renumberLoop dc.numGrains dc1.m_Grains).newnames i).toNat).numvoxels
          = (dc.m_Grains i).numvoxels := by
  obtain ⟨dc1, hm, hsame⟩ := merge_twins_same ops n1 n2 n3 fuel dc hok hfuel
  obtain ⟨e1, _, _⟩ := merge_twins_fields ops n1 n2 n3 fuel dc dc1 hm
  refine ⟨dc1, renumber_grains dc1, hm, by unfold execute; rw [hm]; rfl, ?_⟩
  intro i hi
  obtain ⟨h1, h2, h3⟩ := mem_survivors.mp hi
  have hc := (renumberLoop_data dc.numGrains dc1.m_Grains i h1 h2 (by simp [h3])).1
  rw [(hsame i).copied] at hc
  unfold copiedData at hc
  simp only [Prod.mk.injEq] at hc
  have hg : (renumber_grains dc1).m_Grains = (renumberLoop dc.numGrains dc1.m_Grains).m_Grains := by
    unfold renumber_grains
    rw [e1]
  rw [hg]
  exact hc.1

/-- The theorem for C23 applied to the row `twinPair`. -/
theorem execute_copies_numvoxels_witness :
    (GrainsOk Examples.twinPair.m_Grains Examples.twinPair.numGrains ∧
      Examples.twinPair.numGrains + 2 ≤ 10) ∧
    ∃ dc1 dc', merge_twins Examples.skewOps 0 0 0 10 Examples.twinPair = some dc1 ∧
      execute Examples.skewOps 0 0 0 10 Examples.twinPair = some dc' ∧
      ∀ i ∈ survivors dc1.m_Grains Examples.twinPair.numGrains,
        (dc'.m_Grains
            ((renumberLoop Examples.twinPair.numGrains dc1.m_Grains).newnames i).toNat).numvoxels
          = (Examples.twinPair.m_Grains i).numvoxels :=
  ⟨⟨twinPair_ok, by decide⟩,
    execute_copies_numvoxels Examples.skewOps 0 0 0 10 Examples.twinPair twinPair_ok (by decide)⟩

/-- C23, the counterexample.  In the row `twinPair` the grains 1 and 2 have one
voxel each and form a twin cluster.  After `execute` two voxels carry the id 1 of
the survivor, and the voxel counts of the cluster add up to 2, but the voxel count
recorded for the survivor is 1. -/
theorem execute_numvoxels_not_summed :
    (Examples.twinPair.m_Grains 1).numvoxels + (Examples.twinPair.m_Grains 2).numvoxels = 2 ∧
    (merge_twins Examples.skewOps 0 0 0 10 Examples.twinPair).map
      (fun dc => ((dc.m_Grains 2).gottwinmerged, (dc.m_Grains 2).twinnewnumber))
      = some (true, 1) ∧
    (execute Examples.skewOps 0 0 0 10 Examples.twinPair).map
      (fun dc => (Examples.voxels dc, (dc.m_Grains 1).numvoxels)) = some ([1, 1, 2], 1) := by
  decide!

theorem fan_ok : GrainsOk Examples.fan.m_Grains Examples.fan.numGrains := by
  constructor
  · intro g hg
    change g < 4 at hg
    interval_cases g <;> decide
  · intro g hg nl h e he
    change g < 4 at hg
    interval_cases g
    · cases h
    · cases h
      simp at he
      rcases he with rfl | rfl <;> decide
    · cases h
      simp at he
      subst he
      decide
    · cases h
      simp at he
      subst he
      decide

/-- C29 (neighbour lists after the merge), amended.  On a well-formed grain table
`MergeTwins::execute` returns, and for every surviving grain `i` that has a
neighbour list the slot with its new number holds that list unchanged: the entries
are the grain numbers of before the call, they are neither replaced by the
survivor of a merged grain nor by the new numbers. -/
theorem execute_moves_neighborlist (ops : OrientationOps) (n1 n2 n3 : ℚ) (fuel : Nat)
    (dc : DataContainer) (hok : GrainsOk dc.m_Grains dc.numGrains)
    (hfuel : dc.numGrains + 2 ≤ fuel) :
    ∃ dc1 dc', merge_twins ops n1 n2 n3 fuel dc = some dc1 ∧
      execute ops n1 n2 n3 fuel dc = some dc' ∧
      ∀ i ∈ survivors dc1.m_Grains dc.numGrains, ∀ l, (dc.m_Grains i).neighborlist = some l →
        (dc'.m_Grains ((renumberLoop dc.numGrains dc1.m_Grains).newnames i).toNat).neighborlist
          = some l := by
  obtain ⟨dc1, hm, hsame⟩ := merge_twins_same ops n1 n2 n3 fuel dc hok hfuel
  obtain ⟨e1, _, _⟩ := merge_twins_fields ops n1 n2 n3 fuel dc dc1 hm
  refine ⟨dc1, renumber_grains dc1, hm, by unfold execute; rw [hm]; rfl, ?_⟩
  intro i hi l hl
  obtain ⟨h1, h2, h3⟩ := mem_survivors.mp hi
  have hn := (renumberLoop_data dc.numGrains dc1.m_Grains i h1 h2 (by simp [h3])).2 l
    (by rw [(hsame i).neighborlist]; exact hl)
  have hg : (renumber_grains dc1).m_Grains = (renumberLoop dc.numGrains dc1.m_Grains).m_Grains := by
    unfold renumber_grains
    rw [e1]
  rw [hg]
  exact hn

/-- The theorem for C29 applied to the row `fan`. -/
theorem execute_moves_neighborlist_witness :
    (GrainsOk Examples.fan.m_Grains Examples.fan.numGrains ∧ Examples.fan.numGrains + 2 ≤ 10) ∧
    ∃ dc1 dc', merge_twins Examples.skewOps 0 0 0 10 Examples.fan = some dc1 ∧
      execute Examples.skewOps 0 0 0 10 Examples.fan = some dc' ∧
      ∀ i ∈ survivors dc1.m_Grains Examples.fan.numGrains, ∀ l,
        (Examples.fan.m_Grains i).neighborlist = some l →
        (dc'.m_Grains
            ((renumberLoop Examples.fan.numGrains dc1.m_Grains).newnames i).toNat).neighborlist
          = some l :=
  ⟨⟨fan_ok, by decide⟩,
    execute_moves_neighborlist Examples.skewOps 0 0 0 10 Examples.fan fan_ok (by decide)⟩

/-- C29, the counterexample.  In the row `fan` grain 2 is merged into grain 1 and
the survivors 1 and 3 get the new numbers 1 and 2, so `N = 2`.  After `execute` the
neighbour list of the survivor with the new number 1 is still `[2, 3]`: the entry 3
exceeds `N`, and the entry 2, which named the merged grain 2 (survivor 1) before
the call, now is the number of the former grain 3. -/
theorem execute_stale_neighborlist :
    (merge_twins Examples.skewOps 0 0 0 10 Examples.fan).map
      (fun dc => survivors dc.m_Grains dc.numGrains) = some [1, 3] ∧
    (merge_twins Examples.skewOps 0 0 0 10 Examples.fan).map
      (fun dc => (renumberLoop dc.numGrains dc.m_Grains).newnames 3) = some 2 ∧
    (execute Examples.skewOps 0 0 0 10 Examples.fan).map
      (fun dc => (Examples.voxels dc, (dc.m_Grains 1).neighborlist)) = some ([1, 1, 2], some [2, 3]) ∧
    ¬ ∀ e ∈ ([2, 3] : List Int), 1 ≤ e ∧ e ≤ 2 := by
  refine ⟨by decide!, by decide!, by decide!, by decide⟩

/-! The twin criterion. -/

/-- The test of `merge_twins` on a misorientation `(w, n1, n2, n3)`, written out. -/
theorem twinCriterion_iff (ops : OrientationOps) (m : ℚ × ℚ × ℚ × ℚ) :
    twinCriterion ops m = true ↔
      ops.acosf (abs m.2.1 * 0.57735 + abs m.2.2.1 * 0.57735 + abs m.2.2.2 * 0.57735)
          < 2 * ops.M_PI / 180 ∧
        abs (m.1 - 60) < 2 := by
  unfold twinCriterion
  simp only [decide_eq_true_eq]

/-- Without a call of `getMisoQuat` (crystal structures that differ or are not
positive) the test fails. -/
theorem twinCriterion_no_call (ops : OrientationOps) (crystruct : Int → Int) (g1 g2 : Grain)
    (stale : ℚ × ℚ × ℚ)
    (h : ¬ (crystruct g1.phase = crystruct g2.phase ∧ crystruct g1.phase > 0)) :
    twinCriterion ops (misorientation ops crystruct g1 g2 stale) = false := by
  unfold misorientation
  simp only
  rw [if_neg h]
  unfold twinCriterion
  simp only
  have : ¬ (abs ((10000 : ℚ) - 60) < 2) := by norm_num
  simp [this]

/-- For an axis whose components have one sign the sum of the absolute components
is the absolute value of the dot product with `(0.57735, 0.57735, 0.57735)`, so the
test of `merge_twins` and the criterion of the specification agree. -/
theorem twinCriterion_same_sign (ops : OrientationOps) (m : ℚ × ℚ × ℚ × ℚ)
    (h : (0 ≤ m.2.1 ∧ 0 ≤ m.2.2.1 ∧ 0 ≤ m.2.2.2) ∨ (m.2.1 ≤ 0 ∧ m.2.2.1 ≤ 0 ∧ m.2.2.2 ≤ 0)) :
    twinCriterion ops m = specCriterion ops m := by
  have key : abs m.2.1 * 0.57735 + abs m.2.2.1 * 0.57735 + abs m.2.2.2 * 0.57735
      = abs (m.2.1 * 0.57735 + m.2.2.1 * 0.57735 + m.2.2.2 * 0.57735) := by
    rcases h with ⟨h1, h2, h3⟩ | ⟨h1, h2, h3⟩
    · rw [abs_of_nonneg h1, abs_of_nonneg h2, abs_of_nonneg h3, abs_of_nonneg]
      have c : (0 : ℚ) ≤ 0.57735 := by norm_num
      exact add_nonneg (add_nonneg (mul_nonneg h1 c) (mul_nonneg h2 c)) (mul_nonneg h3 c)
    · rw [abs_of_nonpos h1, abs_of_nonpos h2, abs_of_nonpos h3, abs_of_nonpos]
      · ring
      · have c : (0 : ℚ) ≤ 0.57735 := by norm_num
        have e1 := mul_nonneg (neg_nonneg.mpr h1) c
        have e2 := mul_nonneg (neg_nonneg.mpr h2) c
        have e3 := mul_nonneg (neg_nonneg.mpr h3) c
        linarith
  unfold twinCriterion specCriterion
  simp only
  rw [key]
  exact decide_eq_decide.mpr and_comm

/-- C22 (twin match criterion), amended.  While the cluster of grain `i` is
collected, the entry `entry` of the neighbour list of the grain `firstgrain` taken
from the work list is accepted as a twin (appended to the work list and marked as
merged into `i`) exactly when it names a grain other than `i` that is not merged
yet and has a positive phase, the crystal structures of the two grains agree and
are positive, the angle `w` returned by `getMisoQuat` differs from 60 by less than
2, and `acosf` of the sum `|n1| * 0.57735 + |n2| * 0.57735 + |n3| * 0.57735` of the
absolute axis components is below `2 * M_PI / 180`.  An entry that is not accepted
changes neither the work list nor the grains.  The sum of the absolute components
is the absolute value of the dot product of the axis with the target axis, as the
specification has it, when the three components of the axis have one sign. -/
theorem examine_accepts_iff (ops : OrientationOps) (crystruct : Int → Int)
    (i firstgrain : Nat) (s : MergeState) (entry : Int) :
    (Accepted i s (examine ops crystruct i firstgrain s entry) entry.toNat ↔
      (entry.toNat ≠ i ∧ (s.m_Grains entry.toNat).twinnewnumber = -1 ∧
        (s.m_Grains entry.toNat).phase > 0) ∧
      (crystruct (s.m_Grains firstgrain).phase = crystruct (s.m_Grains entry.toNat).phase ∧
        crystruct (s.m_Grains firstgrain).phase > 0) ∧
      abs ((misorientation ops crystruct (s.m_Grains firstgrain) (s.m_Grains entry.toNat)
        (s.n1, s.n2, s.n3)).1 - 60) < 2 ∧
      ops.acosf
        (abs (misorientation ops crystruct (s.m_Grains firstgrain) (s.m_Grains entry.toNat)
            (s.n1, s.n2, s.n3)).2.1 * 0.57735
          + abs (misorientation ops crystruct (s.m_Grains firstgrain) (s.m_Grains entry.toNat)
            (s.n1, s.n2, s.n3)).2.2.1 * 0.57735
          + abs (misorientation ops crystruct (s.m_Grains firstgrain) (s.m_Grains entry.toNat)
            (s.n1, s.n2, s.n3)).2.2.2 * 0.57735) < 2 * ops.M_PI / 180) ∧
    (¬ Accepted i s (examine ops crystruct i firstgrain s entry) entry.toNat →
      (examine ops crystruct i firstgrain s entry).twinlist = s.twinlist ∧
      (examine ops crystruct i firstgrain s entry).m_Grains = s.m_Grains) ∧
    (∀ m : ℚ × ℚ × ℚ × ℚ,
      (0 ≤ m.2.1 ∧ 0 ≤ m.2.2.1 ∧ 0 ≤ m.2.2.2) ∨ (m.2.1 ≤ 0 ∧ m.2.2.1 ≤ 0 ∧ m.2.2.2 ≤ 0) →
      twinCriterion ops m = specCriterion ops m) := by
  have hcall := twinCriterion_no_call ops crystruct (s.m_Grains firstgrain)
    (s.m_Grains entry.toNat) (s.n1, s.n2, s.n3)
  have hiff := twinCriterion_iff ops (misorientation ops crystruct (s.m_Grains firstgrain)
    (s.m_Grains entry.toNat) (s.n1, s.n2, s.n3))
  generalize hM : misorientation ops crystruct (s.m_Grains firstgrain)
    (s.m_Grains entry.toNat) (s.n1, s.n2, s.n3) = M at hcall hiff
  have hlen : ∀ l : List Nat, l ≠ l ++ [entry.toNat] := by
    intro l h
    have := congrArg List.length h
    simp at this
  by_cases hel : entry.toNat ≠ i ∧ (s.m_Grains entry.toNat).twinnewnumber = -1 ∧
      (s.m_Grains entry.toNat).phase > 0
  · by_cases hc : twinCriterion ops M = true
    · have hex : examine ops crystruct i firstgrain s entry =
          { m_Grains := Function.update s.m_Grains entry.toNat
              { s.m_Grains entry.toNat with gottwinmerged := true, twinnewnumber := i }
            twinlist := s.twinlist ++ [entry.toNat]
            n1 := M.2.1, n2 := M.2.2.1, n3 := M.2.2.2 } := by
        unfold examine
        simp only
        rw [if_pos hel, hM, if_pos hc]
      have hacc : Accepted i s (examine ops crystruct i firstgrain s entry) entry.toNat := by
        rw [hex]
        exact ⟨rfl, by simp, by simp⟩
      have hcls : crystruct (s.m_Grains firstgrain).phase
          = crystruct (s.m_Grains entry.toNat).phase ∧
          crystruct (s.m_Grains firstgrain).phase > 0 := by
        by_contra hno
        rw [hcall hno] at hc
        exact Bool.false_ne_true hc
      refine ⟨⟨fun _ => ⟨hel, hcls, (hiff.mp hc).2, (hiff.mp hc).1⟩, fun _ => hacc⟩,
        fun h => absurd hacc h, fun m hm => twinCriterion_same_sign ops m hm⟩
    · have hex : examine ops crystruct i firstgrain s entry =
          { s with n1 := M.2.1, n2 := M.2.2.1, n3 := M.2.2.2 } := by
        unfold examine
        simp only
        rw [if_pos hel, hM, if_neg hc]
      rw [hex]
      refine ⟨⟨fun h => absurd h.1 (hlen _), fun h => absurd (hiff.mpr ⟨h.2.2.2, h.2.2.1⟩) hc⟩,
        fun _ => ⟨rfl, rfl⟩, fun m hm => twinCriterion_same_sign ops m hm⟩
  · have hex : examine ops crystruct i firstgrain s entry = s := by
      unfold examine
      simp only
      rw [if_neg hel]
    rw [hex]
    exact ⟨⟨fun h => absurd h.1 (hlen _), fun h => absurd h.1 hel⟩, fun _ => ⟨rfl, rfl⟩,
      fun m hm => twinCriterion_same_sign ops m hm⟩

/-- C22, the counterexample.  For the grains 1 and 2 of the row `twinPair` the
library `skewOps` returns the angle 60 and the axis `(0.57735, -0.57735, 0.57735)`.
The absolute value of the dot product with the target axis is `0.33333`, whose arc
cosine is far above the axis tolerance, so the criterion as specified rejects the
pair; `merge_twins` adds the absolute components, obtains `0.99999`, and accepts
grain 2 as a twin of grain 1. -/
theorem examine_accepts_mixed_sign_axis :
    misorientation Examples.skewOps Examples.twinPair.crystruct (Examples.twinPair.m_Grains 1)
      (Examples.twinPair.m_Grains 2) (0, 0, 0) = (60, 0.57735, -0.57735, 0.57735) ∧
    specCriterion Examples.skewOps (misorientation Examples.skewOps Examples.twinPair.crystruct
      (Examples.twinPair.m_Grains 1) (Examples.twinPair.m_Grains 2) (0, 0, 0)) = false ∧
    twinCriterion Examples.skewOps (misorientation Examples.skewOps Examples.twinPair.crystruct
      (Examples.twinPair.m_Grains 1) (Examples.twinPair.m_Grains 2) (0, 0, 0)) = true ∧
    (examine Examples.skewOps Examples.twinPair.crystruct 1 1 Examples.pairState 2).twinlist
      = [1, 2] ∧
    ((examine Examples.skewOps Examples.twinPair.crystruct 1 1 Examples.pairState 2).m_Grains
      2).twinnewnumber = 1 := by
  decide!

/-- The criterion on the row `twinPair` with the library `ops`, whose axis is
`(1, 1, 1)`: grain 2 is accepted as a twin of grain 1, grain 3 (angle 140 from grain
2) is not accepted as a twin of grain 2. -/
theorem examine_example :
    (examine Examples.ops Examples.twinPair.crystruct 1 1 Examples.pairState 2).twinlist
      = [1, 2] ∧
    (examine Examples.ops Examples.twinPair.crystruct 1 2 Examples.pairState 3).twinlist
      = [1] := by
  decide!

/-! ### `MergeTwins::execute`: the new numbers of the survivors and of the voxels -/

/-- The run of `execute` on the row `twinPair`: the survivors 1 and 3 get the new
numbers 1 and 2, and the voxels `[1, 2, 3]` become `[1, 1, 2]`. -/
theorem execute_dense_example :
    (merge_twins Examples.skewOps 0 0 0 10 Examples.twinPair).map
      (fun dc => (survivors dc.m_Grains dc.numGrains,
        (survivors dc.m_Grains dc.numGrains).map
          (renumberLoop dc.numGrains dc.m_Grains).newnames)) = some ([1, 3], [1, 2]) ∧
    Examples.voxels Examples.twinPair = [1, 2, 3] ∧
    (execute Examples.skewOps 0 0 0 10 Examples.twinPair).map Examples.voxels
      = some [1, 1, 2] := by
  refine ⟨by decide!, by decide, by decide!⟩

/-- The symmetry of the neighbour lists is needed for the voxels.  On the row of
grains 2, 1, 3 with the one-way neighbour entry the only surviving grain is grain 3,
renumbered 1; voxel 0, whose grain number was 2, is rewritten to 1 by `merge_twins`
and then to `newnames[1] = 0` by `renumber_grains`: it drops to 0. -/
theorem execute_orphans_voxel :
    GrainsOk Examples.lopsided.m_Grains Examples.lopsided.numGrains ∧
    (∀ g, g < Examples.lopsided.numGrains →
      (Examples.lopsided.m_Grains g).gottwinmerged = false ∧
        (Examples.lopsided.m_Grains g).twinnewnumber = -1) ∧
    Examples.voxels Examples.lopsided = [2, 1, 3] ∧
    (merge_twins Examples.skewOps 0 0 0 10 Examples.lopsided).map
      (fun dc => survivors dc.m_Grains dc.numGrains) = some [3] ∧
    (execute Examples.skewOps 0 0 0 10 Examples.lopsided).map Examples.voxels = some [0, 1, 1] ∧
    ¬ ∀ dc', execute Examples.skewOps 0 0 0 10 Examples.lopsided = some dc' →
        ∀ v, 0 ≤ v → v < Examples.lopsided.totalpoints →
          1 ≤ Examples.lopsided.grain_indicies v → 1 ≤ dc'.grain_indicies v := by
  have hE : (execute Examples.skewOps 0 0 0 10 Examples.lopsided).map Examples.voxels
      = some [0, 1, 1] := by decide!
  refine ⟨lopsided_ok, lopsided_fresh, by decide, by decide!, hE, ?_⟩
  intro h
  obtain ⟨d, hd, hv⟩ := Option.map_eq_some'.mp hE
  have h0 := h d hd 0 (by decide) (by decide) (by decide)
  have hv0 : d.grain_indicies 0 = 0 := by
    unfold Examples.voxels at hv
    exact (List.cons.inj hv).1
  omega

end MergeTwins

/-! ### `SegmentGrains::execute` with a tolerance that is not positive -/

namespace SegmentGrains

/-- The value compared with the tolerance is not negative when the angles of the
orientation library are not negative. -/
theorem misoW_nonneg (ops : OrientationOps) (dc : DataContainer) (ref nb : Int)
    (hang : ∀ c a b, 0 ≤ (ops.getMisoQuat c a b).1) : 0 ≤ misoW ops dc ref nb := by
  unfold misoW
  split_ifs
  · exact hang _ _ _
  · norm_num

/-- With a tolerance `≤ 0` and angles that are not negative no neighbour joins. -/
theorem visit_rejects (ops : OrientationOps) (tol : ℚ) (dc : DataContainer) (c : Nat)
    (cp : Int) (s : GrowState) (i : Nat) (htol : tol ≤ 0)
    (hang : ∀ c a b, 0 ≤ (ops.getMisoQuat c a b).1) : visit ops tol dc c cp s i = s := by
  rw [visit_eq]
  split_ifs with h1 h2
  · exfalso
    have := misoW_nonneg ops dc cp (cp + neighpoints dc.xpoints dc.ypoints i) hang
    linarith
  · rfl
  · rfl

theorem foldl_visit_rejects (ops : OrientationOps) (tol : ℚ) (dc : DataContainer) (c : Nat)
    (cp : Int) (htol : tol ≤ 0) (hang : ∀ c a b, 0 ≤ (ops.getMisoQuat c a b).1)
    (l : List Nat) (s : GrowState) : l.foldl (visit ops tol dc c cp) s = s := by
  induction l generalizing s with
  | nil => rfl
  | cons a r ih => rw [List.foldl_cons, visit_rejects ops tol dc c cp s a htol hang, ih]

/-- With a tolerance `≤ 0` and angles that are not negative the growth of a grain
ends with the seed alone. -/
theorem grow_alone (ops : OrientationOps) (tol : ℚ) (dc : DataContainer) (c : Nat)
    (fuel : Nat) (seed : Int) (htol : tol ≤ 0)
    (hang : ∀ c a b, 0 ≤ (ops.getMisoQuat c a b).1) :
    grow ops tol dc c (fuel + 2) (seedState dc c seed) 0 = some (seedState dc c seed) := by
  unfold grow
  rw [if_pos (by simp [seedState])]
  simp only
  rw [foldl_visit_rejects ops tol dc c _ htol hang]
  unfold grow
  rw [if_neg (by simp [seedState])]

/-- The outer loop of `form_grains` with a tolerance `≤ 0` and angles that are not
negative: it returns, the loop invariant holds on exit, no unassigned in-phase voxel
is left and every grain is a single voxel. -/
theorem formLoop_alone (ops : OrientationOps) (tol : ℚ) (rg : Nat → UnitValue)
    (dc0 : DataContainer)
    (hx : 1 ≤ dc0.xpoints) (hy : 1 ≤ dc0.ypoints) (hz : 1 ≤ dc0.zpoints)
    (htot : dc0.totalpoints = dc0.xpoints * dc0.ypoints * dc0.zpoints)
    (htol : tol ≤ 0) (hang : ∀ c a b, 0 ≤ (ops.getMisoQuat c a b).1)
    (fuel : Nat) (dc : DataContainer) (c d : Nat) (hinv : FormInv dc0 dc c)
    (hsing : Singletons dc)
    (hf : (unassigned dc.totalpoints dc.phases dc.grain_indicies).card + 1 ≤ fuel) :
    ∃ dc' c', formLoop ops tol rg fuel dc c d = some (dc', c') ∧ FormInv dc0 dc' c' ∧
      unassigned dc'.totalpoints dc'.phases dc'.grain_indicies = ∅ ∧ Singletons dc' := by
  induction fuel generalizing dc c d with
  | zero => omega
  | succ fuel ih =>
    have hT : 1 ≤ dc.totalpoints := by
      rw [hinv.total, htot]
      exact one_le_mul_of_one_le_of_one_le (one_le_mul_of_one_le_of_one_le hx hy) hz
    have hrp := randpoint_bounds rg d dc.totalpoints hT
    have hstep : formLoop ops tol rg (fuel + 1) dc c d
        = if findSeed dc dc.totalpoints.toNat
              (truncToInt ((rg d).val * ((dc.totalpoints - 1 : Int) : ℚ))) = -1 then
            some (dc, c)
          else if findSeed dc dc.totalpoints.toNat
              (truncToInt ((rg d).val * ((dc.totalpoints - 1 : Int) : ℚ))) ≥ 0 then
            match grow ops tol dc c (fuel + 1) (seedState dc c (findSeed dc dc.totalpoints.toNat
              (truncToInt ((rg d).val * ((dc.totalpoints - 1 : Int) : ℚ))))) 0 with
            | none => none
            | some s =>
              formLoop ops tol rg fuel
                (storeGrain dc c (findSeed dc dc.totalpoints.toNat
                  (truncToInt ((rg d).val * ((dc.totalpoints - 1 : Int) : ℚ))))
                  (eraseMinusOne s.voxelslist) s.grain_indicies)
                (c + 1) (d + 1)
          else formLoop ops tol rg fuel dc c (d + 1) := rfl
    rw [hstep]
    generalize truncToInt ((rg d).val * ((dc.totalpoints - 1 : Int) : ℚ)) = rp at hrp ⊢
    by_cases hs : findSeed dc dc.totalpoints.toNat rp = -1
    · rw [if_pos hs]
      refine ⟨dc, c, rfl, hinv, ?_, hsing⟩
      rw [Finset.eq_empty_iff_forall_not_mem]
      intro v hv
      have hv' := mem_unassigned.mp hv
      have hcast : ((dc.totalpoints.toNat : Nat) : Int) = dc.totalpoints :=
        Int.toNat_of_nonneg (by omega)
      refine findSeed_none dc _ rp hrp.1 (by omega) hs v hv'.1.1 hv'.1.2 ?_ hv'.2
      rw [hcast]
      by_cases h : rp ≤ v
      · exact Or.inl ⟨h, by omega⟩
      · exact Or.inr ⟨by omega, by omega⟩
    · rw [if_neg hs]
      have hsome := findSeed_some dc dc.totalpoints.toNat rp hrp.1 (by omega) hT hs
      generalize findSeed dc dc.totalpoints.toNat rp = seed at hs hsome ⊢
      rw [if_pos (show seed ≥ 0 from hsome.1.1)]
      have hmem : seed ∈ unassigned dc.totalpoints dc.phases dc.grain_indicies :=
        mem_unassigned.mpr hsome
      have hcard : 0 < (unassigned dc.totalpoints dc.phases dc.grain_indicies).card :=
        Finset.card_pos.mpr ⟨seed, hmem⟩
      obtain ⟨f2, hf2⟩ : ∃ f2, fuel + 1 = f2 + 2 := ⟨fuel - 1, by omega⟩
      have hgrow : grow ops tol dc c (fuel + 1) (seedState dc c seed) 0
          = some (seedState dc c seed) := by
        rw [hf2]
        exact grow_alone ops tol dc c f2 seed htol hang
      rw [hgrow]
      simp only
      have hs' : GrowInv dc.totalpoints dc.phases dc.grain_indicies c seed (seedState dc c seed) :=
        seed_inv dc.totalpoints dc.phases dc.grain_indicies c seed hmem
      obtain ⟨hnd, hhd, hsub, hgi⟩ := hs'.erase
      have hseedin : seed ∈ eraseMinusOne (seedState dc c seed).voxelslist :=
        List.mem_of_mem_head? hhd
      obtain ⟨hI, hcard2⟩ := storeGrain_inv dc0 dc c hinv seed _ _ hnd hsub hgi hseedin
      obtain ⟨e1, e2, e3, e4, e5, e6⟩ := storeGrain_fields dc c seed
        (eraseMinusOne (seedState dc c seed).voxelslist) (seedState dc c seed).grain_indicies
      apply ih _ (c + 1) (d + 1) hI
      · intro u v hu0 hu hv0 hv h1 he
        rw [e4] at hu hv
        rw [e6] at h1 he
        have hgs : ∀ w, (seedState dc c seed).grain_indicies w
            = if w = seed then (c : Int) else dc.grain_indicies w := by
          intro w
          unfold seedState
          simp only
          by_cases hw : w = seed
          · rw [hw, Function.update_same, if_pos rfl]
          · rw [Function.update_noteq hw, if_neg hw]
        rw [hgs u] at h1 he
        rw [hgs v] at he
        have hcp := hinv.cpos
        by_cases hus : u = seed
        · by_cases hvs : v = seed
          · rw [hus, hvs]
          · rw [if_pos hus, if_neg hvs] at he
            have := hinv.ids v hv0 hv
            omega
        · by_cases hvs : v = seed
          · rw [if_neg hus, if_pos hvs] at he
            have := hinv.ids u hu0 hu
            omega
          · rw [if_neg hus] at h1 he
            rw [if_neg hvs] at he
            exact hsing u v hu0 hu hv0 hv h1 he
      · rw [e4, e5, e6]
        omega

/-- C26 (a tolerance that is not positive), amended.  `SegmentGrains::execute` has
no check of the configuration: it calls `form_grains` and sets the error condition
to 0.  On a well-formed grid with all voxels unassigned on entry, with a
misorientation tolerance `≤ 0` and an orientation library whose angles are not
negative, `execute` returns with error condition 0; every in-phase voxel of the grid
is assigned a grain number `≥ 1` and every other voxel keeps `-1`; no neighbour ever
passes the test `w < tolerance`, so every grain is a single voxel. -/
theorem execute_nonpositive_tolerance (ops : OrientationOps) (tol : ℚ) (rg : Nat → UnitValue)
    (dc : DataContainer) (hx : 1 ≤ dc.xpoints) (hy : 1 ≤ dc.ypoints) (hz : 1 ≤ dc.zpoints)
    (htot : dc.totalpoints = dc.xpoints * dc.ypoints * dc.zpoints)
    (hun : ∀ v, 0 ≤ v → v < dc.totalpoints → dc.grain_indicies v = -1)
    (fuel : Nat) (hfuel : dc.totalpoints.toNat + 1 ≤ fuel) (htol : tol ≤ 0)
    (hang : ∀ c a b, 0 ≤ (ops.getMisoQuat c a b).1) :
    ∃ dc', execute ops tol rg fuel dc = some (dc', 0) ∧
      (∀ v, 0 ≤ v → v < dc.totalpoints →
        (dc.phases v > 0 → 1 ≤ dc'.grain_indicies v) ∧
        (¬ dc.phases v > 0 → dc'.grain_indicies v = -1)) ∧
      ∀ u v, 0 ≤ u → u < dc.totalpoints → 0 ≤ v → v < dc.totalpoints →
        1 ≤ dc'.grain_indicies u → dc'.grain_indicies u = dc'.grain_indicies v → u = v := by
  have hs0 : Singletons dc := by
    intro u v hu0 hu _ _ h1 _
    rw [hun u hu0 hu] at h1
    omega
  obtain ⟨dc', c', hrun, hinv, hempty, hsing⟩ := formLoop_alone ops tol rg dc hx hy hz htot
    htol hang fuel dc 1 0 (formInv_init dc hun) hs0
    (by have := unassigned_card_le dc.totalpoints dc.phases dc.grain_indicies; omega)
  refine ⟨dc', by simp [execute, form_grains, hrun], ?_, ?_⟩
  · intro v hv0 hv
    constructor
    · intro hph
      rcases hinv.ids v hv0 (by rw [hinv.total]; exact hv) with h | h
      · exfalso
        have : v ∈ unassigned dc'.totalpoints dc'.phases dc'.grain_indicies :=
          mem_unassigned.mpr
            ⟨⟨hv0, by rw [hinv.total]; exact hv⟩, h, by rw [hinv.phases]; exact hph⟩
        rw [hempty] at this
        exact absurd this (Finset.not_mem_empty v)
      · exact h.1
    · intro hph
      rw [hinv.outPhase v (by rw [hinv.phases]; exact hph)]
      exact hun v hv0 hv
  · intro u v hu0 hu hv0 hv
    exact hsing u v hu0 (by rw [hinv.total]; exact hu) hv0 (by rw [hinv.total]; exact hv)

/-- The theorem for C26 applied to the grid `grid` with the tolerance 0. -/
theorem execute_nonpositive_tolerance_witness :
    (1 ≤ Examples.grid.xpoints ∧ 1 ≤ Examples.grid.ypoints ∧ 1 ≤ Examples.grid.zpoints ∧
      Examples.grid.totalpoints
        = Examples.grid.xpoints * Examples.grid.ypoints * Examples.grid.zpoints ∧
      (∀ v, 0 ≤ v → v < Examples.grid.totalpoints → Examples.grid.grain_indicies v = -1) ∧
      Examples.grid.totalpoints.toNat + 1 ≤ 10 ∧ (0 : ℚ) ≤ 0 ∧
      (∀ c a b, 0 ≤ (Examples.ops.getMisoQuat c a b).1)) ∧
    ∃ dc', execute Examples.ops 0 Examples.rg 10 Examples.grid = some (dc', 0) ∧
      (∀ v, 0 ≤ v → v < Examples.grid.totalpoints →
        (Examples.grid.phases v > 0 → 1 ≤ dc'.grain_indicies v) ∧
        (¬ Examples.grid.phases v > 0 → dc'.grain_indicies v = -1)) ∧
      ∀ u v, 0 ≤ u → u < Examples.grid.totalpoints → 0 ≤ v → v < Examples.grid.totalpoints →
        1 ≤ dc'.grain_indicies u → dc'.grain_indicies u = dc'.grain_indicies v → u = v :=
  ⟨⟨by decide, by decide, by decide, by decide, fun _ _ _ => rfl, by decide, le_refl _,
      fun _ _ _ => abs_nonneg _⟩,
    execute_nonpositive_tolerance Examples.ops 0 Examples.rg Examples.grid (by decide)
      (by decide) (by decide) (by decide) (fun _ _ _ => rfl) 10 (by decide) (le_refl _)
      (fun _ _ _ => abs_nonneg _)⟩

/-- C26, the counterexample.  With the tolerance 0 (and with the tolerance `-1`)
the run on the grid `grid` reports the error condition 0 and assigns the three
in-phase voxels to the grains 3, 1 and 2. -/
theorem execute_accepts_nonpositive_tolerance :
    (execute Examples.ops 0 Examples.rg 10 Examples.grid).map
      (fun r => (r.2, (List.range 4).map (fun k : Nat => r.1.grain_indicies k)))
      = some (0, [3, 1, 2, -1]) ∧
    (execute Examples.ops (-1) Examples.rg 10 Examples.grid).map
      (fun r => (r.2, (List.range 4).map (fun k : Nat => r.1.grain_indicies k)))
      = some (0, [3, 1, 2, -1]) ∧
    (List.range 4).map (fun k : Nat => Examples.grid.grain_indicies k) = [-1, -1, -1, -1] := by
  decide!

end SegmentGrains

/-! ### `ModifiedLambertProjectionArray::EraseTuples` -/

namespace ModifiedLambertProjectionArray

/-- A strictly increasing list of numbers of the range `lo .. hi - 1` has at most
`hi - lo` entries. -/
theorem sorted_length_le (l : List Nat) (lo hi : Nat) (hlo : lo ≤ hi)
    (hs : l.Sorted (fun a b => a < b)) (hr : ∀ i ∈ l, lo ≤ i ∧ i < hi) :
    l.length + lo ≤ hi := by
  induction l generalizing lo with
  | nil => simpa using hlo
  | cons r t ih =>
    have hrr := hr r (by simp)
    have hp := List.pairwise_cons.mp hs
    have := ih (r + 1) (by omega) hp.2 (fun i hi => ⟨hp.1 i hi, (hr i (by simp [hi])).2⟩)
    simp only [List.length_cons]
    omega

theorem kept_succ {α : Type} [Inhabited α] (arr : List α) (idxs : List Nat) (d : Nat) :
    kept arr idxs (d + 1)
      = kept arr idxs d ++ (if d ∉ idxs then [arr.getD d default] else []) := by
  unfold kept
  rw [List.range_succ, List.filter_append, List.map_append]
  by_cases h : d ∉ idxs
  · simp [h]
  · simp [h]

theorem set_at_length {α : Type} (a : List α) (k : Nat) (v x : α) :
    (a ++ List.replicate (k + 1) v).set a.length x = (a ++ [x]) ++ List.replicate k v := by
  induction a with
  | nil => simp [List.replicate_succ]
  | cons h t ih => simpa using ih

/-- One iteration of the copy loop keeps the invariant and writes inside
`replacement`. -/
theorem eraseStep_inv {α : Type} [Inhabited α] (arr : List α) (idxs : List Nat)
    (hs : idxs.Sorted (fun a b => a < b)) (hr : ∀ i ∈ idxs, i < arr.length)
    (hne : idxs ≠ []) (d : Nat) (hd : d < arr.length) (s : EraseState α)
    (h : EraseInv arr idxs d s) :
    ∃ s', eraseStep arr idxs s d = some s' ∧ EraseInv arr idxs (d + 1) s' := by
  obtain ⟨done, rem, hsplit, hdone, hrem, hidx, hsum, hlen, hrep⟩ := h
  have hlenI : idxs.length = done.length + rem.length := by rw [hsplit]; simp
  have hkeep : ∀ (hnot : d ∉ idxs) (hcount : d + rem.length < arr.length)
      (hne2 : d ≠ idxs.getD s.idxsIndex 0) (hrem2 : ∀ i ∈ rem, d + 1 ≤ i),
      ∃ s', eraseStep arr idxs s d = some s' ∧ EraseInv arr idxs (d + 1) s' := by
    intro hnot hcount hne2 hrem2
    have hk : arr.length - idxs.length - s.rIdx
        = (arr.length - idxs.length - (s.rIdx + 1)) + 1 := by omega
    have hbound : s.rIdx < s.replacement.length := by
      rw [hrep, List.length_append, List.length_replicate, ← hlen]
      omega
    refine ⟨_, by unfold eraseStep; rw [if_pos hne2, if_pos hbound], ?_⟩
    refine ⟨done, rem, hsplit, fun i hi => by have := hdone i hi; omega, hrem2, hidx,
      by simp only; omega, ?_, ?_⟩
    · simp only
      rw [kept_succ, if_pos hnot, List.length_append, ← hlen]
      simp
    · simp only
      rw [hrep, hk, hlen, set_at_length, kept_succ, if_pos hnot]
  cases rem with
  | nil =>
    have hall : idxs = done := by rw [hsplit]; simp
    have hnot : d ∉ idxs := by
      rw [hall]
      intro hm
      have := hdone d hm
      omega
    refine hkeep hnot (by simpa using hd) ?_ (fun i hi => by simp at hi)
    intro he
    rw [if_pos rfl] at hidx
    by_cases hem : idxs.length = 0
    · exact absurd (List.length_eq_zero.mp hem) hne
    · have hlt : s.idxsIndex < idxs.length := by omega
      rw [List.getD_eq_getElem _ _ hlt] at he
      have hmem : idxs[s.idxsIndex] ∈ done := by
        rw [← hall]
        exact List.getElem_mem _
      have := hdone _ hmem
      omega
  | cons r rem2 =>
    rw [if_neg (by simp)] at hidx
    have hget : idxs.getD s.idxsIndex 0 = r := by
      rw [hidx, hsplit, List.getD_eq_getElem?_getD, List.getElem?_append_right (le_refl _)]
      simp
    have hsr : (r :: rem2).Sorted (fun a b => a < b) := by
      rw [hsplit] at hs
      exact (List.pairwise_append.mp hs).2.1
    have hp := List.pairwise_cons.mp hsr
    by_cases hdr : d = r
    · refine ⟨_, by unfold eraseStep; rw [if_neg (by rw [hget]; simpa using hdr)], ?_⟩
      refine ⟨done ++ [r], rem2, by rw [hsplit]; simp, ?_, ?_, ?_, ?_, ?_, ?_⟩
      · intro i hi
        rcases List.mem_append.mp hi with h1 | h1
        · have := hdone i h1; omega
        · simp at h1; omega
      · intro i hi
        have := hp.1 i hi
        omega
      · simp only
        rw [hidx, hlenI]
        cases rem2 with
        | nil => simp
        | cons a b =>
          simp only [List.length_cons, List.length_append, List.length_nil]
          rw [if_neg (by omega), if_neg (by simp)]
      · simp only [List.length_append, List.length_cons, List.length_nil]
        omega
      · simp only
        rw [kept_succ, if_neg (by simp only [not_not]; rw [hsplit, hdr]; simp)]
        simpa using hlen
      · simp only
        rw [kept_succ, if_neg (by simp only [not_not]; rw [hsplit, hdr]; simp)]
        simpa using hrep
    · have hdlt : d < r := by
        have := hrem r (by simp)
        omega
      have hnot : d ∉ idxs := by
        rw [hsplit]
        intro hm
        rcases List.mem_append.mp hm with h1 | h1
        · have := hdone d h1; omega
        · rcases List.mem_cons.mp h1 with h2 | h2
          · exact hdr h2
          · have := hp.1 d h2; omega
      have hrem2 : ∀ i ∈ r :: rem2, d + 1 ≤ i := by
        intro i hi
        rcases List.mem_cons.mp hi with h2 | h2
        · omega
        · have := hp.1 i h2; omega
      have hcnt := sorted_length_le (r :: rem2) (d + 1) arr.length (by omega) hsr
        (fun i hi => ⟨hrem2 i hi, hr i (by rw [hsplit]; simp [List.mem_cons.mp hi])⟩)
      exact hkeep hnot (by omega) (by rw [hget]; exact hdr) hrem2

/-- The copy loop over the first `d` tuples returns and keeps the invariant. -/
theorem eraseFold_inv {α : Type} [Inhabited α] (arr : List α) (idxs : List Nat)
    (hs : idxs.Sorted (fun a b => a < b)) (hr : ∀ i ∈ idxs, i < arr.length)
    (hne : idxs ≠ []) (d : Nat) (hd : d ≤ arr.length) :
    ∃ s, (List.range d).foldlM (eraseStep arr idxs)
        { idxsIndex := 0, rIdx := 0
          replacement := List.replicate (arr.length - idxs.length) default } = some s ∧
      EraseInv arr idxs d s := by
  induction d with
  | zero =>
    refine ⟨_, rfl, [], idxs, rfl, by simp, by simp, by simp [hne], rfl, by simp [kept], ?_⟩
    simp [kept]
  | succ d ih =>
    obtain ⟨s, h1, h2⟩ := ih (by omega)
    obtain ⟨s', h3, h4⟩ := eraseStep_inv arr idxs hs hr hne d (by omega) s h2
    refine ⟨s', ?_, h4⟩
    rw [List.range_succ, List.foldlM_append, h1]
    simp [h3]

/-- C36 (`EraseTuples` removes exactly the listed tuples).  For a vector of `n`
tuples and a strictly increasing list `idxs` of indices below `n` with
`0 < |idxs| < n`, `EraseTuples` returns 0 and the vector afterwards holds the
tuples whose index is not listed, in their order; they are `n - |idxs|` tuples.
With an empty index list the vector is unchanged and 0 is returned. -/
theorem EraseTuples_removes_listed {α : Type} [Inhabited α] (arr : List α) (idxs : List Nat)
    (hs : idxs.Sorted (fun a b => a < b)) (hr : ∀ i ∈ idxs, i < arr.length)
    (h0 : 0 < idxs.length) (hn : idxs.length < arr.length) :
    EraseTuples arr idxs = some (0, kept arr idxs arr.length) ∧
    (kept arr idxs arr.length).length = arr.length - idxs.length ∧
    EraseTuples arr [] = some (0, arr) := by
  have hne : idxs ≠ [] := by
    intro h
    rw [h] at h0
    simp at h0
  obtain ⟨s, h1, done, rem, hsplit, hdone, hrem, hidx, hsum, hlen, hrep⟩ :=
    eraseFold_inv arr idxs hs hr hne arr.length (le_refl _)
  have hremnil : rem = [] := by
    cases rem with
    | nil => rfl
    | cons r t =>
      have a := hrem r (by simp)
      have b := hr r (by rw [hsplit]; simp)
      omega
  have hlenI : idxs.length = done.length := by rw [hsplit, hremnil]; simp
  have hfin : s.replacement = kept arr idxs arr.length := by
    rw [hrep]
    have : arr.length - idxs.length - s.rIdx = 0 := by omega
    rw [this]
    simp
  refine ⟨?_, by omega, by simp [EraseTuples]⟩
  unfold EraseTuples
  rw [if_neg (by omega), if_neg (by omega), if_neg, h1]
  · simp [hfin]
  · simp only [List.any_eq_true, decide_eq_true_eq, not_exists, not_and]
    intro i hi
    have := hr i hi
    omega

/-- The theorem for C36 applied to the vector `[10, 11, 12, 13, 14]` and the index
list `[1, 3]`. -/
theorem EraseTuples_removes_listed_witness :
    (([1, 3] : List Nat).Sorted (fun a b => a < b) ∧
      (∀ i ∈ ([1, 3] : List Nat), i < ([10, 11, 12, 13, 14] : List Nat).length) ∧
      0 < ([1, 3] : List Nat).length ∧
      ([1, 3] : List Nat).length < ([10, 11, 12, 13, 14] : List Nat).length) ∧
    (EraseTuples ([10, 11, 12, 13, 14] : List Nat) [1, 3]
        = some (0, kept ([10, 11, 12, 13, 14] : List Nat) [1, 3]
            ([10, 11, 12, 13, 14] : List Nat).length) ∧
      (kept ([10, 11, 12, 13, 14] : List Nat) [1, 3]
          ([10, 11, 12, 13, 14] : List Nat).length).length
        = ([10, 11, 12, 13, 14] : List Nat).length - ([1, 3] : List Nat).length ∧
      EraseTuples ([10, 11, 12, 13, 14] : List Nat) [] = some (0, [10, 11, 12, 13, 14])) :=
  ⟨⟨by decide, by decide, by decide, by decide⟩,
    EraseTuples_removes_listed [10, 11, 12, 13, 14] [1, 3] (by decide) (by decide) (by decide)
      (by decide)⟩

/-- The run of `EraseTuples` on the vector `[10, 11, 12, 13, 14]` with the index
list `[1, 3]`. -/
theorem EraseTuples_example :
    EraseTuples ([10, 11, 12, 13, 14] : List Nat) [1, 3] = some (0, [10, 12, 14]) ∧
    kept ([10, 11, 12, 13, 14] : List Nat) [1, 3] 5 = [10, 12, 14] := by
  decide

/-- C37 (`EraseTuples` and indices off the end), amended.  For an index list that
holds an index `≥` the number `n` of tuples: when the list has fewer than `n`
entries `EraseTuples` returns `-100` and leaves the vector unchanged; when it has
`n` or more entries the test of the list length comes first, the vector is emptied
and 0 is returned. -/
theorem EraseTuples_out_of_range {α : Type} [Inhabited α] (arr : List α) (idxs : List Nat)
    (hex : ∃ i ∈ idxs, arr.length ≤ i) :
    (idxs.length < arr.length → EraseTuples arr idxs = some (-100, arr)) ∧
    (arr.length ≤ idxs.length → EraseTuples arr idxs = some (0, [])) := by
  obtain ⟨i, hi, hge⟩ := hex
  have hpos : idxs.length ≠ 0 := by
    intro h
    rw [List.length_eq_zero.mp h] at hi
    simp at hi
  constructor
  · intro hlt
    unfold EraseTuples
    rw [if_neg hpos, if_neg (by omega), if_pos]
    simp only [List.any_eq_true, decide_eq_true_eq]
    exact ⟨i, hi, hge⟩
  · intro hle
    unfold EraseTuples
    rw [if_neg hpos, if_pos hle]

/-- The theorem for C37 applied to the vector `[10, 11, 12]` and the index list
`[5]`. -/
theorem EraseTuples_out_of_range_witness :
    (∃ i ∈ ([5] : List Nat), ([10, 11, 12] : List Nat).length ≤ i) ∧
    ((([5] : List Nat).length < ([10, 11, 12] : List Nat).length →
        EraseTuples ([10, 11, 12] : List Nat) [5] = some (-100, [10, 11, 12])) ∧
      (([10, 11, 12] : List Nat).length ≤ ([5] : List Nat).length →
        EraseTuples ([10, 11, 12] : List Nat) [5] = some (0, []))) :=
  ⟨⟨5, by decide, by decide⟩,
    EraseTuples_out_of_range [10, 11, 12] [5] ⟨5, by decide, by decide⟩⟩

/-- C37, the counterexample.  The index list `[5]` holds an index off the end of the
vector `[10]` of one tuple; `EraseTuples` returns 0, not `-100`, and empties the
vector.  The same happens for `[7, 9]` on a vector of two tuples. -/
theorem EraseTuples_clears_on_long_list :
    (∃ i ∈ ([5] : List Nat), ([10] : List Nat).length ≤ i) ∧
    EraseTuples ([10] : List Nat) [5] = some (0, []) ∧
    EraseTuples ([10, 11] : List Nat) [7, 9] = some (0, []) ∧
    ¬ ∀ (arr idxs : List Nat), (∃ i ∈ idxs, arr.length ≤ i) →
        EraseTuples arr idxs = some (-100, arr) := by
  refine ⟨⟨5, by decide, by decide⟩, by decide, by decide, ?_⟩
  intro h
  have := h [10] [5] ⟨5, by decide, by decide⟩
  exact absurd this (by decide)

end ModifiedLambertProjectionArray

/-! ### `SegmentGrains::form_grains`: the seed search -/

namespace SegmentGrains

/-- The wrap-around of the seed search is the remainder modulo `totalpoints`. -/
theorem wrap_eq_emod (total rp : Int) (h0 : 0 ≤ rp) (h1 : rp ≤ total) :
    (if rp > total - 1 then rp - total else rp) = rp % total := by
  split_ifs with h
  · have e : rp = total := by omega
    rw [e]
    simp
  · rw [Int.emod_eq_of_lt h0 (by omega)]

/-- The seed search returns the first voxel among the indices it reads that is
unassigned and in phase, and `-1` when there is none. -/
theorem findSeed_eq_find (dc : DataContainer) (k : Nat) (rp : Int) :
    findSeed dc k rp = ((probes dc.totalpoints k rp).find?
      (fun v => decide (dc.grain_indicies v = -1 ∧ dc.phases v > 0))).getD (-1) := by
  induction k generalizing rp with
  | zero => rfl
  | succ k ih =>
    unfold findSeed probes
    simp only
    by_cases h : dc.grain_indicies
          (if rp > dc.totalpoints - 1 then rp - dc.totalpoints else rp) = -1 ∧
        dc.phases (if rp > dc.totalpoints - 1 then rp - dc.totalpoints else rp) > 0
    · rw [if_pos h, List.find?_cons_of_pos _ (by simpa using h)]
      rfl
    · rw [if_neg h, List.find?_cons_of_neg _ (by simpa using h)]
      exact ih _

/-- The `m`-th index read by the seed search is `(randpoint + m) % totalpoints`. -/
theorem probes_eq (total : Int) (hT : 1 ≤ total) (k : Nat) (rp : Int) (h0 : 0 ≤ rp)
    (h1 : rp ≤ total) :
    probes total k rp = (List.range k).map (fun m : Nat => (rp + (m : Int)) % total) := by
  induction k generalizing rp with
  | zero => rfl
  | succ k ih =>
    unfold probes
    simp only
    rw [wrap_eq_emod total rp h0 h1, List.range_succ_eq_map, List.map_cons, List.map_map]
    have hb := Int.emod_lt_of_pos rp (by omega : (0 : Int) < total)
    have hn := Int.emod_nonneg rp (by omega : total ≠ 0)
    rw [ih (rp % total + 1) (by omega) (by omega)]
    congr 1
    · simp
    · apply List.map_congr_left
      intro m _
      simp only [Function.comp, Nat.succ_eq_add_one, Nat.cast_add, Nat.cast_one]
      have e : rp % total + 1 + (m : Int) = rp % total + (1 + (m : Int)) := by ring
      have e2 : rp + ((m : Int) + 1) = rp + (1 + (m : Int)) := by ring
      rw [e, e2, Int.emod_add_emod]

/-- Distinct offsets below `totalpoints` give distinct indices. -/
theorem offset_inj (total rp : Int) (a b : Nat) (ha : (a : Int) < total) (hb : (b : Int) < total)
    (h : (rp + (a : Int)) % total = (rp + (b : Int)) % total) : a = b := by
  have hd : total ∣ (rp + (a : Int)) - (rp + (b : Int)) := Int.ModEq.dvd h.symm
  have hz : (rp + (a : Int)) - (rp + (b : Int)) = 0 := by
    apply Int.eq_zero_of_abs_lt_dvd hd
    rw [abs_lt]
    constructor <;> omega
  omega

/-- Within `totalpoints` iterations the seed search reads every voxel index of the
grid, each of them once. -/
theorem probes_cover (total : Int) (hT : 1 ≤ total) (rp : Int) (h0 : 0 ≤ rp) (h1 : rp ≤ total) :
    (probes total total.toNat rp).Nodup ∧
      ∀ v, v ∈ probes total total.toNat rp ↔ 0 ≤ v ∧ v < total := by
  rw [probes_eq total hT _ rp h0 h1]
  have hcast : ((total.toNat : Nat) : Int) = total := Int.toNat_of_nonneg (by omega)
  constructor
  · refine List.Nodup.map_on ?_ (List.nodup_range _)
    intro a ha b hb hab
    rw [List.mem_range] at ha hb
    exact offset_inj total rp a b (by omega) (by omega) hab
  · intro v
    rw [List.mem_map]
    constructor
    · rintro ⟨m, _, rfl⟩
      exact ⟨Int.emod_nonneg _ (by omega), Int.emod_lt_of_pos _ (by omega)⟩
    · rintro ⟨hv0, hv1⟩
      have hb := Int.emod_lt_of_pos (v - rp) (by omega : (0 : Int) < total)
      have hn := Int.emod_nonneg (v - rp) (by omega : total ≠ 0)
      refine ⟨((v - rp) % total).toNat, by rw [List.mem_range]; omega, ?_⟩
      rw [Int.toNat_of_nonneg hn, Int.add_emod_emod, add_sub_cancel,
        Int.emod_eq_of_lt hv0 hv1]

/-- The seed the search returns is the first voxel, in the order in which the
indices are read, that is unassigned and in phase; without such a voxel among the
indices read the search returns `-1`. -/
theorem findSeed_first (dc : DataContainer) (hT : 1 ≤ dc.totalpoints) (k : Nat) (rp : Int)
    (h0 : 0 ≤ rp) (h1 : rp ≤ dc.totalpoints) :
    (findSeed dc k rp ≠ -1 → ∃ m : Nat, m < k ∧
      findSeed dc k rp = (rp + (m : Int)) % dc.totalpoints ∧
      (dc.grain_indicies (findSeed dc k rp) = -1 ∧ dc.phases (findSeed dc k rp) > 0) ∧
      ∀ m2 : Nat, m2 < m →
        ¬ (dc.grain_indicies ((rp + (m2 : Int)) % dc.totalpoints) = -1 ∧
          dc.phases ((rp + (m2 : Int)) % dc.totalpoints) > 0)) ∧
    (findSeed dc k rp = -1 → ∀ m : Nat, m < k →
      ¬ (dc.grain_indicies ((rp + (m : Int)) % dc.totalpoints) = -1 ∧
        dc.phases ((rp + (m : Int)) % dc.totalpoints) > 0)) := by
  induction k generalizing rp with
  | zero =>
    refine ⟨fun h => absurd rfl h, fun _ m hm => ?_⟩
    omega
  | succ k ih =>
    have hb := Int.emod_lt_of_pos rp (by omega : (0 : Int) < dc.totalpoints)
    have hn := Int.emod_nonneg rp (by omega : dc.totalpoints ≠ 0)
    have hstep : findSeed dc (k + 1) rp
        = if dc.grain_indicies (rp % dc.totalpoints) = -1 ∧
              dc.phases (rp % dc.totalpoints) > 0 then rp % dc.totalpoints
          else findSeed dc k (rp % dc.totalpoints + 1) := by
      rw [← wrap_eq_emod dc.totalpoints rp h0 h1]
      rfl
    have hshift : ∀ j : Nat, (rp % dc.totalpoints + 1 + (j : Int)) % dc.totalpoints
        = (rp + ((j + 1 : Nat) : Int)) % dc.totalpoints := by
      intro j
      have e : rp % dc.totalpoints + 1 + (j : Int) = rp % dc.totalpoints + (1 + (j : Int)) := by
        ring
      have e2 : rp + ((j + 1 : Nat) : Int) = rp + (1 + (j : Int)) := by push_cast; ring
      rw [e, e2, Int.emod_add_emod]
    obtain ⟨i1, i2⟩ := ih (rp % dc.totalpoints + 1) (by omega) (by omega)
    rw [hstep]
    by_cases hm : dc.grain_indicies (rp % dc.totalpoints) = -1 ∧
        dc.phases (rp % dc.totalpoints) > 0
    · rw [if_pos hm]
      refine ⟨fun _ => ⟨0, by omega, by simp, hm, fun m2 h2 => by omega⟩, fun h => ?_⟩
      omega
    · rw [if_neg hm]
      constructor
      · intro hne
        obtain ⟨m, a1, a2, a3, a4⟩ := i1 hne
        refine ⟨m + 1, by omega, by rw [a2, hshift], a3, ?_⟩
        intro m2 h2
        cases m2 with
        | zero => simpa using hm
        | succ j =>
          rw [← hshift j]
          exact a4 j (by omega)
      · intro he m hmk
        cases m with
        | zero => simpa using hm
        | succ j =>
          rw [← hshift j]
          exact i2 he j (by omega)

/-- The outer loop of `form_grains` returns only from an iteration whose seed search
found nothing: the container it returns has no unassigned in-phase voxel. -/
theorem formLoop_exit (ops : OrientationOps) (tol : ℚ) (rg : Nat → UnitValue) (fuel : Nat)
    (dc : DataContainer) (c d : Nat) (r : DataContainer × Nat)
    (h : formLoop ops tol rg fuel dc c d = some r) :
    ∀ v, 0 ≤ v → v < r.1.totalpoints →
      ¬ (r.1.grain_indicies v = -1 ∧ r.1.phases v > 0) := by
  induction fuel generalizing dc c d with
  | zero => simp [formLoop] at h
  | succ fuel ih =>
    unfold formLoop at h
    simp only at h
    split at h
    next hs =>
      injection h with h
      rw [← h]
      intro v hv0 hv
      simp only at hv
      show ¬ (dc.grain_indicies v = -1 ∧ dc.phases v > 0)
      have hT : 1 ≤ dc.totalpoints := by omega
      have hrp := randpoint_bounds rg d dc.totalpoints hT
      have hcast : ((dc.totalpoints.toNat : Nat) : Int) = dc.totalpoints :=
        Int.toNat_of_nonneg (by omega)
      have hmem := ((probes_cover dc.totalpoints hT _ hrp.1 (by omega)).2 v).mpr ⟨hv0, hv⟩
      rw [probes_eq dc.totalpoints hT _ _ hrp.1 (by omega), List.mem_map] at hmem
      obtain ⟨m, hm, rfl⟩ := hmem
      exact (findSeed_first dc hT _ _ hrp.1 (by omega)).2 hs m (List.mem_range.mp hm)
    next hs =>
      split at h
      next hpos =>
        split at h
        · cases h
        · exact ih _ _ _ h
      next hneg => exact ih _ _ _ h

/-- C32 (the seed probe is exhaustive).  On a grid of at least one voxel, for every
start value `rp` in `0 .. totalpoints - 1` of the seed search: the indices read in
`totalpoints` iterations are `(rp + m) % totalpoints` for `m = 0, 1, ..`, that is
the voxels in cyclic order from `rp`, each voxel of the grid once; the search
returns the first of them that is unassigned and in phase and `-1` when there is
none; so it returns a seed exactly when some voxel of the grid is unassigned and in
phase.  The outer loop of `form_grains` therefore returns only a container without
an unassigned in-phase voxel. -/
theorem findSeed_exhaustive (dc : DataContainer) (hT : 1 ≤ dc.totalpoints) (rp : Int)
    (h0 : 0 ≤ rp) (h1 : rp ≤ dc.totalpoints - 1) :
    probes dc.totalpoints dc.totalpoints.toNat rp
      = (List.range dc.totalpoints.toNat).map
          (fun m : Nat => (rp + (m : Int)) % dc.totalpoints) ∧
    (probes dc.totalpoints dc.totalpoints.toNat rp).Nodup ∧
    (∀ v, v ∈ probes dc.totalpoints dc.totalpoints.toNat rp ↔ 0 ≤ v ∧ v < dc.totalpoints) ∧
    findSeed dc dc.totalpoints.toNat rp
      = ((probes dc.totalpoints dc.totalpoints.toNat rp).find?
          (fun v => decide (dc.grain_indicies v = -1 ∧ dc.phases v > 0))).getD (-1) ∧
    (findSeed dc dc.totalpoints.toNat rp ≠ -1 ↔
      ∃ v, 0 ≤ v ∧ v < dc.totalpoints ∧ dc.grain_indicies v = -1 ∧ dc.phases v > 0) ∧
    (findSeed dc dc.totalpoints.toNat rp ≠ -1 → ∃ m : Nat, m < dc.totalpoints.toNat ∧
      findSeed dc dc.totalpoints.toNat rp = (rp + (m : Int)) % dc.totalpoints ∧
      (dc.grain_indicies (findSeed dc dc.totalpoints.toNat rp) = -1 ∧
        dc.phases (findSeed dc dc.totalpoints.toNat rp) > 0) ∧
      ∀ m2 : Nat, m2 < m →
        ¬ (dc.grain_indicies ((rp + (m2 : Int)) % dc.totalpoints) = -1 ∧
          dc.phases ((rp + (m2 : Int)) % dc.totalpoints) > 0)) ∧
    (∀ (ops : OrientationOps) (tol : ℚ) (rg : Nat → UnitValue) (fuel c d : Nat)
      (r : DataContainer × Nat), formLoop ops tol rg fuel dc c d = some r →
      ∀ v, 0 ≤ v → v < r.1.totalpoints →
        ¬ (r.1.grain_indicies v = -1 ∧ r.1.phases v > 0)) := by
  obtain ⟨c1, c2⟩ := probes_cover dc.totalpoints hT rp h0 (by omega)
  obtain ⟨f1, f2⟩ := findSeed_first dc hT dc.totalpoints.toNat rp h0 (by omega)
  refine ⟨probes_eq dc.totalpoints hT _ rp h0 (by omega), c1, c2, findSeed_eq_find dc _ rp,
    ⟨fun h => ?_, fun h => ?_⟩, f1,
    fun ops tol rg fuel c d r hr => formLoop_exit ops tol rg fuel dc c d r hr⟩
  · obtain ⟨m, _, hm, hmatch, _⟩ := f1 h
    refine ⟨_, ?_, ?_, hmatch.1, hmatch.2⟩
    · rw [hm]; exact Int.emod_nonneg _ (by omega)
    · rw [hm]; exact Int.emod_lt_of_pos _ (by omega)
  · obtain ⟨v, hv0, hv, hmatch⟩ := h
    intro he
    have hmem := (c2 v).mpr ⟨hv0, hv⟩
    rw [probes_eq dc.totalpoints hT _ rp h0 (by omega), List.mem_map] at hmem
    obtain ⟨m, hm, rfl⟩ := hmem
    exact f2 he m (List.mem_range.mp hm) hmatch

/-- The theorem for C32 applied to the grid `grid` and the start value 3. -/
theorem findSeed_exhaustive_witness :
    (1 ≤ Examples.grid.totalpoints ∧ (0 : Int) ≤ 3 ∧ (3 : Int) ≤ Examples.grid.totalpoints - 1) ∧
    (probes Examples.grid.totalpoints Examples.grid.totalpoints.toNat 3
      = (List.range Examples.grid.totalpoints.toNat).map
          (fun m : Nat => (3 + (m : Int)) % Examples.grid.totalpoints) ∧
    (probes Examples.grid.totalpoints Examples.grid.totalpoints.toNat 3).Nodup ∧
    (∀ v, v ∈ probes Examples.grid.totalpoints Examples.grid.totalpoints.toNat 3 ↔
      0 ≤ v ∧ v < Examples.grid.totalpoints) ∧
    findSeed Examples.grid Examples.grid.totalpoints.toNat 3
      = ((probes Examples.grid.totalpoints Examples.grid.totalpoints.toNat 3).find?
          (fun v => decide (Examples.grid.grain_indicies v = -1 ∧ Examples.grid.phases v > 0))
        ).getD (-1) ∧
    (findSeed Examples.grid Examples.grid.totalpoints.toNat 3 ≠ -1 ↔
      ∃ v, 0 ≤ v ∧ v < Examples.grid.totalpoints ∧ Examples.grid.grain_indicies v = -1 ∧
        Examples.grid.phases v > 0) ∧
    (findSeed Examples.grid Examples.grid.totalpoints.toNat 3 ≠ -1 →
      ∃ m : Nat, m < Examples.grid.totalpoints.toNat ∧
      findSeed Examples.grid Examples.grid.totalpoints.toNat 3
        = (3 + (m : Int)) % Examples.grid.totalpoints ∧
      (Examples.grid.grain_indicies (findSeed Examples.grid Examples.grid.totalpoints.toNat 3)
          = -1 ∧
        Examples.grid.phases (findSeed Examples.grid Examples.grid.totalpoints.toNat 3) > 0) ∧
      ∀ m2 : Nat, m2 < m →
        ¬ (Examples.grid.grain_indicies ((3 + (m2 : Int)) % Examples.grid.totalpoints) = -1 ∧
          Examples.grid.phases ((3 + (m2 : Int)) % Examples.grid.totalpoints) > 0)) ∧
    (∀ (ops : OrientationOps) (tol : ℚ) (rg : Nat → UnitValue) (fuel c d : Nat)
      (r : DataContainer × Nat), formLoop ops tol rg fuel Examples.grid c d = some r →
      ∀ v, 0 ≤ v → v < r.1.totalpoints →
        ¬ (r.1.grain_indicies v = -1 ∧ r.1.phases v > 0))) :=
  ⟨⟨by decide, by decide, by decide⟩,
    findSeed_exhaustive Examples.grid (by decide) 3 (by decide) (by decide)⟩

/-- The seed search on the grid `grid` started at voxel 3, which is out of phase:
the indices read are 3, 0, 1, 2 and the seed is voxel 0. -/
theorem findSeed_example :
    probes Examples.grid.totalpoints 4 3 = [3, 0, 1, 2] ∧
    findSeed Examples.grid 4 3 = 0 := by
  decide

/-! The bounds of `voxelslist` and `m_Grains`. -/

/-- After a voxel has joined a grain the write position is again inside the work
list. -/
theorem joinGrain_room (c : Nat) (neighbor : Int) (s : GrowState) :
    (joinGrain c neighbor s).size < (joinGrain c neighbor s).voxelslist.length := by
  unfold joinGrain
  simp only
  split
  next h =>
    unfold resize
    rw [List.length_append, List.length_take, List.length_replicate]
    rw [List.length_set] at h ⊢
    have := initialVoxelsListSize_pos
    omega
  next h =>
    rw [List.length_set] at h ⊢
    omega

/-- One direction of the checked growth: with the write position inside the work
list the checked step is the step of `visit`, and the write position stays inside. -/
theorem visitChecked_eq (ops : OrientationOps) (tol : ℚ) (dc : DataContainer) (c : Nat)
    (cp : Int) (s : GrowState) (i : Nat) (h : s.size < s.voxelslist.length) :
    visitChecked ops tol dc c cp (some s) i = some (visit ops tol dc c cp s i) ∧
    (visit ops tol dc c cp s i).size < (visit ops tol dc c cp s i).voxelslist.length := by
  have e : visitChecked ops tol dc c cp (some s) i =
      if good dc.xpoints dc.ypoints dc.zpoints i (colOf dc.xpoints cp)
          (rowOf dc.xpoints dc.ypoints cp) (planeOf dc.xpoints dc.ypoints cp) = true
          ∧ s.grain_indicies (cp + neighpoints dc.xpoints dc.ypoints i) = -1
          ∧ dc.phases (cp + neighpoints dc.xpoints dc.ypoints i) > 0 then
        if misoW ops dc cp (cp + neighpoints dc.xpoints dc.ypoints i) < tol then
          joinGrainChecked c (cp + neighpoints dc.xpoints dc.ypoints i) s
        else some s
      else some s := rfl
  rw [e, visit_eq]
  split
  · split
    · unfold joinGrainChecked
      rw [if_pos h]
      exact ⟨rfl, joinGrain_room c _ s⟩
    · exact ⟨rfl, h⟩
  · exact ⟨rfl, h⟩

theorem foldl_visitChecked_eq (ops : OrientationOps) (tol : ℚ) (dc : DataContainer) (c : Nat)
    (cp : Int) (l : List Nat) (s : GrowState) (h : s.size < s.voxelslist.length) :
    l.foldl (visitChecked ops tol dc c cp) (some s) = some (l.foldl (visit ops tol dc c cp) s) ∧
    (l.foldl (visit ops tol dc c cp) s).size
      < (l.foldl (visit ops tol dc c cp) s).voxelslist.length := by
  induction l generalizing s with
  | nil => exact ⟨rfl, h⟩
  | cons i r ih =>
    obtain ⟨e, h2⟩ := visitChecked_eq ops tol dc c cp s i h
    rw [List.foldl_cons, List.foldl_cons, e]
    exact ih _ h2

theorem growChecked_succ (ops : OrientationOps) (tol : ℚ) (dc : DataContainer) (c : Nat)
    (s : GrowState) (j fuel : Nat) :
    growChecked ops tol dc c (fuel + 1) s j =
      if j < s.size then
        match directions.foldl (visitChecked ops tol dc c (s.voxelslist.getD j 0)) (some s) with
        | none => Checked.outOfBounds
        | some s' => growChecked ops tol dc c fuel s' (j + 1)
      else Checked.done s := rfl

theorem grow_succ (ops : OrientationOps) (tol : ℚ) (dc : DataContainer) (c : Nat)
    (s : GrowState) (j fuel : Nat) :
    grow ops tol dc c (fuel + 1) s j =
      if j < s.size then
        grow ops tol dc c fuel
          (directions.foldl (visit ops tol dc c (s.voxelslist.getD j 0)) s) (j + 1)
      else some s := rfl

theorem formLoop_succ (ops : OrientationOps) (tol : ℚ) (rg : Nat → UnitValue) (fuel : Nat)
    (dc : DataContainer) (c d : Nat) :
    formLoop ops tol rg (fuel + 1) dc c d
      = if findSeed dc dc.totalpoints.toNat
            (truncToInt ((rg d).val * ((dc.totalpoints - 1 : Int) : ℚ))) = -1 then some (dc, c)
        else if findSeed dc dc.totalpoints.toNat
            (truncToInt ((rg d).val * ((dc.totalpoints - 1 : Int) : ℚ))) ≥ 0 then
          match grow ops tol dc c (fuel + 1) (seedState dc c (findSeed dc dc.totalpoints.toNat
            (truncToInt ((rg d).val * ((dc.totalpoints - 1 : Int) : ℚ))))) 0 with
          | none => none
          | some s =>
            formLoop ops tol rg fuel
              (storeGrain dc c (findSeed dc dc.totalpoints.toNat
                (truncToInt ((rg d).val * ((dc.totalpoints - 1 : Int) : ℚ))))
                (eraseMinusOne s.voxelslist) s.grain_indicies)
              (c + 1) (d + 1)
        else formLoop ops tol rg fuel dc c (d + 1) := rfl

theorem formLoopChecked_succ (ops : OrientationOps) (tol : ℚ) (rg : Nat → UnitValue)
    (fuel : Nat) (dc : DataContainer) (c d : Nat) :
    formLoopChecked ops tol rg (fuel + 1) dc c d
      = if findSeed dc dc.totalpoints.toNat
            (truncToInt ((rg d).val * ((dc.totalpoints - 1 : Int) : ℚ))) = -1 then
          Checked.done (dc, c)
        else if findSeed dc dc.totalpoints.toNat
            (truncToInt ((rg d).val * ((dc.totalpoints - 1 : Int) : ℚ))) ≥ 0 then
          if 0 < (List.replicate initialVoxelsListSize (-1 : Int)).length then
            match growChecked ops tol dc c (fuel + 1)
                (seedState dc c (findSeed dc dc.totalpoints.toNat
                  (truncToInt ((rg d).val * ((dc.totalpoints - 1 : Int) : ℚ))))) 0 with
            | Checked.outOfFuel => Checked.outOfFuel
            | Checked.outOfBounds => Checked.outOfBounds
            | Checked.done s =>
              match storeGrainChecked dc c (findSeed dc dc.totalpoints.toNat
                  (truncToInt ((rg d).val * ((dc.totalpoints - 1 : Int) : ℚ))))
                  (eraseMinusOne s.voxelslist) s.grain_indicies with
              | none => Checked.outOfBounds
              | some dc' => formLoopChecked ops tol rg fuel dc' (c + 1) (d + 1)
          else Checked.outOfBounds
        else formLoopChecked ops tol rg fuel dc c (d + 1) := rfl

/-- The checked growth never writes outside the work list: started with the write
position inside the list it is the growth of `grow`. -/
theorem growChecked_eq (ops : OrientationOps) (tol : ℚ) (dc : DataContainer) (c : Nat)
    (fuel : Nat) (s : GrowState) (j : Nat) (h : s.size < s.voxelslist.length) :
    growChecked ops tol dc c fuel s j = Checked.ofOption (grow ops tol dc c fuel s j) := by
  induction fuel generalizing s j with
  | zero => rfl
  | succ fuel ih =>
    rw [growChecked_succ, grow_succ]
    by_cases hj : j < s.size
    · obtain ⟨e, h2⟩ := foldl_visitChecked_eq ops tol dc c (s.voxelslist.getD j 0) directions s h
      rw [if_pos hj, if_pos hj, e]
      exact ih _ _ h2
    · rw [if_neg hj, if_neg hj]
      rfl

/-- The write position of the state in which a growth starts is inside the work
list. -/
theorem seedState_room (dc : DataContainer) (c : Nat) (seed : Int) :
    (seedState dc c seed).size < (seedState dc c seed).voxelslist.length := by
  unfold seedState
  simp only
  rw [List.length_set, List.length_replicate]
  have := two_le_initialVoxelsListSize
  omega

/-- After a grain is stored the next grain number is an index of the grain table. -/
theorem storeGrain_room (dc : DataContainer) (c : Nat) (seed : Int) (l : List Int)
    (gi : Int → Int) (hc : c < dc.numGrains) :
    c + 1 < (storeGrain dc c seed l gi).numGrains := by
  unfold storeGrain
  simp only
  split
  next h =>
    simp only
    omega
  next h =>
    simp only
    omega

/-- The checked outer loop started with `graincount` inside the grain table is the
loop of `formLoop`. -/
theorem formLoopChecked_eq (ops : OrientationOps) (tol : ℚ) (rg : Nat → UnitValue) (fuel : Nat)
    (dc : DataContainer) (c d : Nat) (h : c < dc.numGrains) :
    formLoopChecked ops tol rg fuel dc c d = Checked.ofOption (formLoop ops tol rg fuel dc c d) := by
  induction fuel generalizing dc c d with
  | zero => rfl
  | succ fuel ih =>
    have hlen : 0 < (List.replicate initialVoxelsListSize (-1 : Int)).length := by
      rw [List.length_replicate]
      exact initialVoxelsListSize_pos
    rw [formLoopChecked_succ, formLoop_succ]
    generalize findSeed dc dc.totalpoints.toNat
      (truncToInt ((rg d).val * ((dc.totalpoints - 1 : Int) : ℚ))) = seed
    by_cases hs : seed = -1
    · rw [if_pos hs, if_pos hs]
      rfl
    · rw [if_neg hs, if_neg hs]
      by_cases hp : seed ≥ 0
      · rw [if_pos hp, if_pos hp, if_pos hlen,
          growChecked_eq ops tol dc c (fuel + 1) _ 0 (seedState_room dc c seed)]
        cases hg : grow ops tol dc c (fuel + 1) (seedState dc c seed) 0 with
        | none => rfl
        | some s =>
          simp only [Checked.ofOption]
          unfold storeGrainChecked
          rw [if_pos h]
          exact ih _ _ _ (storeGrain_room dc c _ _ _ h)
      · rw [if_neg hp, if_neg hp]
        exact ih _ _ _ h

/-- C39 (the grain table and the work list never overflow).  If the grain table
`m_Grains` has at least 2 entries on entry, the run of `form_grains` in which every
access `m_Grains[graincount]` and every write `voxelslist[size]` is checked against
the bounds of the vector is, for every fuel, the run of the model without checks: no
check ever fails.  The same holds from every later state of the loop in which
`graincount` is an index of the table, for the growth of a grain from its seed, and
the two bounds are restored by every step: after a voxel has joined a grain `size`
is below the length of `voxelslist`, and after a grain is stored at an index of the
table `graincount + 1` is below the size of `m_Grains`. -/
theorem form_grains_in_bounds (ops : OrientationOps) (tol : ℚ) (rg : Nat → UnitValue)
    (dc : DataContainer) (hgr : 2 ≤ dc.numGrains) :
    (∀ fuel, formLoopChecked ops tol rg fuel dc 1 0
      = Checked.ofOption (formLoop ops tol rg fuel dc 1 0)) ∧
    (∀ fuel, (formLoopChecked ops tol rg fuel dc 1 0).isOutOfBounds = false) ∧
    (∀ fuel (dc1 : DataContainer) (c d : Nat), c < dc1.numGrains →
      formLoopChecked ops tol rg fuel dc1 c d
        = Checked.ofOption (formLoop ops tol rg fuel dc1 c d)) ∧
    (∀ fuel (dc1 : DataContainer) (c : Nat) (seed : Int),
      growChecked ops tol dc1 c fuel (seedState dc1 c seed) 0
        = Checked.ofOption (grow ops tol dc1 c fuel (seedState dc1 c seed) 0)) ∧
    (∀ (c : Nat) (neighbor : Int) (s : GrowState),
      (joinGrain c neighbor s).size < (joinGrain c neighbor s).voxelslist.length) ∧
    (∀ (dc1 : DataContainer) (c : Nat) (seed : Int) (l : List Int) (gi : Int → Int),
      c < dc1.numGrains → c + 1 < (storeGrain dc1 c seed l gi).numGrains) := by
  refine ⟨fun fuel => formLoopChecked_eq ops tol rg fuel dc 1 0 (by omega), fun fuel => ?_,
    fun fuel dc1 c d h => formLoopChecked_eq ops tol rg fuel dc1 c d h,
    fun fuel dc1 c seed => growChecked_eq ops tol dc1 c fuel _ 0 (seedState_room dc1 c seed),
    joinGrain_room, storeGrain_room⟩
  rw [formLoopChecked_eq ops tol rg fuel dc 1 0 (by omega)]
  cases formLoop ops tol rg fuel dc 1 0 <;> rfl

/-- The theorem for C39 applied to the grid `grid`, whose grain table has 2
entries. -/
theorem form_grains_in_bounds_witness :
    2 ≤ Examples.grid.numGrains ∧
    ((∀ fuel, formLoopChecked Examples.ops 5 Examples.rg fuel Examples.grid 1 0
      = Checked.ofOption (formLoop Examples.ops 5 Examples.rg fuel Examples.grid 1 0)) ∧
    (∀ fuel,
      (formLoopChecked Examples.ops 5 Examples.rg fuel Examples.grid 1 0).isOutOfBounds
        = false) ∧
    (∀ fuel (dc1 : DataContainer) (c d : Nat), c < dc1.numGrains →
      formLoopChecked Examples.ops 5 Examples.rg fuel dc1 c d
        = Checked.ofOption (formLoop Examples.ops 5 Examples.rg fuel dc1 c d)) ∧
    (∀ fuel (dc1 : DataContainer) (c : Nat) (seed : Int),
      growChecked Examples.ops 5 dc1 c fuel (seedState dc1 c seed) 0
        = Checked.ofOption (grow Examples.ops 5 dc1 c fuel (seedState dc1 c seed) 0)) ∧
    (∀ (c : Nat) (neighbor : Int) (s : GrowState),
      (joinGrain c neighbor s).size < (joinGrain c neighbor s).voxelslist.length) ∧
    (∀ (dc1 : DataContainer) (c : Nat) (seed : Int) (l : List Int) (gi : Int → Int),
      c < dc1.numGrains → c + 1 < (storeGrain dc1 c seed l gi).numGrains)) :=
  ⟨by decide, form_grains_in_bounds Examples.ops 5 Examples.rg Examples.grid (by decide)⟩

/-- The checks are not idle.  On the grid `grid` the checked run ends with a result;
with a grain table of a single entry the first access `m_Grains[1]` is outside the
table and the checked run stops there. -/
theorem formLoopChecked_examples :
    (formLoopChecked Examples.ops 5 Examples.rg 10 Examples.grid 1 0).isOutOfBounds = false ∧
    (formLoop Examples.ops 5 Examples.rg 10 Examples.grid 1 0).isSome = true ∧
    (formLoopChecked Examples.ops 5 Examples.rg 10 Examples.shortTable 1 0).isOutOfBounds
      = true := by
  refine ⟨by decide!, by decide!, by decide!⟩

/-! The outer loop with an invariant of one's choice. -/

/-- The two invariants of the growth loop give the outcome `Grown` for the list that
is stored. -/
theorem grown_of (ops : OrientationOps) (tol : ℚ) (dc : DataContainer) (c : Nat) (seed : Int)
    (s' : GrowState)
    (hinv : GrowInv dc.totalpoints dc.phases dc.grain_indicies c seed s')
    (hlink : GrowLink ops tol dc s' s'.size []) :
    Grown ops tol dc c seed (eraseMinusOne s'.voxelslist) s'.grain_indicies := by
  obtain ⟨hnd, hhd, hsub, hgi⟩ := hinv.erase
  obtain ⟨used, k, hvl, hlen, hl1, hl2⟩ := hlink
  have he : eraseMinusOne s'.voxelslist = used := by
    rw [hinv.erase_eq, take_used _ used k _ hvl hlen]
  rw [he] at hnd hhd hsub hgi ⊢
  refine ⟨hnd, hhd, hsub, hgi, hl1, ?_⟩
  intro v hv i hi
  obtain ⟨m, hm, hmv⟩ := List.getElem_of_mem hv
  have hgd : used.getD m 0 = v := by
    rw [List.getD_eq_getElem _ _ hm]; exact hmv
  have := hl2 m i (Or.inl ⟨by omega, hi⟩)
  rw [hgd] at this
  exact this

/-- The outer loop of `form_grains` returns, and a property `I` of the container
and of `graincount` that every stored grain preserves holds on exit. -/
theorem formLoop_invariant (ops : OrientationOps) (tol : ℚ) (rg : Nat → UnitValue)
    (dc0 : DataContainer)
    (hx : 1 ≤ dc0.xpoints) (hy : 1 ≤ dc0.ypoints) (hz : 1 ≤ dc0.zpoints)
    (htot : dc0.totalpoints = dc0.xpoints * dc0.ypoints * dc0.zpoints)
    (I : DataContainer → Nat → Prop)
    (hstep : ∀ (dc : DataContainer) (c : Nat) (seed : Int) (l : List Int) (gi : Int → Int),
      FormInv dc0 dc c → I dc c → Grown ops tol dc c seed l gi →
      I (storeGrain dc c seed l gi) (c + 1))
    (fuel : Nat) (dc : DataContainer) (c d : Nat) (hinv : FormInv dc0 dc c) (hI : I dc c)
    (hf : (unassigned dc.totalpoints dc.phases dc.grain_indicies).card + 1 ≤ fuel) :
    ∃ dc' c', formLoop ops tol rg fuel dc c d = some (dc', c') ∧ FormInv dc0 dc' c' ∧
      unassigned dc'.totalpoints dc'.phases dc'.grain_indicies = ∅ ∧ I dc' c' := by
  induction fuel generalizing dc c d with
  | zero => omega
  | succ fuel ih =>
    have hT : 1 ≤ dc.totalpoints := by
      rw [hinv.total, htot]
      exact one_le_mul_of_one_le_of_one_le (one_le_mul_of_one_le_of_one_le hx hy) hz
    have hrp := randpoint_bounds rg d dc.totalpoints hT
    rw [formLoop_succ]
    generalize truncToInt ((rg d).val * ((dc.totalpoints - 1 : Int) : ℚ)) = rp at hrp ⊢
    by_cases hs : findSeed dc dc.totalpoints.toNat rp = -1
    · rw [if_pos hs]
      refine ⟨dc, c, rfl, hinv, ?_, hI⟩
      rw [Finset.eq_empty_iff_forall_not_mem]
      intro v hv
      have hv' := mem_unassigned.mp hv
      have hall := (findSeed_first dc hT _ rp hrp.1 (by omega)).2 hs
      have hmem := ((probes_cover dc.totalpoints hT rp hrp.1 (by omega)).2 v).mpr hv'.1
      rw [probes_eq dc.totalpoints hT _ rp hrp.1 (by omega), List.mem_map] at hmem
      obtain ⟨m, hm, rfl⟩ := hmem
      exact hall m (List.mem_range.mp hm) hv'.2
    · rw [if_neg hs]
      have hsome := findSeed_some dc dc.totalpoints.toNat rp hrp.1 (by omega) hT hs
      generalize findSeed dc dc.totalpoints.toNat rp = seed at hs hsome ⊢
      rw [if_pos (show seed ≥ 0 from hsome.1.1)]
      have hmem : seed ∈ unassigned dc.totalpoints dc.phases dc.grain_indicies :=
        mem_unassigned.mpr hsome
      have hdx : 1 ≤ dc.xpoints := by rw [hinv.xp]; exact hx
      have hdy : 1 ≤ dc.ypoints := by rw [hinv.yp]; exact hy
      have hdt : dc.totalpoints = dc.xpoints * dc.ypoints * dc.zpoints := by
        rw [hinv.total, hinv.xp, hinv.yp, hinv.zp]; exact htot
      obtain ⟨s', hgrow, hs'⟩ := grow_inv ops tol dc c dc.grain_indicies seed hinv.cpos hdx hdy hdt
        (fuel + 1) (seedState dc c seed) 0
        (seed_inv dc.totalpoints dc.phases dc.grain_indicies c seed hmem)
        (Nat.zero_le _) (by omega)
      have hlink := grow_link ops tol dc c (fuel + 1) (seedState dc c seed) 0 (Nat.zero_le _)
        (seed_link ops tol dc c seed) s' hgrow
      have hgrown := grown_of ops tol dc c seed s' hs' hlink
      rw [hgrow]
      simp only
      have hseedin : seed ∈ eraseMinusOne s'.voxelslist := List.mem_of_mem_head? hgrown.head
      obtain ⟨hI2, hcard⟩ := storeGrain_inv dc0 dc c hinv seed _ _ hgrown.nodup hgrown.sub
        hgrown.ids hseedin
      obtain ⟨e1, e2, e3, e4, e5, e6⟩ := storeGrain_fields dc c seed
        (eraseMinusOne s'.voxelslist) s'.grain_indicies
      apply ih _ (c + 1) (d + 1) hI2 (hstep dc c seed _ _ hinv hI hgrown)
      rw [e4, e5, e6]
      omega

/-- Storing a grain leaves the orientations and the crystal structures alone and
records the phase of the seed. -/
theorem storeGrain_data (dc : DataContainer) (c : Nat) (seed : Int) (l : List Int)
    (gi : Int → Int) :
    (storeGrain dc c seed l gi).crystruct = dc.crystruct ∧
    (storeGrain dc c seed l gi).quats = dc.quats ∧
    (c < dc.numGrains → ((storeGrain dc c seed l gi).m_Grains c).phase = dc.phases seed) := by
  unfold storeGrain
  simp only
  split
  next h =>
    refine ⟨rfl, rfl, fun hc => ?_⟩
    simp only
    rw [if_neg (by omega)]
    simp
  next h =>
    refine ⟨rfl, rfl, fun hc => ?_⟩
    simp

/-! The phase of a grain. -/

/-- A voxel admitted by the test `w < tol` with a tolerance of at most `10000` has
the crystal structure of the voxel it was examined from. -/
theorem misoW_class (ops : OrientationOps) (tol : ℚ) (dc : DataContainer) (a b : Int)
    (htol : tol ≤ 10000) (h : misoW ops dc a b < tol) : classAt dc b = classAt dc a := by
  unfold misoW at h
  by_cases hc : classAt dc a = classAt dc b
  · exact hc.symm
  · rw [if_neg hc] at h
    exact absurd (lt_of_lt_of_le h htol) (lt_irrefl _)

/-- For a tolerance of at most `10000` every voxel of a grown list has the crystal
structure of the seed. -/
theorem Grown.sameClass {ops : OrientationOps} {tol : ℚ} {dc : DataContainer} {c : Nat}
    {seed : Int} {l : List Int} {gi : Int → Int} (h : Grown ops tol dc c seed l gi)
    (htol : tol ≤ 10000) : ∀ v ∈ l, classAt dc v = classAt dc seed := by
  have hseed : l.getD 0 0 = seed := by
    have := h.head
    cases l with
    | nil => simp at this
    | cons a r =>
      simp only [List.head?_cons, Option.some.injEq] at this
      simpa using this
  have hidx : ∀ m, m < l.length → classAt dc (l.getD m 0) = classAt dc seed := by
    intro m
    induction m using Nat.strong_induction_on with
    | _ m ih =>
      intro hm
      by_cases h0 : m = 0
      · rw [h0, hseed]
      · obtain ⟨m', hm', i, _, _, _, hw⟩ := h.link m (by omega) hm
        rw [misoW_class ops tol dc _ _ htol hw]
        exact ih m' hm' (by omega)
  intro v hv
  obtain ⟨m, hm, hmv⟩ := List.getElem_of_mem hv
  have := hidx m hm
  rw [List.getD_eq_getElem _ _ hm, hmv] at this
  exact this

/-- Storing a grown grain keeps the invariant `PhaseInv`. -/
theorem phase_step (ops : OrientationOps) (tol : ℚ) (dc0 dc : DataContainer) (c : Nat)
    (seed : Int) (l : List Int) (gi : Int → Int) (h2 : 2 ≤ dc0.numGrains)
    (hinv : FormInv dc0 dc c) (hI : PhaseInv tol dc0 dc c) (hg : Grown ops tol dc c seed l gi) :
    PhaseInv tol dc0 (storeGrain dc c seed l gi) (c + 1) := by
  obtain ⟨d1, _, d3⟩ := storeGrain_data dc c seed l gi
  obtain ⟨_, g2, g3⟩ := storeGrain_grains dc c seed l gi
  have hcn := (hinv.grains h2).1
  have hcl : ∀ v, classAt dc v = classAt dc0 v := by
    intro v
    unfold classAt
    rw [hI.1, hinv.phases]
  refine ⟨d1.trans hI.1, ?_⟩
  intro g hg1 hgc
  by_cases hgeq : g = c
  · subst hgeq
    refine ⟨l, seed, g2 hcn, hg.head, by rw [d3 hcn, hinv.phases], ?_⟩
    intro v hv
    refine ⟨?_, fun htol => ?_⟩
    · have := (mem_unassigned.mp (hg.sub v hv)).2.2
      rw [hinv.phases] at this
      exact this
    · rw [← hcl v, ← hcl seed]
      exact hg.sameClass htol v hv
  · rw [g3 hcn g (by omega)]
    exact hI.2 g hg1 (by omega)

/-- C33, as amended (the phase of a feature).  On a grid whose voxels are all
unassigned on entry and with a grain table of at least two entries, `form_grains`
returns, and for every grain `g` created: its voxel list holds exactly the voxels
with the grain number `g`; the phase recorded for the grain is the phase
`phases[seed]` of the first entry `seed` of the list; every voxel of the list is in
phase (`phases > 0`); and, for a tolerance of at most `10000`, every voxel of the
list has the crystal structure `crystruct[phases[..]]` of the seed.  The phase index
itself is not compared by the grouping test. -/
theorem form_grains_feature_phase (ops : OrientationOps) (tol : ℚ) (rg : Nat → UnitValue)
    (dc : DataContainer) (hx : 1 ≤ dc.xpoints) (hy : 1 ≤ dc.ypoints) (hz : 1 ≤ dc.zpoints)
    (htot : dc.totalpoints = dc.xpoints * dc.ypoints * dc.zpoints)
    (hun : ∀ v, 0 ≤ v → v < dc.totalpoints → dc.grain_indicies v = -1)
    (hgr : 2 ≤ dc.numGrains)
    (fuel : Nat) (hfuel : dc.totalpoints.toNat + 1 ≤ fuel) :
    ∃ dc' c', formLoop ops tol rg fuel dc 1 0 = some (dc', c') ∧
      form_grains ops tol rg fuel dc = some dc' ∧
      ∀ g : Nat, 1 ≤ g → g < c' → ∃ l seed, (dc'.m_Grains g).voxellist = some l ∧
        (∀ v, v ∈ l ↔ (0 ≤ v ∧ v < dc.totalpoints ∧ dc'.grain_indicies v = g)) ∧
        l.head? = some seed ∧
        (dc'.m_Grains g).phase = dc.phases seed ∧
        ∀ v ∈ l, dc.phases v > 0 ∧ (tol ≤ 10000 → classAt dc v = classAt dc seed) := by
  obtain ⟨dc', c', r1, r2, _, r4⟩ := formLoop_invariant ops tol rg dc hx hy hz htot
    (PhaseInv tol dc)
    (fun dc1 c seed l gi hinv hI hg => phase_step ops tol dc dc1 c seed l gi hgr hinv hI hg)
    fuel dc 1 0 (formInv_init dc hun) ⟨rfl, fun g h1 h2 => by omega⟩
    (by have := unassigned_card_le dc.totalpoints dc.phases dc.grain_indicies; omega)
  refine ⟨dc', c', r1, by simp [form_grains, r1], ?_⟩
  intro g hg1 hg
  obtain ⟨l, seed, a1, a2, a3, a4⟩ := r4.2 g hg1 hg
  obtain ⟨l2, b1, _, b3⟩ := (r2.grains hgr).2 g hg1 hg
  rw [a1] at b1
  cases b1
  refine ⟨l, seed, a1, ?_, a2, a3, a4⟩
  intro v
  rw [b3 v, r2.total]

/-- The theorem for C33 applied to the grid `twoPhase`. -/
theorem form_grains_feature_phase_witness :
    (1 ≤ Examples.twoPhase.xpoints ∧ 1 ≤ Examples.twoPhase.ypoints ∧
      1 ≤ Examples.twoPhase.zpoints ∧
      Examples.twoPhase.totalpoints
        = Examples.twoPhase.xpoints * Examples.twoPhase.ypoints * Examples.twoPhase.zpoints ∧
      (∀ v, 0 ≤ v → v < Examples.twoPhase.totalpoints →
        Examples.twoPhase.grain_indicies v = -1) ∧
      2 ≤ Examples.twoPhase.numGrains ∧ Examples.twoPhase.totalpoints.toNat + 1 ≤ 10) ∧
    ∃ dc' c', formLoop Examples.ops 5 Examples.rg 10 Examples.twoPhase 1 0 = some (dc', c') ∧
      form_grains Examples.ops 5 Examples.rg 10 Examples.twoPhase = some dc' ∧
      ∀ g : Nat, 1 ≤ g → g < c' → ∃ l seed, (dc'.m_Grains g).voxellist = some l ∧
        (∀ v, v ∈ l ↔
          (0 ≤ v ∧ v < Examples.twoPhase.totalpoints ∧ dc'.grain_indicies v = g)) ∧
        l.head? = some seed ∧
        (dc'.m_Grains g).phase = Examples.twoPhase.phases seed ∧
        ∀ v ∈ l, Examples.twoPhase.phases v > 0 ∧
          ((5 : ℚ) ≤ 10000 → classAt Examples.twoPhase v = classAt Examples.twoPhase seed) :=
  ⟨⟨by decide, by decide, by decide, by decide, fun _ _ _ => rfl, by decide, by decide⟩,
    form_grains_feature_phase Examples.ops 5 Examples.rg Examples.twoPhase (by decide)
      (by decide) (by decide) (by decide) (fun _ _ _ => rfl) (by decide) 10 (by decide)⟩

/-- C33, counterexample.  On the grid `twoPhase` voxel 0 has the phase 1 and voxel 1
the phase 2; both phases have the crystal structure 1 and the voxels have one
orientation.  The grouping test compares `crystruct[phases[..]]`, so voxel 1 joins
the grain seeded at voxel 0: grain 1 has the voxel list `[0, 1]` and the recorded
phase 1, the phase of its seed, while its voxel 1 has the phase 2. -/
theorem form_grains_mixes_phases :
    Examples.twoPhase.phases 0 = 1 ∧ Examples.twoPhase.phases 1 = 2 ∧
    formSeeds Examples.ops 5 Examples.rg 10 Examples.twoPhase 1 0 = some [0] ∧
    (form_grains Examples.ops 5 Examples.rg 10 Examples.twoPhase).map
      (fun dc => ((dc.m_Grains 1).voxellist, (dc.m_Grains 1).phase,
        dc.grain_indicies 0, dc.grain_indicies 1))
      = some (some [0, 1], 1, 1, 1) ∧
    ¬ (∀ v ∈ [(0 : Int), 1], Examples.twoPhase.phases v = Examples.twoPhase.phases 0) := by
  refine ⟨by decide, by decide, by decide!, by decide!, by decide⟩

/-! The grains as the components of the grouping graph. -/

/-- The grouping graph depends on the dimensions, the phases, the crystal structures
and the orientations only. -/
theorem edge_congr (ops : OrientationOps) (tol : ℚ) (dc0 dc : DataContainer)
    (h1 : dc.xpoints = dc0.xpoints) (h2 : dc.ypoints = dc0.ypoints)
    (h3 : dc.zpoints = dc0.zpoints) (h4 : dc.phases = dc0.phases)
    (h5 : dc.crystruct = dc0.crystruct) (h6 : dc.quats = dc0.quats) (a b : Int) :
    Edge ops tol dc a b ↔ Edge ops tol dc0 a b := by
  unfold Edge misoW classAt quatAt
  rw [h1, h2, h3, h4, h5, h6]

/-- An edge from a voxel of the grid leads to a voxel of the grid. -/
theorem Edge.stays {ops : OrientationOps} {tol : ℚ} {dc : DataContainer} {a b : Int}
    (h : Edge ops tol dc a b) (hx : 1 ≤ dc.xpoints) (hy : 1 ≤ dc.ypoints)
    (htot : dc.totalpoints = dc.xpoints * dc.ypoints * dc.zpoints)
    (ha0 : 0 ≤ a) (ha : a < dc.totalpoints) : 0 ≤ b ∧ b < dc.totalpoints := by
  obtain ⟨i, hi, hg, rfl, _⟩ := h
  rw [htot] at ha ⊢
  exact neighbor_inGrid dc.xpoints dc.ypoints dc.zpoints a hx hy ha0 ha i hi hg

/-- With a symmetric test the grouping graph is symmetric. -/
theorem Edge.reverse {ops : OrientationOps} {tol : ℚ} {dc : DataContainer} {a b : Int}
    (h : Edge ops tol dc a b) (hx : 1 ≤ dc.xpoints) (hy : 1 ≤ dc.ypoints)
    (htot : dc.totalpoints = dc.xpoints * dc.ypoints * dc.zpoints)
    (hsym : ∀ a b, misoW ops dc a b < tol → misoW ops dc b a < tol)
    (ha0 : 0 ≤ a) (ha : a < dc.totalpoints) : Edge ops tol dc b a := by
  obtain ⟨i, hi, hg, rfl, hpa, hpb, hw⟩ := h
  rw [htot] at ha
  obtain ⟨k1, k2, k3⟩ := neighbor_symm dc.xpoints dc.ypoints dc.zpoints a hx hy ha0 ha i hi hg
  exact ⟨5 - i, k1, k2, k3.symm, hpb, hpa, hsym _ _ hw⟩

/-- A voxel reached from a voxel of the grid lies in the grid, and with a symmetric
test the way back exists. -/
theorem SameComponent.back {ops : OrientationOps} {tol : ℚ} {dc : DataContainer} {a b : Int}
    (h : SameComponent ops tol dc a b) (hx : 1 ≤ dc.xpoints) (hy : 1 ≤ dc.ypoints)
    (htot : dc.totalpoints = dc.xpoints * dc.ypoints * dc.zpoints)
    (hsym : ∀ a b, misoW ops dc a b < tol → misoW ops dc b a < tol)
    (ha0 : 0 ≤ a) (ha : a < dc.totalpoints) :
    (0 ≤ b ∧ b < dc.totalpoints) ∧ SameComponent ops tol dc b a := by
  unfold SameComponent at h ⊢
  induction h with
  | refl => exact ⟨⟨ha0, ha⟩, Relation.ReflTransGen.refl⟩
  | @tail x y _ hstep ih =>
    obtain ⟨hxg, hback⟩ := ih
    exact ⟨hstep.stays hx hy htot hxg.1 hxg.2,
      Relation.ReflTransGen.head (hstep.reverse hx hy htot hsym hxg.1 hxg.2) hback⟩

/-- Every voxel of a grown list is reached from the seed along edges of the
grouping graph. -/
theorem Grown.reach {ops : OrientationOps} {tol : ℚ} {dc : DataContainer} {c : Nat}
    {seed : Int} {l : List Int} {gi : Int → Int} (h : Grown ops tol dc c seed l gi) :
    ∀ v ∈ l, SameComponent ops tol dc seed v := by
  have hseed : l.getD 0 0 = seed := by
    have := h.head
    cases l with
    | nil => simp at this
    | cons a r =>
      simp only [List.head?_cons, Option.some.injEq] at this
      simpa using this
  have hin : ∀ m, m < l.length → l.getD m 0 ∈ l := by
    intro m hm
    rw [List.getD_eq_getElem _ _ hm]
    exact List.getElem_mem hm
  have hidx : ∀ m, m < l.length → SameComponent ops tol dc seed (l.getD m 0) := by
    intro m
    induction m using Nat.strong_induction_on with
    | _ m ih =>
      intro hm
      by_cases h0 : m = 0
      · rw [h0, hseed]
        exact Relation.ReflTransGen.refl
      · obtain ⟨m', hm', i, hi, hg, he, hw⟩ := h.link m (by omega) hm
        refine Relation.ReflTransGen.tail (ih m' hm' (by omega)) ?_
        exact ⟨i, hi, hg, he, (mem_unassigned.mp (h.sub _ (hin m' (by omega)))).2.2,
          (mem_unassigned.mp (h.sub _ (hin m hm))).2.2, hw⟩
  intro v hv
  obtain ⟨m, hm, hmv⟩ := List.getElem_of_mem hv
  have := hidx m hm
  rw [List.getD_eq_getElem _ _ hm, hmv] at this
  exact this

/-- Storing a grown grain keeps the invariant `CompInv`, provided the test is
symmetric. -/
theorem comp_step (ops : OrientationOps) (tol : ℚ) (dc0 dc : DataContainer) (c : Nat)
    (seed : Int) (l : List Int) (gi : Int → Int)
    (hx : 1 ≤ dc0.xpoints) (hy : 1 ≤ dc0.ypoints)
    (htot : dc0.totalpoints = dc0.xpoints * dc0.ypoints * dc0.zpoints)
    (hsym : ∀ a b, misoW ops dc0 a b < tol → misoW ops dc0 b a < tol)
    (hinv : FormInv dc0 dc c) (hI : CompInv ops tol dc0 dc) (hg : Grown ops tol dc c seed l gi) :
    CompInv ops tol dc0 (storeGrain dc c seed l gi) := by
  obtain ⟨d1, d2, _⟩ := storeGrain_data dc c seed l gi
  obtain ⟨_, _, _, _, _, e6⟩ := storeGrain_fields dc c seed l gi
  have hE : ∀ a b, Edge ops tol dc a b ↔ Edge ops tol dc0 a b :=
    edge_congr ops tol dc0 dc hinv.xp hinv.yp hinv.zp hinv.phases hI.crys hI.quats
  have hreach : ∀ v ∈ l, SameComponent ops tol dc0 seed v := by
    intro v hv
    have := hg.reach v hv
    unfold SameComponent at this ⊢
    exact Relation.ReflTransGen.mono (fun a b hab => (hE a b).mp hab) this
  have hlgrid : ∀ v ∈ l, (0 ≤ v ∧ v < dc0.totalpoints) ∧ dc.grain_indicies v = -1 := by
    intro v hv
    have := mem_unassigned.mp (hg.sub v hv)
    rw [hinv.total] at this
    exact ⟨this.1, this.2.1⟩
  have hseedin : seed ∈ l := List.mem_of_mem_head? hg.head
  have hold : ∀ v, 0 ≤ v → v < dc0.totalpoints → v ∉ l → 1 ≤ gi v →
      gi v = dc.grain_indicies v ∧ dc.grain_indicies v < c := by
    intro v hv0 hv hnl h1
    have e : gi v = dc.grain_indicies v := by rw [hg.ids v, if_neg hnl]
    rw [e] at h1
    rcases hinv.ids v hv0 (by rw [hinv.total]; exact hv) with h | h
    · omega
    · exact ⟨e, h.2⟩
  refine ⟨d1.trans hI.crys, d2.trans hI.quats, ?_, ?_⟩
  · intro a b ha0 ha hb0 hb h1 hab
    rw [e6] at h1 hab
    by_cases hal : a ∈ l
    · have hbl : b ∈ l := by
        by_contra hbl
        have hga : gi a = c := by rw [hg.ids a, if_pos hal]
        have := (hold b hb0 hb hbl (by rw [← hab]; exact h1)).2
        rw [(hold b hb0 hb hbl (by rw [← hab]; exact h1)).1.symm, ← hab, hga] at this
        omega
      have hsg := (hlgrid seed hseedin).1
      have hback := ((hreach a hal).back hx hy htot hsym hsg.1 hsg.2).2
      exact Relation.ReflTransGen.trans hback (hreach b hbl)
    · have ha2 := hold a ha0 ha hal h1
      have hbl : b ∉ l := by
        intro hbl
        have hgb : gi b = c := by rw [hg.ids b, if_pos hbl]
        have := ha2.2
        rw [← ha2.1, hab, hgb] at this
        omega
      have hb2 := hold b hb0 hb hbl (by rw [← hab]; exact h1)
      exact hI.conn a b ha0 ha hb0 hb (by rw [← ha2.1]; exact h1)
        (by rw [← ha2.1, ← hb2.1]; exact hab)
  · intro a b ha0 ha h1 hab
    rw [e6] at h1 ⊢
    have hbg := hab.stays hx hy htot ha0 ha
    have hba := hab.reverse hx hy htot hsym ha0 ha
    by_cases hal : a ∈ l
    · have hga : gi a = c := by rw [hg.ids a, if_pos hal]
      by_cases hbl : b ∈ l
      · rw [hg.ids b, if_pos hbl, hga]
      · exfalso
        have hgb : gi b = dc.grain_indicies b := by rw [hg.ids b, if_neg hbl]
        obtain ⟨i, hi, hgd, hbe, hpa, hpb, hw⟩ := (hE a b).mpr hab
        have hmax := hg.maximal a hal i hi hgd
        rw [← hbe] at hmax
        have hne : gi b ≠ -1 := fun h => hmax h hpb hw
        rw [hgb] at hne
        rcases hinv.ids b hbg.1 (by rw [hinv.total]; exact hbg.2) with h | h
        · exact hne h
        · have := hI.closed b a hbg.1 hbg.2 h.1 hba
          rw [(hlgrid a hal).2] at this
          omega
    · have ha2 := hold a ha0 ha hal h1
      have hcl := hI.closed a b ha0 ha (by rw [← ha2.1]; exact h1) hab
      have hbl : b ∉ l := by
        intro hbl
        have := (hlgrid b hbl).2
        rw [hcl, ← ha2.1] at this
        omega
      rw [hg.ids b, if_neg hbl, hcl, ha2.1]

/-- On a grid whose voxels are all unassigned on entry and with a symmetric test the
outer loop of `form_grains` returns; every in-phase voxel of the grid holds a grain
number, and two in-phase voxels of the grid hold the same grain number exactly when
they lie in one component of the grouping graph. -/
theorem formLoop_components (ops : OrientationOps) (tol : ℚ) (rg : Nat → UnitValue)
    (dc : DataContainer) (hx : 1 ≤ dc.xpoints) (hy : 1 ≤ dc.ypoints) (hz : 1 ≤ dc.zpoints)
    (htot : dc.totalpoints = dc.xpoints * dc.ypoints * dc.zpoints)
    (hun : ∀ v, 0 ≤ v → v < dc.totalpoints → dc.grain_indicies v = -1)
    (hsym : ∀ a b, misoW ops dc a b < tol → misoW ops dc b a < tol)
    (fuel : Nat) (hfuel : dc.totalpoints.toNat + 1 ≤ fuel) :
    ∃ dc' c', formLoop ops tol rg fuel dc 1 0 = some (dc', c') ∧ FormInv dc dc' c' ∧
      (∀ a, 0 ≤ a → a < dc.totalpoints → dc.phases a > 0 →
        1 ≤ dc'.grain_indicies a ∧ dc'.grain_indicies a < c') ∧
      (∀ a b, 0 ≤ a → a < dc.totalpoints → dc.phases a > 0 →
        (SameComponent ops tol dc a b ↔
          (0 ≤ b ∧ b < dc.totalpoints) ∧ dc.phases b > 0 ∧
            dc'.grain_indicies a = dc'.grain_indicies b)) := by
  obtain ⟨dc', c', r1, r2, r3, r4⟩ := formLoop_invariant ops tol rg dc hx hy hz htot
    (fun dc1 _ => CompInv ops tol dc dc1)
    (fun dc1 c seed l gi hinv hI hg =>
      comp_step ops tol dc dc1 c seed l gi hx hy htot hsym hinv hI hg)
    fuel dc 1 0 (formInv_init dc hun)
    ⟨rfl, rfl, fun a b ha0 ha _ _ h1 _ => by rw [hun a ha0 ha] at h1; omega,
      fun a b ha0 ha h1 _ => by rw [hun a ha0 ha] at h1; omega⟩
    (by have := unassigned_card_le dc.totalpoints dc.phases dc.grain_indicies; omega)
  have hids : ∀ a, 0 ≤ a → a < dc.totalpoints → dc.phases a > 0 →
      1 ≤ dc'.grain_indicies a ∧ dc'.grain_indicies a < c' := by
    intro a ha0 ha hp
    rcases r2.ids a ha0 (by rw [r2.total]; exact ha) with h | h
    · exfalso
      have hmem : a ∈ unassigned dc'.totalpoints dc'.phases dc'.grain_indicies :=
        mem_unassigned.mpr ⟨⟨ha0, by rw [r2.total]; exact ha⟩, h, by rw [r2.phases]; exact hp⟩
      rw [r3] at hmem
      simp at hmem
    · exact h
  refine ⟨dc', c', r1, r2, hids, ?_⟩
  intro a b ha0 ha hp
  constructor
  · intro hab
    unfold SameComponent at hab
    induction hab with
    | refl => exact ⟨⟨ha0, ha⟩, hp, rfl⟩
    | @tail x y _ hstep ih =>
      obtain ⟨hxg, hxp, hxe⟩ := ih
      refine ⟨hstep.stays hx hy htot hxg.1 hxg.2, ?_, ?_⟩
      · obtain ⟨_, _, _, _, _, hpy, _⟩ := hstep
        exact hpy
      · rw [r4.closed x y hxg.1 hxg.2 (by rw [← hxe]; exact (hids a ha0 ha hp).1) hstep, hxe]
  · rintro ⟨hbg, _, hab⟩
    exact r4.conn a b ha0 ha hbg.1 hbg.2 (hids a ha0 ha hp).1 hab

/-- C34 (the partition does not depend on the seeds).  On a grid whose voxels are
all unassigned on entry, with a test `w < tol` that is symmetric in its two voxels,
`form_grains` returns for every stream `rg` of random values, given fuel beyond the
number of voxels; every in-phase voxel of the grid holds a grain number, and the
voxels that hold the grain number of an in-phase voxel `a` are exactly the voxels
reached from `a` along edges of the grouping graph, whose edges join face-adjacent
in-phase voxels passing the test: the grains are the connected components.  Hence
for two streams `rg1`, `rg2` two voxels of the grid share their grain number in one
result exactly when they do in the other.  With a grain table of at least two
entries the voxel list of every grain created holds exactly the component of each
of its voxels. -/
theorem form_grains_components (ops : OrientationOps) (tol : ℚ) (rg1 rg2 : Nat → UnitValue)
    (dc : DataContainer) (hx : 1 ≤ dc.xpoints) (hy : 1 ≤ dc.ypoints) (hz : 1 ≤ dc.zpoints)
    (htot : dc.totalpoints = dc.xpoints * dc.ypoints * dc.zpoints)
    (hun : ∀ v, 0 ≤ v → v < dc.totalpoints → dc.grain_indicies v = -1)
    (hsym : ∀ a b, misoW ops dc a b < tol → misoW ops dc b a < tol)
    (fuel1 fuel2 : Nat) (hfuel1 : dc.totalpoints.toNat + 1 ≤ fuel1)
    (hfuel2 : dc.totalpoints.toNat + 1 ≤ fuel2) :
    ∃ dc1 c1 dc2 c2, formLoop ops tol rg1 fuel1 dc 1 0 = some (dc1, c1) ∧
      formLoop ops tol rg2 fuel2 dc 1 0 = some (dc2, c2) ∧
      form_grains ops tol rg1 fuel1 dc = some dc1 ∧
      form_grains ops tol rg2 fuel2 dc = some dc2 ∧
      (∀ a, 0 ≤ a → a < dc.totalpoints → dc.phases a > 0 → 1 ≤ dc1.grain_indicies a) ∧
      (∀ a b, 0 ≤ a → a < dc.totalpoints → dc.phases a > 0 →
        (SameComponent ops tol dc a b ↔
          (0 ≤ b ∧ b < dc.totalpoints) ∧ dc.phases b > 0 ∧
            dc1.grain_indicies a = dc1.grain_indicies b)) ∧
      (∀ a b, 0 ≤ a → a < dc.totalpoints → 0 ≤ b → b < dc.totalpoints →
        (dc1.grain_indicies a = dc1.grain_indicies b ↔
          dc2.grain_indicies a = dc2.grain_indicies b)) ∧
      (2 ≤ dc.numGrains → ∀ g : Nat, 1 ≤ g → g < c1 →
        ∃ l, (dc1.m_Grains g).voxellist = some l ∧ l ≠ [] ∧
          ∀ a ∈ l, ∀ b, b ∈ l ↔ SameComponent ops tol dc a b) := by
  obtain ⟨dc1, c1, p1, p2, p3, p4⟩ := formLoop_components ops tol rg1 dc hx hy hz htot hun hsym
    fuel1 hfuel1
  obtain ⟨dc2, c2, q1, q2, q3, q4⟩ := formLoop_components ops tol rg2 dc hx hy hz htot hun hsym
    fuel2 hfuel2
  obtain ⟨_, _, seeds, t1, _, _, t4, _, _, t7⟩ := formLoop_trace ops tol rg1 dc hx hy hz htot
    fuel1 dc 1 0 (formInv_init dc hun)
    (by have := unassigned_card_le dc.totalpoints dc.phases dc.grain_indicies; omega)
  rw [p1] at t1
  cases t1
  have hout : ∀ (dcr : DataContainer) (cr : Nat), FormInv dc dcr cr →
      ∀ a, 0 ≤ a → a < dc.totalpoints → ¬ dc.phases a > 0 → dcr.grain_indicies a = -1 := by
    intro dcr cr hr a ha0 ha hp
    rw [hr.outPhase a (by rw [hr.phases]; exact hp)]
    exact hun a ha0 ha
  refine ⟨dc1, c1, dc2, c2, p1, q1, by simp [form_grains, p1], by simp [form_grains, q1],
    fun a ha0 ha hp => (p3 a ha0 ha hp).1, p4, ?_, ?_⟩
  · intro a b ha0 ha hb0 hb
    by_cases hpa : dc.phases a > 0
    · by_cases hpb : dc.phases b > 0
      · constructor
        · intro h
          exact ((q4 a b ha0 ha hpa).mp ((p4 a b ha0 ha hpa).mpr ⟨⟨hb0, hb⟩, hpb, h⟩)).2.2
        · intro h
          exact ((p4 a b ha0 ha hpa).mp ((q4 a b ha0 ha hpa).mpr ⟨⟨hb0, hb⟩, hpb, h⟩)).2.2
      · have e1 := hout dc1 c1 p2 b hb0 hb hpb
        have e2 := hout dc2 c2 q2 b hb0 hb hpb
        have f1 := (p3 a ha0 ha hpa).1
        have f2 := (q3 a ha0 ha hpa).1
        constructor <;> intro h <;> omega
    · have e1 := hout dc1 c1 p2 a ha0 ha hpa
      have e2 := hout dc2 c2 q2 a ha0 ha hpa
      by_cases hpb : dc.phases b > 0
      · have f1 := (p3 b hb0 hb hpb).1
        have f2 := (q3 b hb0 hb hpb).1
        constructor <;> intro h <;> omega
      · have g1 := hout dc1 c1 p2 b hb0 hb hpb
        have g2 := hout dc2 c2 q2 b hb0 hb hpb
        constructor <;> intro h <;> omega
  · intro hgr g hg1 hg
    obtain ⟨l, b1, _, b3⟩ := (p2.grains hgr).2 g hg1 hg
    have hne : l ≠ [] := by
      obtain ⟨_, _, hl2⟩ := t7 (g - 1) (by omega)
      have e : 1 + (g - 1) = g := by omega
      rw [e] at hl2
      obtain ⟨l3, hl3, hh3⟩ := hl2 hgr
      rw [b1] at hl3
      cases hl3
      intro hnil
      rw [hnil] at hh3
      simp at hh3
    refine ⟨l, b1, hne, ?_⟩
    intro a hal b
    obtain ⟨ha0, ha, hga⟩ := (b3 a).mp hal
    rw [p2.total] at ha
    have hpa : dc.phases a > 0 := by
      by_contra hp
      have := hout dc1 c1 p2 a ha0 ha hp
      omega
    rw [b3 b, p4 a b ha0 ha hpa, p2.total, hga]
    constructor
    · rintro ⟨hb0, hb, hgb⟩
      refine ⟨⟨hb0, hb⟩, ?_, hgb.symm⟩
      by_contra hp
      have := hout dc1 c1 p2 b hb0 hb hp
      omega
    · rintro ⟨⟨hb0, hb⟩, _, hgb⟩
      exact ⟨hb0, hb, hgb.symm⟩

/-- The test `w < tol` with the orientation library `ops` of the examples is
symmetric. -/
theorem misoW_ops_symm (dc : DataContainer) (tol : ℚ) :
    ∀ a b, misoW Examples.ops dc a b < tol → misoW Examples.ops dc b a < tol := by
  intro a b h
  unfold misoW at h ⊢
  by_cases hc : classAt dc a = classAt dc b
  · rw [if_pos hc] at h
    rw [if_pos hc.symm]
    simp only [Examples.ops] at h ⊢
    rw [abs_sub_comm]
    exact h
  · rw [if_neg hc] at h
    rw [if_neg (Ne.symm hc)]
    exact h

/-- The theorem for C34 applied to the grid `grid` and the generators `rg` and
`rgOne`. -/
theorem form_grains_components_witness :
    (1 ≤ Examples.grid.xpoints ∧ 1 ≤ Examples.grid.ypoints ∧ 1 ≤ Examples.grid.zpoints ∧
      Examples.grid.totalpoints
        = Examples.grid.xpoints * Examples.grid.ypoints * Examples.grid.zpoints ∧
      (∀ v, 0 ≤ v → v < Examples.grid.totalpoints → Examples.grid.grain_indicies v = -1) ∧
      (∀ a b, misoW Examples.ops Examples.grid a b < 5 →
        misoW Examples.ops Examples.grid b a < 5) ∧
      Examples.grid.totalpoints.toNat + 1 ≤ 10 ∧ Examples.grid.totalpoints.toNat + 1 ≤ 12) ∧
    ∃ dc1 c1 dc2 c2,
      formLoop Examples.ops 5 Examples.rg 10 Examples.grid 1 0 = some (dc1, c1) ∧
      formLoop Examples.ops 5 Examples.rgOne 12 Examples.grid 1 0 = some (dc2, c2) ∧
      form_grains Examples.ops 5 Examples.rg 10 Examples.grid = some dc1 ∧
      form_grains Examples.ops 5 Examples.rgOne 12 Examples.grid = some dc2 ∧
      (∀ a, 0 ≤ a → a < Examples.grid.totalpoints → Examples.grid.phases a > 0 →
        1 ≤ dc1.grain_indicies a) ∧
      (∀ a b, 0 ≤ a → a < Examples.grid.totalpoints → Examples.grid.phases a > 0 →
        (SameComponent Examples.ops 5 Examples.grid a b ↔
          (0 ≤ b ∧ b < Examples.grid.totalpoints) ∧ Examples.grid.phases b > 0 ∧
            dc1.grain_indicies a = dc1.grain_indicies b)) ∧
      (∀ a b, 0 ≤ a → a < Examples.grid.totalpoints → 0 ≤ b → b < Examples.grid.totalpoints →
        (dc1.grain_indicies a = dc1.grain_indicies b ↔
          dc2.grain_indicies a = dc2.grain_indicies b)) ∧
      (2 ≤ Examples.grid.numGrains → ∀ g : Nat, 1 ≤ g → g < c1 →
        ∃ l, (dc1.m_Grains g).voxellist = some l ∧ l ≠ [] ∧
          ∀ a ∈ l, ∀ b, b ∈ l ↔ SameComponent Examples.ops 5 Examples.grid a b) :=
  ⟨⟨by decide, by decide, by decide, by decide, fun _ _ _ => rfl,
      misoW_ops_symm Examples.grid 5, by decide, by decide⟩,
    form_grains_components Examples.ops 5 Examples.rg Examples.rgOne Examples.grid (by decide)
      (by decide) (by decide) (by decide) (fun _ _ _ => rfl) (misoW_ops_symm Examples.grid 5)
      10 12 (by decide) (by decide)⟩

/-- Two runs that start from different seeds.  On the two voxels of `mixed`, which
differ in their crystal structure, the generator `rg` finds the seeds 0, 1 and the
generator `rgOne` the seeds 1, 0: the voxels hold the grain numbers 1, 2 in the
first run and 2, 1 in the second, the same partition with the grains renamed.  On
the row `ramp` the seeds are voxel 1 and voxel 3, and both runs put the four voxels
into grain 1. -/
theorem form_grains_seeds_examples :
    formSeeds Examples.ops 5 Examples.rg 10 Examples.mixed 1 0 = some [0, 1] ∧
    formSeeds Examples.ops 5 Examples.rgOne 10 Examples.mixed 1 0 = some [1, 0] ∧
    (form_grains Examples.ops 5 Examples.rg 10 Examples.mixed).map
      (fun dc => (dc.grain_indicies 0, dc.grain_indicies 1)) = some (1, 2) ∧
    (form_grains Examples.ops 5 Examples.rgOne 10 Examples.mixed).map
      (fun dc => (dc.grain_indicies 0, dc.grain_indicies 1)) = some (2, 1) ∧
    formSeeds Examples.ops 5 Examples.rg 10 Examples.ramp 1 0 = some [1] ∧
    formSeeds Examples.ops 5 Examples.rgOne 10 Examples.ramp 1 0 = some [3] ∧
    (form_grains Examples.ops 5 Examples.rg 10 Examples.ramp).map
      (fun dc => (dc.grain_indicies 0, dc.grain_indicies 1, dc.grain_indicies 2,
        dc.grain_indicies 3)) = some (1, 1, 1, 1) ∧
    (form_grains Examples.ops 5 Examples.rgOne 10 Examples.ramp).map
      (fun dc => (dc.grain_indicies 0, dc.grain_indicies 1, dc.grain_indicies 2,
        dc.grain_indicies 3)) = some (1, 1, 1, 1) := by
  refine ⟨by decide!, by decide!, by decide!, by decide!, by decide!, by decide!, by decide!,
    by decide!⟩

/-! The shape of the stored grains. -/

/-- The value `w` of the grouping test depends on the phases, the crystal structures
and the orientations only. -/
theorem misoW_congr (ops : OrientationOps) (dc0 dc : DataContainer)
    (h4 : dc.phases = dc0.phases) (h5 : dc.crystruct = dc0.crystruct)
    (h6 : dc.quats = dc0.quats) (a b : Int) : misoW ops dc a b = misoW ops dc0 a b := by
  unfold misoW classAt quatAt
  rw [h4, h5, h6]

/-- Storing a grown grain keeps the invariant `ShapeInv`. -/
theorem shape_step (ops : OrientationOps) (tol : ℚ) (dc0 dc : DataContainer) (c : Nat)
    (seed : Int) (l : List Int) (gi : Int → Int)
    (hx : 1 ≤ dc0.xpoints) (hy : 1 ≤ dc0.ypoints)
    (htot : dc0.totalpoints = dc0.xpoints * dc0.ypoints * dc0.zpoints)
    (h2 : 2 ≤ dc0.numGrains)
    (hinv : FormInv dc0 dc c) (hI : ShapeInv ops tol dc0 dc c)
    (hg : Grown ops tol dc c seed l gi) :
    ShapeInv ops tol dc0 (storeGrain dc c seed l gi) (c + 1) := by
  obtain ⟨d1, d2, _⟩ := storeGrain_data dc c seed l gi
  obtain ⟨_, _, _, _, _, e6⟩ := storeGrain_fields dc c seed l gi
  obtain ⟨_, g2, g3⟩ := storeGrain_grains dc c seed l gi
  obtain ⟨hc1, hc2, hold⟩ := hI
  have hcn := (hinv.grains h2).1
  have hseedin : seed ∈ l := List.mem_of_mem_head? hg.head
  have hnew := (storeGrain_inv dc0 dc c hinv seed l gi hg.nodup hg.sub hg.ids hseedin).1
  have hw : ∀ a b, misoW ops dc a b = misoW ops dc0 a b :=
    misoW_congr ops dc0 dc hinv.phases hc1 hc2
  have hlink := hg.link
  have hmax := hg.maximal
  simp only [hinv.xp, hinv.yp, hinv.zp, hinv.phases, hw] at hlink hmax
  refine ⟨d1.trans hc1, d2.trans hc2, ?_⟩
  intro g hg1 hgc
  by_cases hgeq : g = c
  · subst hgeq
    refine ⟨l, g2 hcn, hlink, ?_⟩
    intro v hv i hi hgd hp hlt
    rw [e6]
    have hvg := (mem_unassigned.mp (hg.sub v hv)).1
    rw [hinv.total, htot] at hvg
    have hnb := neighbor_inGrid dc0.xpoints dc0.ypoints dc0.zpoints v hx hy hvg.1 hvg.2 i hi hgd
    have hne : gi (v + neighpoints dc0.xpoints dc0.ypoints i) ≠ -1 :=
      fun h => hmax v hv i hi hgd h hp hlt
    have hids := hnew.ids (v + neighpoints dc0.xpoints dc0.ypoints i) hnb.1
      (by rw [hnew.total, htot]; exact hnb.2)
    rw [e6] at hids
    rcases hids with h | h
    · exact absurd h hne
    · refine ⟨h.1, ?_⟩
      have := h.2
      push_cast at this
      omega
  · obtain ⟨l0, a1, a2, a3⟩ := hold g hg1 (by omega)
    refine ⟨l0, by rw [g3 hcn g (by omega)]; exact a1, a2, ?_⟩
    intro v hv i hi hgd hp hlt
    obtain ⟨b1, b2⟩ := a3 v hv i hi hgd hp hlt
    have hnl : (v + neighpoints dc0.xpoints dc0.ypoints i) ∉ l := by
      intro hm
      have := (mem_unassigned.mp (hg.sub _ hm)).2.1
      omega
    rw [e6, hg.ids _, if_neg hnl]
    exact ⟨b1, b2⟩

/-- C13 (features are connected and maximal).  On a grid whose voxels are all
unassigned on entry and with a grain table of at least two entries, `form_grains`
returns, and for every grain `g` created, with `l` the voxel list stored for it:
`l` holds exactly the voxels with the grain number `g`; its first entry is the seed
of `g`, the `g`-th seed the outer loop found; every later entry is the face
neighbour, in a direction the boundary guard accepts, of an earlier entry of `l`, and
passed the test `w < tol` against that entry, so the grain is 6-connected; and every
in-phase face neighbour of a voxel of `l` that passes the test against that voxel
holds a grain number of `1 .. g`.  Grain numbers are given in increasing order and
never changed, so such a neighbour was assigned when the growth of `g` ended: no
unassigned in-phase face neighbour passed the test. -/
theorem form_grains_connected_maximal (ops : OrientationOps) (tol : ℚ) (rg : Nat → UnitValue)
    (dc : DataContainer) (hx : 1 ≤ dc.xpoints) (hy : 1 ≤ dc.ypoints) (hz : 1 ≤ dc.zpoints)
    (htot : dc.totalpoints = dc.xpoints * dc.ypoints * dc.zpoints)
    (hun : ∀ v, 0 ≤ v → v < dc.totalpoints → dc.grain_indicies v = -1)
    (hgr : 2 ≤ dc.numGrains)
    (fuel : Nat) (hfuel : dc.totalpoints.toNat + 1 ≤ fuel) :
    ∃ dc' c' seeds, formLoop ops tol rg fuel dc 1 0 = some (dc', c') ∧
      form_grains ops tol rg fuel dc = some dc' ∧
      formSeeds ops tol rg fuel dc 1 0 = some seeds ∧ c' = seeds.length + 1 ∧
      ∀ g : Nat, 1 ≤ g → g < c' → ∃ l, (dc'.m_Grains g).voxellist = some l ∧
        (∀ v, v ∈ l ↔ (0 ≤ v ∧ v < dc.totalpoints ∧ dc'.grain_indicies v = g)) ∧
        l.head? = some (seeds.getD (g - 1) 0) ∧
        (∀ m, 0 < m → m < l.length → ∃ m', m' < m ∧ ∃ i ∈ directions,
          good dc.xpoints dc.ypoints dc.zpoints i (colOf dc.xpoints (l.getD m' 0))
            (rowOf dc.xpoints dc.ypoints (l.getD m' 0))
            (planeOf dc.xpoints dc.ypoints (l.getD m' 0)) = true ∧
          l.getD m 0 = l.getD m' 0 + neighpoints dc.xpoints dc.ypoints i ∧
          misoW ops dc (l.getD m' 0) (l.getD m 0) < tol) ∧
        (∀ v ∈ l, ∀ i ∈ directions,
          good dc.xpoints dc.ypoints dc.zpoints i (colOf dc.xpoints v)
            (rowOf dc.xpoints dc.ypoints v) (planeOf dc.xpoints dc.ypoints v) = true →
          dc.phases (v + neighpoints dc.xpoints dc.ypoints i) > 0 →
          misoW ops dc v (v + neighpoints dc.xpoints dc.ypoints i) < tol →
          1 ≤ dc'.grain_indicies (v + neighpoints dc.xpoints dc.ypoints i) ∧
            dc'.grain_indicies (v + neighpoints dc.xpoints dc.ypoints i) ≤ g) := by
  have hcard : (unassigned dc.totalpoints dc.phases dc.grain_indicies).card + 1 ≤ fuel := by
    have := unassigned_card_le dc.totalpoints dc.phases dc.grain_indicies
    omega
  obtain ⟨dc', c', r1, r2, _, r4⟩ := formLoop_invariant ops tol rg dc hx hy hz htot
    (ShapeInv ops tol dc)
    (fun dc1 c seed l gi hinv hI hg =>
      shape_step ops tol dc dc1 c seed l gi hx hy htot hgr hinv hI hg)
    fuel dc 1 0 (formInv_init dc hun) ⟨rfl, rfl, fun g h1 h2 => by omega⟩ hcard
  obtain ⟨_, _, seeds, t1, t2, _, t4, _, _, t7⟩ := formLoop_trace ops tol rg dc hx hy hz htot
    fuel dc 1 0 (formInv_init dc hun) hcard
  rw [r1] at t1
  cases t1
  refine ⟨dc', c', seeds, r1, by simp [form_grains, r1], t2, by rw [t4]; omega, ?_⟩
  intro g hg1 hg
  obtain ⟨l, a1, a2, a3⟩ := r4.2.2 g hg1 hg
  obtain ⟨l2, b1, _, b3⟩ := (r2.grains hgr).2 g hg1 hg
  rw [a1] at b1
  cases b1
  obtain ⟨_, _, hl2⟩ := t7 (g - 1) (by omega)
  have e : 1 + (g - 1) = g := by omega
  rw [e] at hl2
  obtain ⟨l3, hl3, hh3⟩ := hl2 hgr
  rw [a1] at hl3
  cases hl3
  refine ⟨l, a1, ?_, hh3, a2, a3⟩
  intro v
  rw [b3 v, r2.total]

/-- The theorem for C13 applied to the row `ramp`. -/
theorem form_grains_connected_maximal_witness :
    (1 ≤ Examples.ramp.xpoints ∧ 1 ≤ Examples.ramp.ypoints ∧ 1 ≤ Examples.ramp.zpoints ∧
      Examples.ramp.totalpoints
        = Examples.ramp.xpoints * Examples.ramp.ypoints * Examples.ramp.zpoints ∧
      (∀ v, 0 ≤ v → v < Examples.ramp.totalpoints → Examples.ramp.grain_indicies v = -1) ∧
      2 ≤ Examples.ramp.numGrains ∧ Examples.ramp.totalpoints.toNat + 1 ≤ 10) ∧
    ∃ dc' c' seeds, formLoop Examples.ops 5 Examples.rg 10 Examples.ramp 1 0 = some (dc', c') ∧
      form_grains Examples.ops 5 Examples.rg 10 Examples.ramp = some dc' ∧
      formSeeds Examples.ops 5 Examples.rg 10 Examples.ramp 1 0 = some seeds ∧
      c' = seeds.length + 1 ∧
      ∀ g : Nat, 1 ≤ g → g < c' → ∃ l, (dc'.m_Grains g).voxellist = some l ∧
        (∀ v, v ∈ l ↔ (0 ≤ v ∧ v < Examples.ramp.totalpoints ∧ dc'.grain_indicies v = g)) ∧
        l.head? = some (seeds.getD (g - 1) 0) ∧
        (∀ m, 0 < m → m < l.length → ∃ m', m' < m ∧ ∃ i ∈ directions,
          good Examples.ramp.xpoints Examples.ramp.ypoints Examples.ramp.zpoints i
            (colOf Examples.ramp.xpoints (l.getD m' 0))
            (rowOf Examples.ramp.xpoints Examples.ramp.ypoints (l.getD m' 0))
            (planeOf Examples.ramp.xpoints Examples.ramp.ypoints (l.getD m' 0)) = true ∧
          l.getD m 0 = l.getD m' 0 + neighpoints Examples.ramp.xpoints Examples.ramp.ypoints i ∧
          misoW Examples.ops Examples.ramp (l.getD m' 0) (l.getD m 0) < 5) ∧
        (∀ v ∈ l, ∀ i ∈ directions,
          good Examples.ramp.xpoints Examples.ramp.ypoints Examples.ramp.zpoints i
            (colOf Examples.ramp.xpoints v)
            (rowOf Examples.ramp.xpoints Examples.ramp.ypoints v)
            (planeOf Examples.ramp.xpoints Examples.ramp.ypoints v) = true →
          Examples.ramp.phases (v + neighpoints Examples.ramp.xpoints Examples.ramp.ypoints i)
            > 0 →
          misoW Examples.ops Examples.ramp v
            (v + neighpoints Examples.ramp.xpoints Examples.ramp.ypoints i) < 5 →
          1 ≤ dc'.grain_indicies
            (v + neighpoints Examples.ramp.xpoints Examples.ramp.ypoints i) ∧
          dc'.grain_indicies
            (v + neighpoints Examples.ramp.xpoints Examples.ramp.ypoints i) ≤ g) :=
  ⟨⟨by decide, by decide, by decide, by decide, fun _ _ _ => rfl, by decide, by decide⟩,
    form_grains_connected_maximal Examples.ops 5 Examples.rg Examples.ramp (by decide)
      (by decide) (by decide) (by decide) (fun _ _ _ => rfl) (by decide) 10 (by decide)⟩

/-- The grains of two runs.  On the row `ramp` with tolerance 5 the one grain has the
voxel list `[1, 0, 2, 3]`: it starts with the seed 1, and each later voxel is next to
an earlier one.  With tolerance 3 no neighbour passes the test and the four voxels
are four grains, seeded 1, 2, 3, 0. -/
theorem form_grains_lists_examples :
    formSeeds Examples.ops 5 Examples.rg 10 Examples.ramp 1 0 = some [1] ∧
    (form_grains Examples.ops 5 Examples.rg 10 Examples.ramp).map
      (fun dc => (dc.m_Grains 1).voxellist) = some (some [1, 0, 2, 3]) ∧
    formSeeds Examples.ops 3 Examples.rg 10 Examples.ramp 1 0 = some [1, 2, 3, 0] ∧
    (form_grains Examples.ops 3 Examples.rg 10 Examples.ramp).map
      (fun dc => ((dc.m_Grains 1).voxellist, (dc.m_Grains 2).voxellist,
        (dc.m_Grains 3).voxellist, (dc.m_Grains 4).voxellist))
      = some (some [1], some [2], some [3], some [0]) := by
  refine ⟨by decide!, by decide!, by decide!, by decide!⟩

end SegmentGrains

namespace FillBadData

/-- C38, the run on the failing input.  On the line `[3, 9, -1]` the highest feature
id is 9.  The loop that computes `numfeatures` reads `m_FeatureIds[point]` in every
iteration, `point` being a local that is never assigned (the loop variable is `i`):
when `point` happens to be 0 the loop ends with `numfeatures = 3`, which is not the
maximum over the grid, the feature check passes and the tally vector `n` gets
`numfeatures + 1 = 4` entries.  Phase 1 changes nothing, and in the first pass of
phase 2 the tally of voxel 2 reads feature 9 from its neighbour 1 in the direction 2
and increments `n[9]`: the index 9 exceeds `numfeatures`.  The run ends with the
error condition 0 and voxel 2 holding 9. -/
theorem tally_indexes_past_numfeatures :
    numfeaturesLoop ((Examples.line 3 9 (-1) 1).m_FeatureIds (0 : Nat))
      (Examples.line 3 9 (-1) 1).totalPoints.toNat 0 = 3 ∧
    (InGrid (Examples.line 3 9 (-1) 1) 1 ∧ (Examples.line 3 9 (-1) 1).m_FeatureIds 1 = 9) ∧
    (phase1 (Examples.line 3 9 (-1) 1) 10).map
        (fun p => (p.m_FeatureIds 0, p.m_FeatureIds 1, p.m_FeatureIds 2))
      = some (3, 9, -1) ∧
    good 3 1 1 2 (colOf 3 2) (rowOf 3 1 2) (planeOf 3 1 2) = true ∧
    goodFloat 3 1 1 2 (floatOf (colOf 3 2)) (floatOf (rowOf 3 1 2)) (floatOf (planeOf 3 1 2))
      = true ∧
    (Examples.line 3 9 (-1) 1).m_FeatureIds (2 + neighpoints 3 1 2) = 9 ∧
    (tallyVisit (Examples.line 3 9 (-1) 1) (Examples.line 3 9 (-1) 1).m_FeatureIds 2
      { n := fun _ => 0, current := 0, most := 0, m_Neighbors := fun _ => -1 } 2).n 9 = 1 ∧
    (healPass (Examples.line 3 9 (-1) 1)
      { m_FeatureIds := (Examples.line 3 9 (-1) 1).m_FeatureIds
        cellData := (Examples.line 3 9 (-1) 1).cellData
        n := fun _ => 0, m_Neighbors := fun _ => -1, count := 1 }).m_Neighbors 2 = 1 ∧
    (execute 0 10 (Examples.line 3 9 (-1) 1)).map
        (fun r => (r.errorCondition, r.m_FeatureIds 0, r.m_FeatureIds 1, r.m_FeatureIds 2))
      = some (0, 3, 9, 9) := by
  refine ⟨by decide, ⟨⟨by decide, by decide⟩, by decide⟩, by decide, by decide, by decide,
    by decide, by decide, by decide, by decide⟩

end FillBadData

namespace MergeTwins

/-- A grain that has a neighbour list is not changed by the allocation. -/
theorem allocated_some (g : Grain) (l : List Int) (h : g.neighborlist = some l) :
    allocated g = g := by
  cases g
  simp only at h
  subst h
  rfl

/-- The iteration of the renumbering loop for a surviving grain whose new number is
its old one: the slot keeps its fields, its neighbour list is allocated when it was
`NULL`, and the grain is named by itself. -/
theorem renumberGrain_self (s : RenumberState) (i : Nat) (hgc : s.graincount = i)
    (hs : (s.m_Grains i).gottwinmerged ≠ true) :
    renumberGrain s i =
      { m_Grains := Function.update s.m_Grains i (allocated (s.m_Grains i))
        newnames := Function.update s.newnames i (i : Int)
        graincount := i + 1 } := by
  unfold renumberGrain
  rw [if_pos hs]
  simp only
  subst hgc
  cases hnl : (s.m_Grains s.graincount).neighborlist with
  | none =>
    simp only [Function.update_same, Function.update_idem]
    congr 2
    unfold allocated
    rw [hnl]
  | some l =>
    simp only [Function.update_same, Function.update_idem, if_true]
    congr 2
    unfold allocated
    rw [hnl]

/-- The renumbering loop over the grains `a, .., a + n - 1` when none of them is
marked as merged and `graincount` is `a`: every grain keeps its number and its
fields. -/
theorem renumberFold_self (n : Nat) (a : Nat) (s : RenumberState) (hgc : s.graincount = a)
    (hs : ∀ i, a ≤ i → i < a + n → (s.m_Grains i).gottwinmerged ≠ true) :
    (∀ i, a ≤ i → i < a + n →
      ((List.range' a n).foldl renumberGrain s).newnames i = (i : Int) ∧
      ((List.range' a n).foldl renumberGrain s).m_Grains i = allocated (s.m_Grains i)) ∧
    (∀ i, ¬ (a ≤ i ∧ i < a + n) →
      ((List.range' a n).foldl renumberGrain s).m_Grains i = s.m_Grains i) := by
  induction n generalizing a s with
  | zero =>
    refine ⟨fun i h1 h2 => ?_, fun i _ => rfl⟩
    omega
  | succ n ih =>
    rw [List.range'_succ, List.foldl_cons, renumberGrain_self s a hgc (hs a (le_refl _) (by omega))]
    obtain ⟨i1, i2⟩ := ih (a + 1)
      { m_Grains := Function.update s.m_Grains a (allocated (s.m_Grains a))
        newnames := Function.update s.newnames a (a : Int)
        graincount := a + 1 } rfl
      (fun i h1 h2 => by
        simp only
        rw [Function.update_noteq (by omega)]
        exact hs i (by omega) (by omega))
    obtain ⟨_, f2, _⟩ := renumberFold_spec (List.range' (a + 1) n) (List.nodup_range' (a + 1) n)
      { m_Grains := Function.update s.m_Grains a (allocated (s.m_Grains a))
        newnames := Function.update s.newnames a (a : Int)
        graincount := a + 1 }
    refine ⟨?_, ?_⟩
    · intro i h1 h2
      by_cases hia : i = a
      · subst hia
        rw [f2 i (by rw [List.mem_range'_1]; omega), i2 i (by omega)]
        simp only [Function.update_same, and_self]
      · obtain ⟨j1, j2⟩ := i1 i (by omega) (by omega)
        rw [j1, j2]
        simp only [Function.update_noteq hia, and_self]
    · intro i hi
      rw [i2 i (by omega)]
      simp only
      rw [Function.update_noteq (by omega)]


/-- The outer loop of `merge_twins` on a table in which no pair of a grain and one
of its listed neighbours passes the twin criterion: it returns and the grains are as
they were. -/
theorem mergeLoop_idle (ops : OrientationOps) (crystruct : Int → Int) (numgrains : Nat)
    (G : Nat → Grain) (hok : GrainsOk G numgrains)
    (hnone : ∀ a b, a < numgrains → b < numgrains → Nbr G a b → ¬ Twin ops crystruct G a b)
    (fuel : Nat) (hfuel : numgrains + 2 ≤ fuel) (k i : Nat) (s : MergeState)
    (hG : s.m_Grains = G) (htl : s.twinlist = []) (hik : i + k ≤ numgrains) :
    ∃ s', mergeLoop ops crystruct fuel k i s = some s' ∧ s'.m_Grains = G := by
  induction k generalizing i s with
  | zero => exact ⟨s, rfl, hG⟩
  | succ k ih =>
    rw [mergeLoop_succ]
    split
    next hc =>
      obtain ⟨s1, c1, c2, _, _⟩ := collect_from_head ops crystruct numgrains s i
        (by rw [hG]; exact hok) (by omega) hc.2 htl fuel hfuel
      rw [c1]
      simp only
      obtain ⟨rest, _, _, _, hrest, hout⟩ := c2
      have hnil : rest = [] := by
        rw [List.eq_nil_iff_forall_not_mem]
        intro g hg
        obtain ⟨hgn, _, _, _, _, _, f, hf, _, hfn, hft⟩ := hrest g hg
        have hfl : f < numgrains := by
          rcases hf with rfl | hf
          · omega
          · exact (hrest f hf).1
        rw [hG] at hfn hft
        exact hnone f g hfl hgn hfn hft
      refine ih (i + 1) { s1 with twinlist := [] } ?_ rfl (by omega)
      funext g
      show s1.m_Grains g = G g
      rw [hout g (by rw [hnil]; simp), hG]
    next hc => exact ih (i + 1) { s with twinlist := [] } hG rfl (by omega)

/-- C31 (a run with nothing to merge is the identity).  On a well-formed grain table
on which no grain is marked as merged on entry and no pair of a grain `a` and a grain
`b` named in the neighbour list of `a` passes the twin criterion, with every voxel
holding a grain number of the table, `MergeTwins::execute` returns, given fuel
beyond the number of grains; afterwards no grain is marked as merged, every voxel
holds the grain number it held, and every grain has the `numvoxels`,
`numneighbors`, average quaternion, Euler angles and phase it had, and its
neighbour list when it had one (a grain whose `neighborlist` pointer was `NULL`
gets a vector of `numneighbors` zeros). -/
theorem execute_nothing_to_merge (ops : OrientationOps) (n1 n2 n3 : ℚ) (fuel : Nat)
    (dc : DataContainer) (hok : GrainsOk dc.m_Grains dc.numGrains)
    (hfresh : ∀ g, g < dc.numGrains →
      (dc.m_Grains g).gottwinmerged = false ∧ (dc.m_Grains g).twinnewnumber = -1)
    (hnone : ∀ a b, a < dc.numGrains → b < dc.numGrains →
      Nbr dc.m_Grains a b → ¬ Twin ops dc.crystruct dc.m_Grains a b)
    (hvox : ∀ v, 0 ≤ v → v < dc.totalpoints →
      0 ≤ dc.grain_indicies v ∧ dc.grain_indicies v < dc.numGrains)
    (htot : dc.totalpoints = dc.xpoints * dc.ypoints * dc.zpoints)
    (hfuel : dc.numGrains + 2 ≤ fuel) :
    ∃ dc', execute ops n1 n2 n3 fuel dc = some dc' ∧
      merge_twins ops n1 n2 n3 fuel dc = some dc ∧
      (∀ g, g < dc.numGrains →
        (dc'.m_Grains g).gottwinmerged = false ∧ (dc'.m_Grains g).twinnewnumber = -1) ∧
      (∀ v, dc'.grain_indicies v = dc.grain_indicies v) ∧
      (∀ g, (dc'.m_Grains g).numvoxels = (dc.m_Grains g).numvoxels ∧
        (dc'.m_Grains g).numneighbors = (dc.m_Grains g).numneighbors ∧
        (dc'.m_Grains g).avg_quat = (dc.m_Grains g).avg_quat ∧
        (dc'.m_Grains g).euler1 = (dc.m_Grains g).euler1 ∧
        (dc'.m_Grains g).euler2 = (dc.m_Grains g).euler2 ∧
        (dc'.m_Grains g).euler3 = (dc.m_Grains g).euler3 ∧
        (dc'.m_Grains g).phase = (dc.m_Grains g).phase ∧
        (∀ l, (dc.m_Grains g).neighborlist = some l → dc'.m_Grains g = dc.m_Grains g) ∧
        ((dc.m_Grains g).neighborlist = none → 1 ≤ g → g < dc.numGrains →
          (dc'.m_Grains g).neighborlist
            = some (List.replicate (dc.m_Grains g).numneighbors.toNat 0))) := by
  obtain ⟨s', hrun, hs'⟩ : ∃ s', mergeLoop ops dc.crystruct fuel (dc.numGrains - 1) 1
      { m_Grains := dc.m_Grains, twinlist := [], n1 := n1, n2 := n2, n3 := n3 } = some s' ∧
      s'.m_Grains = dc.m_Grains := by
    by_cases hn : dc.numGrains = 0
    · rw [hn]
      exact ⟨_, rfl, rfl⟩
    · exact mergeLoop_idle ops dc.crystruct dc.numGrains dc.m_Grains hok hnone
        fuel hfuel (dc.numGrains - 1) 1
        { m_Grains := dc.m_Grains, twinlist := [], n1 := n1, n2 := n2, n3 := n3 } rfl rfl
        (by omega)
  have hvox2 : rewriteVoxels dc.m_Grains (dc.xpoints * dc.ypoints * dc.zpoints).toNat
      dc.grain_indicies = dc.grain_indicies := by
    funext v
    rw [rewriteVoxels_apply, if_neg]
    rintro ⟨h0, h1, h2⟩
    have hv : v < dc.totalpoints := by rw [htot]; omega
    obtain ⟨a, b⟩ := hvox v h0 hv
    have := (hfresh (dc.grain_indicies v).toNat (by omega)).1
    rw [this] at h2
    cases h2
  have hm : merge_twins ops n1 n2 n3 fuel dc = some dc := by
    unfold merge_twins
    rw [hrun]
    simp only [hs', hvox2]
  obtain ⟨q1, q2⟩ := renumberFold_self (dc.numGrains - 1) 1 (renumberStart dc.m_Grains) rfl
    (fun i _ hi => by
      have := (hfresh i (by omega)).1
      show (dc.m_Grains i).gottwinmerged ≠ true
      rw [this]
      simp)
  have hgr : ∀ g, (renumber_grains dc).m_Grains g =
      if 1 ≤ g ∧ g < dc.numGrains then allocated (dc.m_Grains g) else dc.m_Grains g := by
    intro g
    by_cases hg : 1 ≤ g ∧ g < dc.numGrains
    · rw [if_pos hg]
      exact (q1 g hg.1 (by omega)).2
    · rw [if_neg hg]
      exact q2 g (by omega)
  refine ⟨renumber_grains dc, by unfold execute; rw [hm]; rfl, hm, ?_, ?_, ?_⟩
  · intro g hg
    rw [hgr]
    split
    · exact hfresh g hg
    · exact hfresh g hg
  · intro v
    unfold renumber_grains
    simp only
    rw [renameVoxels_apply]
    split
    next h =>
      obtain ⟨h0, h1, h2⟩ := h
      obtain ⟨_, b⟩ := hvox v h0 (by omega)
      have := (q1 (dc.grain_indicies v).toNat (by omega) (by omega)).1
      have e : (((dc.grain_indicies v).toNat : Nat) : Int) = dc.grain_indicies v := by omega
      exact this.trans e
    next h => rfl
  · intro g
    rw [hgr]
    split
    next hg =>
      refine ⟨rfl, rfl, rfl, rfl, rfl, rfl, rfl, fun l hl => allocated_some _ l hl, ?_⟩
      intro hn _ _
      unfold allocated
      rw [hn]
    next hg =>
      refine ⟨rfl, rfl, rfl, rfl, rfl, rfl, rfl, fun _ _ => rfl, ?_⟩
      intro _ h1 h2
      exact absurd ⟨h1, h2⟩ hg

theorem plain_ok : GrainsOk Examples.plain.m_Grains Examples.plain.numGrains := by
  constructor
  · intro g hg
    change g < 4 at hg
    interval_cases g <;> decide
  · intro g hg nl h e he
    change g < 4 at hg
    interval_cases g
    · cases h
    · cases h
      simp at he
      subst he
      decide
    · cases h
      simp at he
      rcases he with rfl | rfl <;> decide
    · cases h
      simp at he
      subst he
      decide

theorem plain_fresh : ∀ g, g < Examples.plain.numGrains →
    (Examples.plain.m_Grains g).gottwinmerged = false ∧
      (Examples.plain.m_Grains g).twinnewnumber = -1 := by
  intro g hg
  change g < 4 at hg
  interval_cases g <;> decide

theorem plain_no_twin : ∀ a b, a < Examples.plain.numGrains → b < Examples.plain.numGrains →
    Nbr Examples.plain.m_Grains a b →
      ¬ Twin Examples.ops Examples.plain.crystruct Examples.plain.m_Grains a b := by
  intro a b ha hb
  change a < 4 at ha
  change b < 4 at hb
  rw [Nbr_iff]
  unfold Twin
  interval_cases a <;> interval_cases b <;> decide!

theorem plain_voxels : ∀ v, 0 ≤ v → v < Examples.plain.totalpoints →
    0 ≤ Examples.plain.grain_indicies v ∧
      Examples.plain.grain_indicies v < Examples.plain.numGrains := by
  intro v h0 h1
  change v < 3 at h1
  interval_cases v <;> decide

/-- The theorem for C31 applied to the row of grains `plain`. -/
theorem execute_nothing_to_merge_witness :
    (GrainsOk Examples.plain.m_Grains Examples.plain.numGrains ∧
      (∀ g, g < Examples.plain.numGrains →
        (Examples.plain.m_Grains g).gottwinmerged = false ∧
          (Examples.plain.m_Grains g).twinnewnumber = -1) ∧
      (∀ a b, a < Examples.plain.numGrains → b < Examples.plain.numGrains →
        Nbr Examples.plain.m_Grains a b →
          ¬ Twin Examples.ops Examples.plain.crystruct Examples.plain.m_Grains a b) ∧
      (∀ v, 0 ≤ v → v < Examples.plain.totalpoints →
        0 ≤ Examples.plain.grain_indicies v ∧
          Examples.plain.grain_indicies v < Examples.plain.numGrains) ∧
      Examples.plain.totalpoints
        = Examples.plain.xpoints * Examples.plain.ypoints * Examples.plain.zpoints ∧
      Examples.plain.numGrains + 2 ≤ 10) ∧
    ∃ dc', execute Examples.ops 0 0 0 10 Examples.plain = some dc' ∧
      merge_twins Examples.ops 0 0 0 10 Examples.plain = some Examples.plain ∧
      (∀ g, g < Examples.plain.numGrains →
        (dc'.m_Grains g).gottwinmerged = false ∧ (dc'.m_Grains g).twinnewnumber = -1) ∧
      (∀ v, dc'.grain_indicies v = Examples.plain.grain_indicies v) ∧
      (∀ g, (dc'.m_Grains g).numvoxels = (Examples.plain.m_Grains g).numvoxels ∧
        (dc'.m_Grains g).numneighbors = (Examples.plain.m_Grains g).numneighbors ∧
        (dc'.m_Grains g).avg_quat = (Examples.plain.m_Grains g).avg_quat ∧
        (dc'.m_Grains g).euler1 = (Examples.plain.m_Grains g).euler1 ∧
        (dc'.m_Grains g).euler2 = (Examples.plain.m_Grains g).euler2 ∧
        (dc'.m_Grains g).euler3 = (Examples.plain.m_Grains g).euler3 ∧
        (dc'.m_Grains g).phase = (Examples.plain.m_Grains g).phase ∧
        (∀ l, (Examples.plain.m_Grains g).neighborlist = some l →
          dc'.m_Grains g = Examples.plain.m_Grains g) ∧
        ((Examples.plain.m_Grains g).neighborlist = none → 1 ≤ g →
          g < Examples.plain.numGrains →
          (dc'.m_Grains g).neighborlist
            = some (List.replicate (Examples.plain.m_Grains g).numneighbors.toNat 0))) :=
  ⟨⟨plain_ok, plain_fresh, plain_no_twin, plain_voxels, by decide, by decide⟩,
    execute_nothing_to_merge Examples.ops 0 0 0 10 Examples.plain plain_ok plain_fresh
      plain_no_twin plain_voxels (by decide) (by decide)⟩

/-- The runs of `execute` on the row `plain` and on the row `lonely`, whose
neighbour lists are empty: the voxels keep the grain numbers 1, 2, 3, no grain is
marked as merged and the voxel counts 4, 5, 6 stay with their grains. -/
theorem execute_idle_examples :
    (execute Examples.ops 0 0 0 10 Examples.plain).map
        (fun dc => (Examples.voxels dc, (dc.m_Grains 1).gottwinmerged,
          (dc.m_Grains 2).gottwinmerged, (dc.m_Grains 3).gottwinmerged))
      = some ([1, 2, 3], false, false, false) ∧
    (execute Examples.ops 0 0 0 10 Examples.plain).map
        (fun dc => ((dc.m_Grains 1).numvoxels, (dc.m_Grains 2).numvoxels,
          (dc.m_Grains 3).numvoxels, (dc.m_Grains 2).neighborlist))
      = some (4, 5, 6, some [1, 3]) ∧
    (execute Examples.ops 0 0 0 10 Examples.lonely).map
        (fun dc => (Examples.voxels dc, (dc.m_Grains 1).gottwinmerged,
          (dc.m_Grains 2).gottwinmerged, (dc.m_Grains 3).gottwinmerged))
      = some ([1, 2, 3], false, false, false) ∧
    (execute Examples.ops 0 0 0 10 Examples.lonely).map
        (fun dc => ((dc.m_Grains 1).numvoxels, (dc.m_Grains 2).numvoxels,
          (dc.m_Grains 3).numvoxels, (dc.m_Grains 2).neighborlist))
      = some (4, 5, 6, some []) := by
  refine ⟨by decide!, by decide!, by decide!, by decide!⟩

end MergeTwins

namespace MergeTwins

/-- One iteration of the outer loop that collects a cluster keeps the invariant
`SmallestInv`, provided neighbour lists and twin criterion are symmetric. -/
theorem smallest_step (ops : OrientationOps) (crystruct : Int → Int) (numgrains : Nat)
    (G0 : Nat → Grain)
    (hsn : ∀ a b, a < numgrains → b < numgrains → Nbr G0 a b → Nbr G0 b a)
    (hst : ∀ a b, a < numgrains → b < numgrains →
      Twin ops crystruct G0 a b → Twin ops crystruct G0 b a)
    (i : Nat) (hi1 : 1 ≤ i) (hi : i < numgrains) (s s1 : MergeState)
    (hinv : SmallestInv ops crystruct numgrains G0 i s)
    (hc : (s.m_Grains i).twinnewnumber = -1 ∧ (s.m_Grains i).phase > 0)
    (c2 : CollectInv ops crystruct numgrains s.m_Grains i s1)
    (c3 : Collected ops crystruct s.m_Grains i s1 s1.twinlist.length)
    (c4 : ∀ g, (s.m_Grains g).twinnewnumber ≠ -1 → s1.m_Grains g = s.m_Grains g) :
    SmallestInv ops crystruct numgrains G0 (i + 1) { s1 with twinlist := [] } := by
  have hout1 := outer_step ops crystruct numgrains G0 hsn hst i hi1 hi s s1 hinv.outer hc c2 c3 c4
  obtain ⟨rest, hl, hnd, hsame, hrest, hout⟩ := c2
  have hmerged : ∀ g, g ∈ rest → (s1.m_Grains g).twinnewnumber ≠ -1 := by
    intro g hg
    rw [(hrest g hg).2.2.2.2.1]
    exact natCast_ne_neg_one i
  refine ⟨hout1, ?_, ?_, ?_⟩
  · intro i2 h1 h2 h3 hun hph b hnb hbi hbp htw
    simp only at hun ⊢
    by_cases hii : i2 = i
    · subst hii
      exact c3 i2 (by rw [List.take_length, hl]; simp) b ((Nbr.same_iff hinv.outer.same).mpr hnb)
        hbi (by rw [(hinv.outer.same b).phase]; exact hbp)
        ((Twin.congr_same ops crystruct hinv.outer.same).mpr htw)
    · have hnot : i2 ∉ rest := fun hm => hmerged i2 hm hun
      rw [hout i2 hnot] at hun
      have := hinv.closed i2 h1 (by omega) h3 hun hph b hnb hbi hbp htw
      rw [c4 b this]
      exact this
  · intro g hg hne
    simp only at hne
    by_cases hm : g ∈ rest
    · rw [← (hinv.outer.same g).phase]
      exact (hrest g hm).2.2.2.1
    · rw [hout g hm] at hne
      exact hinv.pos g hg hne
  · intro g hg1 hg hne
    simp only at hne ⊢
    by_cases hm : g ∈ rest
    · obtain ⟨_, hgi, hgun, hgp, a5, _, f, hf, hfne, hfn, hft⟩ := hrest g hm
      rw [a5]
      by_contra hlt
      have hgi2 : g < i := by
        have : ¬ ((i : Int) < (g : Int)) := hlt
        omega
      have hfacts : f < numgrains ∧ (s.m_Grains f).twinnewnumber = -1 ∧
          (s.m_Grains f).phase > 0 := by
        rcases hf with rfl | hf
        · exact ⟨hi, hc.1, hc.2⟩
        · exact ⟨(hrest f hf).1, (hrest f hf).2.2.1, (hrest f hf).2.2.2.1⟩
      have := hinv.closed g hg1 hgi2 hg hgun (by rw [← (hinv.outer.same g).phase]; exact hgp) f
        (hsn f g hfacts.1 hg ((Nbr.same_iff hinv.outer.same).mp hfn)) hfne
        (by rw [← (hinv.outer.same f).phase]; exact hfacts.2.2)
        (hst f g hfacts.1 hg ((Twin.congr_same ops crystruct hinv.outer.same).mp hft))
      exact this hfacts.2.1
    · rw [hout g hm] at hne ⊢
      exact hinv.below g hg1 hg hne

/-- The outer loop returns and keeps the invariant `SmallestInv`. -/
theorem mergeLoop_smallest (ops : OrientationOps) (crystruct : Int → Int) (numgrains : Nat)
    (G0 : Nat → Grain) (hok : GrainsOk G0 numgrains)
    (hsn : ∀ a b, a < numgrains → b < numgrains → Nbr G0 a b → Nbr G0 b a)
    (hst : ∀ a b, a < numgrains → b < numgrains →
      Twin ops crystruct G0 a b → Twin ops crystruct G0 b a)
    (fuel : Nat) (hfuel : numgrains + 2 ≤ fuel) (k i : Nat) (s : MergeState)
    (hinv : SmallestInv ops crystruct numgrains G0 i s) (hi1 : 1 ≤ i)
    (hik : i + k ≤ numgrains) :
    ∃ s', mergeLoop ops crystruct fuel k i s = some s' ∧
      SmallestInv ops crystruct numgrains G0 (i + k) s' ∧
      ∀ g, s'.m_Grains g = s.m_Grains g ∨
        ∃ m : Nat, i ≤ m ∧ (s'.m_Grains g).twinnewnumber = m := by
  induction k generalizing i s with
  | zero => exact ⟨s, rfl, hinv, fun g => Or.inl rfl⟩
  | succ k ih =>
    rw [mergeLoop_succ]
    have e : i + (k + 1) = i + 1 + k := by omega
    rw [e]
    split
    next hc =>
      obtain ⟨s1, c1, c2, c3, c4⟩ := collect_from_head ops crystruct numgrains s i
        (hok.of_same hinv.outer.same) (by omega) hc.2 hinv.outer.tl fuel hfuel
      rw [c1]
      simp only
      obtain ⟨s', r1, r2, r3⟩ := ih (i + 1) _ (smallest_step ops crystruct numgrains G0 hsn hst i
        hi1 (by omega) s s1 hinv hc c2 c3 c4) (by omega) (by omega)
      refine ⟨s', r1, r2, ?_⟩
      intro g
      obtain ⟨rest, _, _, _, hrest, hout⟩ := c2
      rcases r3 g with h | ⟨m, hm, h⟩
      · by_cases hg : g ∈ rest
        · refine Or.inr ⟨i, le_refl _, ?_⟩
          rw [h]
          exact (hrest g hg).2.2.2.2.1
        · refine Or.inl ?_
          rw [h]
          exact hout g hg
      · exact Or.inr ⟨m, by omega, h⟩
    next hc =>
      obtain ⟨s', r1, r2, r3⟩ := ih (i + 1) { s with twinlist := [] }
        ⟨⟨hinv.outer.same, rfl, hinv.outer.flag, fun g hg hne => by
            obtain ⟨i', h1, h2, h3, h4, h5, h6⟩ := hinv.outer.rep g hg hne
            exact ⟨i', h1, by omega, h3, h4, h5, h6⟩⟩,
          fun i2 h1 h2 h3 hun hph => by
            by_cases hii : i2 = i
            · subst hii
              exact absurd ⟨hun, by rw [(hinv.outer.same i2).phase]; exact hph⟩ hc
            · exact hinv.closed i2 h1 (by omega) h3 hun hph,
          hinv.pos, hinv.below⟩ (by omega) (by omega)
      refine ⟨s', r1, r2, ?_⟩
      intro g
      rcases r3 g with h | ⟨m, hm, h⟩
      · exact Or.inl h
      · exact Or.inr ⟨m, by omega, h⟩

/-- On a table that is unmerged on entry the invariant `SmallestInv` holds at the
head of the first iteration. -/
theorem smallestInv_init (ops : OrientationOps) (n1 n2 n3 : ℚ) (dc : DataContainer)
    (hfresh : ∀ g, g < dc.numGrains →
      (dc.m_Grains g).gottwinmerged = false ∧ (dc.m_Grains g).twinnewnumber = -1) :
    SmallestInv ops dc.crystruct dc.numGrains dc.m_Grains 1
      { m_Grains := dc.m_Grains, twinlist := [], n1 := n1, n2 := n2, n3 := n3 } := by
  refine ⟨⟨fun g => SameData.refl _, rfl, ?_, ?_⟩, ?_, ?_, ?_⟩
  · intro g hg
    simp only
    rw [(hfresh g hg).1, (hfresh g hg).2]
    simp
  · intro g hg hne
    exact absurd (hfresh g hg).2 hne
  · intro i h1 h2
    omega
  · intro g hg hne
    exact absurd (hfresh g hg).2 hne
  · intro g _ hg hne
    exact absurd (hfresh g hg).2 hne

/-- C35 (the survivor is the smallest grain of its cluster).  On a well-formed grain
table on which no grain is marked as merged on entry and whose neighbour lists and
twin criterion are symmetric, `merge_twins` returns, given fuel beyond the number of
grains, and afterwards: every feature `g` (a grain `1 ≤ g < numgrains`) that is
marked as merged has `twinnewnumber[g] = i` for a grain `i` with `1 ≤ i < g` that is
itself not marked as merged; a grain that is marked as merged has positive phase;
and a grain `i` that started a cluster, that is, that was unmerged and of positive
phase in the state `sh` in which the outer loop reached it, is not marked as merged
at the end. -/
theorem merge_twins_smallest_survivor (ops : OrientationOps) (n1 n2 n3 : ℚ) (fuel : Nat)
    (dc : DataContainer) (hok : GrainsOk dc.m_Grains dc.numGrains)
    (hfresh : ∀ g, g < dc.numGrains →
      (dc.m_Grains g).gottwinmerged = false ∧ (dc.m_Grains g).twinnewnumber = -1)
    (hsn : ∀ a b, a < dc.numGrains → b < dc.numGrains →
      Nbr dc.m_Grains a b → Nbr dc.m_Grains b a)
    (hst : ∀ a b, a < dc.numGrains → b < dc.numGrains →
      Twin ops dc.crystruct dc.m_Grains a b → Twin ops dc.crystruct dc.m_Grains b a)
    (hfuel : dc.numGrains + 2 ≤ fuel) :
    ∃ dc', merge_twins ops n1 n2 n3 fuel dc = some dc' ∧
      (∀ g, 1 ≤ g → g < dc.numGrains → (dc'.m_Grains g).gottwinmerged = true →
        ∃ i : Nat, 1 ≤ i ∧ i < g ∧ (dc'.m_Grains g).twinnewnumber = i ∧
          (dc'.m_Grains i).gottwinmerged = false) ∧
      (∀ g, g < dc.numGrains → (dc'.m_Grains g).gottwinmerged = true →
        (dc.m_Grains g).phase > 0) ∧
      (∀ (i : Nat) (sh : MergeState), 1 ≤ i → i < dc.numGrains →
        mergeLoop ops dc.crystruct fuel (i - 1) 1
          { m_Grains := dc.m_Grains, twinlist := [], n1 := n1, n2 := n2, n3 := n3 } = some sh →
        (sh.m_Grains i).twinnewnumber = -1 → (sh.m_Grains i).phase > 0 →
        (dc'.m_Grains i).gottwinmerged = false ∧ (dc'.m_Grains i).twinnewnumber = -1) := by
  by_cases hn : dc.numGrains = 0
  · refine ⟨_, by unfold merge_twins; rw [hn]; rfl, ?_, ?_, ?_⟩
    · intro g _ hg
      omega
    · intro g hg
      omega
    · intro i sh _ hi
      omega
  obtain ⟨s', hrun, hinv, _⟩ := mergeLoop_smallest ops dc.crystruct dc.numGrains dc.m_Grains hok
    hsn hst fuel hfuel (dc.numGrains - 1) 1 _ (smallestInv_init ops n1 n2 n3 dc hfresh)
    (le_refl _) (by omega)
  have e : 1 + (dc.numGrains - 1) = dc.numGrains := by omega
  rw [e] at hinv
  refine ⟨_, by unfold merge_twins; rw [hrun], ?_, ?_, ?_⟩
  · intro g hg1 hg hflag
    obtain ⟨i, h1, h2, h3, h4⟩ := hinv.outer.survivor g hg hflag
    have hb := hinv.below g hg1 hg ((hinv.outer.flag g hg).mp hflag)
    refine ⟨i, h1, ?_, h3, h4⟩
    rw [h3] at hb
    omega
  · intro g hg hflag
    exact hinv.pos g hg ((hinv.outer.flag g hg).mp hflag)
  · intro i sh hi1 hi hreach hun hph
    obtain ⟨s0, hs0, hinv0, _⟩ := mergeLoop_smallest ops dc.crystruct dc.numGrains dc.m_Grains hok
      hsn hst fuel hfuel (i - 1) 1 _ (smallestInv_init ops n1 n2 n3 dc hfresh)
      (le_refl _) (by omega)
    rw [hreach] at hs0
    cases hs0
    have e0 : 1 + (i - 1) = i := by omega
    rw [e0] at hinv0
    obtain ⟨sF, hF, _, hlate⟩ := mergeLoop_smallest ops dc.crystruct dc.numGrains dc.m_Grains hok
      hsn hst fuel hfuel (dc.numGrains - i) i sh hinv0 hi1 (by omega)
    have hsplit : dc.numGrains - 1 = (i - 1) + (dc.numGrains - i) := by omega
    have hrun2 := hrun
    rw [hsplit, mergeLoop_add, hreach] at hrun2
    simp only [Option.some_bind] at hrun2
    rw [e0, hF] at hrun2
    have hFs : sF = s' := Option.some.inj hrun2
    rw [hFs] at hlate
    have hun2 : (s'.m_Grains i).twinnewnumber = -1 := by
      rcases hlate i with h | ⟨m, hm, h⟩
      · rw [h]; exact hun
      · by_contra hne
        have hb := hinv.below i hi1 hi hne
        rw [h] at hb
        omega
    refine ⟨?_, hun2⟩
    have := hinv.outer.flag i hi
    rw [hun2] at this
    simpa using this

/-- The theorem for C35 applied to the row of grains `twinPair`. -/
theorem merge_twins_smallest_survivor_witness :
    (GrainsOk Examples.twinPair.m_Grains Examples.twinPair.numGrains ∧
      (∀ g, g < Examples.twinPair.numGrains →
        (Examples.twinPair.m_Grains g).gottwinmerged = false ∧
          (Examples.twinPair.m_Grains g).twinnewnumber = -1) ∧
      (∀ a b, a < Examples.twinPair.numGrains → b < Examples.twinPair.numGrains →
        Nbr Examples.twinPair.m_Grains a b → Nbr Examples.twinPair.m_Grains b a) ∧
      (∀ a b, a < Examples.twinPair.numGrains → b < Examples.twinPair.numGrains →
        Twin Examples.ops Examples.twinPair.crystruct Examples.twinPair.m_Grains a b →
          Twin Examples.ops Examples.twinPair.crystruct Examples.twinPair.m_Grains b a) ∧
      Examples.twinPair.numGrains + 2 ≤ 10) ∧
    ∃ dc', merge_twins Examples.ops 0 0 0 10 Examples.twinPair = some dc' ∧
      (∀ g, 1 ≤ g → g < Examples.twinPair.numGrains → (dc'.m_Grains g).gottwinmerged = true →
        ∃ i : Nat, 1 ≤ i ∧ i < g ∧ (dc'.m_Grains g).twinnewnumber = i ∧
          (dc'.m_Grains i).gottwinmerged = false) ∧
      (∀ g, g < Examples.twinPair.numGrains → (dc'.m_Grains g).gottwinmerged = true →
        (Examples.twinPair.m_Grains g).phase > 0) ∧
      (∀ (i : Nat) (sh : MergeState), 1 ≤ i → i < Examples.twinPair.numGrains →
        mergeLoop Examples.ops Examples.twinPair.crystruct 10 (i - 1) 1
          { m_Grains := Examples.twinPair.m_Grains, twinlist := [], n1 := 0, n2 := 0, n3 := 0 }
          = some sh →
        (sh.m_Grains i).twinnewnumber = -1 → (sh.m_Grains i).phase > 0 →
        (dc'.m_Grains i).gottwinmerged = false ∧ (dc'.m_Grains i).twinnewnumber = -1) :=
  ⟨⟨twinPair_ok, twinPair_fresh, twinPair_nbr_symm, twinPair_twin_symm, by decide⟩,
    merge_twins_smallest_survivor Examples.ops 0 0 0 10 Examples.twinPair twinPair_ok
      twinPair_fresh twinPair_nbr_symm twinPair_twin_symm (by decide)⟩

/-- The run of `merge_twins` on the row `twinPair`: grain 2 is merged into grain 1,
the smaller grain of the cluster; grains 1 and 3, which started clusters, are not
marked as merged. -/
theorem merge_twins_smallest_example :
    (merge_twins Examples.ops 0 0 0 10 Examples.twinPair).map
      (fun dc => ((dc.m_Grains 1).gottwinmerged, (dc.m_Grains 2).gottwinmerged,
        (dc.m_Grains 2).twinnewnumber, (dc.m_Grains 3).gottwinmerged))
      = some (false, true, 1, false) := by
  decide!

end MergeTwins

end SIMPLView
